import Mathlib

/-!
# Pruning storer (`storage/pruning/pruningStorer.go`)

A shallow embedding of the epoch-partitioned storer.  The storer's own code
(`initPruningStorer`, `Put`, `Get`, `GetFromEpoch`, `Has`, `HasInEpoch`,
`Remove`, `ClearCache`, `DestroyUnit`, `changeEpoch`,
`closeAndDestroyPersisters`, `getNewFilePath`) is translated function by
function.  Its collaborators (persisters, the persister factory, the cache,
the bloom filter, the notifier) are interfaces whose implementations live
outside the translated file; they are modelled in the first part of this
development, every external call being recorded in a call log and being able
to fail through a fault oracle.

Conventions
* `uint32` values are natural numbers, reduced modulo `2^32` where the Go code
  converts or subtracts;
* Go pointers to `persisterData` are indices into a heap (`World.slots`), so
  that the slice of active persisters and the map by epoch share objects;
* byte slices (keys and values) are strings: the storer only compares keys.
-/

namespace Pruning

/-! ## Basic types -/

/-- Byte slices (`[]byte`): keys and values. -/
abbrev Bytes := String

/-- Errors returned by the storer and by its collaborators. -/
inductive Error where
  /-- The sentinel `storage.ErrInvalidNumberOfPersisters`. -/
  | ErrInvalidNumberOfPersisters
  /-- The sentinel `storage.ErrNilEpochStartNotifier`. -/
  | ErrNilEpochStartNotifier
  /-- The sentinel `storage.ErrNilPersisterFactory`. -/
  | ErrNilPersisterFactory
  /-- The sentinel `storage.ErrKeyNotFound`. -/
  | ErrKeyNotFound
  /-- The sentinel `storage.ErrDestroyingUnit`. -/
  | ErrDestroyingUnit
  /-- The error `fmt.Errorf("key %s not found in %s", base64(key), identifier)`. -/
  | keyNotFoundIn (key : Bytes) (identifier : String)
  /-- The error `errors.New("persister to destroy not found")`. -/
  | persisterToDestroyNotFound
  /-- A persister reports that it does not hold the key -/
  | dbKeyNotFound
  /-- A persister is asked to work in a phase (or on a directory) that does not allow it -/
  | dbUnavailable
  /-- A failure of a collaborator injected by the fault oracle -/
  | injected (code : Nat)
  /-- A Go run-time panic (index out of range): the call does not return -/
  | runtimePanic
  deriving DecidableEq, Repr

/-- Value of a `uint32` conversion. -/
def u32 (n : Nat) : Nat := n % 4294967296

/-- Subtraction of two `uint32` values (wraps around). -/
def subU32 (a b : Nat) : Nat := (u32 a + 4294967296 - u32 b) % 4294967296

/-! ## Association lists (Go maps, directories, the cache) -/

/-- Value bound to `k`, if any. -/
def assocGet {α β : Type} [DecidableEq α] (k : α) : List (α × β) → Option β
  | [] => none
  | (k', v) :: t => if k' = k then some v else assocGet k t

/-- Binds `k` to `v`, replacing an existing binding. -/
def assocPut {α β : Type} [DecidableEq α] (k : α) (v : β) : List (α × β) → List (α × β)
  | [] => [(k, v)]
  | (k', v') :: t => if k' = k then (k, v) :: t else (k', v') :: assocPut k v t

/-- Removes every binding of `k`. -/
def assocDel {α β : Type} [DecidableEq α] (k : α) : List (α × β) → List (α × β)
  | [] => []
  | (k', v') :: t => if k' = k then assocDel k t else (k', v') :: assocDel k t

/-! ## The collaborators -/

/-- External calls made by the storer, as recorded in the call log. -/
inductive Call where
  | newCache
  | newBloomFilter
  | create (path : String)
  | init (h : Nat)
  | put (h : Nat) (key data : Bytes)
  | get (h : Nat) (key : Bytes)
  | has (h : Nat) (key : Bytes)
  | remove (h : Nat) (key : Bytes)
  | close (h : Nat)
  | destroy (h : Nat)
  | destroyClosed (h : Nat)
  | removeDirectoryIfEmpty (path : String)
  | registerHandler
  deriving DecidableEq, Repr

/-- Life cycle of a persister object. -/
inductive Phase where
  | created
  | opened
  | closed
  | destroyed
  deriving DecidableEq, Repr

/-- A persister object handed out by the factory: the directory it is bound to
and its phase. -/
structure Db where
  path : String
  phase : Phase
  deriving DecidableEq, Repr

/-- The `persisterData` structure: persister and path kept in the same place.
`persister` is the index of the persister object in `World.dbs`. -/
structure persisterData where
  persister : Nat
  path : String
  isClosed : Bool
  deriving DecidableEq, Repr

instance : Inhabited persisterData := ⟨⟨0, "", false⟩⟩

/-- Modelled from the spec: the persister (`storage.Persister`), the persister
factory (`DbFactoryHandler`), `removeDirectoryIfEmpty` and the notifier are
not part of the translated sources.  Everything outside the `PruningStorer`
structure is gathered here:
* `disk`: the on-disk databases, one key-value directory per path;
* `dbs`: the persister objects created so far;
* `slots`, `nextSlot`: the Go heap of `persisterData` objects;
* `calls`: the log of external calls, most recent first;
* `fault`: the fault oracle: `fault n = some e` makes the external call issued
  when `n` calls have been logged fail with `e`. -/
structure World where
  disk : List (String × List (Bytes × Bytes))
  dbs : List Db
  slots : Nat → persisterData
  nextSlot : Nat
  calls : List Call
  fault : Nat → Option Error

namespace World

/-- Logs an external call. -/
def record (w : World) (c : Call) : World := { w with calls := c :: w.calls }

/-- Failure decided by the fault oracle for the next external call. -/
def failure (w : World) : Option Error := w.fault w.calls.length

/-- Replaces persister object `h`. -/
def setDb (w : World) (h : Nat) (d : Db) : World := { w with dbs := w.dbs.set h d }

/-- Modelled from the spec: `PersisterFactory.create(path)`: "given a
filesystem path, constructs a fresh Persister bound to that path"; the
directory is created when it does not exist and is reopened with its content
when it does. -/
def create (w : World) (path : String) : Except Error Nat × World :=
  let w1 := w.record (.create path)
  match w.failure with
  | some e => (.error e, w1)
  | none =>
    (.ok w1.dbs.length,
      { w1 with
        dbs := w1.dbs ++ [{ path := path, phase := .created }]
        disk := match assocGet path w1.disk with
          | some _ => w1.disk
          | none => w1.disk ++ [(path, [])] })

/-- Modelled from the spec: `persister.init()`: opens a created persister. -/
def init (w : World) (h : Nat) : Option Error × World :=
  let w1 := w.record (.init h)
  match w.failure with
  | some e => (some e, w1)
  | none =>
    match w1.dbs[h]? with
    | some d => if d.phase = .created then (none, w1.setDb h { d with phase := .opened })
                else (some .dbUnavailable, w1)
    | none => (some .dbUnavailable, w1)

/-- Directory an opened persister works on, if it is there. -/
def openDir (w : World) (h : Nat) : Option (String × List (Bytes × Bytes)) :=
  match w.dbs[h]? with
  | some d =>
    if d.phase = .opened then
      match assocGet d.path w.disk with
      | some kv => some (d.path, kv)
      | none => none
    else none
  | none => none

/-- Modelled from the spec: `persister.put(k, v)`. -/
def put (w : World) (h : Nat) (key data : Bytes) : Option Error × World :=
  let w1 := w.record (.put h key data)
  match w.failure with
  | some e => (some e, w1)
  | none =>
    match w1.openDir h with
    | some (p, kv) => (none, { w1 with disk := assocPut p (assocPut key data kv) w1.disk })
    | none => (some .dbUnavailable, w1)

/-- Modelled from the spec: `persister.get(k)`: the last value put under `k`. -/
def get (w : World) (h : Nat) (key : Bytes) : Except Error Bytes × World :=
  let w1 := w.record (.get h key)
  match w.failure with
  | some e => (.error e, w1)
  | none =>
    match w1.openDir h with
    | some (_, kv) =>
      match assocGet key kv with
      | some v => (.ok v, w1)
      | none => (.error .dbKeyNotFound, w1)
    | none => (.error .dbUnavailable, w1)

/-- Modelled from the spec: `persister.has(k)`. -/
def has (w : World) (h : Nat) (key : Bytes) : Option Error × World :=
  let w1 := w.record (.has h key)
  match w.failure with
  | some e => (some e, w1)
  | none =>
    match w1.openDir h with
    | some (_, kv) =>
      match assocGet key kv with
      | some _ => (none, w1)
      | none => (some .dbKeyNotFound, w1)
    | none => (some .dbUnavailable, w1)

/-- Modelled from the spec: `persister.remove(k)`; deleting a key that is not
there is not an error. -/
def remove (w : World) (h : Nat) (key : Bytes) : Option Error × World :=
  let w1 := w.record (.remove h key)
  match w.failure with
  | some e => (some e, w1)
  | none =>
    match w1.openDir h with
    | some (p, kv) => (none, { w1 with disk := assocPut p (assocDel key kv) w1.disk })
    | none => (some .dbUnavailable, w1)

/-- Modelled from the spec: `persister.close()`; the directory stays on disk. -/
def close (w : World) (h : Nat) : Option Error × World :=
  let w1 := w.record (.close h)
  match w.failure with
  | some e => (some e, w1)
  | none =>
    match w1.dbs[h]? with
    | some d =>
      if d.phase = .created ∨ d.phase = .opened then
        (none, w1.setDb h { d with phase := .closed })
      else (some .dbUnavailable, w1)
    | none => (some .dbUnavailable, w1)

/-- Modelled from the spec: `persister.destroy()` (destroy-while-open): closes
the persister and removes its directory. -/
def destroy (w : World) (h : Nat) : Option Error × World :=
  let w1 := w.record (.destroy h)
  match w.failure with
  | some e => (some e, w1)
  | none =>
    match w1.dbs[h]? with
    | some d =>
      if d.phase = .created ∨ d.phase = .opened then
        (none, { w1.setDb h { d with phase := .destroyed } with
                 disk := assocDel d.path w1.disk })
      else (some .dbUnavailable, w1)
    | none => (some .dbUnavailable, w1)

/-- Modelled from the spec: `persister.destroy_closed()`: "destroy a previously
closed database by path": the directory of the persister's path is removed,
whatever the phase of the persister object. -/
def destroyClosed (w : World) (h : Nat) : Option Error × World :=
  let w1 := w.record (.destroyClosed h)
  match w.failure with
  | some e => (some e, w1)
  | none =>
    match w1.dbs[h]? with
    | some d => (none, { w1 with disk := assocDel d.path w1.disk })
    | none => (some .dbUnavailable, w1)

/-- Modelled from the spec: `removeDirectoryIfEmpty(path)`: removes the
enclosing epoch directory when nothing is left in it; the databases of the
model are not affected. -/
def removeDirectoryIfEmpty (w : World) (path : String) : World :=
  w.record (.removeDirectoryIfEmpty path)

/-- Allocates a `persisterData` object on the heap; its pointer is the value
of `nextSlot` before the allocation. -/
def alloc (w : World) (pd : persisterData) : World :=
  { w with slots := Function.update w.slots w.nextSlot pd
           nextSlot := w.nextSlot + 1 }

end World

/-- Modelled from the spec: the cache (`storage.Cacher`): a key-value map.
Eviction is opaque to the storer and is not performed by these operations; the
theorems account for it by letting entries disappear between two calls. -/
abbrev Cacher := List (Bytes × Bytes)

namespace Cacher

def Put (c : Cacher) (key value : Bytes) : Cacher := assocPut key value c

def Get (c : Cacher) (key : Bytes) : Option Bytes := assocGet key c

def Has (c : Cacher) (key : Bytes) : Bool := (assocGet key c).isSome

def Remove (c : Cacher) (key : Bytes) : Cacher := assocDel key c

def Clear (_ : Cacher) : Cacher := []

end Cacher

/-- Modelled from the spec: the approximate-membership filter
(`storage.BloomFilter`): "false positives allowed; false negatives forbidden".
`collides added k` tells whether `k` is reported although it was not added. -/
structure BloomFilter where
  added : List Bytes
  collides : List Bytes → Bytes → Bool

namespace BloomFilter

def Add (bf : BloomFilter) (key : Bytes) : BloomFilter := { bf with added := key :: bf.added }

def MayContain (bf : BloomFilter) (key : Bytes) : Bool :=
  decide (key ∈ bf.added) || bf.collides bf.added key

def Clear (bf : BloomFilter) : BloomFilter := { bf with added := [] }

end BloomFilter

/-! ## Path naming -/

/-- Length of the match of the regular expression `Epoch_\d+` at the head of
the text (`0` when it does not match there): the six characters of `Epoch_`
followed by the longest non-empty run of ASCII digits. -/
def matchEpoch (text : List Char) : Nat :=
  match text with
  | 'E' :: 'p' :: 'o' :: 'c' :: 'h' :: '_' :: rest =>
    match (rest.takeWhile Char.isDigit).length with
    | 0 => 0
    | n + 1 => 6 + (n + 1)
  | _ => 0

/-- The scan of `regexp.ReplaceAllString` for the expression `Epoch_\d+`: the
successive non-overlapping matches, found from left to right, are replaced by
`repl`; `skip` counts the characters of the current match still to be dropped. -/
def replaceAllEpoch (repl : List Char) : Nat → List Char → List Char
  | _, [] => []
  | skip + 1, _ :: t => replaceAllEpoch repl skip t
  | 0, c :: t =>
    match matchEpoch (c :: t) with
    | 0 => c :: replaceAllEpoch repl 0 t
    | m + 1 => repl ++ replaceAllEpoch repl m t

/-- DefaultEpochDirectoryName represents the naming pattern for epoch directories. -/
def DefaultEpochDirectoryName : String := "Epoch"

/-- The function `getNewFilePath` will return the file path for the new epoch:
`fmt.Sprintf("%s_%d", DefaultEpochDirectoryName, epoch)` replaces every match
of `Epoch_\d+` in `dbPath`. -/
def getNewFilePath (dbPath : String) (epoch : Nat) : String :=
  String.mk (replaceAllEpoch (DefaultEpochDirectoryName ++ "_" ++ toString epoch).toList 0
    dbPath.toList)

/-! ## The storer -/

/-- The cache configuration (`storageUnit.CacheConfig`). -/
structure CacheConfig where
  CacheType : String
  Size : Nat
  Shards : Nat

/-- The bloom filter configuration (`storageUnit.BloomConfig`); `collides` stands
for the hash functions of the configuration. -/
structure BloomConfig where
  Size : Nat
  collides : List Bytes → Bytes → Bool

/-- An interface value of type `EpochStartNotifier`; `none` is the nil interface. -/
abbrev EpochStartNotifier := Option Unit

/-- An interface value of type `DbFactoryHandler`; `none` is the nil interface.
What a non-nil factory does is `World.create`. -/
abbrev DbFactoryHandler := Option Unit

/-- The argument bundle `PruningStorerArgs`. -/
structure PruningStorerArgs where
  Identifier : String
  FullArchive : Bool
  CacheConf : CacheConfig
  DbPath : String
  PersisterFactory : DbFactoryHandler
  BloomFilterConf : BloomConfig
  NumOfEpochsToKeep : Nat
  NumOfActivePersisters : Nat
  Notifier : EpochStartNotifier

/-- PruningStorer represents a storer which creates a new persister for each
epoch and removes older activePersisters.  The lock is not modelled (calls are
sequential); the persister factory is `World.create`. -/
structure PruningStorer where
  fullArchive : Bool
  activePersisters : List Nat
  persistersMapByEpoch : List (Nat × Nat)
  cacher : Cacher
  bloomFilter : Option BloomFilter
  dbPath : String
  numOfEpochsToKeep : Nat
  numOfActivePersisters : Nat
  identifier : String

/-- A storer together with everything it acts upon. -/
structure Sys where
  ps : PruningStorer
  w : World

/-- Modelled from the spec: `storageUnit.NewCache`: "cache construction must
succeed"; it yields an empty cache unless the fault oracle makes it fail. -/
def NewCache (w : World) (_ : CacheConfig) : Except Error Cacher × World :=
  match w.failure with
  | some e => (.error e, w.record .newCache)
  | none => (.ok [], w.record .newCache)

/-- Modelled from the spec: `storageUnit.NewBloomFilter`: an empty filter
unless the fault oracle makes the construction fail. -/
def NewBloomFilter (w : World) (conf : BloomConfig) : Except Error BloomFilter × World :=
  match w.failure with
  | some e => (.error e, w.record .newBloomFilter)
  | none => (.ok { added := [], collides := conf.collides }, w.record .newBloomFilter)

/-- The function `initPruningStorer` will create a PruningStorer with or
without sharded directories' naming scheme.  The deferred function destroys the
persister when an error is met after the persister has been created. -/
def initPruningStorer (args : PruningStorerArgs) (shardIdStr : String) (w : World) :
    Except Error PruningStorer × World :=
  if args.NumOfActivePersisters < 1 then (.error .ErrInvalidNumberOfPersisters, w)
  else if args.Notifier.isNone then (.error .ErrNilEpochStartNotifier, w)
  else if args.PersisterFactory.isNone then (.error .ErrNilPersisterFactory, w)
  else
    match NewCache w args.CacheConf with
    | (.error e, w1) => (.error e, w1)
    | (.ok cache, w1) =>
      let filePath := if shardIdStr.length > 0 then args.DbPath ++ shardIdStr else args.DbPath
      match w1.create filePath with
      | (.error e, w2) => (.error e, w2)
      | (.ok db, w2) =>
        let p := w2.nextSlot
        let w3 := w2.alloc { persister := db, path := filePath, isClosed := false }
        let pdb : PruningStorer :=
          { identifier := args.Identifier
            fullArchive := args.FullArchive
            activePersisters := [p]
            persistersMapByEpoch := [(0, p)]
            cacher := cache
            bloomFilter := none
            dbPath := filePath
            numOfEpochsToKeep := args.NumOfEpochsToKeep
            numOfActivePersisters := args.NumOfActivePersisters }
        let bfRes : Except Error (Option BloomFilter) × World :=
          if args.BloomFilterConf.Size ≠ 0 then
            match NewBloomFilter w3 args.BloomFilterConf with
            | (.error e, w4) => (.error e, w4)
            | (.ok bf, w4) => (.ok (some bf), w4)
          else (.ok none, w3)
        match bfRes with
        | (.error e, w4) => (.error e, (w4.destroy db).2)
        | (.ok bf, w4) =>
          match w4.init db with
          | (some e, w5) => (.error e, (w5.destroy db).2)
          | (none, w5) => (.ok { pdb with bloomFilter := bf }, w5.record .registerHandler)

/-- NewPruningStorer will return a new instance of PruningStorer without
sharded directories' naming scheme. -/
def NewPruningStorer (args : PruningStorerArgs) (w : World) :
    Except Error PruningStorer × World :=
  initPruningStorer args "" w

/-- NewShardedPruningStorer will return a new instance of PruningStorer with
sharded directories' naming scheme. -/
def NewShardedPruningStorer (args : PruningStorerArgs) (shardId : Nat) (w : World) :
    Except Error PruningStorer × World :=
  initPruningStorer args (toString shardId) w

/-- The test `ps.bloomFilter == nil || ps.bloomFilter.MayContain(key)`. -/
def filterAllows (bf : Option BloomFilter) (key : Bytes) : Bool :=
  match bf with
  | none => true
  | some f => f.MayContain key

/-- Put adds data to both cache and persistence medium and updates the bloom filter. -/
def Put (key data : Bytes) (s : Sys) : Option Error × Sys :=
  let cache1 := s.ps.cacher.Put key data
  match s.ps.activePersisters[0]? with
  | none => (some .runtimePanic, { s with ps := { s.ps with cacher := cache1 } })
  | some p =>
    match s.w.put (s.w.slots p).persister key data with
    | (some e, w1) => (some e, { ps := { s.ps with cacher := cache1.Remove key }, w := w1 })
    | (none, w1) =>
      (none, { ps := { s.ps with cacher := cache1
                                 bloomFilter := s.ps.bloomFilter.map (fun f => f.Add key) },
               w := w1 })

/-- The loop of `Get` over the active persisters: the first persister whose
`Get` succeeds gives the value. -/
def getScan (bf : Option BloomFilter) (key : Bytes) : List Nat → World → Option Bytes × World
  | [], w => (none, w)
  | p :: rest, w =>
    if filterAllows bf key then
      match w.get (w.slots p).persister key with
      | (.ok v, w1) => (some v, w1)
      | (.error _, w1) => getScan bf key rest w1
    else getScan bf key rest w

/-- Get searches the key in the cache. In case it is not found, it verifies with
the bloom filter if the key may be in the db. If bloom filter confirms then it
further searches in the databases.  The loop runs over the indices `idx` with
`idx < numOfActivePersisters` and `idx < uint32(len(activePersisters))`. -/
def Get (key : Bytes) (s : Sys) : Except Error Bytes × Sys :=
  match s.ps.cacher.Get key with
  | some v => (.ok v, s)
  | none =>
    match getScan s.ps.bloomFilter key
        (s.ps.activePersisters.take
          (min s.ps.numOfActivePersisters (u32 s.ps.activePersisters.length))) s.w with
    | (some v, w1) => (.ok v, { ps := { s.ps with cacher := s.ps.cacher.Put key v }, w := w1 })
    | (none, w1) => (.error (.keyNotFoundIn key s.ps.identifier), { s with w := w1 })

/-- GetFromEpoch will search a key only in the persister for the given epoch.
A closed persister is reopened through the factory and closed again by the
deferred function. -/
def GetFromEpoch (key : Bytes) (epoch : Nat) (s : Sys) : Except Error Bytes × Sys :=
  match s.ps.cacher.Get key with
  | some v => (.ok v, s)
  | none =>
    match assocGet epoch s.ps.persistersMapByEpoch with
    | none => (.error (.keyNotFoundIn key s.ps.identifier), s)
    | some p =>
      let pd := s.w.slots p
      if !pd.isClosed then
        match s.w.get pd.persister key with
        | (r, w1) => (r, { s with w := w1 })
      else
        match s.w.create pd.path with
        | (.error e, w1) => (.error e, { s with w := w1 })
        | (.ok h, w1) =>
          match w1.init h with
          | (some e, w2) => (.error e, { s with w := (w2.close h).2 })
          | (none, w2) =>
            match w2.get h key with
            | (.ok res, w3) => (.ok res, { s with w := (w3.close h).2 })
            | (.error _, w3) =>
              (.error (.keyNotFoundIn key s.ps.identifier), { s with w := (w3.close h).2 })

/-- The loop of `Has` over all the active persisters. -/
def hasScan (key : Bytes) : List Nat → World → Bool × World
  | [], w => (false, w)
  | p :: rest, w =>
    match w.has (w.slots p).persister key with
    | (none, w1) => (true, w1)
    | (some _, w1) => hasScan key rest w1

/-- Has checks if the key is in the Unit. It first checks the cache. If it is
not found, it checks the bloom filter and if present it checks the db. -/
def Has (key : Bytes) (s : Sys) : Option Error × Sys :=
  if s.ps.cacher.Has key then (none, s)
  else if filterAllows s.ps.bloomFilter key then
    match hasScan key s.ps.activePersisters s.w with
    | (true, w1) => (none, { s with w := w1 })
    | (false, w1) => (some .ErrKeyNotFound, { s with w := w1 })
  else (some .ErrKeyNotFound, s)

/-- HasInEpoch checks if the key is in the Unit in a given epoch. It first
checks the cache. If it is not found, it checks the bloom filter and if present
it checks the db. -/
def HasInEpoch (key : Bytes) (epoch : Nat) (s : Sys) : Option Error × Sys :=
  if s.ps.cacher.Has key then (none, s)
  else if filterAllows s.ps.bloomFilter key then
    match assocGet epoch s.ps.persistersMapByEpoch with
    | none => (some .ErrKeyNotFound, s)
    | some p =>
      let pd := s.w.slots p
      if !pd.isClosed then
        match s.w.has pd.persister key with
        | (r, w1) => (r, { s with w := w1 })
      else
        match s.w.create pd.path with
        | (.error e, w1) => (some e, { s with w := w1 })
        | (.ok h, w1) =>
          match w1.init h with
          | (some e, w2) => (some e, { s with w := (w2.close h).2 })
          | (none, w2) =>
            match w2.has h key with
            | (r, w3) => (r, { s with w := (w3.close h).2 })
  else (some .ErrKeyNotFound, s)

/-- The loop of `Remove`: stops at the first persister whose `Remove`
succeeds; `err` is the error of the last persister asked. -/
def removeScan (key : Bytes) : List Nat → Option Error → World → Option Error × World
  | [], err, w => (err, w)
  | p :: rest, _, w =>
    match w.remove (w.slots p).persister key with
    | (none, w1) => (none, w1)
    | (some e, w1) => removeScan key rest (some e) w1

/-- Remove removes the data associated to the given key from both cache and
persistence medium. -/
def Remove (key : Bytes) (s : Sys) : Option Error × Sys :=
  match removeScan key s.ps.activePersisters none s.w with
  | (err, w1) => (err, { ps := { s.ps with cacher := s.ps.cacher.Remove key }, w := w1 })

/-- ClearCache cleans up the entire cache. -/
def ClearCache (s : Sys) : Sys :=
  { s with ps := { s.ps with cacher := s.ps.cacher.Clear } }

/-- The loop of `DestroyUnit` over the map by epoch (in the order of the
association list); counts the persisters destroyed without error. -/
def destroyScan : List (Nat × Nat) → Nat → World → Nat × World
  | [], n, w => (n, w)
  | (_, p) :: rest, n, w =>
    let pd := w.slots p
    match (if pd.isClosed then w.destroyClosed pd.persister else w.destroy pd.persister) with
    | (some _, w1) => destroyScan rest n w1
    | (none, w1) => destroyScan rest (n + 1) w1

/-- DestroyUnit cleans up the bloom filter, the cache, and the dbs. -/
def DestroyUnit (s : Sys) : Option Error × Sys :=
  let ps1 : PruningStorer :=
    { s.ps with bloomFilter := s.ps.bloomFilter.map (fun f => f.Clear)
                cacher := s.ps.cacher.Clear }
  let totalNumOfPersisters := s.ps.activePersisters.length
  match destroyScan s.ps.persistersMapByEpoch 0 s.w with
  | (numOfPersistersRemoved, w1) =>
    if numOfPersistersRemoved ≠ totalNumOfPersisters then
      (some .ErrDestroyingUnit, { ps := ps1, w := w1 })
    else (none, { ps := ps1, w := w1 })

/-- Marks the `persisterData` object at pointer `p` as closed. -/
def markClosed (w : World) (p : Nat) : World :=
  { w with slots := Function.update w.slots p { w.slots p with isClosed := true } }

/-- The first block of `closeAndDestroyPersisters`: the persister just past the
window of active persisters is closed and removed from the active slice. -/
def closeOldest (epoch : Nat) (s : Sys) : Option Error × Sys :=
  if s.ps.numOfActivePersisters < u32 s.ps.activePersisters.length then
    match s.ps.activePersisters[s.ps.numOfActivePersisters]? with
    | none => (some .runtimePanic, s)
    | some persisterToClose =>
      match s.w.close (s.w.slots persisterToClose).persister with
      | (some e, w1) => (some e, { s with w := w1 })
      | (none, w1) =>
        let epochToClose := subU32 epoch s.ps.numOfActivePersisters
        (none,
          { ps := { s.ps with
                    activePersisters := s.ps.activePersisters.take s.ps.numOfActivePersisters
                    persistersMapByEpoch :=
                      assocPut epochToClose persisterToClose s.ps.persistersMapByEpoch }
            w := markClosed w1 persisterToClose })
  else (none, s)

/-- The second block of `closeAndDestroyPersisters`: the persister of the epoch
that falls out of the epochs to keep is removed from the map and destroyed. -/
def destroyOldest (epoch : Nat) (s : Sys) : Option Error × Sys :=
  if !s.ps.fullArchive ∧ u32 s.ps.persistersMapByEpoch.length > s.ps.numOfEpochsToKeep then
    let epochToRemove := subU32 epoch s.ps.numOfEpochsToKeep
    match assocGet epochToRemove s.ps.persistersMapByEpoch with
    | none => (some .persisterToDestroyNotFound, s)
    | some persisterToDestroy =>
      let ps1 : PruningStorer :=
        { s.ps with persistersMapByEpoch := assocDel epochToRemove s.ps.persistersMapByEpoch }
      match s.w.destroyClosed (s.w.slots persisterToDestroy).persister with
      | (some e, w1) => (some e, { ps := ps1, w := w1 })
      | (none, w1) =>
        (none, { ps := ps1, w := w1.removeDirectoryIfEmpty (w1.slots persisterToDestroy).path })
  else (none, s)

/-- The function `closeAndDestroyPersisters`: recent activePersisters have to
be closed for both scenarios (full archive or not); then the persister beyond
the epochs to keep is destroyed. -/
def closeAndDestroyPersisters (epoch : Nat) (s : Sys) : Option Error × Sys :=
  match closeOldest epoch s with
  | (some e, s1) => (some e, s1)
  | (none, s1) => destroyOldest epoch s1

/-- The function `changeEpoch` will handle creating a new persister and
removing of the older ones. -/
def changeEpoch (epoch : Nat) (s : Sys) : Option Error × Sys :=
  let filePath := getNewFilePath s.ps.dbPath epoch
  match s.w.create filePath with
  | (.error e, w1) => (some e, { s with w := w1 })
  | (.ok db, w1) =>
    let newPersister := w1.nextSlot
    let w2 := w1.alloc { persister := db, path := filePath, isClosed := false }
    let ps1 : PruningStorer :=
      { s.ps with
        activePersisters := newPersister :: s.ps.activePersisters
        persistersMapByEpoch := assocPut epoch newPersister s.ps.persistersMapByEpoch }
    match w2.init (w2.slots newPersister).persister with
    | (some e, w3) => (some e, { ps := ps1, w := w3 })
    | (none, w3) => closeAndDestroyPersisters epoch { ps := ps1, w := w3 }

/-! ## Histories and reachable states -/

/-- Path of the first persister: the path of the configuration, followed by
the shard identifier when there is one. -/
def PruningStorerArgs.filePath (args : PruningStorerArgs) (shardIdStr : String) : String :=
  if shardIdStr.length > 0 then args.DbPath ++ shardIdStr else args.DbPath

/-- The configuration of the storer: the fields no operation modifies. -/
def PruningStorer.config (ps : PruningStorer) : Bool × String × Nat × Nat × String :=
  (ps.fullArchive, ps.dbPath, ps.numOfEpochsToKeep, ps.numOfActivePersisters, ps.identifier)

/-- The heap of a world: the `persisterData` objects and the allocation pointer. -/
def World.heap (w : World) : (Nat → persisterData) × Nat := (w.slots, w.nextSlot)

/-- The slots of the storer: the active slice, the map by epoch and the heap
they point into. -/
def Sys.shape (s : Sys) : List Nat × List (Nat × Nat) × (Nat → persisterData) × Nat :=
  (s.ps.activePersisters, s.ps.persistersMapByEpoch, s.w.slots, s.w.nextSlot)


deriving instance DecidableEq for Except

/-- Eviction: every entry of the cache `c'` is an entry of the cache `c`. -/
def Cacher.EvictedFrom (c' c : Cacher) : Prop :=
  ∀ k v, Cacher.Get c' k = some v → Cacher.Get c k = some v

/-- The storer with its cache replaced (entries evicted by the cache itself). -/
def Sys.withCache (s : Sys) (c : Cacher) : Sys := { s with ps := { s.ps with cacher := c } }

/-- States reachable from a successful construction by the operations of the
storer, notified epoch changes and evictions performed by the cache. -/
inductive Reachable : Sys → Prop where
  | construct {args : PruningStorerArgs} {shardIdStr : String} {w w1 : World}
      {ps : PruningStorer} :
      args.NumOfActivePersisters < 4294967296 → args.NumOfEpochsToKeep < 4294967296 →
      initPruningStorer args shardIdStr w = (.ok ps, w1) → Reachable ⟨ps, w1⟩
  | afterPut (key data : Bytes) {s : Sys} : Reachable s → Reachable (Put key data s).2
  | afterGet (key : Bytes) {s : Sys} : Reachable s → Reachable (Get key s).2
  | afterGetFromEpoch (key : Bytes) (epoch : Nat) {s : Sys} :
      Reachable s → Reachable (GetFromEpoch key epoch s).2
  | afterHas (key : Bytes) {s : Sys} : Reachable s → Reachable (Has key s).2
  | afterHasInEpoch (key : Bytes) (epoch : Nat) {s : Sys} :
      Reachable s → Reachable (HasInEpoch key epoch s).2
  | afterRemove (key : Bytes) {s : Sys} : Reachable s → Reachable (Remove key s).2
  | afterClearCache {s : Sys} : Reachable s → Reachable (ClearCache s)
  | afterDestroyUnit {s : Sys} : Reachable s → Reachable (DestroyUnit s).2
  | afterChangeEpoch (epoch : Nat) {s : Sys} :
      epoch < 4294967296 → Reachable s → Reachable (changeEpoch epoch s).2
  | afterEviction (c : Cacher) {s : Sys} :
      Reachable s → c.EvictedFrom s.ps.cacher → Reachable (s.withCache c)

/-- Good standing of the pointers: the pointers held by the storer point to
allocated `persisterData` objects. -/
def HeapOk (s : Sys) : Prop :=
  (∀ p ∈ s.ps.activePersisters, p < s.w.nextSlot) ∧
  (∀ x ∈ s.ps.persistersMapByEpoch, x.2 < s.w.nextSlot)

/-- The world after the factory has created the persister of `path`, its
`persisterData` object has been allocated and the persister initialised. -/
def World.withNewPersister (w : World) (path : String) : World :=
  { disk := match assocGet path w.disk with
      | some _ => w.disk
      | none => w.disk ++ [(path, [])]
    dbs := w.dbs ++ [{ path := path, phase := .opened }]
    slots := Function.update w.slots w.nextSlot
      { persister := w.dbs.length, path := path, isClosed := false }
    nextSlot := w.nextSlot + 1
    calls := .init w.dbs.length :: .create path :: w.calls
    fault := w.fault }

/-- The state in which `changeEpoch` calls `closeAndDestroyPersisters`: the
persister of the new epoch is in place. -/
def Sys.withNewPersister (s : Sys) (epoch : Nat) : Sys :=
  { ps := { s.ps with
            activePersisters := s.w.nextSlot :: s.ps.activePersisters
            persistersMapByEpoch := assocPut epoch s.w.nextSlot s.ps.persistersMapByEpoch }
    w := s.w.withNewPersister (getNewFilePath s.ps.dbPath epoch) }

/-- The state after the first block of `closeAndDestroyPersisters` has closed
the persister of pointer `p`. -/
def Sys.withOldestClosed (s : Sys) (epoch p : Nat) : Sys :=
  { ps := { s.ps with
            activePersisters := s.ps.activePersisters.take s.ps.numOfActivePersisters
            persistersMapByEpoch :=
              assocPut (subU32 epoch s.ps.numOfActivePersisters) p s.ps.persistersMapByEpoch }
    w := { s.w with
           calls := .close (s.w.slots p).persister :: s.w.calls
           dbs := match s.w.dbs[(s.w.slots p).persister]? with
             | some d => s.w.dbs.set (s.w.slots p).persister { d with phase := .closed }
             | none => s.w.dbs
           slots := Function.update s.w.slots p { s.w.slots p with isClosed := true } } }

/-- The state after the second block of `closeAndDestroyPersisters` has
destroyed the persister of pointer `p`. -/
def Sys.withOldestDestroyed (s : Sys) (epoch p : Nat) : Sys :=
  { ps := { s.ps with
            persistersMapByEpoch :=
              assocDel (subU32 epoch s.ps.numOfEpochsToKeep) s.ps.persistersMapByEpoch }
    w := { s.w with
           calls := .removeDirectoryIfEmpty (s.w.slots p).path ::
             .destroyClosed (s.w.slots p).persister :: s.w.calls
           disk := match s.w.dbs[(s.w.slots p).persister]? with
             | some d => assocDel d.path s.w.disk
             | none => s.w.disk } }

/-! ## Consecutive rotations -/

/-- A freshly started system: nothing on disk, no persister object, no call
made yet; `fault` is the fault oracle. -/
def World.fresh (fault : Nat → Option Error) : World :=
  { disk := [], dbs := [], slots := fun _ => default, nextSlot := 0, calls := [], fault := fault }


/-- Rotation through the `n` consecutive epochs `e + 1, ..., e + n`; the result
is `none` as soon as one rotation returns an error. -/
def rotateThrough : Nat → Nat → Sys → Option Sys
  | _, 0, s => some s
  | e, n + 1, s =>
    match changeEpoch (e + 1) s with
    | (none, s1) => rotateThrough (e + 1) n s1
    | (some _, _) => none

/-- Path of the persister of epoch `e`: the path given at construction for
epoch 0 (`initPruningStorer`), the path computed by `getNewFilePath` for the
epochs that follow (`changeEpoch`). -/
def epochPath (dbPath : String) (e : Nat) : String :=
  if e = 0 then dbPath else getNewFilePath dbPath e

/-- The persisters of the epochs `0, ..., n` live in different directories. -/
def DistinctPaths (dbPath : String) (n : Nat) : Prop :=
  ((List.range (n + 1)).map (epochPath dbPath)).Nodup

instance (dbPath : String) (n : Nat) : Decidable (DistinctPaths dbPath n) :=
  inferInstanceAs (Decidable (List.Nodup _))

/-- The list `[n, n - 1, ...]` of length `m`. -/
def descFrom : Nat → Nat → List Nat
  | _, 0 => []
  | n, m + 1 => n :: descFrom (n - 1) m

/-- The map binding each of the `len` epochs from `lo` on to itself. -/
def idMap : Nat → Nat → List (Nat × Nat)
  | _, 0 => []
  | lo, len + 1 => (lo, lo) :: idMap (lo + 1) len

/-- Lowest epoch whose persister is active once epoch `n` is reached. -/
def lowestActive (ps : PruningStorer) (n : Nat) : Nat := n + 1 - ps.numOfActivePersisters

/-- Lowest epoch whose persister is kept once epoch `n` is reached. -/
def lowestKept (ps : PruningStorer) (n : Nat) : Nat :=
  if ps.fullArchive then 0 else n + 1 - ps.numOfEpochsToKeep

/-- Layout of a storer that has been through the epochs `0, ..., n` of a fresh
system: the pointer of a slot is the number of its epoch; the epochs from `la`
on are active, the epochs below `la` are closed, the epochs below `lk` have
been destroyed. -/
structure Layout (n la lk : Nat) (s : Sys) : Prop where
  active : s.ps.activePersisters = descFrom n (n + 1 - la)
  byEpoch : s.ps.persistersMapByEpoch = idMap lk (n + 1 - lk)
  nextSlot : s.w.nextSlot = n + 1
  paths : ∀ i, i ≤ n → (s.w.slots i).path = epochPath s.ps.dbPath i
  flags : ∀ i, i ≤ n → (s.w.slots i).isClosed = decide (i < la)
  dbs : ∀ i, i ≤ n → s.w.dbs[(s.w.slots i).persister]? =
    some { path := epochPath s.ps.dbPath i, phase := if i < la then .closed else .opened }
  handles : ∀ i j, i ≤ n → j ≤ n → (s.w.slots i).persister = (s.w.slots j).persister → i = j
  dirs : ∀ i, lk ≤ i → i ≤ n → (assocGet (epochPath s.ps.dbPath i) s.w.disk).isSome
  known : ∀ p, (assocGet p s.w.disk).isSome → ∃ i, i ≤ n ∧ p = epochPath s.ps.dbPath i
  destroyed : ∀ i, i < lk → Call.destroyClosed (s.w.slots i).persister ∈ s.w.calls

/-- The storer is in epoch `n`, reached from its construction in a fresh
system by consecutive rotations. -/
def InEpoch (n : Nat) (s : Sys) : Prop :=
  Layout n (lowestActive s.ps n) (lowestKept s.ps n) s

/-- Value held under the key `k` by the directory of path `p`, when the
directory is there and holds the key. -/
def keyAt (disk : List (String × List (Bytes × Bytes))) (p : String) (k : Bytes) :
    Option Bytes :=
  match assocGet p disk with
  | some kv => assocGet k kv
  | none => none

/-- The directory of epoch `e` holds `v` under `k`. -/
def Stored (s : Sys) (e : Nat) (k v : Bytes) : Prop :=
  keyAt s.w.disk (epochPath s.ps.dbPath e) k = some v

/-- The directory of epoch `e`, if there is one, does not hold `k`. -/
def Absent (s : Sys) (e : Nat) (k : Bytes) : Prop :=
  keyAt s.w.disk (epochPath s.ps.dbPath e) k = none

/-- The persister of pointer `p` cannot give a value for `k`: if it is open on
a directory, the directory does not hold `k`. -/
def NoValue (w : World) (p : Nat) (k : Bytes) : Prop :=
  ∀ d kv, w.dbs[(w.slots p).persister]? = some d → d.phase = .opened →
    assocGet d.path w.disk = some kv → assocGet k kv = none

/-- The persister of pointer `p` is open on a directory that holds `v` under `k`. -/
def HasValue (w : World) (p : Nat) (k v : Bytes) : Prop :=
  ∃ d kv, w.dbs[(w.slots p).persister]? = some d ∧ d.phase = .opened ∧
    assocGet d.path w.disk = some kv ∧ assocGet k kv = some v

/-! ## Histories -/

/-- Client operations on the storer, and the evictions made by the cache
(`keep` tells which keys stay in the cache). -/
inductive Op where
  | put (key data : Bytes)
  | get (key : Bytes)
  | getFromEpoch (key : Bytes) (epoch : Nat)
  | has (key : Bytes)
  | hasInEpoch (key : Bytes) (epoch : Nat)
  | remove (key : Bytes)
  | clearCache
  | evict (keep : Bytes → Bool)

/-- The state after an operation, whatever the operation returns. -/
def Op.run : Op → Sys → Sys
  | .put key data, s => (Put key data s).2
  | .get key, s => (Get key s).2
  | .getFromEpoch key epoch, s => (GetFromEpoch key epoch s).2
  | .has key, s => (Has key s).2
  | .hasInEpoch key epoch, s => (HasInEpoch key epoch s).2
  | .remove key, s => (Remove key s).2
  | .clearCache, s => ClearCache s
  | .evict keep, s => s.withCache (s.ps.cacher.filter fun e => keep e.1)

/-- The operation neither writes nor removes the key `k`, and does not bring
it back into the cache. -/
def Op.spares (k : Bytes) : Op → Prop
  | .put key _ => key ≠ k
  | .get key => key ≠ k
  | .remove key => key ≠ k
  | _ => True

/-- The state after a list of operations. -/
def runOps (ops : List Op) (s : Sys) : Sys := ops.foldl (fun t o => o.run t) s

/-- The operation `o`, made in the state `t` when `d` rotations have followed
the `Put` of `k`, leaves the value of `k` alone: it is no `Put` and no `Remove`
of `k`, and a `Get(k)` made while the persister that received `k` is in the
active window is not made to fail at that persister (it is the `d`-th
persister the loop of `Get` asks). -/
def Op.keeps (k : Bytes) (d : Nat) (o : Op) (t : Sys) : Prop :=
  match o with
  | .put key _ => key ≠ k
  | .remove key => key ≠ k
  | .get key => key = k → d < t.ps.numOfActivePersisters →
      t.w.fault (t.w.calls.length + d) = none
  | _ => True

/-- Every operation of the list, made one after the other from the state `t`
in the epoch of the `Put` of `k`, leaves the value of `k` alone. -/
def keptThrough (k : Bytes) : List Op → Sys → Prop
  | [], _ => True
  | o :: rest, t => o.keeps k 0 t ∧ keptThrough k rest (o.run t)

/-- The history `Run ok m s n t`: a storer in epoch `m` and state `s` is led
to epoch `n` and state `t` by operations (each satisfies `ok` in the epoch and
the state in which it is made) and by rotations to the next epoch that return
nil. -/
inductive Run (ok : Nat → Op → Sys → Prop) : Nat → Sys → Nat → Sys → Prop where
  | start (m : Nat) (s : Sys) : Run ok m s m s
  | op {m n : Nat} {s t : Sys} (o : Op) : ok n o t → Run ok m s n t → Run ok m s n (o.run t)
  | rotate {m n : Nat} {s t t1 : Sys} :
      Run ok m s n t → changeEpoch (n + 1) t = (none, t1) → Run ok m s (n + 1) t1

/-- Any operation. -/
def anyOp : Nat → Op → Sys → Prop := fun _ _ _ => True

/-- The operations that leave alone the value of `k` written in epoch `E1`. -/
def keepsFrom (k : Bytes) (E1 : Nat) : Nat → Op → Sys → Prop :=
  fun n o t => o.keeps k (n - E1) t

/-- What the collaborators keep through client operations: the persister
objects that exist stay as they are (new ones may come after them), the heap
and the fault oracle are untouched, the call log grows, the directories stay,
and a new directory has a path accepted by `allowed`. -/
structure WFrame (allowed : String → Prop) (w w1 : World) : Prop where
  dbs : List.IsPrefix w.dbs w1.dbs
  heap : w1.heap = w.heap
  fault : w1.fault = w.fault
  calls : ∀ c, c ∈ w.calls → c ∈ w1.calls
  dirs : ∀ p, (assocGet p w.disk).isSome → (assocGet p w1.disk).isSome
  fresh : ∀ p, (assocGet p w1.disk).isSome → (assocGet p w.disk).isSome ∨ allowed p

/-- The directories hold the same value (or none) under the key `k`. -/
def WKeeps (k : Bytes) (w w1 : World) : Prop :=
  ∀ p, keyAt w1.disk p k = keyAt w.disk p k

/-- The paths of the slots recorded in the map by epoch. -/
def Sys.slotPath (s : Sys) (p : String) : Prop :=
  ∃ e q, assocGet e s.ps.persistersMapByEpoch = some q ∧ p = (s.w.slots q).path

/-- What the storer keeps through client operations: its configuration, its
slots, and the collaborators up to `WFrame`. -/
structure Frame (s s1 : Sys) : Prop where
  config : s1.ps.config = s.ps.config
  active : s1.ps.activePersisters = s.ps.activePersisters
  byEpoch : s1.ps.persistersMapByEpoch = s.ps.persistersMapByEpoch
  world : WFrame s.slotPath s.w s1.w

/-- The key `k` has been added to the filter, if there is one. -/
def filterHolds (bf : Option BloomFilter) (k : Bytes) : Prop :=
  match bf with
  | none => True
  | some f => k ∈ f.added

/-- What the storer keeps of the key `k` through operations that spare it: the
content of the directories under `k`, no new cache entry for `k`, and the key
stays in the filter. -/
structure Keeps (k : Bytes) (s s1 : Sys) : Prop where
  disk : WKeeps k s.w s1.w
  cache : ∀ x, s1.ps.cacher.Get k = some x → s.ps.cacher.Get k = some x
  filter : filterHolds s.ps.bloomFilter k → filterHolds s1.ps.bloomFilter k

/-- The newest active persister holds `v` under `k`, and neither the cache nor
the filter hides it. -/
structure Holds (k v : Bytes) (t : Sys) : Prop where
  window : 1 ≤ t.ps.numOfActivePersisters
  fits : t.ps.activePersisters.length < 4294967296
  newest : ∃ p d, t.ps.activePersisters[0]? = some p ∧
    t.w.dbs[(t.w.slots p).persister]? = some d ∧ d.phase = .opened ∧
    keyAt t.w.disk d.path k = some v
  cache : ∀ x, t.ps.cacher.Get k = some x → x = v
  filter : filterHolds t.ps.bloomFilter k

/-! ## The scenario of the specification -/

/-- The configuration of the concrete scenarios: two active persisters, three
epochs to keep, no full archive, filter enabled. -/
def scenarioArgs : PruningStorerArgs :=
  { Identifier := "scenario"
    FullArchive := false
    CacheConf := { CacheType := "LRU", Size := 10, Shards := 1 }
    DbPath := "db/Epoch_0/Shard_0"
    PersisterFactory := some ()
    BloomFilterConf := { Size := 2048, collides := fun _ _ => false }
    NumOfEpochsToKeep := 3
    NumOfActivePersisters := 2
    Notifier := some () }

/-- The storer of the scenarios right after its construction in a fresh system
in which no collaborator fails. -/
def scenarioStart : Sys :=
  { ps := { fullArchive := false
            activePersisters := [0]
            persistersMapByEpoch := [(0, 0)]
            cacher := []
            bloomFilter := some { added := [], collides := fun _ _ => false }
            dbPath := "db/Epoch_0/Shard_0"
            numOfEpochsToKeep := 3
            numOfActivePersisters := 2
            identifier := "scenario" }
    w := { disk := [("db/Epoch_0/Shard_0", [])]
           dbs := [{ path := "db/Epoch_0/Shard_0", phase := .opened }]
           slots := Function.update (fun _ => default) 0
             { persister := 0, path := "db/Epoch_0/Shard_0", isClosed := false }
           nextSlot := 1
           calls := [.registerHandler, .init 0, .newBloomFilter,
             .create "db/Epoch_0/Shard_0", .newCache]
           fault := fun _ => none } }

/-- The scenario after `Put("alpha", "1")` in epoch 0. -/
def scenarioPut : Sys := (Put "alpha" "1" scenarioStart).2

/-- The scenario after `Put("alpha", "1")` in epoch 0 and the rotations through
the epochs `1, ..., n`. -/
def scenarioEpoch (n : Nat) : Sys := (rotateThrough 0 n scenarioPut).getD scenarioPut

/-- Scenario 5 after `Put("k", "v1")` in epoch 0. -/
def overwritePut1 : Sys := (Put "k" "v1" scenarioStart).2

/-- Scenario 5 after the rotation to epoch 1. -/
def overwriteEpoch1 : Sys := (changeEpoch 1 overwritePut1).2

/-- Scenario 5 after `Put("k", "v2")` in epoch 1. -/
def overwritePut2 : Sys := (Put "k" "v2" overwriteEpoch1).2

/-- Scenario 5 after `Remove("k")` in epoch 1. -/
def overwriteRemoved : Sys := (Remove "k" overwritePut2).2

/-- The scenario arguments with no active persister, a nil notifier and a nil
persister factory. -/
def argsNoWindow : PruningStorerArgs :=
  { scenarioArgs with NumOfActivePersisters := 0, Notifier := none, PersisterFactory := none }

/-- The scenario arguments with a nil notifier and a nil persister factory. -/
def argsNoNotifier : PruningStorerArgs :=
  { scenarioArgs with Notifier := none, PersisterFactory := none }

/-- The scenario arguments with a nil persister factory. -/
def argsNoFactory : PruningStorerArgs :=
  { scenarioArgs with PersisterFactory := none }

/-! ## Collaborators that fail -/

/-- The world `w1` is the world `w` after `n` more external calls that changed
nothing but the call log. -/
structure LoggedOnly (w : World) (n : Nat) (w1 : World) : Prop where
  disk : w1.disk = w.disk
  dbs : w1.dbs = w.dbs
  heap : w1.heap = w.heap
  fault : w1.fault = w.fault
  calls : w1.calls.length = w.calls.length + n

/-- Answer of the persister of the slot `p` to `remove` when it is the
external call number `i` from the world `w` on and the calls before it have
failed (a failed call changes nothing but the call log): the failure decided
by the fault oracle, else nil when the persister is open on its directory. -/
def removeAnswer (w : World) (i p : Nat) : Option Error :=
  match w.fault (w.calls.length + i) with
  | some e => some e
  | none => if (w.openDir (w.slots p).persister).isSome then none else some .dbUnavailable

/-- Answers of the persisters of the slots of `l` to `remove`, asked in order
from the call number `i` on as long as the answers are failures. -/
def removeAnswers (w : World) : Nat → List Nat → List (Option Error)
  | _, [] => []
  | i, p :: rest => removeAnswer w i p :: removeAnswers w (i + 1) rest

/-- The fault oracle that makes the external call number `n` fail. -/
def failAt (n : Nat) : Nat → Option Error :=
  fun i => if i = n then some (.injected 1) else none

/-- The storer of the scenarios right after its construction in a fresh system
whose fault oracle is `fault` (the five calls of the construction not being
made to fail). -/
def scenarioWith (fault : Nat → Option Error) : Sys :=
  { scenarioStart with w := { scenarioStart.w with fault := fault } }

/-- The history of the disagreement between `Has` and `Get`: the scenario in
which the external call number 11 fails, after `Put("alpha", "1")`. -/
def disagreePut : Sys := (Put "alpha" "1" (scenarioWith (failAt 11))).2

/-- The history of the disagreement after the rotation to epoch 1. -/
def disagreeEpoch1 : Sys := (changeEpoch 1 disagreePut).2

/-- The history of the disagreement after `Remove("alpha")` in epoch 1. -/
def disagreeRemoved : Sys := (Remove "alpha" disagreeEpoch1).2

/-- The history of the disagreement after the rotation to epoch 2, whose
`close` is the call that fails. -/
def disagreeEpoch2 : Sys := (changeEpoch 2 disagreeRemoved).2

/-! ## Sequences of rotations and teardown -/

/-- The storer after the rotations to the epochs of the list, made one after
the other, whatever each rotation returns. -/
def rotations (epochs : List Nat) (s : Sys) : Sys :=
  epochs.foldl (fun t e => (changeEpoch e t).2) s

/-- The external call is a `destroy` or a `destroy_closed`. -/
def Call.destroys : Call → Bool
  | .destroy _ => true
  | .destroyClosed _ => true
  | _ => false

/-- The storer of the scenarios configured as a full archive, right after its
construction. -/
def archiveStart : Sys :=
  { scenarioStart with ps := { scenarioStart.ps with fullArchive := true } }

/-- The call the loop of `DestroyUnit` makes for the slot `p`: `destroy_closed`
for a slot whose closed flag is set, `destroy` for the others. -/
def destroyCall (w : World) (p : Nat) : Call :=
  if (w.slots p).isClosed then .destroyClosed (w.slots p).persister
  else .destroy (w.slots p).persister

/-- The persister answers a `destroy` or a `destroy_closed` call. -/
def World.perform (w : World) : Call → Option Error × World
  | .destroy h => w.destroy h
  | .destroyClosed h => w.destroyClosed h
  | _ => (none, w)

/-- Answers of the persisters to the calls of the list, made one after the
other, and the world after them. -/
def World.answers : World → List Call → List (Option Error) × World
  | w, [] => ([], w)
  | w, c :: cs =>
    ((w.perform c).1 :: ((w.perform c).2.answers cs).1, ((w.perform c).2.answers cs).2)

/-! ## Rotations that skip epochs or fail -/

/-- The scenario after a rotation from epoch 0 straight to epoch 3. -/
def gapEpoch3 : Sys := (changeEpoch 3 scenarioStart).2

/-- The scenario after the rotations to epoch 3 and then straight to epoch 6. -/
def gapEpoch6 : Sys := (changeEpoch 6 gapEpoch3).2

/-- The scenario in a system whose tenth collaborator call, the `Close` of the
rotation to epoch 2, fails; the state after the rotation to epoch 1. -/
def unclosedEpoch1 : Sys := (changeEpoch 1 (scenarioWith (failAt 9))).2

/-- The state after the rotation to epoch 2, whose `Close` fails. -/
def unclosedEpoch2 : Sys := (changeEpoch 2 unclosedEpoch1).2

/-- The state after the rotation to epoch 3 that follows the failed `Close`. -/
def unclosedEpoch3 : Sys := (changeEpoch 3 unclosedEpoch2).2

/-- The scenario in a system whose seventh collaborator call, the `Init` of the
rotation to epoch 1, fails; the state after that rotation. -/
def uninitEpoch1 : Sys := (changeEpoch 1 (scenarioWith (failAt 6))).2

/-- The scenario in a system whose eighth collaborator call, the `Create` of
the rotation to epoch 2, fails; the state after the rotation to epoch 1. -/
def skippedEpoch1 : Sys := (changeEpoch 1 (scenarioWith (failAt 7))).2

/-- The state after the rotation to epoch 2, whose `Create` fails. -/
def skippedEpoch2 : Sys := (changeEpoch 2 skippedEpoch1).2

/-- The state after the rotation to epoch 3 that follows the failed `Create`. -/
def skippedEpoch3 : Sys := (changeEpoch 3 skippedEpoch2).2

/-- The state after the rotation to epoch 4 that follows the failed `Create`. -/
def skippedEpoch4 : Sys := (changeEpoch 4 skippedEpoch3).2

/-- The scenario arguments with one active persister and no epoch to keep, a
configuration the constructor accepts. -/
def keepNoneArgs : PruningStorerArgs :=
  { scenarioArgs with NumOfEpochsToKeep := 0, NumOfActivePersisters := 1 }

/-- The storer built from `keepNoneArgs` in a fresh system in which no
collaborator fails. -/
def keepNoneStart : Sys :=
  { scenarioStart with
    ps := { scenarioStart.ps with numOfEpochsToKeep := 0, numOfActivePersisters := 1 } }

/-- The state after the rotation of `keepNoneStart` to epoch 1. -/
def keepNoneEpoch1 : Sys := (changeEpoch 1 keepNoneStart).2

/-- The active slice is in good standing: it is not empty, no pointer occurs
twice in it, and every pointer of it is allocated and points to a
`persisterData` object whose `isClosed` is false. -/
def ActiveOpen (s : Sys) : Prop :=
  s.ps.activePersisters ≠ [] ∧ s.ps.activePersisters.Nodup ∧
  ∀ p ∈ s.ps.activePersisters, p < s.w.nextSlot ∧ (s.w.slots p).isClosed = false

/-- The scenario arguments with three active persisters and one epoch to keep:
the epochs to keep are fewer than the active persisters. -/
def unboundArgs : PruningStorerArgs :=
  { scenarioArgs with NumOfEpochsToKeep := 1, NumOfActivePersisters := 3 }

/-- The storer built from `unboundArgs` in a fresh system whose eleventh
collaborator call fails. -/
def unboundStart : Sys :=
  { ps := { scenarioStart.ps with numOfEpochsToKeep := 1, numOfActivePersisters := 3 }
    w := { scenarioStart.w with fault := failAt 10 } }

/-- The state after `Put("alpha", "1")` in epoch 0. -/
def unboundPut : Sys := (Put "alpha" "1" unboundStart).2

/-- The state after the rotation of `unboundPut` to epoch 1, the cache cleared. -/
def unboundEpoch1 : Sys := ClearCache (changeEpoch 1 unboundPut).2

/-! ## Path naming: the specification -/

/-- The characters of `Epoch_`, the fixed part of the pattern. -/
def epochTag : List Char := ['E', 'p', 'o', 'c', 'h', '_']

/-- Value of a list of decimal digits, most significant first. -/
def digitsValue (ds : List Char) : Nat := ds.foldl (fun a c => 10 * a + (c.toNat - 48)) 0

/-- Spec side: a token of the pattern: `Epoch_` followed by one or more
decimal digits. -/
def IsEpochToken (tok : List Char) : Prop :=
  ∃ ds, ds ≠ [] ∧ (∀ c ∈ ds, c.isDigit = true) ∧ tok = epochTag ++ ds

/-- Spec side: the pattern occurs in `t` at position `i` with length `l`. -/
def EpochOccurs (t : List Char) (i l : Nat) : Prop :=
  ∃ pre tok rest, t = pre ++ tok ++ rest ∧ pre.length = i ∧ tok.length = l ∧ IsEpochToken tok

/-- Spec side: `out` is `t` with every non-overlapping leftmost-longest
occurrence of the pattern replaced by `repl` and every other character
unchanged.  Either the pattern does not occur in `t`, which is left as it is;
or `t` is `pre ++ tok ++ rest` where `tok` is an occurrence, no occurrence
starts before it (leftmost), no occurrence starting there is longer (longest),
and the text after it is treated in the same way. -/
inductive EpochReplaced (repl : List Char) : List Char → List Char → Prop where
  | unchanged (t : List Char) : (∀ i l, ¬ EpochOccurs t i l) → EpochReplaced repl t t
  | replaced (pre tok rest out : List Char) : IsEpochToken tok →
      (∀ i l, EpochOccurs (pre ++ tok ++ rest) i l → pre.length ≤ i) →
      (∀ l, EpochOccurs (pre ++ tok ++ rest) pre.length l → l ≤ tok.length) →
      EpochReplaced repl rest out →
      EpochReplaced repl (pre ++ tok ++ rest) (pre ++ repl ++ out)

/-! ## Slots along consecutive rotations, in any system -/

/-- The map binding each of the `len` epochs from `lo` on to the pointer `b`
places further. -/
def idMapAt (b : Nat) : Nat → Nat → List (Nat × Nat)
  | _, 0 => []
  | lo, len + 1 => (lo, lo + b) :: idMapAt b (lo + 1) len

/-- Slots of a storer that has been through the epochs `0, ..., n` since its
construction, whatever the system it was built in and whatever its paths: the
pointer of the slot of epoch `i` is `i + b`, where `b` is the pointer of the
slot of epoch 0; the epochs from `la` on are active, the epochs below `la` are
closed; the map by epoch binds an epoch to its own slot only. -/
structure Aligned (b n la : Nat) (s : Sys) : Prop where
  active : s.ps.activePersisters = descFrom (n + b) (n + 1 - la)
  nextSlot : s.w.nextSlot = n + 1 + b
  paths : ∀ i, i ≤ n → (s.w.slots (i + b)).path = epochPath s.ps.dbPath i
  flags : ∀ i, i ≤ n → (s.w.slots (i + b)).isClosed = decide (i < la)
  dbs : ∀ i, i ≤ n → s.w.dbs[(s.w.slots (i + b)).persister]? =
    some { path := epochPath s.ps.dbPath i, phase := if i < la then .closed else .opened }
  handles : ∀ i j, i ≤ n → j ≤ n →
    (s.w.slots (i + b)).persister = (s.w.slots (j + b)).persister → i = j
  byEpoch : ∀ e p, assocGet e s.ps.persistersMapByEpoch = some p → e ≤ n ∧ p = e + b

/-- The storer built from `unboundArgs` (three active persisters, one epoch to
keep) in a fresh system in which no collaborator call fails. -/
def narrowStart : Sys :=
  { ps := { scenarioStart.ps with numOfEpochsToKeep := 1, numOfActivePersisters := 3 }
    w := scenarioStart.w }

/-- The state after the rotation of `narrowStart` to epoch 1. -/
def narrowEpoch1 : Sys := (changeEpoch 1 narrowStart).2

/-- The state after the rotations of `narrowStart` to the epochs 1 and 2. -/
def narrowEpoch2 : Sys := (changeEpoch 2 narrowEpoch1).2

/-- The state after the rotations of `narrowStart` to the epochs 1, 2 and 3. -/
def narrowEpoch3 : Sys := (changeEpoch 3 narrowEpoch2).2

/-! ## The slots the storer holds -/

/-- The persister objects of `w` are still there in `w1`, each on the
directory it was created on. -/
def World.keepsPaths (w w1 : World) : Prop :=
  ∀ (h : Nat) (d : Db), w.dbs[h]? = some d → ∃ d1 : Db, w1.dbs[h]? = some d1 ∧ d1.path = d.path

/-- The pointer `q` is held by the storer: it is in the active slice or it is
a value of the map by epoch. -/
def Sys.holds (s : Sys) (q : Nat) : Prop :=
  q ∈ s.ps.activePersisters ∨ ∃ e, assocGet e s.ps.persistersMapByEpoch = some q

/-- Good standing of the slots the storer holds: the persister of each exists
and works on the directory whose path the slot keeps ("persister and path kept
in the same place"). -/
def HeldOk (s : Sys) : Prop :=
  ∀ q, s.holds q →
    ∃ d : Db, s.w.dbs[(s.w.slots q).persister]? = some d ∧ d.path = (s.w.slots q).path

/-- The newest slot of the active slice is held by the map by epoch under one
epoch at most. -/
def HeadOnce (s : Sys) : Prop :=
  ∀ p e e', s.ps.activePersisters[0]? = some p →
    assocGet e s.ps.persistersMapByEpoch = some p →
    assocGet e' s.ps.persistersMapByEpoch = some p → e = e'

/-- The slot `p` of epoch `E1` on its way out of the storer, in epoch `n`: the
map by epoch holds `p` under `E1` and holds every epoch from `E1` to `n`; `p`
is in the active slice at the index `n - E1` as long as that index is inside
the window; the slot of `p` is allocated and keeps the persister `h0`; the map
by epoch has grown by two entries per rotation at most since it had `len1`
entries. -/
structure Awaits (E1 p h0 len1 n : Nat) (t : Sys) : Prop where
  entry : assocGet E1 t.ps.persistersMapByEpoch = some p
  keys : ∀ e, E1 ≤ e → e ≤ n → (assocGet e t.ps.persistersMapByEpoch).isSome
  pos : n - E1 < t.ps.numOfActivePersisters → t.ps.activePersisters[n - E1]? = some p
  alloc : p < t.w.nextSlot
  handle : (t.w.slots p).persister = h0
  size : t.ps.persistersMapByEpoch.length ≤ len1 + 2 * (n - E1)

/-- Directory of the persister of the slot `q`, when the persister exists. -/
def World.dirOf (w : World) (q : Nat) : Option String :=
  (w.dbs[(w.slots q).persister]?).map fun d => d.path

/-- The slot `p` of epoch `E1`, whose persister `h0` works on the directory
`P`, as the storer goes through the epochs that follow, in epoch `n`: the map
by epoch holds `p` under `E1`; `p` is in the active slice at the index
`n - E1` as long as that index is inside the window, its persister being
opened; the active slots before it are those of the epochs `E1 + 1, ..., n`,
each on the directory of its epoch; the active slots after it, and the slots
the map by epoch holds outside the epochs `E1, ..., n`, are on directories
other than `P`; the active slice has grown by one slot per rotation at most
since it had `len1` slots. -/
structure Retains (E1 p h0 len1 : Nat) (P : String) (n : Nat) (t : Sys) : Prop where
  entry : assocGet E1 t.ps.persistersMapByEpoch = some p
  pos : n - E1 < t.ps.numOfActivePersisters → t.ps.activePersisters[n - E1]? = some p
  newer : ∀ i q, i < n - E1 → t.ps.activePersisters[i]? = some q →
    ∃ e, E1 < e ∧ e ≤ n ∧ t.w.dirOf q = some (getNewFilePath t.ps.dbPath e)
  older : ∀ i q, n - E1 < i → t.ps.activePersisters[i]? = some q →
    ∃ r, t.w.dirOf q = some r ∧ r ≠ P
  others : ∀ e q, assocGet e t.ps.persistersMapByEpoch = some q →
    (E1 ≤ e ∧ e ≤ n) ∨ ∃ r, t.w.dirOf q = some r ∧ r ≠ P
  alloc : p < t.w.nextSlot
  handle : (t.w.slots p).persister = h0
  path : (t.w.slots p).path = P
  db : ∃ ph, t.w.dbs[h0]? = some ⟨P, ph⟩ ∧
    (n - E1 < t.ps.numOfActivePersisters → ph = .opened)
  size : t.ps.activePersisters.length ≤ len1 + (n - E1)

/-- What the storer keeps of the value `v` written under `k` in the directory
`P`, with respect to the directories of the system `base`: `P` holds `v` under
`k`, no directory holds under `k` a value it did not hold in `base`, the cache
holds no other value than `v` for `k`, and the filter keeps `k`. -/
structure Content (k v : Bytes) (P : String) (base : World) (t : Sys) : Prop where
  stored : keyAt t.w.disk P k = some v
  sub : ∀ q x, keyAt t.w.disk q k = some x → keyAt base.disk q k = some x
  cache : ∀ x, t.ps.cacher.Get k = some x → x = v
  filter : filterHolds t.ps.bloomFilter k

/-- The persister of the slot `q`, if it is opened on a directory that holds
`k`, holds `v` under `k`. -/
def OnlyValue (w : World) (q : Nat) (k v : Bytes) : Prop :=
  ∀ d kv x, w.dbs[(w.slots q).persister]? = some d → d.phase = .opened →
    assocGet d.path w.disk = some kv → assocGet k kv = some x → x = v

/-! ## Directories shared between epochs, directories that are already there -/

/-- The storer of the scenarios (two active persisters, three epochs to keep)
right after its construction with the path `path` in a system whose disk is
`disk` and in which no collaborator call fails. -/
def scenarioOn (path : String) (disk : List (String × List (Bytes × Bytes))) : Sys :=
  { ps := { scenarioStart.ps with dbPath := path }
    w := { disk := match assocGet path disk with
             | some _ => disk
             | none => disk ++ [(path, [])]
           dbs := [{ path := path, phase := .opened }]
           slots := Function.update (fun _ => default) 0
             { persister := 0, path := path, isClosed := false }
           nextSlot := 1
           calls := [.registerHandler, .init 0, .newBloomFilter, .create path, .newCache]
           fault := fun _ => none } }

/-- The scenario built with the path `db/Epoch_2/Shard_0`, which is also the
path of the persister of epoch 2, after the rotation to epoch 1. -/
def sharedDirEpoch1 : Sys := (changeEpoch 1 (scenarioOn "db/Epoch_2/Shard_0" [])).2

/-- The same after the rotation to epoch 2. -/
def sharedDirEpoch2 : Sys := (changeEpoch 2 sharedDirEpoch1).2

/-- The same after `Put("alpha", "1")` in epoch 2. -/
def sharedDirPut : Sys := (Put "alpha" "1" sharedDirEpoch2).2

/-- The same after the rotation to epoch 3, the cache cleared. -/
def sharedDirEpoch3 : Sys := ClearCache (changeEpoch 3 sharedDirPut).2

/-- A disk on which the directory of epoch 1 of the scenarios is already
there and holds `"old"` under `"alpha"`. -/
def staleDisk1 : List (String × List (Bytes × Bytes)) :=
  [("db/Epoch_1/Shard_0", [("alpha", "old")])]

/-- The scenario built on `staleDisk1`, after `Put("alpha", "1")` in epoch 0. -/
def staleDirPut : Sys := (Put "alpha" "1" (scenarioOn "db/Epoch_0/Shard_0" staleDisk1)).2

/-- The same after the rotation to epoch 1, the cache cleared. -/
def staleDirEpoch1 : Sys := ClearCache (changeEpoch 1 staleDirPut).2

/-- The scenario built with the path `db/Epoch_1/Shard_0`, which is also the
path of the persister of epoch 1, after `Put("alpha", "1")` in epoch 0. -/
def reusedDirPut : Sys := (Put "alpha" "1" (scenarioOn "db/Epoch_1/Shard_0" [])).2

/-- The same after the rotation to epoch 1. -/
def reusedDirEpoch1 : Sys := (changeEpoch 1 reusedDirPut).2

/-- The same after the rotation to epoch 2, the cache cleared. -/
def reusedDirEpoch2 : Sys := ClearCache (changeEpoch 2 reusedDirEpoch1).2

/-- A disk on which the directory of epoch 2 of the scenarios is already
there and holds `"old"` under `"alpha"`. -/
def staleDisk2 : List (String × List (Bytes × Bytes)) :=
  [("db/Epoch_2/Shard_0", [("alpha", "old")])]

/-- The scenario built on `staleDisk2`, after `Put("alpha", "1")` in epoch 0. -/
def lateDirPut : Sys := (Put "alpha" "1" (scenarioOn "db/Epoch_0/Shard_0" staleDisk2)).2

/-- The same after the rotation to epoch 1. -/
def lateDirEpoch1 : Sys := (changeEpoch 1 lateDirPut).2

/-- The same after the rotation to epoch 2, the cache cleared. -/
def lateDirEpoch2 : Sys := ClearCache (changeEpoch 2 lateDirEpoch1).2

/-- The scenario in epoch 1 after `Put("beta", "2")`. -/
def secondPut : Sys := (Put "beta" "2" (scenarioEpoch 1)).2

/-- The same after the rotation to epoch 2. -/
def secondEpoch2 : Sys := (changeEpoch 2 secondPut).2

/-- The same after the rotation to epoch 3. -/
def secondEpoch3 : Sys := (changeEpoch 3 secondEpoch2).2

/-- The same after the rotation to epoch 4. -/
def secondEpoch4 : Sys := (changeEpoch 4 secondEpoch3).2

/-! ## Lemmas on association lists -/

section assoc
variable {α β : Type} [DecidableEq α]

@[simp] theorem assocGet_assocPut_self (k : α) (v : β) (l : List (α × β)) :
    assocGet k (assocPut k v l) = some v := by
  induction l with
  | nil => simp [assocPut, assocGet]
  | cons hd t ih =>
    obtain ⟨k', v'⟩ := hd
    by_cases h : k' = k
    · simp [assocPut, assocGet, h]
    · simp [assocPut, assocGet, h, ih]

theorem assocGet_assocPut_ne {k k' : α} (h : k' ≠ k) (v : β) (l : List (α × β)) :
    assocGet k' (assocPut k v l) = assocGet k' l := by
  induction l with
  | nil => simp [assocPut, assocGet, h.symm]
  | cons hd t ih =>
    obtain ⟨k₁, v₁⟩ := hd
    by_cases h₁ : k₁ = k
    · subst h₁
      simp [assocPut, assocGet, h.symm]
    · by_cases h₂ : k₁ = k'
      · subst h₂
        simp [assocPut, assocGet, h]
      · simp [assocPut, assocGet, h₁, h₂, ih]

@[simp] theorem assocGet_assocDel_self (k : α) (l : List (α × β)) :
    assocGet k (assocDel k l) = none := by
  induction l with
  | nil => simp [assocDel, assocGet]
  | cons hd t ih =>
    obtain ⟨k', v'⟩ := hd
    by_cases h : k' = k
    · simp [assocDel, h, ih]
    · simp [assocDel, assocGet, h, ih]

theorem assocGet_assocDel_ne {k k' : α} (h : k' ≠ k) (l : List (α × β)) :
    assocGet k' (assocDel k l) = assocGet k' l := by
  induction l with
  | nil => simp [assocDel, assocGet]
  | cons hd t ih =>
    obtain ⟨k₁, v₁⟩ := hd
    by_cases h₁ : k₁ = k
    · subst h₁
      simp [assocDel, assocGet, h.symm, ih]
    · by_cases h₂ : k₁ = k'
      · subst h₂
        simp [assocDel, assocGet, h]
      · simp [assocDel, assocGet, h₁, h₂, ih]

theorem assocGet_append_single {k k' : α} (v : β) (l : List (α × β)) :
    assocGet k' (l ++ [(k, v)]) = match assocGet k' l with
      | some x => some x
      | none => if k = k' then some v else none := by
  induction l with
  | nil => simp [assocGet]
  | cons hd t ih =>
    obtain ⟨k₁, v₁⟩ := hd
    by_cases h₁ : k₁ = k'
    · simp [assocGet, h₁]
    · simp [assocGet, h₁, ih]

end assoc

/-! ## The collaborators: what a successful call has done -/

theorem create_ok {w w1 : World} {p : String} {h : Nat} (hc : w.create p = (.ok h, w1)) :
    w.failure = none ∧ h = w.dbs.length ∧
    w1 = { w with calls := .create p :: w.calls
                  dbs := w.dbs ++ [{ path := p, phase := .created }]
                  disk := match assocGet p w.disk with
                    | some _ => w.disk
                    | none => w.disk ++ [(p, [])] } := by
  simp only [World.create, World.record] at hc
  split at hc
  · simp at hc
  · next hf =>
    simp only [Prod.mk.injEq, Except.ok.injEq] at hc
    exact ⟨hf, hc.1.symm, hc.2.symm⟩

theorem create_error {w w1 : World} {p : String} {e : Error} (hc : w.create p = (.error e, w1)) :
    w1 = w.record (.create p) := by
  simp only [World.create] at hc
  split at hc
  · simp only [Prod.mk.injEq] at hc
    exact hc.2.symm
  · simp at hc

theorem init_ok {w w1 : World} {h : Nat} (hi : w.init h = (none, w1)) :
    w.failure = none ∧ ∃ d, w.dbs[h]? = some d ∧ d.phase = .created ∧
    w1 = { w with calls := .init h :: w.calls
                  dbs := w.dbs.set h { d with phase := .opened } } := by
  simp only [World.init, World.record, World.setDb] at hi
  split at hi
  · simp at hi
  · next hf =>
    split at hi
    · next d hd =>
      split at hi
      · next hph =>
        simp only [Prod.mk.injEq, true_and] at hi
        exact ⟨hf, d, hd, hph, hi.symm⟩
      · simp at hi
    · simp at hi

theorem close_ok {w w1 : World} {h : Nat} (hi : w.close h = (none, w1)) :
    w.failure = none ∧ ∃ d, w.dbs[h]? = some d ∧ (d.phase = .created ∨ d.phase = .opened) ∧
    w1 = { w with calls := .close h :: w.calls
                  dbs := w.dbs.set h { d with phase := .closed } } := by
  simp only [World.close, World.record, World.setDb] at hi
  split at hi
  · simp at hi
  · next hf =>
    split at hi
    · next d hd =>
      split at hi
      · next hph =>
        simp only [Prod.mk.injEq, true_and] at hi
        exact ⟨hf, d, hd, hph, hi.symm⟩
      · simp at hi
    · simp at hi

theorem destroyClosed_ok {w w1 : World} {h : Nat} (hi : w.destroyClosed h = (none, w1)) :
    w.failure = none ∧ ∃ d, w.dbs[h]? = some d ∧
    w1 = { w with calls := .destroyClosed h :: w.calls
                  disk := assocDel d.path w.disk } := by
  simp only [World.destroyClosed, World.record] at hi
  split at hi
  · simp at hi
  · next hf =>
    split at hi
    · next d hd =>
      simp only [Prod.mk.injEq, true_and] at hi
      exact ⟨hf, d, hd, hi.symm⟩
    · simp at hi

theorem put_ok {w w1 : World} {h : Nat} {k v : Bytes} (hp : w.put h k v = (none, w1)) :
    w.failure = none ∧ ∃ d kv, w.dbs[h]? = some d ∧ d.phase = .opened ∧
      assocGet d.path w.disk = some kv ∧
      w1 = { w with calls := .put h k v :: w.calls
                    disk := assocPut d.path (assocPut k v kv) w.disk } := by
  simp only [World.put, World.record, World.openDir] at hp
  split at hp
  · simp at hp
  · next hf =>
    split at hp
    · next p kv hop =>
      split at hop
      · next d hd =>
        split at hop
        · next hph =>
          split at hop
          · next kv' hkv =>
            simp only [Option.some.injEq, Prod.mk.injEq] at hop
            obtain ⟨rfl, rfl⟩ := hop
            simp only [Prod.mk.injEq, true_and] at hp
            exact ⟨hf, d, kv', hd, hph, hkv, hp.symm⟩
          · simp at hop
        · simp at hop
      · simp at hop
    · simp at hp

theorem remove_ok {w w1 : World} {h : Nat} {k : Bytes} (hp : w.remove h k = (none, w1)) :
    w.failure = none ∧ ∃ d kv, w.dbs[h]? = some d ∧ d.phase = .opened ∧
      assocGet d.path w.disk = some kv ∧
      w1 = { w with calls := .remove h k :: w.calls
                    disk := assocPut d.path (assocDel k kv) w.disk } := by
  simp only [World.remove, World.record, World.openDir] at hp
  split at hp
  · simp at hp
  · next hf =>
    split at hp
    · next p kv hop =>
      split at hop
      · next d hd =>
        split at hop
        · next hph =>
          split at hop
          · next kv' hkv =>
            simp only [Option.some.injEq, Prod.mk.injEq] at hop
            obtain ⟨rfl, rfl⟩ := hop
            simp only [Prod.mk.injEq, true_and] at hp
            exact ⟨hf, d, kv', hd, hph, hkv, hp.symm⟩
          · simp at hop
        · simp at hop
      · simp at hop
    · simp at hp

/-- A persister's `get` gives the value stored in the directory of an opened
persister, unless the call is made to fail. -/
theorem get_stored {w : World} {h : Nat} {k v : Bytes} {d : Db} {kv : List (Bytes × Bytes)}
    (hf : w.failure = none) (hd : w.dbs[h]? = some d) (hph : d.phase = .opened)
    (hdir : assocGet d.path w.disk = some kv) (hk : assocGet k kv = some v) :
    w.get h k = (.ok v, w.record (.get h k)) := by
  simp [World.get, hf, World.openDir, World.record, hd, hph, hdir, hk]

/-- A persister's `get` fails when the directory does not hold the key. -/
theorem get_absent {w : World} {h : Nat} {k : Bytes}
    (habs : ∀ d kv, w.dbs[h]? = some d → d.phase = .opened →
      assocGet d.path w.disk = some kv → assocGet k kv = none) :
    ∃ e, w.get h k = (.error e, w.record (.get h k)) := by
  simp only [World.get, World.openDir, World.record]
  split
  · exact ⟨_, rfl⟩
  · split
    · next p kv hop =>
      split at hop
      · next d hd =>
        split at hop
        · next hph =>
          split at hop
          · next kv' hkv =>
            simp only [Option.some.injEq, Prod.mk.injEq] at hop
            obtain ⟨rfl, rfl⟩ := hop
            rw [habs d kv' hd hph hkv]
            exact ⟨_, rfl⟩
          · simp at hop
        · simp at hop
      · simp at hop
    · exact ⟨_, rfl⟩

/-! ## Construction -/

theorem NewCache_ok {w w1 : World} {conf : CacheConfig} {c : Cacher}
    (h : NewCache w conf = (.ok c, w1)) : c = [] ∧ w1 = w.record .newCache := by
  simp only [NewCache] at h
  split at h
  · simp at h
  · simp only [Prod.mk.injEq, Except.ok.injEq] at h
    exact ⟨h.1.symm, h.2.symm⟩

theorem init_success {args : PruningStorerArgs} {shard : String} {w w1 : World}
    {ps : PruningStorer} (h : initPruningStorer args shard w = (.ok ps, w1)) :
    1 ≤ args.NumOfActivePersisters ∧
    ps.fullArchive = args.FullArchive ∧ ps.dbPath = args.filePath shard ∧
    ps.numOfEpochsToKeep = args.NumOfEpochsToKeep ∧
    ps.numOfActivePersisters = args.NumOfActivePersisters ∧
    ps.identifier = args.Identifier ∧
    ps.activePersisters = [w.nextSlot] ∧ ps.persistersMapByEpoch = [(0, w.nextSlot)] ∧
    ps.cacher = [] ∧ (∀ f, ps.bloomFilter = some f → f.added = []) ∧
    w1.nextSlot = w.nextSlot + 1 ∧
    w1.slots = Function.update w.slots w.nextSlot ⟨w.dbs.length, args.filePath shard, false⟩ ∧
    w1.dbs = w.dbs ++ [⟨args.filePath shard, .opened⟩] ∧
    w1.disk = (match assocGet (args.filePath shard) w.disk with
      | some _ => w.disk
      | none => w.disk ++ [(args.filePath shard, [])]) ∧
    w1.fault = w.fault ∧ (∀ c, c ∈ w1.calls → c ∈ w.calls ∨ c = .newCache ∨
      c = .create (args.filePath shard) ∨ c = .newBloomFilter ∨ c = .init w.dbs.length ∨
      c = .registerHandler) := by
  simp only [initPruningStorer] at h
  simp only [PruningStorerArgs.filePath]
  generalize (if shard.length > 0 then args.DbPath ++ shard else args.DbPath) = fp at h ⊢
  split at h
  · simp at h
  split at h
  · simp at h
  split at h
  · simp at h
  next hA _ _ =>
  split at h
  · simp at h
  next cache w2 hcache =>
  obtain ⟨rfl, rfl⟩ := NewCache_ok hcache
  split at h
  · simp at h
  next db w3 hcreate =>
  obtain ⟨-, rfl, rfl⟩ := create_ok hcreate
  simp only [World.record, World.alloc] at h
  split at h
  · simp at h
  next bf w4 hbf =>
  split at h
  · simp at h
  next w5 hinit =>
  obtain ⟨-, d, hd, hph, rfl⟩ := init_ok hinit
  simp only [Prod.mk.injEq, Except.ok.injEq] at h
  obtain ⟨rfl, rfl⟩ := h
  have hA1 : 1 ≤ args.NumOfActivePersisters := by omega
  split at hbf
  · split at hbf
    · simp at hbf
    · next f w6 hnb =>
      simp only [NewBloomFilter] at hnb
      split at hnb
      · simp at hnb
      · simp only [Prod.mk.injEq, Except.ok.injEq] at hnb hbf
        obtain ⟨rfl, rfl⟩ := hnb
        obtain ⟨rfl, rfl⟩ := hbf
        simp [World.record] at hd
        subst hd
        refine ⟨hA1, rfl, rfl, rfl, rfl, rfl, rfl, rfl, rfl, ?_, rfl, rfl, ?_, rfl, rfl, ?_⟩
        · intro f hf
          simp at hf
          subst hf
          rfl
        · simp [World.record]
        · intro c hc
          simp [World.record] at hc
          tauto
  · simp only [Prod.mk.injEq, Except.ok.injEq] at hbf
    obtain ⟨rfl, rfl⟩ := hbf
    simp at hd
    subst hd
    refine ⟨hA1, rfl, rfl, rfl, rfl, rfl, rfl, rfl, rfl, ?_, rfl, rfl, ?_, rfl, rfl, ?_⟩
    · intro f hf
      simp at hf
    · simp
    · intro c hc
      simp [World.record] at hc
      tauto

/-! ## Frame lemmas: the configuration and the heap -/

theorem Put_config (k v : Bytes) (s : Sys) : (Put k v s).2.ps.config = s.ps.config := by
  simp only [Put]
  repeat' split
  all_goals rfl

theorem Get_config (k : Bytes) (s : Sys) : (Get k s).2.ps.config = s.ps.config := by
  simp only [Get]
  repeat' split
  all_goals rfl

theorem GetFromEpoch_config (k : Bytes) (e : Nat) (s : Sys) :
    (GetFromEpoch k e s).2.ps.config = s.ps.config := by
  simp only [GetFromEpoch]
  repeat' split
  all_goals rfl

theorem Has_config (k : Bytes) (s : Sys) : (Has k s).2.ps.config = s.ps.config := by
  simp only [Has]
  repeat' split
  all_goals rfl

theorem HasInEpoch_config (k : Bytes) (e : Nat) (s : Sys) :
    (HasInEpoch k e s).2.ps.config = s.ps.config := by
  simp only [HasInEpoch]
  repeat' split
  all_goals rfl

theorem Remove_config (k : Bytes) (s : Sys) : (Remove k s).2.ps.config = s.ps.config := by
  simp only [Remove]
  rfl

theorem DestroyUnit_config (s : Sys) : (DestroyUnit s).2.ps.config = s.ps.config := by
  simp only [DestroyUnit]
  repeat' split
  all_goals rfl

theorem closeOldest_config (e : Nat) (s : Sys) : (closeOldest e s).2.ps.config = s.ps.config := by
  simp only [closeOldest]
  repeat' split
  all_goals rfl

theorem destroyOldest_config (e : Nat) (s : Sys) :
    (destroyOldest e s).2.ps.config = s.ps.config := by
  simp only [destroyOldest]
  repeat' split
  all_goals rfl

theorem closeAndDestroyPersisters_config (e : Nat) (s : Sys) :
    (closeAndDestroyPersisters e s).2.ps.config = s.ps.config := by
  unfold closeAndDestroyPersisters
  split
  · next e1 s1 h =>
    have := closeOldest_config e s
    rw [h] at this
    exact this
  · next s1 h =>
    have := closeOldest_config e s
    rw [h] at this
    rw [destroyOldest_config]
    exact this

theorem changeEpoch_config (e : Nat) (s : Sys) : (changeEpoch e s).2.ps.config = s.ps.config := by
  simp only [changeEpoch]
  repeat' split
  all_goals first | rfl | (rw [closeAndDestroyPersisters_config])
  all_goals rfl

@[simp] theorem record_heap (w : World) (c : Call) : (w.record c).heap = w.heap := rfl

@[simp] theorem create_heap (w : World) (p : String) : (w.create p).2.heap = w.heap := by
  simp only [World.create]
  repeat' split
  all_goals rfl

@[simp] theorem init_heap (w : World) (h : Nat) : (w.init h).2.heap = w.heap := by
  simp only [World.init]
  repeat' split
  all_goals rfl

@[simp] theorem put_heap (w : World) (h : Nat) (k v : Bytes) : (w.put h k v).2.heap = w.heap := by
  simp only [World.put]
  repeat' split
  all_goals rfl

@[simp] theorem get_heap (w : World) (h : Nat) (k : Bytes) : (w.get h k).2.heap = w.heap := by
  simp only [World.get]
  repeat' split
  all_goals rfl

@[simp] theorem has_heap (w : World) (h : Nat) (k : Bytes) : (w.has h k).2.heap = w.heap := by
  simp only [World.has]
  repeat' split
  all_goals rfl

@[simp] theorem remove_heap (w : World) (h : Nat) (k : Bytes) : (w.remove h k).2.heap = w.heap := by
  simp only [World.remove]
  repeat' split
  all_goals rfl

@[simp] theorem close_heap (w : World) (h : Nat) : (w.close h).2.heap = w.heap := by
  simp only [World.close]
  repeat' split
  all_goals rfl

@[simp] theorem destroy_heap (w : World) (h : Nat) : (w.destroy h).2.heap = w.heap := by
  simp only [World.destroy]
  repeat' split
  all_goals rfl

@[simp] theorem destroyClosed_heap (w : World) (h : Nat) : (w.destroyClosed h).2.heap = w.heap := by
  simp only [World.destroyClosed]
  repeat' split
  all_goals rfl

/-! ## Frame lemmas: the slots of the storer -/

theorem heap_slots {w w1 : World} (h : w1.heap = w.heap) : w1.slots = w.slots :=
  congrArg Prod.fst h

theorem heap_nextSlot {w w1 : World} (h : w1.heap = w.heap) : w1.nextSlot = w.nextSlot :=
  congrArg Prod.snd h

theorem shape_of_heap {ps : PruningStorer} {s : Sys} {w1 : World}
    (ha : ps.activePersisters = s.ps.activePersisters)
    (hm : ps.persistersMapByEpoch = s.ps.persistersMapByEpoch) (h : w1.heap = s.w.heap) :
    Sys.shape ⟨ps, w1⟩ = s.shape := by
  simp only [Sys.shape, ha, hm, heap_slots h, heap_nextSlot h]

theorem getScan_heap (bf : Option BloomFilter) (k : Bytes) (l : List Nat) (w : World) :
    (getScan bf k l w).2.heap = w.heap := by
  induction l generalizing w with
  | nil => rfl
  | cons p t ih =>
    simp only [getScan]
    split
    · split
      · next v w1 h =>
        have := get_heap w (w.slots p).persister k
        rw [h] at this
        exact this
      · next e w1 h =>
        have := get_heap w (w.slots p).persister k
        rw [h] at this
        rw [ih, this]
    · exact ih w

theorem hasScan_heap (k : Bytes) (l : List Nat) (w : World) :
    (hasScan k l w).2.heap = w.heap := by
  induction l generalizing w with
  | nil => rfl
  | cons p t ih =>
    simp only [hasScan]
    split
    · next w1 h =>
      have := has_heap w (w.slots p).persister k
      rw [h] at this
      exact this
    · next e w1 h =>
      have := has_heap w (w.slots p).persister k
      rw [h] at this
      rw [ih, this]

theorem removeScan_heap (k : Bytes) (l : List Nat) (err : Option Error) (w : World) :
    (removeScan k l err w).2.heap = w.heap := by
  induction l generalizing w err with
  | nil => rfl
  | cons p t ih =>
    simp only [removeScan]
    split
    · next w1 h =>
      have := remove_heap w (w.slots p).persister k
      rw [h] at this
      exact this
    · next e w1 h =>
      have := remove_heap w (w.slots p).persister k
      rw [h] at this
      rw [ih, this]

theorem destroyScan_heap (l : List (Nat × Nat)) (n : Nat) (w : World) :
    (destroyScan l n w).2.heap = w.heap := by
  induction l generalizing w n with
  | nil => rfl
  | cons hd t ih =>
    obtain ⟨e, p⟩ := hd
    simp only [destroyScan]
    have hstep : (if (w.slots p).isClosed then w.destroyClosed (w.slots p).persister
        else w.destroy (w.slots p).persister).2.heap = w.heap := by
      split
      · exact destroyClosed_heap _ _
      · exact destroy_heap _ _
    split
    · next e1 w1 h =>
      rw [h] at hstep
      rw [ih, hstep]
    · next w1 h =>
      rw [h] at hstep
      rw [ih, hstep]

theorem Put_shape (k v : Bytes) (s : Sys) : (Put k v s).2.shape = s.shape := by
  simp only [Put]
  split
  · rfl
  · next p hp =>
    have := put_heap s.w (s.w.slots p).persister k v
    split
    · next e w1 h =>
      rw [h] at this
      exact shape_of_heap rfl rfl this
    · next w1 h =>
      rw [h] at this
      exact shape_of_heap rfl rfl this

theorem Get_shape (k : Bytes) (s : Sys) : (Get k s).2.shape = s.shape := by
  simp only [Get]
  split
  · rfl
  · have := getScan_heap s.ps.bloomFilter k (s.ps.activePersisters.take
      (min s.ps.numOfActivePersisters (u32 s.ps.activePersisters.length))) s.w
    split
    · next v w1 h =>
      rw [h] at this
      exact shape_of_heap rfl rfl this
    · next w1 h =>
      rw [h] at this
      exact shape_of_heap rfl rfl this

theorem Has_shape (k : Bytes) (s : Sys) : (Has k s).2.shape = s.shape := by
  simp only [Has]
  split
  · rfl
  · split
    · have := hasScan_heap k s.ps.activePersisters s.w
      split
      · next w1 h =>
        rw [h] at this
        exact shape_of_heap rfl rfl this
      · next w1 h =>
        rw [h] at this
        exact shape_of_heap rfl rfl this
    · rfl

theorem Remove_shape (k : Bytes) (s : Sys) : (Remove k s).2.shape = s.shape := by
  simp only [Remove]
  exact shape_of_heap rfl rfl (removeScan_heap k s.ps.activePersisters none s.w)

theorem ClearCache_shape (s : Sys) : (ClearCache s).shape = s.shape := rfl

theorem DestroyUnit_shape (s : Sys) : (DestroyUnit s).2.shape = s.shape := by
  simp only [DestroyUnit]
  have := destroyScan_heap s.ps.persistersMapByEpoch 0 s.w
  split <;> exact shape_of_heap rfl rfl this

theorem GetFromEpoch_shape (k : Bytes) (e : Nat) (s : Sys) :
    (GetFromEpoch k e s).2.shape = s.shape := by
  simp only [GetFromEpoch]
  split
  · rfl
  split
  · rfl
  next p hp =>
  split
  · exact shape_of_heap rfl rfl (get_heap _ _ _)
  · split
    · next e1 w1 h =>
      have := create_heap s.w (s.w.slots p).path
      rw [h] at this
      exact shape_of_heap rfl rfl this
    · next hd w1 h =>
      have hc := create_heap s.w (s.w.slots p).path
      rw [h] at hc
      split
      · next e2 w2 h2 =>
        have := init_heap w1 hd
        rw [h2] at this
        exact shape_of_heap rfl rfl (by rw [close_heap, this, hc])
      · next w2 h2 =>
        have hi := init_heap w1 hd
        rw [h2] at hi
        split
        · next res w3 h3 =>
          have := get_heap w2 hd k
          rw [h3] at this
          exact shape_of_heap rfl rfl (by rw [close_heap, this, hi, hc])
        · next e3 w3 h3 =>
          have := get_heap w2 hd k
          rw [h3] at this
          exact shape_of_heap rfl rfl (by rw [close_heap, this, hi, hc])

theorem HasInEpoch_shape (k : Bytes) (e : Nat) (s : Sys) :
    (HasInEpoch k e s).2.shape = s.shape := by
  simp only [HasInEpoch]
  split
  · rfl
  split
  · split
    · rfl
    next p hp =>
    split
    · exact shape_of_heap rfl rfl (has_heap _ _ _)
    · split
      · next e1 w1 h =>
        have := create_heap s.w (s.w.slots p).path
        rw [h] at this
        exact shape_of_heap rfl rfl this
      · next hd w1 h =>
        have hc := create_heap s.w (s.w.slots p).path
        rw [h] at hc
        split
        · next e2 w2 h2 =>
          have := init_heap w1 hd
          rw [h2] at this
          exact shape_of_heap rfl rfl (by rw [close_heap, this, hc])
        · next w2 h2 =>
          have hi := init_heap w1 hd
          rw [h2] at hi
          exact shape_of_heap rfl rfl (by rw [close_heap, has_heap, hi, hc])
  · rfl

/-! ## What a successful rotation has done -/

theorem changeEpoch_ok {e : Nat} {s s1 : Sys} (h : changeEpoch e s = (none, s1)) :
    s.w.fault s.w.calls.length = none ∧ s.w.fault (s.w.calls.length + 1) = none ∧
    closeAndDestroyPersisters e (s.withNewPersister e) = (none, s1) := by
  simp only [changeEpoch] at h
  split at h
  · simp at h
  next db w1 hc =>
  obtain ⟨hf, rfl, rfl⟩ := create_ok hc
  split at h
  · simp at h
  next w3 hi =>
  obtain ⟨hf2, d, hd, hph, rfl⟩ := init_ok hi
  simp [World.alloc] at hd
  subst hd
  refine ⟨hf, ?_, ?_⟩
  · simpa [World.failure, World.alloc] using hf2
  · rw [← h]
    congr 1
    simp [Sys.withNewPersister, World.withNewPersister, World.alloc]

theorem closeOldest_ok {e : Nat} {s s1 : Sys} (h : closeOldest e s = (none, s1)) :
    (¬ s.ps.numOfActivePersisters < u32 s.ps.activePersisters.length ∧ s1 = s) ∨
    (s.ps.numOfActivePersisters < u32 s.ps.activePersisters.length ∧
      ∃ p d, s.ps.activePersisters[s.ps.numOfActivePersisters]? = some p ∧
        s.w.failure = none ∧ s.w.dbs[(s.w.slots p).persister]? = some d ∧
        (d.phase = .created ∨ d.phase = .opened) ∧ s1 = s.withOldestClosed e p) := by
  simp only [closeOldest] at h
  split at h
  · next hlt =>
    right
    refine ⟨hlt, ?_⟩
    split at h
    · simp at h
    next p hp =>
    split at h
    · simp at h
    next w1 hcl =>
    obtain ⟨hf, d, hd, hph, rfl⟩ := close_ok hcl
    refine ⟨p, d, hp, hf, hd, hph, ?_⟩
    simp only [Prod.mk.injEq, true_and] at h
    rw [← h]
    simp [Sys.withOldestClosed, markClosed, hd]
  · next hlt =>
    left
    simp only [Prod.mk.injEq, true_and] at h
    exact ⟨hlt, h.symm⟩

theorem destroyOldest_ok {e : Nat} {s s1 : Sys} (h : destroyOldest e s = (none, s1)) :
    (¬ (s.ps.fullArchive = false ∧ u32 s.ps.persistersMapByEpoch.length > s.ps.numOfEpochsToKeep)
      ∧ s1 = s) ∨
    (s.ps.fullArchive = false ∧ u32 s.ps.persistersMapByEpoch.length > s.ps.numOfEpochsToKeep ∧
      ∃ p d, assocGet (subU32 e s.ps.numOfEpochsToKeep) s.ps.persistersMapByEpoch = some p ∧
        s.w.failure = none ∧ s.w.dbs[(s.w.slots p).persister]? = some d ∧
        s1 = s.withOldestDestroyed e p) := by
  simp only [destroyOldest] at h
  split at h
  · next hc =>
    right
    simp only [Bool.not_eq_true'] at hc
    refine ⟨hc.1, hc.2, ?_⟩
    split at h
    · simp at h
    next p hp =>
    split at h
    · simp at h
    next w1 hds =>
    obtain ⟨hf, d, hd, rfl⟩ := destroyClosed_ok hds
    refine ⟨p, d, hp, hf, hd, ?_⟩
    simp only [Prod.mk.injEq, true_and] at h
    rw [← h]
    simp [Sys.withOldestDestroyed, World.removeDirectoryIfEmpty, World.record, hd]
  · next hc =>
    left
    simp only [Bool.not_eq_true'] at hc
    simp only [Prod.mk.injEq, true_and] at h
    exact ⟨hc, h.symm⟩

theorem closeAndDestroyPersisters_ok {e : Nat} {s s2 : Sys}
    (h : closeAndDestroyPersisters e s = (none, s2)) :
    ∃ s1, closeOldest e s = (none, s1) ∧ destroyOldest e s1 = (none, s2) := by
  simp only [closeAndDestroyPersisters] at h
  split at h
  · simp at h
  · next s1 h1 => exact ⟨s1, h1, h⟩

/-! ## Reachable states -/

section assoc
variable {α β : Type} [DecidableEq α]

theorem mem_assocPut {k : α} {v : β} {l : List (α × β)} {x : α × β}
    (h : x ∈ assocPut k v l) : x = (k, v) ∨ x ∈ l := by
  induction l with
  | nil => simp [assocPut] at h; exact Or.inl h
  | cons hd t ih =>
    obtain ⟨k', v'⟩ := hd
    by_cases hk : k' = k
    · simp only [assocPut, hk, if_true, List.mem_cons] at h
      rcases h with h | h
      · exact Or.inl h
      · exact Or.inr (List.mem_cons_of_mem _ h)
    · simp only [assocPut, hk, if_false, List.mem_cons] at h
      rcases h with h | h
      · exact Or.inr (by simp [h])
      · rcases ih h with h | h
        · exact Or.inl h
        · exact Or.inr (List.mem_cons_of_mem _ h)

theorem mem_assocDel {k : α} {l : List (α × β)} {x : α × β}
    (h : x ∈ assocDel k l) : x ∈ l := by
  induction l with
  | nil => simp [assocDel] at h
  | cons hd t ih =>
    obtain ⟨k', v'⟩ := hd
    by_cases hk : k' = k
    · simp only [assocDel, hk, if_true] at h
      exact List.mem_cons_of_mem _ (ih h)
    · simp only [assocDel, hk, if_false, List.mem_cons] at h
      rcases h with h | h
      · simp [h]
      · exact List.mem_cons_of_mem _ (ih h)

end assoc

theorem HeapOk_of_shape {s s1 : Sys} (h : s1.shape = s.shape) (hs : HeapOk s) : HeapOk s1 := by
  simp only [Sys.shape, Prod.mk.injEq] at h
  obtain ⟨ha, hm, -, hn⟩ := h
  simpa only [HeapOk, ha, hm, hn] using hs

theorem closeOldest_HeapOk (e : Nat) {s : Sys} (hs : HeapOk s) : HeapOk (closeOldest e s).2 := by
  simp only [closeOldest]
  split
  · split
    · exact hs
    next p hp =>
    have hmem : p ∈ s.ps.activePersisters := List.getElem?_mem hp
    have hcl := close_heap s.w (s.w.slots p).persister
    split
    · next e1 w1 h =>
      rw [h] at hcl
      have hn : w1.nextSlot = s.w.nextSlot := heap_nextSlot hcl
      exact ⟨by simpa [hn] using hs.1, by simpa [hn] using hs.2⟩
    · next w1 h =>
      rw [h] at hcl
      have hn : w1.nextSlot = s.w.nextSlot := heap_nextSlot hcl
      refine ⟨?_, ?_⟩
      · intro q hq
        simp only [markClosed, hn]
        exact hs.1 q (List.mem_of_mem_take hq)
      · intro x hx
        simp only [markClosed, hn]
        rcases mem_assocPut hx with rfl | hx
        · exact hs.1 p hmem
        · exact hs.2 x hx
  · exact hs

theorem destroyOldest_HeapOk (e : Nat) {s : Sys} (hs : HeapOk s) :
    HeapOk (destroyOldest e s).2 := by
  simp only [destroyOldest]
  split
  · split
    · exact hs
    next p hp =>
    have hd := destroyClosed_heap s.w (s.w.slots p).persister
    split
    · next e1 w1 h =>
      rw [h] at hd
      have hn : w1.nextSlot = s.w.nextSlot := heap_nextSlot hd
      exact ⟨by simpa [hn] using hs.1, fun x hx => by simpa [hn] using hs.2 x (mem_assocDel hx)⟩
    · next w1 h =>
      rw [h] at hd
      have hn : w1.nextSlot = s.w.nextSlot := heap_nextSlot hd
      exact ⟨by simpa [World.removeDirectoryIfEmpty, World.record, hn] using hs.1,
        fun x hx => by
          simpa [World.removeDirectoryIfEmpty, World.record, hn] using hs.2 x (mem_assocDel hx)⟩
  · exact hs

theorem closeAndDestroyPersisters_HeapOk (e : Nat) {s : Sys} (hs : HeapOk s) :
    HeapOk (closeAndDestroyPersisters e s).2 := by
  simp only [closeAndDestroyPersisters]
  have h1 := closeOldest_HeapOk e hs
  split
  · next e1 s1 h => rw [h] at h1; exact h1
  · next s1 h => rw [h] at h1; exact destroyOldest_HeapOk e h1

theorem changeEpoch_HeapOk (e : Nat) {s : Sys} (hs : HeapOk s) : HeapOk (changeEpoch e s).2 := by
  simp only [changeEpoch]
  split
  · next e1 w1 h =>
    have hc := create_heap s.w (getNewFilePath s.ps.dbPath e)
    rw [h] at hc
    have hn : w1.nextSlot = s.w.nextSlot := heap_nextSlot hc
    exact ⟨by simpa [hn] using hs.1, by simpa [hn] using hs.2⟩
  · next db w1 h =>
    have hc := create_heap s.w (getNewFilePath s.ps.dbPath e)
    rw [h] at hc
    have hn : w1.nextSlot = s.w.nextSlot := heap_nextSlot hc
    have hmid : ∀ w3 : World, w3.nextSlot = w1.nextSlot + 1 →
        HeapOk ⟨{ s.ps with
          activePersisters := w1.nextSlot :: s.ps.activePersisters
          persistersMapByEpoch := assocPut e w1.nextSlot s.ps.persistersMapByEpoch }, w3⟩ := by
      intro w3 h3
      refine ⟨?_, ?_⟩
      · intro q hq
        simp only [List.mem_cons] at hq
        simp only [h3, hn]
        rcases hq with rfl | hq
        · omega
        · have := hs.1 q hq
          omega
      · intro x hx
        simp only [h3, hn]
        rcases mem_assocPut hx with rfl | hx
        · simp only
          omega
        · have := hs.2 x hx
          omega
    have hi := init_heap (w1.alloc ⟨db, getNewFilePath s.ps.dbPath e, false⟩)
      ((w1.alloc ⟨db, getNewFilePath s.ps.dbPath e, false⟩).slots w1.nextSlot).persister
    split
    · next e2 w3 h3 =>
      rw [h3] at hi
      exact hmid w3 (by simpa [World.alloc] using heap_nextSlot hi)
    · next w3 h3 =>
      rw [h3] at hi
      exact closeAndDestroyPersisters_HeapOk e
        (hmid w3 (by simpa [World.alloc] using heap_nextSlot hi))

/-- Facts that hold in every reachable state: the window of active persisters
is positive, the configuration fits `uint32`, the pointers are allocated. -/
theorem reachable_basic {s : Sys} (h : Reachable s) :
    1 ≤ s.ps.numOfActivePersisters ∧ s.ps.numOfActivePersisters < 4294967296 ∧
    s.ps.numOfEpochsToKeep < 4294967296 ∧ HeapOk s := by
  have cfg : ∀ {s s1 : Sys}, s1.ps.config = s.ps.config →
      (1 ≤ s.ps.numOfActivePersisters ∧ s.ps.numOfActivePersisters < 4294967296 ∧
        s.ps.numOfEpochsToKeep < 4294967296) →
      (1 ≤ s1.ps.numOfActivePersisters ∧ s1.ps.numOfActivePersisters < 4294967296 ∧
        s1.ps.numOfEpochsToKeep < 4294967296) := by
    intro s s1 hc hs
    simp only [PruningStorer.config, Prod.mk.injEq] at hc
    obtain ⟨-, -, hk, ha, -⟩ := hc
    rw [hk, ha]
    exact hs
  induction h with
  | @construct args shard w w1 ps hA hK hinit =>
    obtain ⟨h1, -, -, hk, ha, -, hact, hmap, -, -, hn, -⟩ := init_success hinit
    refine ⟨by simpa [ha] using h1, by simpa [ha] using hA, by simpa [hk] using hK, ?_, ?_⟩
    · intro p hp
      simp only [hact, List.mem_singleton] at hp
      simp only [hn]
      omega
    · intro x hx
      simp only [hmap, List.mem_singleton] at hx
      simp only [hn, hx]
      omega
  | afterPut k v _ ih =>
    obtain ⟨a, b, c, d⟩ := ih
    exact ⟨(cfg (Put_config k v _) ⟨a, b, c⟩).1, (cfg (Put_config k v _) ⟨a, b, c⟩).2.1,
      (cfg (Put_config k v _) ⟨a, b, c⟩).2.2, HeapOk_of_shape (Put_shape k v _) d⟩
  | afterGet k _ ih =>
    obtain ⟨a, b, c, d⟩ := ih
    exact ⟨(cfg (Get_config k _) ⟨a, b, c⟩).1, (cfg (Get_config k _) ⟨a, b, c⟩).2.1,
      (cfg (Get_config k _) ⟨a, b, c⟩).2.2, HeapOk_of_shape (Get_shape k _) d⟩
  | afterGetFromEpoch k e _ ih =>
    obtain ⟨a, b, c, d⟩ := ih
    exact ⟨(cfg (GetFromEpoch_config k e _) ⟨a, b, c⟩).1,
      (cfg (GetFromEpoch_config k e _) ⟨a, b, c⟩).2.1,
      (cfg (GetFromEpoch_config k e _) ⟨a, b, c⟩).2.2,
      HeapOk_of_shape (GetFromEpoch_shape k e _) d⟩
  | afterHas k _ ih =>
    obtain ⟨a, b, c, d⟩ := ih
    exact ⟨(cfg (Has_config k _) ⟨a, b, c⟩).1, (cfg (Has_config k _) ⟨a, b, c⟩).2.1,
      (cfg (Has_config k _) ⟨a, b, c⟩).2.2, HeapOk_of_shape (Has_shape k _) d⟩
  | afterHasInEpoch k e _ ih =>
    obtain ⟨a, b, c, d⟩ := ih
    exact ⟨(cfg (HasInEpoch_config k e _) ⟨a, b, c⟩).1,
      (cfg (HasInEpoch_config k e _) ⟨a, b, c⟩).2.1,
      (cfg (HasInEpoch_config k e _) ⟨a, b, c⟩).2.2,
      HeapOk_of_shape (HasInEpoch_shape k e _) d⟩
  | afterRemove k _ ih =>
    obtain ⟨a, b, c, d⟩ := ih
    exact ⟨(cfg (Remove_config k _) ⟨a, b, c⟩).1, (cfg (Remove_config k _) ⟨a, b, c⟩).2.1,
      (cfg (Remove_config k _) ⟨a, b, c⟩).2.2, HeapOk_of_shape (Remove_shape k _) d⟩
  | afterClearCache _ ih => exact ih
  | afterDestroyUnit _ ih =>
    obtain ⟨a, b, c, d⟩ := ih
    exact ⟨(cfg (DestroyUnit_config _) ⟨a, b, c⟩).1, (cfg (DestroyUnit_config _) ⟨a, b, c⟩).2.1,
      (cfg (DestroyUnit_config _) ⟨a, b, c⟩).2.2, HeapOk_of_shape (DestroyUnit_shape _) d⟩
  | afterChangeEpoch e _ _ ih =>
    obtain ⟨a, b, c, d⟩ := ih
    exact ⟨(cfg (changeEpoch_config e _) ⟨a, b, c⟩).1, (cfg (changeEpoch_config e _) ⟨a, b, c⟩).2.1,
      (cfg (changeEpoch_config e _) ⟨a, b, c⟩).2.2, changeEpoch_HeapOk e d⟩
  | afterEviction c _ _ ih => exact ih

/-! ## The state after a rotation -/

theorem u32_of_lt {n : Nat} (h : n < 4294967296) : u32 n = n := Nat.mod_eq_of_lt h

theorem subU32_ne_self {e a : Nat} (he : e < 4294967296) (ha1 : 1 ≤ a) (ha : a < 4294967296) :
    subU32 e a ≠ e := by
  simp only [subU32, u32_of_lt he, u32_of_lt ha]
  by_cases h : a ≤ e
  · have : e + 4294967296 - a = (e - a) + 4294967296 := by omega
    rw [this, Nat.add_mod_right, Nat.mod_eq_of_lt (by omega)]
    omega
  · rw [Nat.mod_eq_of_lt (by omega)]
    omega

/-- Rotation postcondition, for any state with allocated pointers. -/
theorem changeEpoch_post {s s1 : Sys} {E : Nat}
    (hA1 : 1 ≤ s.ps.numOfActivePersisters) (hA : s.ps.numOfActivePersisters < 4294967296)
    (hK1 : 1 ≤ s.ps.numOfEpochsToKeep) (hK : s.ps.numOfEpochsToKeep < 4294967296)
    (hheap : HeapOk s) (hE : E < 4294967296)
    (hlen : s.ps.activePersisters.length + 1 < 4294967296)
    (h : changeEpoch E s = (none, s1)) :
    s1.ps.activePersisters.length ≤ s1.ps.numOfActivePersisters ∧
    s1.ps.activePersisters[0]? = some s.w.nextSlot ∧
    assocGet E s1.ps.persistersMapByEpoch = some s.w.nextSlot ∧
    s1.w.slots s.w.nextSlot =
      { persister := s.w.dbs.length, path := getNewFilePath s.ps.dbPath E, isClosed := false } := by
  obtain ⟨-, -, hcd⟩ := changeEpoch_ok h
  obtain ⟨s2, hclose, hdestroy⟩ := closeAndDestroyPersisters_ok hcd
  -- after the first block
  have h2 : s2.ps.numOfActivePersisters = s.ps.numOfActivePersisters ∧
      s2.ps.numOfEpochsToKeep = s.ps.numOfEpochsToKeep ∧
      s2.ps.activePersisters.length ≤ s.ps.numOfActivePersisters ∧
      s2.ps.activePersisters[0]? = some s.w.nextSlot ∧
      assocGet E s2.ps.persistersMapByEpoch = some s.w.nextSlot ∧
      s2.w.slots s.w.nextSlot =
        { persister := s.w.dbs.length, path := getNewFilePath s.ps.dbPath E,
          isClosed := false } := by
    rcases closeOldest_ok hclose with ⟨hlt, rfl⟩ | ⟨hlt, p, d, hp, -, -, -, rfl⟩
    · simp only [Sys.withNewPersister, List.length_cons, u32_of_lt hlen] at hlt
      refine ⟨rfl, rfl, ?_, ?_, ?_, ?_⟩
      · simp only [Sys.withNewPersister, List.length_cons]
        omega
      · simp [Sys.withNewPersister]
      · simp [Sys.withNewPersister]
      · simp [Sys.withNewPersister, World.withNewPersister]
    · have hne : subU32 E s.ps.numOfActivePersisters ≠ E := subU32_ne_self hE hA1 hA
      have hpold : p ∈ s.ps.activePersisters := by
        simp only [Sys.withNewPersister] at hp
        obtain ⟨n, hn⟩ : ∃ n, s.ps.numOfActivePersisters = n + 1 := ⟨_, (Nat.sub_add_cancel hA1).symm⟩
        rw [hn, List.getElem?_cons_succ] at hp
        exact List.getElem?_mem hp
      have hpne : p ≠ s.w.nextSlot := Nat.ne_of_lt (hheap.1 p hpold)
      refine ⟨rfl, rfl, ?_, ?_, ?_, ?_⟩
      · simp only [Sys.withOldestClosed, Sys.withNewPersister, List.length_take]
        omega
      · obtain ⟨n, hn⟩ : ∃ n, s.ps.numOfActivePersisters = n + 1 := ⟨_, (Nat.sub_add_cancel hA1).symm⟩
        simp [Sys.withOldestClosed, Sys.withNewPersister, hn]
      · simp only [Sys.withOldestClosed, Sys.withNewPersister]
        rw [assocGet_assocPut_ne (Ne.symm hne), assocGet_assocPut_self]
      · simp only [Sys.withOldestClosed, Sys.withNewPersister, World.withNewPersister]
        rw [Function.update_noteq (Ne.symm hpne), Function.update_same]
  obtain ⟨hA2, hK2, hl2, h0, hm, hsl⟩ := h2
  rcases destroyOldest_ok hdestroy with ⟨-, rfl⟩ | ⟨-, -, p, d, -, -, -, rfl⟩
  · exact ⟨by rw [hA2]; exact hl2, h0, hm, hsl⟩
  · have hne : subU32 E s2.ps.numOfEpochsToKeep ≠ E := by
      rw [hK2]
      exact subU32_ne_self hE hK1 hK
    refine ⟨by simpa [Sys.withOldestDestroyed, hA2] using hl2, by simpa [Sys.withOldestDestroyed] using h0, ?_, ?_⟩
    · simp only [Sys.withOldestDestroyed]
      rw [assocGet_assocDel_ne (Ne.symm hne)]
      exact hm
    · simpa [Sys.withOldestDestroyed] using hsl

/-! ## Put and the scenario state -/

theorem scenarioStart_built :
    NewPruningStorer scenarioArgs (World.fresh fun _ => none) =
      (.ok scenarioStart.ps, scenarioStart.w) := rfl

theorem scenarioStart_reachable : Reachable scenarioStart :=
  @Reachable.construct scenarioArgs "" _ _ _ (by decide) (by decide) scenarioStart_built

theorem filterAllows_after_add (bf : Option BloomFilter) (k : Bytes) :
    filterAllows (bf.map fun f => f.Add k) k = true := by
  cases bf with
  | none => rfl
  | some f => simp [filterAllows, BloomFilter.MayContain, BloomFilter.Add]

/-- What a successful `Put` has done. -/
theorem Put_ok {k v : Bytes} {s s1 : Sys} (h : Put k v s = (none, s1)) :
    ∃ p d kv, s.ps.activePersisters[0]? = some p ∧ s.w.failure = none ∧
      s.w.dbs[(s.w.slots p).persister]? = some d ∧ d.phase = .opened ∧
      assocGet d.path s.w.disk = some kv ∧
      s1.ps.cacher = s.ps.cacher.Put k v ∧
      s1.ps.bloomFilter = s.ps.bloomFilter.map (fun f => f.Add k) ∧
      s1.ps.activePersisters = s.ps.activePersisters ∧
      s1.ps.persistersMapByEpoch = s.ps.persistersMapByEpoch ∧
      s1.ps.config = s.ps.config ∧
      s1.w.disk = assocPut d.path (assocPut k v kv) s.w.disk ∧
      s1.w.dbs = s.w.dbs ∧ s1.w.slots = s.w.slots ∧ s1.w.nextSlot = s.w.nextSlot ∧
      s1.w.calls = .put (s.w.slots p).persister k v :: s.w.calls ∧ s1.w.fault = s.w.fault := by
  simp only [Put] at h
  split at h
  · simp at h
  next p hp =>
  split at h
  · simp at h
  next w1 hput =>
  obtain ⟨hf, d, kv, hd, hph, hkv, rfl⟩ := put_ok hput
  simp only [Prod.mk.injEq, true_and] at h
  subst h
  exact ⟨p, d, kv, hp, hf, hd, hph, hkv, rfl, rfl, rfl, rfl, rfl, rfl, rfl, rfl, rfl, rfl, rfl⟩

/-! ## Lists of consecutive epochs -/

theorem descFrom_length (n m : Nat) : (descFrom n m).length = m := by
  induction m generalizing n with
  | zero => rfl
  | succ m ih => simp [descFrom, ih]

theorem descFrom_getElem? (n m i : Nat) :
    (descFrom n m)[i]? = if i < m then some (n - i) else none := by
  induction m generalizing n i with
  | zero => simp [descFrom]
  | succ m ih =>
    cases i with
    | zero => simp [descFrom]
    | succ i =>
      simp only [descFrom, List.getElem?_cons_succ, ih, Nat.add_lt_add_iff_right]
      split
      · congr 1
        omega
      · rfl

theorem descFrom_take (n m j : Nat) : (descFrom n m).take j = descFrom n (min j m) := by
  induction m generalizing n j with
  | zero => simp [descFrom]
  | succ m ih =>
    cases j with
    | zero => simp [descFrom]
    | succ j =>
      simp only [descFrom, List.take_succ_cons, ih, Nat.add_min_add_right]

theorem descFrom_append (n m j : Nat) :
    descFrom n (m + j) = descFrom n m ++ descFrom (n - m) j := by
  induction m generalizing n with
  | zero => simp [descFrom]
  | succ m ih =>
    have : m + 1 + j = (m + j) + 1 := by omega
    rw [this]
    simp only [descFrom, List.cons_append, ih]
    have h2 : n - 1 - m = n - (m + 1) := by omega
    rw [h2]

theorem mem_descFrom {n m p : Nat} (h : p ∈ descFrom n m) (hm : m ≤ n + 1) :
    n + 1 - m ≤ p ∧ p ≤ n := by
  induction m generalizing n with
  | zero => simp [descFrom] at h
  | succ m ih =>
    simp only [descFrom, List.mem_cons] at h
    rcases h with rfl | h
    · omega
    · cases m with
      | zero => simp [descFrom] at h
      | succ m =>
        have := ih h (by omega)
        omega

theorem idMap_length (lo len : Nat) : (idMap lo len).length = len := by
  induction len generalizing lo with
  | zero => rfl
  | succ len ih => simp [idMap, ih]

theorem assocGet_idMap (lo len e : Nat) :
    assocGet e (idMap lo len) = if lo ≤ e ∧ e < lo + len then some e else none := by
  induction len generalizing lo with
  | zero =>
    rw [if_neg (by omega)]
    rfl
  | succ len ih =>
    simp only [idMap, assocGet, ih]
    by_cases h : lo = e
    · subst h
      simp
    · simp only [h, if_false]
      congr 1
      apply propext
      constructor <;> intro h' <;> omega

theorem assocPut_idMap_new (lo len : Nat) :
    assocPut (lo + len) (lo + len) (idMap lo len) = idMap lo (len + 1) := by
  induction len generalizing lo with
  | zero => simp [idMap, assocPut]
  | succ len ih =>
    have hne : ¬ lo = lo + (len + 1) := by omega
    have h2 : lo + (len + 1) = (lo + 1) + len := by omega
    rw [idMap, assocPut, if_neg hne, h2, ih]
    rfl

theorem assocPut_idMap_old (lo len e : Nat) (h1 : lo ≤ e) (h2 : e < lo + len) :
    assocPut e e (idMap lo len) = idMap lo len := by
  induction len generalizing lo with
  | zero => omega
  | succ len ih =>
    by_cases h : lo = e
    · subst h
      simp [idMap, assocPut]
    · rw [idMap, assocPut, if_neg h, ih (lo + 1) (by omega) (by omega)]

theorem assocDel_idMap_none (lo len e : Nat) (h : e < lo) :
    assocDel e (idMap lo len) = idMap lo len := by
  induction len generalizing lo with
  | zero => rfl
  | succ len ih =>
    have hne : ¬ lo = e := by omega
    rw [idMap, assocDel, if_neg hne, ih (lo + 1) (by omega)]

theorem assocDel_idMap_head (lo len : Nat) :
    assocDel lo (idMap lo (len + 1)) = idMap (lo + 1) len := by
  rw [idMap, assocDel, if_pos rfl, assocDel_idMap_none _ _ _ (by omega)]

/-! ## What client operations leave untouched -/

theorem wframe_refl (allowed : String → Prop) (w : World) : WFrame allowed w w :=
  ⟨List.prefix_refl _, rfl, rfl, fun _ h => h, fun _ h => h, fun _ h => Or.inl h⟩

theorem wkeeps_refl (k : Bytes) (w : World) : WKeeps k w w := fun _ => rfl

theorem wframe_record {allowed : String → Prop} {w w1 : World} (h : WFrame allowed w w1)
    (c : Call) : WFrame allowed w (w1.record c) :=
  ⟨h.dbs, h.heap, h.fault, fun x hx => List.mem_cons_of_mem _ (h.calls x hx), h.dirs, h.fresh⟩

theorem isSome_assocGet_assocPut {α β : Type} [DecidableEq α] {k k' : α} {v : β}
    {l : List (α × β)} (h : (assocGet k l).isSome) :
    (assocGet k' (assocPut k v l)).isSome = (assocGet k' l).isSome := by
  by_cases hk : k' = k
  · subst hk
    simp [h]
  · rw [assocGet_assocPut_ne hk]

/-- A world that differs from `w1` by the call log and by the content of one
existing directory. -/
theorem wframe_content {allowed : String → Prop} {w w1 w2 : World} (h : WFrame allowed w w1)
    (hdbs : w2.dbs = w1.dbs) (hheap : w2.heap = w1.heap) (hfault : w2.fault = w1.fault)
    (hcalls : ∀ c, c ∈ w1.calls → c ∈ w2.calls)
    (hdisk : ∀ p, (assocGet p w2.disk).isSome = (assocGet p w1.disk).isSome) :
    WFrame allowed w w2 :=
  ⟨hdbs ▸ h.dbs, hheap.trans h.heap, hfault.trans h.fault, fun c hc => hcalls c (h.calls c hc),
    fun p hp => by rw [hdisk]; exact h.dirs p hp,
    fun p hp => h.fresh p (by rw [← hdisk]; exact hp)⟩

theorem get_world (w : World) (h : Nat) (k : Bytes) : (w.get h k).2 = w.record (.get h k) := by
  simp only [World.get]
  repeat' split
  all_goals rfl

theorem wframe_get {allowed : String → Prop} {w w1 : World} (h : WFrame allowed w w1)
    (hd : Nat) (k : Bytes) : WFrame allowed w (w1.get hd k).2 := by
  rw [get_world]
  exact wframe_record h _

theorem has_world (w : World) (h : Nat) (k : Bytes) : (w.has h k).2 = w.record (.has h k) := by
  simp only [World.has]
  repeat' split
  all_goals rfl

theorem wframe_has {allowed : String → Prop} {w w1 : World} (h : WFrame allowed w w1)
    (hd : Nat) (k : Bytes) : WFrame allowed w (w1.has hd k).2 := by
  rw [has_world]
  exact wframe_record h _

/-- The world after a persister's `put`: the call is logged and, when the call
succeeds, the directory of the persister has the new binding. -/
theorem put_world (w : World) (h : Nat) (k v : Bytes) :
    (w.put h k v).2 = w.record (.put h k v) ∨
    ∃ (d : Db) (kv : List (Bytes × Bytes)), assocGet d.path w.disk = some kv ∧
      (w.put h k v).2 = { w with calls := .put h k v :: w.calls
                                 disk := assocPut d.path (assocPut k v kv) w.disk } := by
  cases hr : w.put h k v with
  | mk r w1 =>
    cases r with
    | some e =>
      left
      simp only [World.put] at hr
      repeat' split at hr
      all_goals simp only [Prod.mk.injEq] at hr
      all_goals first
        | exact hr.2.symm
        | (exfalso; simp at hr)
    | none =>
      right
      obtain ⟨-, d, kv, -, -, hkv, rfl⟩ := put_ok hr
      exact ⟨d, kv, hkv, rfl⟩

theorem remove_world (w : World) (h : Nat) (k : Bytes) :
    (w.remove h k).2 = w.record (.remove h k) ∨
    ∃ (d : Db) (kv : List (Bytes × Bytes)), assocGet d.path w.disk = some kv ∧
      (w.remove h k).2 = { w with calls := .remove h k :: w.calls
                                  disk := assocPut d.path (assocDel k kv) w.disk } := by
  cases hr : w.remove h k with
  | mk r w1 =>
    cases r with
    | some e =>
      left
      simp only [World.remove] at hr
      repeat' split at hr
      all_goals simp only [Prod.mk.injEq] at hr
      all_goals first
        | exact hr.2.symm
        | (exfalso; simp at hr)
    | none =>
      right
      obtain ⟨-, d, kv, -, -, hkv, rfl⟩ := remove_ok hr
      exact ⟨d, kv, hkv, rfl⟩

theorem wframe_put {allowed : String → Prop} {w w1 : World} (h : WFrame allowed w w1)
    (hd : Nat) (k v : Bytes) : WFrame allowed w (w1.put hd k v).2 := by
  rcases put_world w1 hd k v with hr | ⟨d, kv, hkv, hr⟩
  · rw [hr]
    exact wframe_record h _
  · rw [hr]
    exact wframe_content h rfl rfl rfl (fun c hc => List.mem_cons_of_mem _ hc)
      (fun p => isSome_assocGet_assocPut (by rw [hkv]; rfl))

theorem wframe_remove {allowed : String → Prop} {w w1 : World} (h : WFrame allowed w w1)
    (hd : Nat) (k : Bytes) : WFrame allowed w (w1.remove hd k).2 := by
  rcases remove_world w1 hd k with hr | ⟨d, kv, hkv, hr⟩
  · rw [hr]
    exact wframe_record h _
  · rw [hr]
    exact wframe_content h rfl rfl rfl (fun c hc => List.mem_cons_of_mem _ hc)
      (fun p => isSome_assocGet_assocPut (by rw [hkv]; rfl))

theorem keyAt_assocPut_other {disk : List (String × List (Bytes × Bytes))} {p q : String}
    {kv : List (Bytes × Bytes)} (k : Bytes) (h : q ≠ p) :
    keyAt (assocPut p kv disk) q k = keyAt disk q k := by
  simp only [keyAt, assocGet_assocPut_ne h]

theorem keyAt_assocPut_same {disk : List (String × List (Bytes × Bytes))} {p : String}
    {kv : List (Bytes × Bytes)} (k : Bytes) :
    keyAt (assocPut p kv disk) p k = assocGet k kv := by
  simp only [keyAt, assocGet_assocPut_self]

theorem wkeeps_get {k : Bytes} {w w1 : World} (h : WKeeps k w w1) (hd : Nat) (k1 : Bytes) :
    WKeeps k w (w1.get hd k1).2 := by
  rw [get_world]
  exact h

theorem wkeeps_has {k : Bytes} {w w1 : World} (h : WKeeps k w w1) (hd : Nat) (k1 : Bytes) :
    WKeeps k w (w1.has hd k1).2 := by
  rw [has_world]
  exact h

theorem wkeeps_put {k : Bytes} {w w1 : World} (h : WKeeps k w w1) (hd : Nat) {k1 : Bytes}
    (v1 : Bytes) (hk : k1 ≠ k) : WKeeps k w (w1.put hd k1 v1).2 := by
  rcases put_world w1 hd k1 v1 with hr | ⟨d, kv, hkv, hr⟩
  · rw [hr]
    exact h
  · rw [hr]
    intro p
    rw [← h p]
    by_cases hp : p = d.path
    · subst hp
      rw [keyAt_assocPut_same]
      simp only [keyAt, hkv]
      exact assocGet_assocPut_ne (Ne.symm hk) _ _
    · exact keyAt_assocPut_other k hp

theorem wkeeps_remove {k : Bytes} {w w1 : World} (h : WKeeps k w w1) (hd : Nat) {k1 : Bytes}
    (hk : k1 ≠ k) : WKeeps k w (w1.remove hd k1).2 := by
  rcases remove_world w1 hd k1 with hr | ⟨d, kv, hkv, hr⟩
  · rw [hr]
    exact h
  · rw [hr]
    intro p
    rw [← h p]
    by_cases hp : p = d.path
    · subst hp
      rw [keyAt_assocPut_same]
      simp only [keyAt, hkv]
      exact assocGet_assocDel_ne (Ne.symm hk) _
    · exact keyAt_assocPut_other k hp

theorem getScan_wframe {allowed : String → Prop} (bf : Option BloomFilter) (k : Bytes)
    (l : List Nat) : ∀ {w w1 : World}, WFrame allowed w w1 →
      WFrame allowed w (getScan bf k l w1).2 := by
  induction l with
  | nil => intro w w1 h; exact h
  | cons p t ih =>
    intro w w1 h
    simp only [getScan]
    split
    · have hg := wframe_get h (w1.slots p).persister k
      split
      · next v w2 hs => rw [hs] at hg; exact hg
      · next e w2 hs => rw [hs] at hg; exact ih hg
    · exact ih h

theorem getScan_wkeeps (k0 : Bytes) (bf : Option BloomFilter) (k : Bytes)
    (l : List Nat) : ∀ {w w1 : World}, WKeeps k0 w w1 → WKeeps k0 w (getScan bf k l w1).2 := by
  induction l with
  | nil => intro w w1 h; exact h
  | cons p t ih =>
    intro w w1 h
    simp only [getScan]
    split
    · have hg := wkeeps_get h (w1.slots p).persister k
      split
      · next v w2 hs => rw [hs] at hg; exact hg
      · next e w2 hs => rw [hs] at hg; exact ih hg
    · exact ih h

theorem hasScan_wframe {allowed : String → Prop} (k : Bytes)
    (l : List Nat) : ∀ {w w1 : World}, WFrame allowed w w1 →
      WFrame allowed w (hasScan k l w1).2 := by
  induction l with
  | nil => intro w w1 h; exact h
  | cons p t ih =>
    intro w w1 h
    simp only [hasScan]
    have hg := wframe_has h (w1.slots p).persister k
    split
    · next w2 hs => rw [hs] at hg; exact hg
    · next e w2 hs => rw [hs] at hg; exact ih hg

theorem hasScan_wkeeps (k0 : Bytes) (k : Bytes)
    (l : List Nat) : ∀ {w w1 : World}, WKeeps k0 w w1 → WKeeps k0 w (hasScan k l w1).2 := by
  induction l with
  | nil => intro w w1 h; exact h
  | cons p t ih =>
    intro w w1 h
    simp only [hasScan]
    have hg := wkeeps_has h (w1.slots p).persister k
    split
    · next w2 hs => rw [hs] at hg; exact hg
    · next e w2 hs => rw [hs] at hg; exact ih hg

theorem removeScan_wframe {allowed : String → Prop} (k : Bytes)
    (l : List Nat) : ∀ {w w1 : World} (err : Option Error), WFrame allowed w w1 →
      WFrame allowed w (removeScan k l err w1).2 := by
  induction l with
  | nil => intro w w1 _ h; exact h
  | cons p t ih =>
    intro w w1 err h
    simp only [removeScan]
    have hg := wframe_remove h (w1.slots p).persister k
    split
    · next w2 hs => rw [hs] at hg; exact hg
    · next e w2 hs => rw [hs] at hg; exact ih _ hg

theorem removeScan_wkeeps {k0 k : Bytes} (hk : k ≠ k0)
    (l : List Nat) : ∀ {w w1 : World} (err : Option Error), WKeeps k0 w w1 →
      WKeeps k0 w (removeScan k l err w1).2 := by
  induction l with
  | nil => intro w w1 _ h; exact h
  | cons p t ih =>
    intro w w1 err h
    simp only [removeScan]
    have hg := wkeeps_remove h (w1.slots p).persister hk
    split
    · next w2 hs => rw [hs] at hg; exact hg
    · next e w2 hs => rw [hs] at hg; exact ih _ hg

/-! ### The transient reopening -/

theorem create_world (w : World) (p : String) :
    (w.create p).2 = w.record (.create p) ∨
    (w.create p).2 = { w with calls := .create p :: w.calls
                              dbs := w.dbs ++ [{ path := p, phase := .created }]
                              disk := match assocGet p w.disk with
                                | some _ => w.disk
                                | none => w.disk ++ [(p, [])] } := by
  simp only [World.create, World.record]
  split
  · left; rfl
  · right; rfl

theorem init_world (w : World) (h : Nat) :
    (w.init h).2 = w.record (.init h) ∨
    ∃ d, (w.init h).2 = { w with calls := .init h :: w.calls, dbs := w.dbs.set h d } := by
  simp only [World.init, World.record, World.setDb]
  repeat' split
  all_goals first
    | (left; rfl)
    | (right; exact ⟨_, rfl⟩)

theorem close_world (w : World) (h : Nat) :
    (w.close h).2 = w.record (.close h) ∨
    ∃ d, (w.close h).2 = { w with calls := .close h :: w.calls, dbs := w.dbs.set h d } := by
  simp only [World.close, World.record, World.setDb]
  repeat' split
  all_goals first
    | (left; rfl)
    | (right; exact ⟨_, rfl⟩)

theorem prefix_set {α : Type} {l l1 : List α} (h : List.IsPrefix l l1) {i : Nat}
    (hi : l.length ≤ i) (a : α) : List.IsPrefix l (l1.set i a) := by
  obtain ⟨t, rfl⟩ := h
  rw [List.set_append_right _ _ hi]
  exact List.prefix_append _ _

theorem wframe_create {allowed : String → Prop} {w w1 : World} (h : WFrame allowed w w1)
    {p : String} (hp : allowed p) : WFrame allowed w (w1.create p).2 := by
  rcases create_world w1 p with hr | hr
  · rw [hr]
    exact wframe_record h _
  · rw [hr]
    refine ⟨h.dbs.trans (List.prefix_append _ _), h.heap, h.fault,
      fun c hc => List.mem_cons_of_mem _ (h.calls c hc), ?_, ?_⟩
    · intro q hq
      have := h.dirs q hq
      simp only
      split
      · exact this
      · rw [assocGet_append_single]
        cases hg : assocGet q w1.disk with
        | none => simp [hg] at this
        | some kv => rfl
    · intro q hq
      simp only at hq
      split at hq
      · exact h.fresh q hq
      · rw [assocGet_append_single] at hq
        cases hg : assocGet q w1.disk with
        | none =>
          simp only [hg] at hq
          by_cases hpq : p = q
          · subst hpq
            exact Or.inr hp
          · simp [hpq] at hq
        | some kv => exact h.fresh q (by rw [hg]; rfl)

theorem wframe_init {allowed : String → Prop} {w w1 : World} (h : WFrame allowed w w1)
    {hd : Nat} (hh : w.dbs.length ≤ hd) : WFrame allowed w (w1.init hd).2 := by
  rcases init_world w1 hd with hr | ⟨d, hr⟩
  · rw [hr]
    exact wframe_record h _
  · rw [hr]
    exact ⟨prefix_set h.dbs hh d, h.heap, h.fault,
      fun c hc => List.mem_cons_of_mem _ (h.calls c hc), h.dirs, h.fresh⟩

theorem wframe_close {allowed : String → Prop} {w w1 : World} (h : WFrame allowed w w1)
    {hd : Nat} (hh : w.dbs.length ≤ hd) : WFrame allowed w (w1.close hd).2 := by
  rcases close_world w1 hd with hr | ⟨d, hr⟩
  · rw [hr]
    exact wframe_record h _
  · rw [hr]
    exact ⟨prefix_set h.dbs hh d, h.heap, h.fault,
      fun c hc => List.mem_cons_of_mem _ (h.calls c hc), h.dirs, h.fresh⟩

theorem wkeeps_create {k : Bytes} {w w1 : World} (h : WKeeps k w w1) (p : String) :
    WKeeps k w (w1.create p).2 := by
  rcases create_world w1 p with hr | hr
  · rw [hr]
    exact h
  · rw [hr]
    intro q
    rw [← h q]
    simp only
    split
    · rfl
    · next hnone =>
      simp only [keyAt, assocGet_append_single]
      cases hg : assocGet q w1.disk with
      | some kv => rfl
      | none =>
        simp only
        split
        · next x hx =>
          split at hx
          · simp only [Option.some.injEq] at hx
            subst hx
            rfl
          · simp at hx
        · rfl

theorem wkeeps_init {k : Bytes} {w w1 : World} (h : WKeeps k w w1) (hd : Nat) :
    WKeeps k w (w1.init hd).2 := by
  rcases init_world w1 hd with hr | ⟨d, hr⟩ <;> rw [hr] <;> exact h

theorem wkeeps_close {k : Bytes} {w w1 : World} (h : WKeeps k w w1) (hd : Nat) :
    WKeeps k w (w1.close hd).2 := by
  rcases close_world w1 hd with hr | ⟨d, hr⟩ <;> rw [hr] <;> exact h

theorem frame_of {s s1 : Sys} (hc : s1.ps.config = s.ps.config) (hs : s1.shape = s.shape)
    (hw : WFrame s.slotPath s.w s1.w) : Frame s s1 := by
  simp only [Sys.shape, Prod.mk.injEq] at hs
  exact ⟨hc, hs.1, hs.2.1, hw⟩

theorem Put_wframe (allowed : String → Prop) (k v : Bytes) (s : Sys) :
    WFrame allowed s.w (Put k v s).2.w := by
  simp only [Put]
  split
  · exact wframe_refl _ _
  · next p hp =>
    have h := wframe_put (wframe_refl allowed s.w) (s.w.slots p).persister k v
    split
    · next e w1 hs => rw [hs] at h; exact h
    · next w1 hs => rw [hs] at h; exact h

theorem Get_wframe (allowed : String → Prop) (k : Bytes) (s : Sys) :
    WFrame allowed s.w (Get k s).2.w := by
  simp only [Get]
  split
  · exact wframe_refl _ _
  · have h := getScan_wframe s.ps.bloomFilter k
      (s.ps.activePersisters.take
          (min s.ps.numOfActivePersisters (u32 s.ps.activePersisters.length)))
      (wframe_refl allowed s.w)
    split
    · next v w1 hs => rw [hs] at h; exact h
    · next w1 hs => rw [hs] at h; exact h

theorem Has_wframe (allowed : String → Prop) (k : Bytes) (s : Sys) :
    WFrame allowed s.w (Has k s).2.w := by
  simp only [Has]
  split
  · exact wframe_refl _ _
  · split
    · have h := hasScan_wframe k s.ps.activePersisters (wframe_refl allowed s.w)
      split
      · next w1 hs => rw [hs] at h; exact h
      · next w1 hs => rw [hs] at h; exact h
    · exact wframe_refl _ _

theorem Remove_wframe (allowed : String → Prop) (k : Bytes) (s : Sys) :
    WFrame allowed s.w (Remove k s).2.w := by
  simp only [Remove]
  exact removeScan_wframe k s.ps.activePersisters none (wframe_refl allowed s.w)

theorem GetFromEpoch_wframe (k : Bytes) (e : Nat) (s : Sys) :
    WFrame s.slotPath s.w (GetFromEpoch k e s).2.w := by
  simp only [GetFromEpoch]
  split
  · exact wframe_refl _ _
  · split
    · exact wframe_refl _ _
    · next p hp =>
      have hallow : s.slotPath (s.w.slots p).path := ⟨e, p, hp, rfl⟩
      split
      · exact wframe_get (wframe_refl _ s.w) _ k
      · have hc := wframe_create (wframe_refl s.slotPath s.w) hallow
        split
        · next e1 w1 hs => rw [hs] at hc; exact hc
        · next h w1 hs =>
          obtain ⟨-, hh, -⟩ := create_ok hs
          rw [hs] at hc
          have hi := wframe_init hc (le_of_eq hh.symm)
          split
          · next e2 w2 hs2 =>
            rw [hs2] at hi
            exact wframe_close hi (le_of_eq hh.symm)
          · next w2 hs2 =>
            rw [hs2] at hi
            have hg := wframe_get hi h k
            split
            · next res w3 hs3 =>
              rw [hs3] at hg
              exact wframe_close hg (le_of_eq hh.symm)
            · next e3 w3 hs3 =>
              rw [hs3] at hg
              exact wframe_close hg (le_of_eq hh.symm)

theorem HasInEpoch_wframe (k : Bytes) (e : Nat) (s : Sys) :
    WFrame s.slotPath s.w (HasInEpoch k e s).2.w := by
  simp only [HasInEpoch]
  split
  · exact wframe_refl _ _
  · split
    · split
      · exact wframe_refl _ _
      · next p hp =>
        have hallow : s.slotPath (s.w.slots p).path := ⟨e, p, hp, rfl⟩
        split
        · exact wframe_has (wframe_refl _ s.w) _ k
        · have hc := wframe_create (wframe_refl s.slotPath s.w) hallow
          split
          · next e1 w1 hs => rw [hs] at hc; exact hc
          · next h w1 hs =>
            obtain ⟨-, hh, -⟩ := create_ok hs
            rw [hs] at hc
            have hi := wframe_init hc (le_of_eq hh.symm)
            split
            · next e2 w2 hs2 =>
              rw [hs2] at hi
              exact wframe_close hi (le_of_eq hh.symm)
            · next w2 hs2 =>
              rw [hs2] at hi
              exact wframe_close (wframe_has hi h k) (le_of_eq hh.symm)
    · exact wframe_refl _ _

theorem op_frame (o : Op) (s : Sys) : Frame s (o.run s) := by
  cases o with
  | put k v => exact frame_of (Put_config k v s) (Put_shape k v s) (Put_wframe _ k v s)
  | get k => exact frame_of (Get_config k s) (Get_shape k s) (Get_wframe _ k s)
  | getFromEpoch k e =>
    exact frame_of (GetFromEpoch_config k e s) (GetFromEpoch_shape k e s)
      (GetFromEpoch_wframe k e s)
  | has k => exact frame_of (Has_config k s) (Has_shape k s) (Has_wframe _ k s)
  | hasInEpoch k e =>
    exact frame_of (HasInEpoch_config k e s) (HasInEpoch_shape k e s) (HasInEpoch_wframe k e s)
  | remove k => exact frame_of (Remove_config k s) (Remove_shape k s) (Remove_wframe _ k s)
  | clearCache => exact frame_of rfl rfl (wframe_refl _ _)
  | evict keep => exact frame_of rfl rfl (wframe_refl _ _)

theorem assocGet_filter_some {α β : Type} [DecidableEq α] (keep : α → Bool) (k : α)
    (l : List (α × β)) {x : β} (h : assocGet k (l.filter fun e => keep e.1) = some x) :
    assocGet k l = some x := by
  induction l with
  | nil => simp [assocGet] at h
  | cons a t ih =>
    obtain ⟨a1, a2⟩ := a
    simp only [List.filter] at h
    by_cases hk : a1 = k
    · subst hk
      cases hkeep : keep a1 with
      | true =>
        simp only [hkeep] at h
        simpa [assocGet] using h
      | false =>
        simp only [hkeep] at h
        exfalso
        clear ih
        induction t with
        | nil => simp [assocGet] at h
        | cons b t iht =>
          simp only [List.filter] at h
          by_cases hb : b.1 = a1
          · rw [hb, hkeep] at h
            exact iht h
          · cases hkb : keep b.1 with
            | true =>
              simp only [hkb] at h
              obtain ⟨b1, b2⟩ := b
              simp only [assocGet] at h
              rw [if_neg hb] at h
              exact iht h
            | false =>
              simp only [hkb] at h
              exact iht h
    · cases hkeep : keep a1 with
      | true =>
        simp only [hkeep, assocGet] at h ⊢
        rw [if_neg hk] at h ⊢
        exact ih h
      | false =>
        simp only [hkeep] at h
        simp only [assocGet]
        rw [if_neg hk]
        exact ih h

theorem Put_wkeeps {k k1 : Bytes} (hk : k1 ≠ k) (v : Bytes) (s : Sys) :
    WKeeps k s.w (Put k1 v s).2.w := by
  simp only [Put]
  split
  · exact wkeeps_refl _ _
  · next p hp =>
    have h := wkeeps_put (wkeeps_refl k s.w) (s.w.slots p).persister v hk
    split
    · next e w1 hs => rw [hs] at h; exact h
    · next w1 hs => rw [hs] at h; exact h

theorem Get_wkeeps (k k1 : Bytes) (s : Sys) : WKeeps k s.w (Get k1 s).2.w := by
  simp only [Get]
  split
  · exact wkeeps_refl _ _
  · have h := getScan_wkeeps k s.ps.bloomFilter k1
      (s.ps.activePersisters.take
          (min s.ps.numOfActivePersisters (u32 s.ps.activePersisters.length)))
      (wkeeps_refl k s.w)
    split
    · next v w1 hs => rw [hs] at h; exact h
    · next w1 hs => rw [hs] at h; exact h

theorem Has_wkeeps (k k1 : Bytes) (s : Sys) : WKeeps k s.w (Has k1 s).2.w := by
  simp only [Has]
  split
  · exact wkeeps_refl _ _
  · split
    · have h := hasScan_wkeeps k k1 s.ps.activePersisters (wkeeps_refl k s.w)
      split
      · next w1 hs => rw [hs] at h; exact h
      · next w1 hs => rw [hs] at h; exact h
    · exact wkeeps_refl _ _

theorem Remove_wkeeps {k k1 : Bytes} (hk : k1 ≠ k) (s : Sys) :
    WKeeps k s.w (Remove k1 s).2.w := by
  simp only [Remove]
  exact removeScan_wkeeps hk s.ps.activePersisters none (wkeeps_refl k s.w)

theorem GetFromEpoch_wkeeps (k k1 : Bytes) (e : Nat) (s : Sys) :
    WKeeps k s.w (GetFromEpoch k1 e s).2.w := by
  simp only [GetFromEpoch]
  split
  · exact wkeeps_refl _ _
  · split
    · exact wkeeps_refl _ _
    · next p hp =>
      split
      · exact wkeeps_get (wkeeps_refl _ s.w) _ k1
      · have hc := wkeeps_create (wkeeps_refl k s.w) (s.w.slots p).path
        split
        · next e1 w1 hs => rw [hs] at hc; exact hc
        · next h w1 hs =>
          rw [hs] at hc
          have hi := wkeeps_init hc h
          split
          · next e2 w2 hs2 =>
            rw [hs2] at hi
            exact wkeeps_close hi h
          · next w2 hs2 =>
            rw [hs2] at hi
            have hg := wkeeps_get hi h k1
            split
            · next res w3 hs3 =>
              rw [hs3] at hg
              exact wkeeps_close hg h
            · next e3 w3 hs3 =>
              rw [hs3] at hg
              exact wkeeps_close hg h

theorem HasInEpoch_wkeeps (k k1 : Bytes) (e : Nat) (s : Sys) :
    WKeeps k s.w (HasInEpoch k1 e s).2.w := by
  simp only [HasInEpoch]
  split
  · exact wkeeps_refl _ _
  · split
    · split
      · exact wkeeps_refl _ _
      · next p hp =>
        split
        · exact wkeeps_has (wkeeps_refl _ s.w) _ k1
        · have hc := wkeeps_create (wkeeps_refl k s.w) (s.w.slots p).path
          split
          · next e1 w1 hs => rw [hs] at hc; exact hc
          · next h w1 hs =>
            rw [hs] at hc
            have hi := wkeeps_init hc h
            split
            · next e2 w2 hs2 =>
              rw [hs2] at hi
              exact wkeeps_close hi h
            · next w2 hs2 =>
              rw [hs2] at hi
              exact wkeeps_close (wkeeps_has hi h k1) h
    · exact wkeeps_refl _ _

theorem GetFromEpoch_ps (k : Bytes) (e : Nat) (s : Sys) : (GetFromEpoch k e s).2.ps = s.ps := by
  simp only [GetFromEpoch]
  repeat' split
  all_goals rfl

theorem HasInEpoch_ps (k : Bytes) (e : Nat) (s : Sys) : (HasInEpoch k e s).2.ps = s.ps := by
  simp only [HasInEpoch]
  repeat' split
  all_goals rfl

theorem Has_ps (k : Bytes) (s : Sys) : (Has k s).2.ps = s.ps := by
  simp only [Has]
  repeat' split
  all_goals rfl

theorem filterHolds_add {bf : Option BloomFilter} {k : Bytes} (h : filterHolds bf k)
    (k1 : Bytes) : filterHolds (bf.map fun f => f.Add k1) k := by
  cases bf with
  | none => exact h
  | some f => exact List.mem_cons_of_mem _ h

theorem filterHolds_after_add (bf : Option BloomFilter) (k : Bytes) :
    filterHolds (bf.map fun f => f.Add k) k := by
  cases bf with
  | none => trivial
  | some f => exact List.mem_cons_self _ _

theorem filterAllows_of_holds {bf : Option BloomFilter} {k : Bytes} (h : filterHolds bf k) :
    filterAllows bf k = true := by
  cases bf with
  | none => rfl
  | some f =>
    simp only [filterHolds] at h
    simp [filterAllows, BloomFilter.MayContain, h]

theorem op_keeps {k : Bytes} {o : Op} (ho : o.spares k) (s : Sys) : Keeps k s (o.run s) := by
  cases o with
  | put k1 v =>
    have hk : k1 ≠ k := ho
    refine ⟨Put_wkeeps hk v s, ?_, ?_⟩
    · intro x
      simp only [Op.run, Put]
      repeat' split
      all_goals
        simp only [Cacher.Get, Cacher.Put, Cacher.Remove, assocGet_assocDel_ne hk.symm,
          assocGet_assocPut_ne hk.symm]
        exact id
    · intro hf
      simp only [Op.run, Put]
      repeat' split
      all_goals first
        | exact hf
        | exact filterHolds_add hf k1
  | get k1 =>
    have hk : k1 ≠ k := ho
    refine ⟨Get_wkeeps k k1 s, ?_, ?_⟩
    · intro x
      simp only [Op.run, Get]
      repeat' split
      all_goals
        simp only [Cacher.Get, Cacher.Put, assocGet_assocPut_ne hk.symm]
        exact id
    · intro hf
      simp only [Op.run, Get]
      repeat' split
      all_goals exact hf
  | getFromEpoch k1 e =>
    refine ⟨GetFromEpoch_wkeeps k k1 e s, ?_, ?_⟩
    · intro x
      simp only [Op.run, GetFromEpoch_ps]
      exact id
    · simp only [Op.run, GetFromEpoch_ps]
      exact id
  | has k1 =>
    refine ⟨Has_wkeeps k k1 s, ?_, ?_⟩
    · intro x
      simp only [Op.run, Has_ps]
      exact id
    · simp only [Op.run, Has_ps]
      exact id
  | hasInEpoch k1 e =>
    refine ⟨HasInEpoch_wkeeps k k1 e s, ?_, ?_⟩
    · intro x
      simp only [Op.run, HasInEpoch_ps]
      exact id
    · simp only [Op.run, HasInEpoch_ps]
      exact id
  | remove k1 =>
    have hk : k1 ≠ k := ho
    refine ⟨Remove_wkeeps hk s, ?_, id⟩
    intro x
    simp only [Op.run, Remove, Cacher.Get, Cacher.Remove, assocGet_assocDel_ne hk.symm]
    exact id
  | clearCache =>
    refine ⟨wkeeps_refl _ _, ?_, id⟩
    intro x hx
    simp [Op.run, ClearCache, Cacher.Clear, Cacher.Get, assocGet] at hx
  | evict keep =>
    refine ⟨wkeeps_refl _ _, ?_, id⟩
    intro x hx
    exact assocGet_filter_some keep k _ hx

/-! ## The layout along consecutive rotations -/

theorem distinctPaths_inj {dbPath : String} {n i j : Nat} (h : DistinctPaths dbPath n)
    (hi : i ≤ n) (hj : j ≤ n) (he : epochPath dbPath i = epochPath dbPath j) : i = j := by
  have hinj := List.inj_on_of_nodup_map h
  exact hinj (List.mem_range.mpr (by omega)) (List.mem_range.mpr (by omega)) he

theorem distinctPaths_mono {dbPath : String} {n m : Nat} (h : DistinctPaths dbPath n)
    (hm : m ≤ n) : DistinctPaths dbPath m := by
  unfold DistinctPaths at h ⊢
  have hle : m + 1 ≤ n + 1 := by omega
  exact h.sublist ((List.range_sublist.mpr hle).map _)

theorem config_fields {s s1 : Sys} (h : s1.ps.config = s.ps.config) :
    s1.ps.fullArchive = s.ps.fullArchive ∧ s1.ps.dbPath = s.ps.dbPath ∧
    s1.ps.numOfEpochsToKeep = s.ps.numOfEpochsToKeep ∧
    s1.ps.numOfActivePersisters = s.ps.numOfActivePersisters ∧
    s1.ps.identifier = s.ps.identifier := by
  simpa only [PruningStorer.config, Prod.mk.injEq] using h

theorem lowestKept_congr {s s1 : Sys} (h : s1.ps.config = s.ps.config) (n : Nat) :
    lowestKept s1.ps n = lowestKept s.ps n := by
  obtain ⟨h1, -, h3, -, -⟩ := config_fields h
  simp only [lowestKept, h1, h3]

theorem lowestActive_congr {s s1 : Sys} (h : s1.ps.config = s.ps.config) (n : Nat) :
    lowestActive s1.ps n = lowestActive s.ps n := by
  obtain ⟨-, -, -, h4, -⟩ := config_fields h
  simp only [lowestActive, h4]

theorem lowestKept_mono (ps : PruningStorer) {n m : Nat} (h : n ≤ m) :
    lowestKept ps n ≤ lowestKept ps m := by
  simp only [lowestKept]
  split <;> omega

theorem lowestKept_le (ps : PruningStorer) (n : Nat) : lowestKept ps n ≤ n + 1 := by
  simp only [lowestKept]
  split <;> omega

theorem handle_lt {n la lk : Nat} {s : Sys} (hl : Layout n la lk s) {i : Nat} (hi : i ≤ n) :
    (s.w.slots i).persister < s.w.dbs.length := by
  have h := hl.dbs i hi
  by_contra hge
  rw [List.getElem?_eq_none (by omega)] at h
  simp at h

/-- Client operations leave the layout as it is. -/
theorem layout_frame {n la lk : Nat} {s s1 : Sys} (hl : Layout n la lk s) (hf : Frame s s1) :
    Layout n la lk s1 := by
  obtain ⟨-, hpath, -, -, -⟩ := config_fields hf.config
  have hheap := hf.world.heap
  simp only [World.heap, Prod.mk.injEq] at hheap
  obtain ⟨hslots, hnext⟩ := hheap
  constructor
  · rw [hf.active]; exact hl.active
  · rw [hf.byEpoch]; exact hl.byEpoch
  · rw [hnext]; exact hl.nextSlot
  · intro i hi
    rw [hslots, hpath]
    exact hl.paths i hi
  · intro i hi
    rw [hslots]
    exact hl.flags i hi
  · intro i hi
    rw [hslots, hpath]
    obtain ⟨t, ht⟩ := hf.world.dbs
    rw [← ht, List.getElem?_append_left (handle_lt hl hi)]
    exact hl.dbs i hi
  · intro i j hi hj
    rw [hslots]
    exact hl.handles i j hi hj
  · intro i h1 h2
    rw [hpath]
    exact hf.world.dirs _ (hl.dirs i h1 h2)
  · intro p hp
    rw [hpath]
    rcases hf.world.fresh p hp with h | ⟨e, q, hq, rfl⟩
    · exact hl.known p h
    · rw [hl.byEpoch, assocGet_idMap] at hq
      split at hq
      · next hr =>
        simp only [Option.some.injEq] at hq
        subst hq
        exact ⟨e, by omega, hl.paths e (by omega)⟩
      · simp at hq
  · intro i hi
    rw [hslots]
    exact hf.world.calls _ (hl.destroyed i hi)

/-- The layout once the persister of epoch `n + 1` has been put in place. -/
theorem layout_withNewPersister {n la lk : Nat} {s : Sys} (hl : Layout n la lk s)
    (hla : la ≤ n + 1) (hlk : lk ≤ n + 1) (hp : DistinctPaths s.ps.dbPath (n + 1)) :
    Layout (n + 1) la lk (s.withNewPersister (n + 1)) ∧
    (s.withNewPersister (n + 1)).w.disk =
      s.w.disk ++ [(epochPath s.ps.dbPath (n + 1), [])] ∧
    assocGet (epochPath s.ps.dbPath (n + 1)) s.w.disk = none := by
  have hpath : getNewFilePath s.ps.dbPath (n + 1) = epochPath s.ps.dbPath (n + 1) := by
    simp [epochPath]
  have hfree : assocGet (epochPath s.ps.dbPath (n + 1)) s.w.disk = none := by
    cases hg : assocGet (epochPath s.ps.dbPath (n + 1)) s.w.disk with
    | none => rfl
    | some kv =>
      obtain ⟨i, hi, he⟩ := hl.known _ (by rw [hg]; rfl)
      have := distinctPaths_inj hp (by omega) (by omega) he
      omega
  have hdisk : (s.withNewPersister (n + 1)).w.disk =
      s.w.disk ++ [(epochPath s.ps.dbPath (n + 1), [])] := by
    simp only [Sys.withNewPersister, World.withNewPersister, hpath, hfree]
  have hslot : ∀ i, i ≤ n → (s.withNewPersister (n + 1)).w.slots i = s.w.slots i := by
    intro i hi
    simp only [Sys.withNewPersister, World.withNewPersister, hl.nextSlot]
    rw [Function.update_noteq (by omega)]
  have hslotn : (s.withNewPersister (n + 1)).w.slots (n + 1) =
      { persister := s.w.dbs.length, path := epochPath s.ps.dbPath (n + 1), isClosed := false } := by
    simp only [Sys.withNewPersister, World.withNewPersister, hl.nextSlot, hpath]
    rw [Function.update_same]
  refine ⟨?_, hdisk, hfree⟩
  constructor
  · simp only [Sys.withNewPersister, hl.active, hl.nextSlot]
    have : n + 1 + 1 - la = (n + 1 - la) + 1 := by omega
    rw [this]
    rfl
  · simp only [Sys.withNewPersister, hl.byEpoch, hl.nextSlot]
    have h1 : n + 1 + 1 - lk = (n + 1 - lk) + 1 := by omega
    have h2 : lk + (n + 1 - lk) = n + 1 := by omega
    have h3 := assocPut_idMap_new lk (n + 1 - lk)
    rw [h2] at h3
    rw [h1, h3]
  · simp [Sys.withNewPersister, World.withNewPersister, hl.nextSlot]
  · intro i hi
    by_cases h : i = n + 1
    · subst h
      rw [hslotn]
      rfl
    · rw [hslot i (by omega)]
      exact hl.paths i (by omega)
  · intro i hi
    by_cases h : i = n + 1
    · subst h
      rw [hslotn]
      simp only
      symm
      apply decide_eq_false
      omega
    · rw [hslot i (by omega)]
      exact hl.flags i (by omega)
  · intro i hi
    by_cases h : i = n + 1
    · subst h
      rw [hslotn]
      simp only [Sys.withNewPersister, World.withNewPersister, hpath]
      rw [List.getElem?_append_right (le_refl _)]
      simp
      rw [if_neg (by omega)]
    · rw [hslot i (by omega)]
      simp only [Sys.withNewPersister, World.withNewPersister, hpath]
      rw [List.getElem?_append_left (handle_lt hl (by omega))]
      exact hl.dbs i (by omega)
  · intro i j hi hj he
    by_cases h1 : i = n + 1
    · by_cases h2 : j = n + 1
      · omega
      · subst h1
        rw [hslotn, hslot j (by omega)] at he
        have := handle_lt hl (show j ≤ n by omega)
        simp only at he
        omega
    · by_cases h2 : j = n + 1
      · subst h2
        rw [hslotn, hslot i (by omega)] at he
        have := handle_lt hl (show i ≤ n by omega)
        simp only at he
        omega
      · rw [hslot i (by omega), hslot j (by omega)] at he
        exact hl.handles i j (by omega) (by omega) he
  · intro i hi1 hi2
    rw [hdisk, assocGet_append_single]
    by_cases h : i = n + 1
    · subst h
      simp [Sys.withNewPersister, hfree]
    · have := hl.dirs i hi1 (by omega)
      simp only [Sys.withNewPersister] at this ⊢
      cases hg : assocGet (epochPath s.ps.dbPath i) s.w.disk with
      | none => simp [hg] at this
      | some kv => simp
  · intro p hp'
    rw [hdisk, assocGet_append_single] at hp'
    cases hg : assocGet p s.w.disk with
    | none =>
      simp only [hg] at hp'
      by_cases h : epochPath s.ps.dbPath (n + 1) = p
      · exact ⟨n + 1, le_refl _, h.symm⟩
      · simp [h] at hp'
    | some kv =>
      obtain ⟨i, hi, he⟩ := hl.known p (by rw [hg]; rfl)
      exact ⟨i, by omega, he⟩
  · intro i hi
    have hle : i ≤ n := by omega
    rw [hslot i hle]
    simp only [Sys.withNewPersister, World.withNewPersister]
    exact List.mem_cons_of_mem _ (List.mem_cons_of_mem _ (hl.destroyed i hi))

theorem subU32_of_le {n a : Nat} (hn : n < 4294967296) (ha : a ≤ n) : subU32 n a = n - a := by
  have ha' : a < 4294967296 := by omega
  simp only [subU32, u32_of_lt hn, u32_of_lt ha']
  have : n + 4294967296 - a = (n - a) + 4294967296 := by omega
  rw [this, Nat.add_mod_right, Nat.mod_eq_of_lt (by omega)]

theorem isSome_assocGet_assocDel {α β : Type} [DecidableEq α] {k k' : α} {l : List (α × β)}
    (h : (assocGet k' (assocDel k l)).isSome) : (assocGet k' l).isSome := by
  by_cases hk : k' = k
  · subst hk
    simp at h
  · rwa [assocGet_assocDel_ne hk] at h

/-- The layout once the oldest active persister has been closed. -/
theorem layout_withOldestClosed {n la lk : Nat} {s : Sys} (hl : Layout n la lk s)
    (hla : la < n) (hlk : lk ≤ la) (hn : n < 4294967296)
    (hA : s.ps.numOfActivePersisters = n - la) :
    Layout n (la + 1) lk (s.withOldestClosed n la) ∧
    (s.withOldestClosed n la).w.disk = s.w.disk := by
  refine ⟨?_, rfl⟩
  have hdb := hl.dbs la (by omega)
  have hslot : ∀ i, i ≠ la → (s.withOldestClosed n la).w.slots i = s.w.slots i := by
    intro i hi
    simp only [Sys.withOldestClosed]
    rw [Function.update_noteq hi]
  have hslotn : (s.withOldestClosed n la).w.slots la = { s.w.slots la with isClosed := true } := by
    simp only [Sys.withOldestClosed]
    rw [Function.update_same]
  have hpers : ∀ i, ((s.withOldestClosed n la).w.slots i).persister = (s.w.slots i).persister := by
    intro i
    by_cases h : i = la
    · subst h; rw [hslotn]
    · rw [hslot i h]
  constructor
  · simp only [Sys.withOldestClosed, hl.active, descFrom_take, hA]
    congr 1
    omega
  · simp only [Sys.withOldestClosed, hl.byEpoch, hA]
    rw [subU32_of_le hn (by omega)]
    have : n - (n - la) = la := by omega
    rw [this]
    exact assocPut_idMap_old lk _ la hlk (by omega)
  · exact hl.nextSlot
  · intro i hi
    by_cases h : i = la
    · subst h
      rw [hslotn]
      exact hl.paths i hi
    · rw [hslot i h]
      exact hl.paths i hi
  · intro i hi
    by_cases h : i = la
    · subst h
      rw [hslotn]
      simp
    · rw [hslot i h, hl.flags i hi]
      apply decide_eq_decide.mpr
      omega
  · intro i hi
    rw [hpers]
    simp only [Sys.withOldestClosed, hdb]
    by_cases h : i = la
    · subst h
      rw [List.getElem?_set_self (handle_lt hl hi)]
      simp
    · have hne : (s.w.slots la).persister ≠ (s.w.slots i).persister := by
        intro he
        exact h (hl.handles i la hi (by omega) he.symm)
      rw [List.getElem?_set_ne hne, hl.dbs i hi]
      have : (i < la) ↔ (i < la + 1) := by omega
      simp only [this]
  · intro i j hi hj
    rw [hpers, hpers]
    exact hl.handles i j hi hj
  · exact hl.dirs
  · exact hl.known
  · intro i hi
    rw [hpers]
    exact List.mem_cons_of_mem _ (hl.destroyed i hi)

/-- The layout once the oldest kept persister has been destroyed. -/
theorem layout_withOldestDestroyed {n la lk : Nat} {s : Sys} (hl : Layout n la lk s)
    (hlk : lk ≤ n) (hn : n < 4294967296)
    (hK : s.ps.numOfEpochsToKeep = n - lk) (hp : DistinctPaths s.ps.dbPath n) :
    Layout n la (lk + 1) (s.withOldestDestroyed n lk) ∧
    (s.withOldestDestroyed n lk).w.disk = assocDel (epochPath s.ps.dbPath lk) s.w.disk := by
  have hdb := hl.dbs lk hlk
  have hdisk : (s.withOldestDestroyed n lk).w.disk =
      assocDel (epochPath s.ps.dbPath lk) s.w.disk := by
    simp only [Sys.withOldestDestroyed, hdb]
  refine ⟨?_, hdisk⟩
  constructor
  · exact hl.active
  · simp only [Sys.withOldestDestroyed, hl.byEpoch, hK]
    rw [subU32_of_le hn (by omega)]
    have h1 : n - (n - lk) = lk := by omega
    have h2 : n + 1 - lk = (n + 1 - (lk + 1)) + 1 := by omega
    rw [h1, h2]
    exact assocDel_idMap_head lk _
  · exact hl.nextSlot
  · exact hl.paths
  · exact hl.flags
  · exact hl.dbs
  · exact hl.handles
  · intro i hi1 hi2
    rw [hdisk]
    have hne : epochPath s.ps.dbPath i ≠ epochPath s.ps.dbPath lk := by
      intro he
      have := distinctPaths_inj hp hi2 hlk he
      omega
    have := hl.dirs i (by omega) hi2
    simp only [Sys.withOldestDestroyed] at this ⊢
    rwa [assocGet_assocDel_ne hne]
  · intro p hp'
    rw [hdisk] at hp'
    exact hl.known p (isSome_assocGet_assocDel hp')
  · intro i hi
    simp only [Sys.withOldestDestroyed]
    by_cases h : i = lk
    · subst h
      simp
    · exact List.mem_cons_of_mem _ (List.mem_cons_of_mem _ (hl.destroyed i (by omega)))

/-- What a successful rotation to the next epoch does to a storer that went
through consecutive epochs. -/
theorem inEpoch_changeEpoch {n : Nat} {s s1 : Sys} (hl : InEpoch n s)
    (hA1 : 1 ≤ s.ps.numOfActivePersisters)
    (hAK : s.ps.numOfActivePersisters ≤ s.ps.numOfEpochsToKeep)
    (hK : s.ps.numOfEpochsToKeep + 1 < 4294967296) (hn : n + 1 < 4294967296)
    (hp : DistinctPaths s.ps.dbPath (n + 1))
    (h : changeEpoch (n + 1) s = (none, s1)) :
    InEpoch (n + 1) s1 ∧ s1.ps.config = s.ps.config ∧ s1.ps.cacher = s.ps.cacher ∧
    s1.ps.bloomFilter = s.ps.bloomFilter ∧
    s1.w.disk = (if lowestKept s.ps (n + 1) = lowestKept s.ps n then
        s.w.disk ++ [(epochPath s.ps.dbPath (n + 1), [])]
      else assocDel (epochPath s.ps.dbPath (lowestKept s.ps n))
        (s.w.disk ++ [(epochPath s.ps.dbPath (n + 1), [])])) ∧
    assocGet (epochPath s.ps.dbPath (n + 1)) s.w.disk = none := by
  obtain ⟨-, -, hcd⟩ := changeEpoch_ok h
  obtain ⟨s2, hclose, hdestroy⟩ := closeAndDestroyPersisters_ok hcd
  have hla0 : lowestActive s.ps n ≤ n + 1 := by simp only [lowestActive]; omega
  have hlk0 : lowestKept s.ps n ≤ n + 1 := by
    simp only [lowestKept]; split <;> omega
  have hlkla : lowestKept s.ps n ≤ lowestActive s.ps n := by
    simp only [lowestKept, lowestActive]; split <;> omega
  obtain ⟨hm, hmdisk, hfree⟩ := layout_withNewPersister hl hla0 hlk0 hp
  -- the first block
  have h2 : Layout (n + 1) (lowestActive s.ps (n + 1)) (lowestKept s.ps n) s2 ∧
      s2.ps.config = s.ps.config ∧ s2.ps.cacher = s.ps.cacher ∧
      s2.ps.bloomFilter = s.ps.bloomFilter ∧
      s2.w.disk = s.w.disk ++ [(epochPath s.ps.dbPath (n + 1), [])] := by
    have hlen : (s.withNewPersister (n + 1)).ps.activePersisters.length
        = n + 1 + 1 - lowestActive s.ps n := by
      rw [hm.active, descFrom_length]
    rcases closeOldest_ok hclose with ⟨hlt, rfl⟩ | ⟨hlt, p, d, hpA, -, -, -, rfl⟩
    · rw [hlen] at hlt
      have hsame : lowestActive s.ps (n + 1) = lowestActive s.ps n := by
        simp only [lowestActive, Sys.withNewPersister] at hlt ⊢
        rw [u32_of_lt (by omega)] at hlt
        omega
      rw [hsame]
      exact ⟨hm, rfl, rfl, rfl, hmdisk⟩
    · rw [hlen] at hlt
      have hge : s.ps.numOfActivePersisters ≤ n + 1 := by
        simp only [lowestActive, Sys.withNewPersister] at hlt
        rw [u32_of_lt (by omega)] at hlt
        omega
      have hpe : p = lowestActive s.ps n := by
        rw [hm.active, descFrom_getElem?] at hpA
        simp only [Sys.withNewPersister, lowestActive] at hpA ⊢
        split at hpA
        · simp only [Option.some.injEq] at hpA
          omega
        · simp at hpA
      subst hpe
      have hnext : lowestActive s.ps (n + 1) = lowestActive s.ps n + 1 := by
        simp only [lowestActive]; omega
      rw [hnext]
      obtain ⟨hl2, hd2⟩ := layout_withOldestClosed hm (by simp only [lowestActive]; omega) hlkla
        hn (by simp only [Sys.withNewPersister, lowestActive]; omega)
      exact ⟨hl2, rfl, rfl, rfl, by rw [hd2, hmdisk]⟩
  obtain ⟨hl2, hc2, hca2, hbf2, hd2⟩ := h2
  have hK2 : s2.ps.numOfEpochsToKeep = s.ps.numOfEpochsToKeep := by
    simp only [PruningStorer.config, Prod.mk.injEq] at hc2
    exact hc2.2.2.1
  have hfa2 : s2.ps.fullArchive = s.ps.fullArchive := by
    simp only [PruningStorer.config, Prod.mk.injEq] at hc2
    exact hc2.1
  have hpath2 : s2.ps.dbPath = s.ps.dbPath := by
    simp only [PruningStorer.config, Prod.mk.injEq] at hc2
    exact hc2.2.1
  have hlen2 : s2.ps.persistersMapByEpoch.length = n + 1 + 1 - lowestKept s.ps n := by
    rw [hl2.byEpoch, idMap_length]
  have hinEpoch : ∀ s' : Sys, s'.ps.config = s.ps.config →
      Layout (n + 1) (lowestActive s.ps (n + 1)) (lowestKept s.ps (n + 1)) s' →
      InEpoch (n + 1) s' := by
    intro s' hc hl'
    simp only [PruningStorer.config, Prod.mk.injEq] at hc
    simp only [InEpoch, lowestActive, lowestKept, hc.1, hc.2.2.1, hc.2.2.2.1] at hl' ⊢
    exact hl'
  rcases destroyOldest_ok hdestroy with ⟨hno, rfl⟩ | ⟨hfa, hgt, p, d, hpK, -, -, rfl⟩
  · have hsame : lowestKept s.ps (n + 1) = lowestKept s.ps n := by
      rw [hlen2, hK2, hfa2] at hno
      simp only [lowestKept] at hno ⊢
      cases hfa : s.ps.fullArchive with
      | true => simp
      | false =>
        simp only [hfa, Bool.false_eq_true, if_false, true_and] at hno ⊢
        rw [u32_of_lt (by omega)] at hno
        omega
    refine ⟨hinEpoch _ hc2 (by rw [hsame]; exact hl2), hc2, hca2, hbf2, ?_, hfree⟩
    rw [if_pos hsame, hd2]
  · rw [hlen2, hK2] at hgt
    rw [hfa2] at hfa
    have hge : s.ps.numOfEpochsToKeep ≤ n + 1 := by
      simp only [lowestKept, hfa, Bool.false_eq_true, if_false] at hgt
      rw [u32_of_lt (by omega)] at hgt
      omega
    have hlk : lowestKept s.ps n = n + 1 - s.ps.numOfEpochsToKeep := by
      simp [lowestKept, hfa]
    have hnext : lowestKept s.ps (n + 1) = lowestKept s.ps n + 1 := by
      simp only [lowestKept, hfa, Bool.false_eq_true, if_false]; omega
    have hpe : p = lowestKept s.ps n := by
      rw [hl2.byEpoch, assocGet_idMap, hK2, subU32_of_le hn hge] at hpK
      split at hpK
      · simp only [Option.some.injEq] at hpK
        omega
      · simp at hpK
    subst hpe
    obtain ⟨hl3, hd3⟩ := layout_withOldestDestroyed hl2 hlk0 hn (by rw [hK2, hlk]; omega)
      (by rw [hpath2]; exact hp)
    refine ⟨hinEpoch _ hc2 (by rw [hnext]; exact hl3), hc2, hca2, hbf2, ?_, hfree⟩
    rw [if_neg (by omega), hd3, hd2, hpath2]

/-- The storer built in a fresh system is in epoch 0. -/
theorem inEpoch_init {args : PruningStorerArgs} {shard : String} {fault : Nat → Option Error}
    {ps : PruningStorer} {w : World}
    (h : initPruningStorer args shard (World.fresh fault) = (.ok ps, w))
    (hK : 1 ≤ args.NumOfEpochsToKeep) :
    InEpoch 0 ⟨ps, w⟩ ∧ ps.cacher = [] ∧ w.fault = fault := by
  obtain ⟨hA1, -, hpath, hk, ha, -, hact, hmap, hcache, -, hn, hsl, hdbs, hdisk, hfault, -⟩ :=
    init_success h
  refine ⟨?_, hcache, hfault⟩
  have hla : lowestActive ps 0 = 0 := by simp only [lowestActive, ha]; omega
  have hlk : lowestKept ps 0 = 0 := by simp only [lowestKept, hk]; split <;> omega
  simp only [InEpoch, hla, hlk]
  simp only [World.fresh, assocGet, List.nil_append] at hn hsl hdbs hdisk hact hmap
  constructor
  · simpa [descFrom] using hact
  · simpa [idMap] using hmap
  · simpa using hn
  · intro i hi
    have : i = 0 := by omega
    subst this
    simp [hsl, epochPath, hpath]
  · intro i hi
    have : i = 0 := by omega
    subst this
    simp [hsl]
  · intro i hi
    have : i = 0 := by omega
    subst this
    simp [hsl, hdbs, epochPath, hpath]
  · intro i j hi hj _
    omega
  · intro i _ hi
    have : i = 0 := by omega
    subst this
    simp [hdisk, epochPath, hpath, assocGet]
  · intro p hp
    refine ⟨0, le_refl _, ?_⟩
    simp only [hdisk, assocGet, epochPath, hpath, if_true] at hp ⊢
    by_contra hne
    simp [Ne.symm hne] at hp
  · intro i hi
    omega

/-- A successful rotation keeps the content of the directories that are kept
and gives the new epoch an empty directory. -/
theorem content_changeEpoch {n : Nat} {s s1 : Sys} (hl : InEpoch n s)
    (hA1 : 1 ≤ s.ps.numOfActivePersisters)
    (hAK : s.ps.numOfActivePersisters ≤ s.ps.numOfEpochsToKeep)
    (hK : s.ps.numOfEpochsToKeep + 1 < 4294967296) (hn : n + 1 < 4294967296)
    (hp : DistinctPaths s.ps.dbPath (n + 1))
    (h : changeEpoch (n + 1) s = (none, s1)) :
    (∀ i k v, i ≤ n → lowestKept s.ps (n + 1) ≤ i → Stored s i k v → Stored s1 i k v) ∧
    (∀ i k, i ≤ n → Absent s i k → Absent s1 i k) ∧
    (∀ k, Absent s1 (n + 1) k) := by
  obtain ⟨-, hc, -, -, hdisk, hfree⟩ := inEpoch_changeEpoch hl hA1 hAK hK hn hp h
  have hpath : s1.ps.dbPath = s.ps.dbPath := by
    simp only [PruningStorer.config, Prod.mk.injEq] at hc
    exact hc.2.1
  have hnew : ∀ i, i ≤ n → epochPath s.ps.dbPath i ≠ epochPath s.ps.dbPath (n + 1) := by
    intro i hi he
    have := distinctPaths_inj hp (by omega) (le_refl _) he
    omega
  have hkeep : ∀ i, i ≤ n → lowestKept s.ps (n + 1) ≤ i →
      assocGet (epochPath s.ps.dbPath i) s1.w.disk =
        assocGet (epochPath s.ps.dbPath i) s.w.disk ∨
      assocGet (epochPath s.ps.dbPath i) s.w.disk = none := by
    intro i hi hlo
    rw [hdisk]
    split
    · rw [assocGet_append_single]
      cases hg : assocGet (epochPath s.ps.dbPath i) s.w.disk with
      | none => exact Or.inr rfl
      | some kv => exact Or.inl rfl
    · next hne =>
      have hlt : lowestKept s.ps n < lowestKept s.ps (n + 1) :=
        lt_of_le_of_ne (lowestKept_mono _ (by omega)) (Ne.symm hne)
      have hne2 : epochPath s.ps.dbPath i ≠ epochPath s.ps.dbPath (lowestKept s.ps n) := by
        intro he
        have := distinctPaths_inj hp (by omega) (by have := lowestKept_le s.ps n; omega) he
        omega
      rw [assocGet_assocDel_ne hne2, assocGet_append_single]
      cases hg : assocGet (epochPath s.ps.dbPath i) s.w.disk with
      | none => exact Or.inr rfl
      | some kv => exact Or.inl rfl
  have hafter : ∀ p kv, assocGet p s1.w.disk = some kv →
      assocGet p (s.w.disk ++ [(epochPath s.ps.dbPath (n + 1), ([] : List (Bytes × Bytes)))])
        = some kv := by
    intro p kv hg
    rw [hdisk] at hg
    split at hg
    · exact hg
    · by_cases hpe : p = epochPath s.ps.dbPath (lowestKept s.ps n)
      · subst hpe
        simp at hg
      · rwa [assocGet_assocDel_ne hpe] at hg
  refine ⟨?_, ?_, ?_⟩
  · intro i k v hi hlo hs
    simp only [Stored, keyAt, hpath] at hs ⊢
    rcases hkeep i hi hlo with he | he
    · rw [he]; exact hs
    · rw [he] at hs
      simp at hs
  · intro i k hi habs
    simp only [Absent, keyAt, hpath] at habs ⊢
    cases hg1 : assocGet (epochPath s.ps.dbPath i) s1.w.disk with
    | none => rfl
    | some kv =>
      have := hafter _ _ hg1
      rw [assocGet_append_single] at this
      cases hg : assocGet (epochPath s.ps.dbPath i) s.w.disk with
      | none =>
        simp only [hg] at this
        split at this
        · next he => exact absurd he.symm (hnew i hi)
        · simp at this
      | some kv1 =>
        simp only [hg, Option.some.injEq] at this habs
        subst this
        exact habs
  · intro k
    simp only [Absent, keyAt, hpath]
    cases hg1 : assocGet (epochPath s.ps.dbPath (n + 1)) s1.w.disk with
    | none => rfl
    | some kv =>
      have := hafter _ _ hg1
      rw [assocGet_append_single, hfree] at this
      simp only [if_true, Option.some.injEq] at this
      subst this
      rfl

theorem stored_keeps {s s1 : Sys} {k v : Bytes} {i : Nat} (hc : s1.ps.config = s.ps.config)
    (hk : WKeeps k s.w s1.w) (h : Stored s i k v) : Stored s1 i k v := by
  obtain ⟨-, hpath, -, -, -⟩ := config_fields hc
  simp only [Stored, hpath, hk _] at h ⊢
  exact h

theorem absent_keeps {s s1 : Sys} {k : Bytes} {i : Nat} (hc : s1.ps.config = s.ps.config)
    (hk : WKeeps k s.w s1.w) (h : Absent s i k) : Absent s1 i k := by
  obtain ⟨-, hpath, -, -, -⟩ := config_fields hc
  simp only [Absent, hpath, hk _] at h ⊢
  exact h

theorem inEpoch_frame {n : Nat} {s s1 : Sys} (hl : InEpoch n s) (hf : Frame s s1) :
    InEpoch n s1 := by
  simp only [InEpoch, lowestActive_congr hf.config, lowestKept_congr hf.config]
  exact layout_frame hl hf

/-- A successful `Put` in epoch `n` stores the value in the directory of that
epoch and leaves the layout as it is. -/
theorem inEpoch_Put {n : Nat} {s s1 : Sys} {k v : Bytes} (hl : InEpoch n s)
    (h : Put k v s = (none, s1)) :
    InEpoch n s1 ∧ s1.ps.config = s.ps.config ∧ Stored s1 n k v ∧
    s1.ps.cacher = s.ps.cacher.Put k v ∧
    s1.ps.bloomFilter = s.ps.bloomFilter.map (fun f => f.Add k) := by
  have hs1 : s1 = (Op.put k v).run s := by simp only [Op.run, h]
  have hf : Frame s s1 := by rw [hs1]; exact op_frame _ _
  obtain ⟨p, d, kv, hp, -, hd, -, hkv, hc, hbf, hact, hmap, hcfg, hdisk, hdbs, hslots, hnext,
    hcalls, -⟩ := Put_ok h
  obtain ⟨-, hpath, -, -, -⟩ := config_fields hcfg
  have hp0 : p = n := by
    rw [hl.active, descFrom_getElem?] at hp
    split at hp
    · simp only [Option.some.injEq] at hp
      omega
    · simp at hp
  subst hp0
  rw [hl.dbs p (le_refl _)] at hd
  simp only [Option.some.injEq] at hd
  subst hd
  simp only at hkv hdisk
  refine ⟨inEpoch_frame hl hf, hcfg, ?_, hc, hbf⟩
  simp only [Stored, keyAt]
  rw [hpath, hdisk]
  simp

/-! ## Reading through the active persisters -/

theorem keyAt_some {disk : List (String × List (Bytes × Bytes))} {p : String} {k v : Bytes}
    (h : keyAt disk p k = some v) : ∃ kv, assocGet p disk = some kv ∧ assocGet k kv = some v := by
  simp only [keyAt] at h
  split at h
  · next kv hkv => exact ⟨kv, hkv, h⟩
  · simp at h

theorem keyAt_none {disk : List (String × List (Bytes × Bytes))} {p : String} {k : Bytes}
    {kv : List (Bytes × Bytes)} (h : keyAt disk p k = none) (hkv : assocGet p disk = some kv) :
    assocGet k kv = none := by
  simpa only [keyAt, hkv] using h

theorem getScan_none (bf : Option BloomFilter) (k : Bytes) (l : List Nat) :
    ∀ (w : World), (∀ p ∈ l, NoValue w p k) → (getScan bf k l w).1 = none := by
  induction l with
  | nil => intro w _; rfl
  | cons p t ih =>
    intro w h
    simp only [getScan]
    split
    · obtain ⟨e, he⟩ := get_absent (w := w) (h := (w.slots p).persister) (k := k)
        (h p (List.mem_cons_self _ _))
      rw [he]
      exact ih _ (fun q hq => h q (List.mem_cons_of_mem _ hq))
    · exact ih _ (fun q hq => h q (List.mem_cons_of_mem _ hq))

theorem getScan_found (bf : Option BloomFilter) (k v : Bytes) (l1 : List Nat) (e : Nat)
    (l2 : List Nat) (hbf : filterAllows bf k = true) :
    ∀ (w : World), (∀ p ∈ l1, NoValue w p k) → HasValue w e k v →
      w.fault (w.calls.length + l1.length) = none →
      (getScan bf k (l1 ++ e :: l2) w).1 = some v := by
  induction l1 with
  | nil =>
    intro w _ ⟨d, kv, hd, hph, hkv, hv⟩ hf
    simp only [List.nil_append, getScan, hbf, if_true]
    rw [get_stored (by simpa [World.failure] using hf) hd hph hkv hv]
  | cons p t ih =>
    intro w h hv hf
    simp only [List.cons_append, getScan, hbf, if_true]
    obtain ⟨e1, he⟩ := get_absent (w := w) (h := (w.slots p).persister) (k := k)
      (h p (List.mem_cons_self _ _))
    rw [he]
    apply ih
    · exact fun q hq => h q (List.mem_cons_of_mem _ hq)
    · exact hv
    · simp only [World.record, List.length_cons] at hf ⊢
      rw [← hf]
      congr 1
      omega

/-- In a storer that went through consecutive epochs, the active persister of
an epoch whose directory does not hold `k` gives no value. -/
theorem noValue_of_absent {n la lk : Nat} {s : Sys} (hl : Layout n la lk s) {i : Nat}
    (hi : i ≤ n) {k : Bytes} (h : Absent s i k) : NoValue s.w i k := by
  intro d kv hd _ hkv
  rw [hl.dbs i hi] at hd
  simp only [Option.some.injEq] at hd
  subst hd
  exact keyAt_none h hkv

theorem hasValue_of_stored {n la lk : Nat} {s : Sys} (hl : Layout n la lk s) {i : Nat}
    (hi : i ≤ n) (hla : la ≤ i) {k v : Bytes} (h : Stored s i k v) : HasValue s.w i k v := by
  obtain ⟨kv, hkv, hv⟩ := keyAt_some h
  refine ⟨⟨epochPath s.ps.dbPath i, .opened⟩, kv, ?_, rfl, hkv, hv⟩
  rw [hl.dbs i hi, if_neg (by omega)]

/-- GetFromEpoch on a closed slot: the transient reopening of a directory that
holds `v` under `k`; the factory creates a persister object, which is
initialised, read and closed. -/
theorem GetFromEpoch_closed {s : Sys} {k v : Bytes} {e p : Nat} {kv : List (Bytes × Bytes)}
    (hmiss : s.ps.cacher.Get k = none)
    (hmap : assocGet e s.ps.persistersMapByEpoch = some p)
    (hclosed : (s.w.slots p).isClosed = true)
    (hdir : assocGet (s.w.slots p).path s.w.disk = some kv) (hv : assocGet k kv = some v)
    (hf0 : s.w.fault s.w.calls.length = none) (hf1 : s.w.fault (s.w.calls.length + 1) = none)
    (hf2 : s.w.fault (s.w.calls.length + 2) = none) :
    (GetFromEpoch k e s).1 = .ok v ∧ (GetFromEpoch k e s).2.ps = s.ps ∧
    (GetFromEpoch k e s).2.w.calls = .close s.w.dbs.length :: .get s.w.dbs.length k ::
      .init s.w.dbs.length :: .create (s.w.slots p).path :: s.w.calls := by
  simp [GetFromEpoch, hmiss, hmap, hclosed, World.create, World.failure, hf0, hf1, hf2,
    World.record, hdir, World.init, World.setDb, World.get, World.openDir, hv, World.close]
  split <;> rfl

/-- GetFromEpoch for an epoch that the map by epoch does not hold. -/
theorem GetFromEpoch_unknown {s : Sys} {k : Bytes} {e : Nat}
    (hmiss : s.ps.cacher.Get k = none)
    (hmap : assocGet e s.ps.persistersMapByEpoch = none) :
    GetFromEpoch k e s = (.error (.keyNotFoundIn k s.ps.identifier), s) := by
  simp [GetFromEpoch, hmiss, hmap]

/-- GetFromEpoch on a slot that is not closed asks the persister of the slot. -/
theorem GetFromEpoch_open {s : Sys} {k : Bytes} {e p : Nat}
    (hmiss : s.ps.cacher.Get k = none)
    (hmap : assocGet e s.ps.persistersMapByEpoch = some p)
    (hopen : (s.w.slots p).isClosed = false) :
    (GetFromEpoch k e s).1 = (s.w.get (s.w.slots p).persister k).1 := by
  simp [GetFromEpoch, hmiss, hmap, hopen]

/-- GetFromEpoch answers from the cache when the cache holds the key. -/
theorem GetFromEpoch_cached {s : Sys} {k v : Bytes} {e : Nat}
    (hhit : s.ps.cacher.Get k = some v) : GetFromEpoch k e s = (.ok v, s) := by
  simp [GetFromEpoch, hhit]

/-- Get finds nothing when the cache does not hold the key and no active
persister of the window can give a value. -/
theorem Get_none {s : Sys} {k : Bytes} (hmiss : s.ps.cacher.Get k = none)
    (h : ∀ p ∈ s.ps.activePersisters, NoValue s.w p k) :
    (Get k s).1 = .error (.keyNotFoundIn k s.ps.identifier) := by
  simp only [Get, hmiss]
  have := getScan_none s.ps.bloomFilter k (s.ps.activePersisters.take
    (min s.ps.numOfActivePersisters (u32 s.ps.activePersisters.length))) s.w
    (fun p hp => h p (List.mem_of_mem_take hp))
  split
  · next v w1 hs =>
    rw [hs] at this
    simp at this
  · rfl

/-! ## Retention in a storer that went through consecutive epochs -/

/-- Inside the active window: the directory of epoch `E1` holds `v` under `k`,
the directories of the later epochs do not hold `k`, and the slot of `E1` is
still active. -/
theorem get_in_window {n E1 : Nat} {k v : Bytes} {s : Sys} (hl : InEpoch n s)
    (hE : E1 ≤ n) (hn : n < 4294967296) (hA1 : 1 ≤ s.ps.numOfActivePersisters)
    (hA32 : s.ps.numOfActivePersisters < 4294967296)
    (hd : n < E1 + s.ps.numOfActivePersisters)
    (hst : Stored s E1 k v) (hab : ∀ i, E1 < i → i ≤ n → Absent s i k)
    (hbf : filterAllows s.ps.bloomFilter k = true)
    (hcache : ∀ x, s.ps.cacher.Get k = some x → x = v)
    (hget : s.w.fault (s.w.calls.length + (n - E1)) = none) :
    (Get k s).1 = .ok v ∧
    s.ps.activePersisters[n - E1]? = some E1 ∧ (s.w.slots E1).isClosed = false := by
  have hla : lowestActive s.ps n ≤ E1 := by
    simp only [lowestActive]; omega
  refine ⟨?_, ?_, ?_⟩
  · simp only [Get]
    split
    · next v1 hv1 => rw [hcache v1 hv1]
    · have hlen : s.ps.activePersisters.length = n + 1 - lowestActive s.ps n := by
        rw [hl.active, descFrom_length]
      have hmin : min s.ps.numOfActivePersisters (u32 s.ps.activePersisters.length)
          = n + 1 - lowestActive s.ps n := by
        rw [hlen, u32_of_lt (by simp only [lowestActive]; omega)]
        simp only [lowestActive]
        omega
      have hsplit : (s.ps.activePersisters.take
            (min s.ps.numOfActivePersisters (u32 s.ps.activePersisters.length)))
          = descFrom n (n - E1) ++ E1 :: descFrom (E1 - 1) (E1 - lowestActive s.ps n) := by
        rw [hmin, hl.active, descFrom_take, Nat.min_self]
        have h1 : n + 1 - lowestActive s.ps n
            = (n - E1) + ((E1 - lowestActive s.ps n) + 1) := by omega
        rw [h1, descFrom_append]
        have h2 : n - (n - E1) = E1 := by omega
        rw [h2]
        rfl
      rw [hsplit]
      have hfound := getScan_found s.ps.bloomFilter k v (descFrom n (n - E1)) E1
        (descFrom (E1 - 1) (E1 - lowestActive s.ps n)) hbf s.w
        (by
          intro p hp
          have := mem_descFrom hp (by omega)
          exact noValue_of_absent hl (by omega) (hab p (by omega) (by omega)))
        (hasValue_of_stored hl (by omega) hla hst)
        (by rw [descFrom_length]; exact hget)
      split
      · next v1 w1 hs =>
        rw [hs] at hfound
        simp only [Option.some.injEq] at hfound
        rw [hfound]
      · next w1 hs =>
        rw [hs] at hfound
        simp at hfound
  · rw [hl.active, descFrom_getElem?, if_pos (by omega)]
    congr 1
    omega
  · rw [hl.flags E1 (by omega)]
    simp only [decide_eq_false_iff_not]
    omega

/-- Out of the active window: no active persister holds `k`, so `Get` finds
nothing once the cache has lost the key. -/
theorem get_beyond_window {n E1 : Nat} {k : Bytes} {s : Sys} (hl : InEpoch n s)
    (hE : E1 ≤ n) (hla : E1 < lowestActive s.ps n)
    (hab : ∀ i, E1 < i → i ≤ n → Absent s i k)
    (hmiss : s.ps.cacher.Get k = none) :
    (Get k s).1 = .error (.keyNotFoundIn k s.ps.identifier) ∧
    E1 ∉ s.ps.activePersisters ∧ (s.w.slots E1).isClosed = true := by
  have hact : ∀ p ∈ s.ps.activePersisters, E1 < p ∧ p ≤ n := by
    intro p hp
    rw [hl.active] at hp
    have := mem_descFrom hp (by omega)
    omega
  refine ⟨?_, ?_, ?_⟩
  · exact Get_none hmiss
      (fun p hp => noValue_of_absent hl (hact p hp).2 (hab p (hact p hp).1 (hact p hp).2))
  · intro hp
    have := (hact E1 hp).1
    omega
  · rw [hl.flags E1 hE]
    simpa using hla

/-- The entry of the map by epoch for an epoch that is kept. -/
theorem map_of_kept {n E1 : Nat} {s : Sys} (hl : InEpoch n s) (hE : E1 ≤ n)
    (hlk : lowestKept s.ps n ≤ E1) : assocGet E1 s.ps.persistersMapByEpoch = some E1 := by
  rw [hl.byEpoch, assocGet_idMap, if_pos (by have := lowestKept_le s.ps n; omega)]

/-- Between the window and the horizon: the closed slot of epoch `E1` is
reopened for the time of the call. -/
theorem reopen_beyond_window {n E1 : Nat} {k v : Bytes} {s : Sys} (hl : InEpoch n s)
    (hE : E1 ≤ n) (hla : E1 < lowestActive s.ps n)
    (hlk : lowestKept s.ps n ≤ E1) (hst : Stored s E1 k v)
    (hmiss : s.ps.cacher.Get k = none)
    (hf0 : s.w.fault s.w.calls.length = none) (hf1 : s.w.fault (s.w.calls.length + 1) = none)
    (hf2 : s.w.fault (s.w.calls.length + 2) = none) :
    (GetFromEpoch k E1 s).1 = .ok v ∧ (GetFromEpoch k E1 s).2.ps = s.ps ∧
    (GetFromEpoch k E1 s).2.w.calls = .close s.w.dbs.length :: .get s.w.dbs.length k ::
      .init s.w.dbs.length :: .create (s.w.slots E1).path :: s.w.calls := by
  obtain ⟨kv, hkv, hv⟩ := keyAt_some hst
  exact @GetFromEpoch_closed s k v E1 E1 kv hmiss (map_of_kept hl hE hlk)
    (by rw [hl.flags E1 hE]; simpa using hla)
    (by rw [hl.paths E1 hE]; exact hkv) hv hf0 hf1 hf2

/-- A storer in epoch `n` no longer knows the epochs beyond the horizon. -/
theorem pruned_of_inEpoch {n E1 : Nat} {s : Sys} (hl : InEpoch n s)
    (hfa : s.ps.fullArchive = false) (hd : E1 + s.ps.numOfEpochsToKeep ≤ n) :
    assocGet E1 s.ps.persistersMapByEpoch = none ∧
    Call.destroyClosed (s.w.slots E1).persister ∈ s.w.calls ∧
    ∀ (k : Bytes), s.ps.cacher.Get k = none →
      (GetFromEpoch k E1 s).1 = .error (.keyNotFoundIn k s.ps.identifier) := by
  have hlk : E1 < lowestKept s.ps n := by
    simp only [lowestKept, hfa, Bool.false_eq_true, if_false]; omega
  have hmap : assocGet E1 s.ps.persistersMapByEpoch = none := by
    rw [hl.byEpoch, assocGet_idMap, if_neg (by omega)]
  refine ⟨hmap, hl.destroyed E1 hlk, ?_⟩
  intro k hmiss
  rw [GetFromEpoch_unknown hmiss hmap]

/-! ## Histories -/

/-- Along a history the storer stays in the layout of consecutive epochs and
keeps its configuration. -/
theorem run_inEpoch {ok : Nat → Op → Sys → Prop} {m n N : Nat} {s t : Sys}
    (hl : InEpoch m s) (hA1 : 1 ≤ s.ps.numOfActivePersisters)
    (hAK : s.ps.numOfActivePersisters ≤ s.ps.numOfEpochsToKeep)
    (hK : s.ps.numOfEpochsToKeep + 1 < 4294967296) (hN : N < 4294967296)
    (hp : DistinctPaths s.ps.dbPath N) (hr : Run ok m s n t) (hn : n ≤ N) :
    InEpoch n t ∧ t.ps.config = s.ps.config ∧ m ≤ n := by
  induction hr with
  | start => exact ⟨hl, rfl, le_refl _⟩
  | @op n s t o ho hr ih =>
    obtain ⟨h1, h2, h3⟩ := ih hl hA1 hAK hK hp hn
    have hf := op_frame o t
    exact ⟨inEpoch_frame h1 hf, hf.config.trans h2, h3⟩
  | @rotate n s t t1 hr hrot ih =>
    obtain ⟨h1, h2, h3⟩ := ih hl hA1 hAK hK hp (by omega)
    obtain ⟨hfa, hpath, hk, ha, -⟩ := config_fields h2
    obtain ⟨hl2, hc2, -⟩ := inEpoch_changeEpoch h1 (by rw [ha]; exact hA1)
      (by rw [ha, hk]; exact hAK) (by rw [hk]; exact hK) (by omega)
      (by rw [hpath]; exact distinctPaths_mono hp hn) hrot
    exact ⟨hl2, hc2.trans h2, by omega⟩

/-! ## Operations that leave the value of a key alone -/

/-- What `Get(k)` puts in the cache is what it returns. -/
theorem Get_cache (k k1 : Bytes) (t : Sys) {x : Bytes}
    (h : (Get k t).2.ps.cacher.Get k1 = some x) :
    t.ps.cacher.Get k1 = some x ∨ (t.ps.cacher.Get k = none ∧ (Get k t).1 = .ok x) := by
  simp only [Get] at h ⊢
  split
  · next v hv =>
    rw [hv] at h
    exact Or.inl h
  · next hmiss =>
    rw [hmiss] at h
    simp only at h ⊢
    split
    · next v0 w1 hs =>
      rw [hs] at h
      simp only at h
      by_cases hk : k1 = k
      · subst hk
        simp only [Cacher.Get, Cacher.Put, assocGet_assocPut_self, Option.some.injEq] at h
        subst h
        exact Or.inr ⟨hmiss, rfl⟩
      · simp only [Cacher.Get, Cacher.Put, assocGet_assocPut_ne hk] at h
        exact Or.inl h
    · next w1 hs =>
      rw [hs] at h
      exact Or.inl h

theorem Get_filter (k : Bytes) (t : Sys) : (Get k t).2.ps.bloomFilter = t.ps.bloomFilter := by
  simp only [Get]
  repeat' split
  all_goals rfl

/-- An operation that is no `Get(k)` and leaves the value of `k` alone spares `k`. -/
theorem spares_of_keeps {k : Bytes} {d : Nat} {o : Op} {t : Sys} (h : o.keeps k d t)
    (hg : o ≠ .get k) : o.spares k := by
  cases o with
  | put k1 v => exact h
  | get k1 =>
    intro he
    exact hg (by rw [he])
  | remove k1 => exact h
  | _ => trivial

/-- What a `Get(k)` keeps, given that it returns `v` whenever it answers from
a persister. -/
theorem Get_keeps_value {k v : Bytes} {t : Sys}
    (hcache : ∀ x, t.ps.cacher.Get k = some x → x = v)
    (hret : ∀ x, t.ps.cacher.Get k = none → (Get k t).1 = .ok x → x = v) :
    ∀ x, (Get k t).2.ps.cacher.Get k = some x → x = v := by
  intro x hx
  rcases Get_cache k k t hx with h | ⟨hmiss, h⟩
  · exact hcache x h
  · exact hret x hmiss h

/-- When the newest active persister holds `v` under `k`, `Get(k)` returns `v`,
unless the `get` of that persister is made to fail. -/
theorem holds_Get {k v : Bytes} {t : Sys} (h : Holds k v t) (hget : t.w.failure = none) :
    (Get k t).1 = .ok v := by
  obtain ⟨hA1, hlen, ⟨p, d, hp, hd, hph, hst⟩, hcache, hbf⟩ := h
  simp only [Get]
  split
  · next v1 hv1 => rw [hcache v1 hv1]
  · next hmiss =>
    obtain ⟨rest, hrest⟩ : ∃ rest, t.ps.activePersisters = p :: rest := by
      cases hl : t.ps.activePersisters with
      | nil => simp [hl] at hp
      | cons q rest =>
        simp only [hl, List.getElem?_cons_zero, Option.some.injEq] at hp
        exact ⟨rest, by rw [hp]⟩
    have hpos : 0 < min t.ps.numOfActivePersisters (u32 t.ps.activePersisters.length) := by
      rw [u32_of_lt hlen, hrest]
      simp only [List.length_cons]
      omega
    obtain ⟨m, hm⟩ : ∃ m, min t.ps.numOfActivePersisters (u32 t.ps.activePersisters.length)
        = m + 1 := ⟨_, (Nat.sub_add_cancel hpos).symm⟩
    obtain ⟨kv1, hkv1, hv1⟩ := keyAt_some hst
    have hg := get_stored (k := k) hget hd hph hkv1 hv1
    have hbf1 := filterAllows_of_holds hbf
    simp only [hm]
    simp only [hrest, List.take_succ_cons, getScan, hbf1, if_true, hg]

/-- What holds of `k` is kept by a state that has the same slots and the same
content under `k`, and whose cache and filter do not hide `k`. -/
theorem holds_frame {k v : Bytes} {t t1 : Sys} (h : Holds k v t) (hf : Frame t t1)
    (hd : WKeeps k t.w t1.w) (hc : ∀ x, t1.ps.cacher.Get k = some x → x = v)
    (hb : filterHolds t1.ps.bloomFilter k) : Holds k v t1 := by
  obtain ⟨hA1, hlen, ⟨p, d, hp, hdb, hph, hst⟩, -, -⟩ := h
  obtain ⟨-, -, -, ha, -⟩ := config_fields hf.config
  have hheap := hf.world.heap
  simp only [World.heap, Prod.mk.injEq] at hheap
  refine ⟨by rw [ha]; exact hA1, by rw [hf.active]; exact hlen, ⟨p, d, ?_, ?_, hph, ?_⟩, hc, hb⟩
  · rw [hf.active]; exact hp
  · have hlt : (t.w.slots p).persister < t.w.dbs.length := by
      by_contra hge
      rw [List.getElem?_eq_none (by omega)] at hdb
      simp at hdb
    obtain ⟨l, hl⟩ := hf.world.dbs
    rw [hheap.1, ← hl, List.getElem?_append_left hlt]
    exact hdb
  · rw [hd]; exact hst

/-- An operation that leaves the value of `k` alone keeps what holds of `k`. -/
theorem holds_op {k v : Bytes} {t : Sys} {o : Op} (h : Holds k v t) (ho : o.keeps k 0 t) :
    Holds k v (o.run t) := by
  by_cases hg : o = .get k
  · subst hg
    refine holds_frame h (op_frame _ t) (Get_wkeeps k k t) ?_ ?_
    · apply Get_keeps_value h.cache
      intro x _ hret
      have hf : t.w.failure = none := ho rfl h.window
      rw [holds_Get h hf] at hret
      simp only [Except.ok.injEq] at hret
      exact hret.symm
    · show filterHolds (Get k t).2.ps.bloomFilter k
      rw [Get_filter]
      exact h.filter
  · have hk := op_keeps (spares_of_keeps ho hg) t
    exact holds_frame h (op_frame o t) hk.disk (fun x hx => h.cache x (hk.cache x hx))
      (hk.filter h.filter)

theorem holds_ops {k v : Bytes} (ops : List Op) : ∀ {t : Sys}, Holds k v t →
    keptThrough k ops t → Holds k v (runOps ops t) := by
  induction ops with
  | nil => intro t h _; exact h
  | cons o l ih =>
    intro t h hk
    exact ih (holds_op h hk.1) hk.2

/-- A successful `Put(k, v)` makes the newest active persister hold `v` under
`k`. -/
theorem holds_Put {k v : Bytes} {s s1 : Sys} (hA1 : 1 ≤ s.ps.numOfActivePersisters)
    (hlen : s.ps.activePersisters.length < 4294967296) (hput : Put k v s = (none, s1)) :
    Holds k v s1 := by
  obtain ⟨p, d, kv, hp, -, hd, hph, hkv, hc, hbf, hact, -, hcfg, hdisk, hdbs, hslots, -⟩ :=
    Put_ok hput
  obtain ⟨-, -, -, ha, -⟩ := config_fields hcfg
  refine ⟨by rw [ha]; exact hA1, by rw [hact]; exact hlen, ⟨p, d, ?_, ?_, hph, ?_⟩, ?_, ?_⟩
  · rw [hact]; exact hp
  · rw [hdbs, hslots]; exact hd
  · rw [hdisk]
    simp [keyAt]
  · intro x hx
    rw [hc] at hx
    simpa [Cacher.Get, Cacher.Put] using hx.symm
  · rw [hbf]
    exact filterHolds_after_add _ _

/-- Along a history that leaves alone the value `v` written under `k` in epoch
`m`: the cache holds no other value for `k`, the filter keeps `k`, the
directory of epoch `m` keeps `v` as long as it is kept, and the directories of
the later epochs do not hold `k`. -/
theorem run_holds {k v : Bytes} {m n N : Nat} {s t : Sys}
    (hl : InEpoch m s) (hA1 : 1 ≤ s.ps.numOfActivePersisters)
    (hAK : s.ps.numOfActivePersisters ≤ s.ps.numOfEpochsToKeep)
    (hK : s.ps.numOfEpochsToKeep + 1 < 4294967296) (hN : N < 4294967296)
    (hp : DistinctPaths s.ps.dbPath N)
    (hst0 : Stored s m k v) (hca0 : ∀ x, s.ps.cacher.Get k = some x → x = v)
    (hbf0 : filterHolds s.ps.bloomFilter k)
    (hr : Run (keepsFrom k m) m s n t) (hn : n ≤ N) :
    (∀ x, t.ps.cacher.Get k = some x → x = v) ∧
    filterHolds t.ps.bloomFilter k ∧
    (lowestKept s.ps n ≤ m → Stored t m k v) ∧
    (∀ i, m < i → i ≤ n → Absent t i k) := by
  induction hr with
  | start => exact ⟨hca0, hbf0, fun _ => hst0, fun i h1 h2 => by omega⟩
  | @op n s t o ho hr ih =>
    obtain ⟨hca, hbf, hst, hnew⟩ := ih hl hA1 hAK hK hp hst0 hca0 hbf0 hn
    obtain ⟨h1, h2, h3⟩ := run_inEpoch hl hA1 hAK hK hN hp hr hn
    obtain ⟨hfa, hpath, hk, ha, -⟩ := config_fields h2
    have hf := op_frame o t
    by_cases hg : o = .get k
    · subst hg
      have hd := Get_wkeeps k k t
      refine ⟨?_, ?_, fun hlo => stored_keeps hf.config hd (hst hlo),
        fun i hi1 hi2 => absent_keeps hf.config hd (hnew i hi1 hi2)⟩
      · apply Get_keeps_value hca
        intro x hmiss hret
        by_cases hwin : n < m + t.ps.numOfActivePersisters
        · have hlk : lowestKept s.ps n ≤ m := by
            simp only [lowestKept]; split <;> omega
          have hfault : t.w.fault (t.w.calls.length + (n - m)) = none :=
            ho rfl (by omega)
          obtain ⟨hgv, -⟩ := get_in_window h1 h3 (by omega) (by rw [ha]; exact hA1)
            (by rw [ha]; omega) hwin (hst hlk) hnew (filterAllows_of_holds hbf) hca hfault
          rw [hgv] at hret
          simp only [Except.ok.injEq] at hret
          exact hret.symm
        · obtain ⟨hgv, -⟩ := get_beyond_window h1 h3
            (by simp only [lowestActive]; omega) hnew hmiss
          rw [hgv] at hret
          simp at hret
      · show filterHolds (Get k t).2.ps.bloomFilter k
        rw [Get_filter]
        exact hbf
    · have hkp := op_keeps (spares_of_keeps ho hg) t
      exact ⟨fun x hx => hca x (hkp.cache x hx), hkp.filter hbf,
        fun hlo => stored_keeps hf.config hkp.disk (hst hlo),
        fun i hi1 hi2 => absent_keeps hf.config hkp.disk (hnew i hi1 hi2)⟩
  | @rotate n s t t1 hr hrot ih =>
    obtain ⟨hca, hbf, hst, hnew⟩ := ih hl hA1 hAK hK hp hst0 hca0 hbf0 (by omega)
    obtain ⟨h1, h2, h3⟩ := run_inEpoch hl hA1 hAK hK hN hp hr (by omega)
    obtain ⟨hfa, hpath, hk, ha, -⟩ := config_fields h2
    have hA1t : 1 ≤ t.ps.numOfActivePersisters := by rw [ha]; exact hA1
    have hAKt : t.ps.numOfActivePersisters ≤ t.ps.numOfEpochsToKeep := by
      rw [ha, hk]; exact hAK
    have hKt : t.ps.numOfEpochsToKeep + 1 < 4294967296 := by rw [hk]; exact hK
    have hpt : DistinctPaths t.ps.dbPath (n + 1) := by
      rw [hpath]; exact distinctPaths_mono hp hn
    obtain ⟨-, -, hca2, hbf2, -⟩ := inEpoch_changeEpoch h1 hA1t hAKt hKt (by omega) hpt hrot
    obtain ⟨hst2, hab2, hnew2⟩ := content_changeEpoch h1 hA1t hAKt hKt (by omega) hpt hrot
    refine ⟨?_, ?_, ?_, ?_⟩
    · intro x hx
      rw [hca2] at hx
      exact hca x hx
    · rw [hbf2]
      exact hbf
    · intro hlo
      have hlo1 : lowestKept s.ps n ≤ m := le_trans (lowestKept_mono _ (by omega)) hlo
      exact hst2 m k v h3 (by rw [lowestKept_congr h2]; exact hlo) (hst hlo1)
    · intro i hi1 hi2
      by_cases hi : i = n + 1
      · subst hi
        exact hnew2 k
      · exact hab2 i k (by omega) (hnew i hi1 (by omega))

theorem cleared_evicted (c : Cacher) : Cacher.EvictedFrom [] c := by
  intro k v h
  simp [Cacher.Get, assocGet] at h

theorem changeEpoch_eq {e : Nat} {s : Sys} (h : (changeEpoch e s).1 = none) :
    changeEpoch e s = (none, (changeEpoch e s).2) := by
  rw [← h]

theorem scenario_rotation1 : changeEpoch 1 scenarioPut = (none, scenarioEpoch 1) :=
  changeEpoch_eq (by decide)

theorem scenario_rotation2 : changeEpoch 2 (scenarioEpoch 1) = (none, scenarioEpoch 2) :=
  changeEpoch_eq (by decide)

theorem scenario_rotation3 : changeEpoch 3 (scenarioEpoch 2) = (none, scenarioEpoch 3) :=
  changeEpoch_eq (by decide)

/-- A persister's `remove` deletes the key from the directory of an opened
persister, unless the call is made to fail. -/
theorem remove_stored {w : World} {h : Nat} {k : Bytes} {d : Db} {kv : List (Bytes × Bytes)}
    (hf : w.failure = none) (hd : w.dbs[h]? = some d) (hph : d.phase = .opened)
    (hdir : assocGet d.path w.disk = some kv) :
    w.remove h k = (none, { w with calls := .remove h k :: w.calls
                                   disk := assocPut d.path (assocDel k kv) w.disk }) := by
  simp [World.remove, hf, World.openDir, World.record, hd, hph, hdir]

theorem run_le {ok : Nat → Op → Sys → Prop} {m n : Nat} {s t : Sys} (hr : Run ok m s n t) : m ≤ n := by
  induction hr with
  | start => exact le_refl _
  | op o ho hr ih => exact ih
  | rotate hr hrot ih => omega

/-- A successful rotation leaves the persister objects of the slots that exist
where they are. -/
theorem changeEpoch_handles {e : Nat} {s s1 : Sys} (h : changeEpoch e s = (none, s1))
    {i : Nat} (hi : i < s.w.nextSlot) :
    (s1.w.slots i).persister = (s.w.slots i).persister := by
  obtain ⟨-, -, hcd⟩ := changeEpoch_ok h
  obtain ⟨s2, hclose, hdestroy⟩ := closeAndDestroyPersisters_ok hcd
  have h0 : ((s.withNewPersister e).w.slots i).persister = (s.w.slots i).persister := by
    simp only [Sys.withNewPersister, World.withNewPersister]
    rw [Function.update_noteq (by omega)]
  have h2 : (s2.w.slots i).persister = (s.w.slots i).persister := by
    rcases closeOldest_ok hclose with ⟨-, rfl⟩ | ⟨-, p, d, -, -, -, -, rfl⟩
    · exact h0
    · rw [← h0]
      simp only [Sys.withOldestClosed]
      by_cases hp : i = p
      · subst hp
        rw [Function.update_same]
      · rw [Function.update_noteq hp]
  rcases destroyOldest_ok hdestroy with ⟨-, rfl⟩ | ⟨-, -, p, d, -, -, -, rfl⟩
  · exact h2
  · exact h2

/-- Along a history the slots of the epochs gone through keep their persister
objects. -/
theorem run_handles {ok : Nat → Op → Sys → Prop} {m n N : Nat} {s t : Sys}
    (hl : InEpoch m s) (hA1 : 1 ≤ s.ps.numOfActivePersisters)
    (hAK : s.ps.numOfActivePersisters ≤ s.ps.numOfEpochsToKeep)
    (hK : s.ps.numOfEpochsToKeep + 1 < 4294967296) (hN : N < 4294967296)
    (hp : DistinctPaths s.ps.dbPath N) (hr : Run ok m s n t) (hn : n ≤ N)
    {i : Nat} (hi : i ≤ m) : (t.w.slots i).persister = (s.w.slots i).persister := by
  induction hr with
  | start => rfl
  | @op n s t o ho hr ih =>
    have hheap := (op_frame o t).world.heap
    simp only [World.heap, Prod.mk.injEq] at hheap
    rw [hheap.1]
    exact ih hl hA1 hAK hK hp hn
  | @rotate n s t t1 hr hrot ih =>
    obtain ⟨h1, -, h3⟩ := run_inEpoch hl hA1 hAK hK hN hp hr (by omega)
    rw [changeEpoch_handles hrot (by rw [h1.nextSlot]; omega)]
    exact ih hl hA1 hAK hK hp (by omega)

theorem frame_withCache (s : Sys) (c : Cacher) : Frame s (s.withCache c) :=
  frame_of rfl rfl (wframe_refl _ _)

/-- The states of a storer built in a fresh system and led to epoch `E1`. -/
theorem built_state {args : PruningStorerArgs} {shard : String}
    {fault : Nat → Option Error} {E1 N : Nat} {ps0 : PruningStorer} {w0 : World} {s1 : Sys}
    (hAK : args.NumOfActivePersisters ≤ args.NumOfEpochsToKeep)
    (hK : args.NumOfEpochsToKeep + 1 < 4294967296) (hN : N < 4294967296)
    (hpaths : DistinctPaths (args.filePath shard) N)
    (hnew : initPruningStorer args shard (World.fresh fault) = (.ok ps0, w0))
    (hrun : Run anyOp 0 ⟨ps0, w0⟩ E1 s1) (hE : E1 ≤ N) :
    InEpoch E1 s1 ∧ 1 ≤ args.NumOfActivePersisters ∧
    s1.ps.fullArchive = args.FullArchive ∧ s1.ps.dbPath = args.filePath shard ∧
    s1.ps.numOfEpochsToKeep = args.NumOfEpochsToKeep ∧
    s1.ps.numOfActivePersisters = args.NumOfActivePersisters ∧
    s1.ps.identifier = args.Identifier := by
  obtain ⟨hA1, hfa0, hpath0, hk0, ha0, hid0, -⟩ := init_success hnew
  obtain ⟨hl0, -, -⟩ := inEpoch_init hnew (by omega)
  obtain ⟨hl1, hc1, -⟩ := run_inEpoch hl0 (by simp only [ha0]; exact hA1)
    (by simp only [ha0, hk0]; exact hAK) (by simp only [hk0]; exact hK) hN
    (by simp only [hpath0]; exact hpaths) hrun hE
  obtain ⟨hfa1, hpath1, hk1, ha1, hid1⟩ := config_fields hc1
  simp only at hfa1 hpath1 hk1 ha1 hid1
  exact ⟨hl1, hA1, by rw [hfa1, hfa0], by rw [hpath1, hpath0], by rw [hk1, hk0],
    by rw [ha1, ha0], by rw [hid1, hid0]⟩

/-- The state reached by the history of the retention claims: the storer is
built in a fresh system and led to epoch `E1`, `Put(k, v)` succeeds, and the
storer is led to epoch `E2` by operations that leave the value of `k` alone. -/
theorem history_state {args : PruningStorerArgs} {shard : String}
    {fault : Nat → Option Error} {E1 E2 : Nat} {k v : Bytes} {ps0 : PruningStorer} {w0 : World}
    {s1 s2 s3 : Sys}
    (hAK : args.NumOfActivePersisters ≤ args.NumOfEpochsToKeep)
    (hK : args.NumOfEpochsToKeep + 1 < 4294967296) (hE : E2 < 4294967296)
    (hpaths : DistinctPaths (args.filePath shard) E2)
    (hnew : initPruningStorer args shard (World.fresh fault) = (.ok ps0, w0))
    (hrun1 : Run anyOp 0 ⟨ps0, w0⟩ E1 s1)
    (hput : Put k v s1 = (none, s2))
    (hrun2 : Run (keepsFrom k E1) E1 s2 E2 s3) :
    InEpoch E2 s3 ∧ E1 ≤ E2 ∧
    s3.ps.numOfActivePersisters = args.NumOfActivePersisters ∧
    s3.ps.numOfEpochsToKeep = args.NumOfEpochsToKeep ∧
    s3.ps.fullArchive = args.FullArchive ∧ s3.ps.identifier = args.Identifier ∧
    1 ≤ args.NumOfActivePersisters ∧
    (∀ x, s3.ps.cacher.Get k = some x → x = v) ∧ filterAllows s3.ps.bloomFilter k = true ∧
    (lowestKept s3.ps E2 ≤ E1 → Stored s3 E1 k v) ∧
    (∀ i, E1 < i → i ≤ E2 → Absent s3 i k) ∧
    (s3.w.slots E1).persister = (s1.w.slots E1).persister := by
  have hle := run_le hrun2
  obtain ⟨hl1, hA1, hfa1, hpath1, hk1, ha1, hid1⟩ :=
    built_state hAK hK hE hpaths hnew hrun1 hle
  obtain ⟨hl2, hc2, hst2, hca2, hbf2⟩ := inEpoch_Put hl1 hput
  obtain ⟨hfa2, hpath2, hk2, ha2, hid2⟩ := config_fields hc2
  have hA2 : 1 ≤ s2.ps.numOfActivePersisters := by rw [ha2, ha1]; exact hA1
  have hAK2 : s2.ps.numOfActivePersisters ≤ s2.ps.numOfEpochsToKeep := by
    rw [ha2, ha1, hk2, hk1]; exact hAK
  have hK2 : s2.ps.numOfEpochsToKeep + 1 < 4294967296 := by rw [hk2, hk1]; exact hK
  have hp2 : DistinctPaths s2.ps.dbPath E2 := by rw [hpath2, hpath1]; exact hpaths
  obtain ⟨hl3, hc3, -⟩ := run_inEpoch hl2 hA2 hAK2 hK2 hE hp2 hrun2 (le_refl _)
  obtain ⟨hca3, hbf3, hst3, hnew3⟩ := run_holds hl2 hA2 hAK2 hK2 hE hp2 hst2
    (by
      intro x hx
      rw [hca2] at hx
      simpa [Cacher.Get, Cacher.Put] using hx.symm)
    (by rw [hbf2]; exact filterHolds_after_add _ _) hrun2 (le_refl _)
  have hh3 := @run_handles _ _ _ _ _ _ hl2 hA2 hAK2 hK2 hE hp2 hrun2 (le_refl _) E1 (le_refl _)
  obtain ⟨hfa3, hpath3, hk3, ha3, hid3⟩ := config_fields hc3
  have hs2 : s2.w.slots = s1.w.slots := by
    obtain ⟨p, d, kv, -, -, -, -, -, -, -, -, -, -, -, -, hslots, -⟩ := Put_ok hput
    exact hslots
  refine ⟨hl3, hle, by rw [ha3, ha2, ha1], by rw [hk3, hk2, hk1], by rw [hfa3, hfa2, hfa1],
    by rw [hid3, hid2, hid1], hA1, hca3, ?_, ?_, hnew3, by rw [hh3, hs2]⟩
  · exact filterAllows_of_holds hbf3
  · intro hlo
    exact hst3 (by rw [← lowestKept_congr hc3]; exact hlo)

/-- A successful `Put` in epoch `n` leaves the directories of the other epochs
as they are. -/
theorem stored_Put_other {n : Nat} {s s1 : Sys} {k v : Bytes} (hl : InEpoch n s)
    (hp : DistinctPaths s.ps.dbPath n) (h : Put k v s = (none, s1))
    {i : Nat} (hi : i < n) {k1 v1 : Bytes} (hs : Stored s i k1 v1) : Stored s1 i k1 v1 := by
  obtain ⟨p, d, kv, hp0, -, hd, -, hkv, -, -, -, -, hcfg, hdisk, -⟩ := Put_ok h
  obtain ⟨-, hpath, -, -, -⟩ := config_fields hcfg
  have hpn : p = n := by
    rw [hl.active, descFrom_getElem?] at hp0
    split at hp0
    · simp only [Option.some.injEq] at hp0
      omega
    · simp at hp0
  subst hpn
  rw [hl.dbs p (le_refl _)] at hd
  simp only [Option.some.injEq] at hd
  subst hd
  simp only at hdisk
  have hne : epochPath s.ps.dbPath i ≠ epochPath s.ps.dbPath p := by
    intro he
    have := distinctPaths_inj hp (by omega) (le_refl _) he
    omega
  simp only [Stored, keyAt] at hs ⊢
  rw [hpath, hdisk, assocGet_assocPut_ne hne]
  exact hs

/-- The retention lemmas read for a storer whose cache has been replaced by a
cache that does not hold `k`. -/
theorem history_lost_cache {n E1 : Nat} {k v : Bytes} {s : Sys} (c : Cacher)
    (hl : InEpoch n s) (hE : E1 ≤ n) (hn : n < 4294967296)
    (hA1 : 1 ≤ s.ps.numOfActivePersisters) (hA32 : s.ps.numOfActivePersisters < 4294967296)
    (hAK : s.ps.numOfActivePersisters ≤ s.ps.numOfEpochsToKeep)
    (hst : lowestKept s.ps n ≤ E1 → Stored s E1 k v)
    (hab : ∀ i, E1 < i → i ≤ n → Absent s i k)
    (hbf : filterAllows s.ps.bloomFilter k = true)
    (hmiss : c.Get k = none) :
    (n < E1 + s.ps.numOfActivePersisters →
      s.w.fault (s.w.calls.length + (n - E1)) = none →
      (Get k (s.withCache c)).1 = .ok v ∧
      s.ps.activePersisters[n - E1]? = some E1 ∧ (s.w.slots E1).isClosed = false ∧
      assocGet E1 s.ps.persistersMapByEpoch = some E1) ∧
    (E1 + s.ps.numOfActivePersisters ≤ n →
      (Get k (s.withCache c)).1 = .error (.keyNotFoundIn k s.ps.identifier) ∧
      E1 ∉ s.ps.activePersisters ∧ (s.w.slots E1).isClosed = true) ∧
    (E1 + s.ps.numOfActivePersisters ≤ n → n < E1 + s.ps.numOfEpochsToKeep →
      assocGet E1 s.ps.persistersMapByEpoch = some E1 ∧
      (s.w.fault s.w.calls.length = none → s.w.fault (s.w.calls.length + 1) = none →
        s.w.fault (s.w.calls.length + 2) = none →
        (GetFromEpoch k E1 (s.withCache c)).1 = .ok v ∧
        (GetFromEpoch k E1 (s.withCache c)).2.w.calls =
          .close s.w.dbs.length :: .get s.w.dbs.length k :: .init s.w.dbs.length ::
            .create (s.w.slots E1).path :: s.w.calls)) ∧
    (s.ps.fullArchive = false → E1 + s.ps.numOfEpochsToKeep ≤ n →
      assocGet E1 s.ps.persistersMapByEpoch = none ∧
      Call.destroyClosed (s.w.slots E1).persister ∈ s.w.calls ∧
      (GetFromEpoch k E1 (s.withCache c)).1 = .error (.keyNotFoundIn k s.ps.identifier)) := by
  have hlc : InEpoch n (s.withCache c) := inEpoch_frame hl (frame_withCache s c)
  refine ⟨?_, ?_, ?_, ?_⟩
  · intro hd hget
    have hlk : lowestKept s.ps n ≤ E1 := by
      simp only [lowestKept]; split <;> omega
    obtain ⟨h1, h2, h3⟩ := @get_in_window n E1 k v (s.withCache c) hlc hE hn hA1 hA32 hd
      (hst hlk) hab hbf (fun x hx => by
        have hx1 : c.Get k = some x := hx
        rw [hmiss] at hx1
        simp at hx1) hget
    exact ⟨h1, h2, h3, map_of_kept hl hE hlk⟩
  · intro hd
    exact @get_beyond_window n E1 k (s.withCache c) hlc hE
      (by simp only [lowestActive]; show E1 < n + 1 - s.ps.numOfActivePersisters; omega)
      hab hmiss
  · intro hdA hdK
    have hlk : lowestKept s.ps n ≤ E1 := by
      simp only [lowestKept]; split <;> omega
    refine ⟨map_of_kept hl hE hlk, ?_⟩
    intro hf0 hf1 hf2
    obtain ⟨h1, -, h3⟩ := @reopen_beyond_window n E1 k v (s.withCache c) hlc hE
      (by simp only [lowestActive]; show E1 < n + 1 - s.ps.numOfActivePersisters; omega)
      hlk (hst hlk) hmiss hf0 hf1 hf2
    exact ⟨h1, h3⟩
  · intro hfa hd
    obtain ⟨h1, h2, h3⟩ := @pruned_of_inEpoch n E1 (s.withCache c) hlc hfa hd
    exact ⟨h1, h2, h3 k hmiss⟩

/-! ## Slots along consecutive rotations, in any system -/

theorem idMapAt_length (b lo len : Nat) : (idMapAt b lo len).length = len := by
  induction len generalizing lo with
  | zero => rfl
  | succ len ih => simp [idMapAt, ih]

theorem assocGet_idMapAt (b lo len e : Nat) :
    assocGet e (idMapAt b lo len) = if lo ≤ e ∧ e < lo + len then some (e + b) else none := by
  induction len generalizing lo with
  | zero =>
    rw [if_neg (by omega)]
    rfl
  | succ len ih =>
    simp only [idMapAt, assocGet, ih]
    by_cases h : lo = e
    · subst h
      simp
    · simp only [h, if_false]
      congr 1
      apply propext
      constructor <;> intro h' <;> omega

theorem assocPut_idMapAt_new (b lo len : Nat) :
    assocPut (lo + len) (lo + len + b) (idMapAt b lo len) = idMapAt b lo (len + 1) := by
  induction len generalizing lo with
  | zero => simp [idMapAt, assocPut]
  | succ len ih =>
    have hne : ¬ lo = lo + (len + 1) := by omega
    have h2 : lo + (len + 1) = (lo + 1) + len := by omega
    rw [idMapAt, assocPut, if_neg hne, h2, ih]
    rfl

theorem assocPut_idMapAt_old (b lo len e : Nat) (h1 : lo ≤ e) (h2 : e < lo + len) :
    assocPut e (e + b) (idMapAt b lo len) = idMapAt b lo len := by
  induction len generalizing lo with
  | zero => omega
  | succ len ih =>
    by_cases h : lo = e
    · subst h
      simp [idMapAt, assocPut]
    · rw [idMapAt, assocPut, if_neg h, ih (lo + 1) (by omega) (by omega)]

theorem assocDel_idMapAt_none (b lo len e : Nat) (h : e < lo) :
    assocDel e (idMapAt b lo len) = idMapAt b lo len := by
  induction len generalizing lo with
  | zero => rfl
  | succ len ih =>
    have hne : ¬ lo = e := by omega
    rw [idMapAt, assocDel, if_neg hne, ih (lo + 1) (by omega)]

theorem assocDel_idMapAt_head (b lo len : Nat) :
    assocDel lo (idMapAt b lo (len + 1)) = idMapAt b (lo + 1) len := by
  rw [idMapAt, assocDel, if_pos rfl, assocDel_idMapAt_none _ _ _ _ (by omega)]

theorem idMapAt_keys (b lo len : Nat) :
    (idMapAt b lo len).map Prod.fst = List.range' lo len := by
  induction len generalizing lo with
  | zero => rfl
  | succ len ih => simp [idMapAt, List.range', ih]

theorem aligned_handle_lt {b n la : Nat} {s : Sys} (hl : Aligned b n la s) {i : Nat}
    (hi : i ≤ n) : (s.w.slots (i + b)).persister < s.w.dbs.length := by
  have h := hl.dbs i hi
  by_contra hge
  rw [List.getElem?_eq_none (by omega)] at h
  simp at h

/-- Client operations leave the slots as they are. -/
theorem aligned_frame {b n la : Nat} {s s1 : Sys} (hl : Aligned b n la s) (hf : Frame s s1) :
    Aligned b n la s1 := by
  obtain ⟨-, hpath, -, -, -⟩ := config_fields hf.config
  have hheap := hf.world.heap
  simp only [World.heap, Prod.mk.injEq] at hheap
  obtain ⟨hslots, hnext⟩ := hheap
  constructor
  · rw [hf.active]; exact hl.active
  · rw [hnext]; exact hl.nextSlot
  · intro i hi
    rw [hslots, hpath]
    exact hl.paths i hi
  · intro i hi
    rw [hslots]
    exact hl.flags i hi
  · intro i hi
    rw [hslots, hpath]
    obtain ⟨t, ht⟩ := hf.world.dbs
    rw [← ht, List.getElem?_append_left (aligned_handle_lt hl hi)]
    exact hl.dbs i hi
  · intro i j hi hj
    rw [hslots]
    exact hl.handles i j hi hj
  · rw [hf.byEpoch]; exact hl.byEpoch

/-- The slots once the persister of epoch `n + 1` has been put in place. -/
theorem aligned_withNewPersister {b n la : Nat} {s : Sys} (hl : Aligned b n la s)
    (hla : la ≤ n + 1) : Aligned b (n + 1) la (s.withNewPersister (n + 1)) := by
  have hpath : getNewFilePath s.ps.dbPath (n + 1) = epochPath s.ps.dbPath (n + 1) := by
    simp [epochPath]
  have hslot : ∀ i, i ≤ n →
      (s.withNewPersister (n + 1)).w.slots (i + b) = s.w.slots (i + b) := by
    intro i hi
    simp only [Sys.withNewPersister, World.withNewPersister, hl.nextSlot]
    rw [Function.update_noteq (by omega)]
  have hslotn : (s.withNewPersister (n + 1)).w.slots (n + 1 + b) =
      { persister := s.w.dbs.length, path := epochPath s.ps.dbPath (n + 1), isClosed := false } := by
    simp only [Sys.withNewPersister, World.withNewPersister, hl.nextSlot, hpath]
    rw [Function.update_same]
  constructor
  · simp only [Sys.withNewPersister, hl.active, hl.nextSlot]
    have : n + 1 + 1 - la = (n + 1 - la) + 1 := by omega
    have h2 : n + 1 + b - 1 = n + b := by omega
    rw [this, descFrom, h2]
  · simp [Sys.withNewPersister, World.withNewPersister, hl.nextSlot]
    omega
  · intro i hi
    by_cases h : i = n + 1
    · subst h
      rw [hslotn]
      rfl
    · rw [hslot i (by omega)]
      exact hl.paths i (by omega)
  · intro i hi
    by_cases h : i = n + 1
    · subst h
      rw [hslotn]
      simp only
      symm
      apply decide_eq_false
      omega
    · rw [hslot i (by omega)]
      exact hl.flags i (by omega)
  · intro i hi
    by_cases h : i = n + 1
    · subst h
      rw [hslotn]
      simp only [Sys.withNewPersister, World.withNewPersister, hpath]
      rw [List.getElem?_append_right (le_refl _)]
      simp
      rw [if_neg (by omega)]
    · rw [hslot i (by omega)]
      simp only [Sys.withNewPersister, World.withNewPersister, hpath]
      rw [List.getElem?_append_left (aligned_handle_lt hl (by omega))]
      exact hl.dbs i (by omega)
  · intro i j hi hj he
    by_cases h1 : i = n + 1
    · by_cases h2 : j = n + 1
      · omega
      · subst h1
        rw [hslotn, hslot j (by omega)] at he
        have := aligned_handle_lt hl (show j ≤ n by omega)
        simp only at he
        omega
    · by_cases h2 : j = n + 1
      · subst h2
        rw [hslotn, hslot i (by omega)] at he
        have := aligned_handle_lt hl (show i ≤ n by omega)
        simp only at he
        omega
      · rw [hslot i (by omega), hslot j (by omega)] at he
        exact hl.handles i j (by omega) (by omega) he
  · intro e p he
    simp only [Sys.withNewPersister, hl.nextSlot] at he
    by_cases h : e = n + 1
    · subst h
      rw [assocGet_assocPut_self] at he
      simp only [Option.some.injEq] at he
      exact ⟨le_refl _, he.symm⟩
    · rw [assocGet_assocPut_ne h] at he
      obtain ⟨h1, h2⟩ := hl.byEpoch e p he
      exact ⟨by omega, h2⟩

/-- The slots once the oldest active persister has been closed. -/
theorem aligned_withOldestClosed {b n la : Nat} {s : Sys} (hl : Aligned b n la s)
    (hla : la < n) (hn : n < 4294967296) (hA : s.ps.numOfActivePersisters = n - la) :
    Aligned b n (la + 1) (s.withOldestClosed n (la + b)) := by
  have hdb := hl.dbs la (by omega)
  have hslot : ∀ i, i ≠ la →
      (s.withOldestClosed n (la + b)).w.slots (i + b) = s.w.slots (i + b) := by
    intro i hi
    simp only [Sys.withOldestClosed]
    rw [Function.update_noteq (by omega)]
  have hslotn : (s.withOldestClosed n (la + b)).w.slots (la + b)
      = { s.w.slots (la + b) with isClosed := true } := by
    simp only [Sys.withOldestClosed]
    rw [Function.update_same]
  have hpers : ∀ i, ((s.withOldestClosed n (la + b)).w.slots (i + b)).persister
      = (s.w.slots (i + b)).persister := by
    intro i
    by_cases h : i = la
    · subst h; rw [hslotn]
    · rw [hslot i h]
  constructor
  · simp only [Sys.withOldestClosed, hl.active, descFrom_take, hA]
    congr 1
    omega
  · exact hl.nextSlot
  · intro i hi
    by_cases h : i = la
    · subst h
      rw [hslotn]
      exact hl.paths i hi
    · rw [hslot i h]
      exact hl.paths i hi
  · intro i hi
    by_cases h : i = la
    · subst h
      rw [hslotn]
      simp
    · rw [hslot i h, hl.flags i hi]
      apply decide_eq_decide.mpr
      omega
  · intro i hi
    rw [hpers]
    simp only [Sys.withOldestClosed, hdb]
    by_cases h : i = la
    · subst h
      rw [List.getElem?_set_self (aligned_handle_lt hl hi)]
      simp
    · have hne : (s.w.slots (la + b)).persister ≠ (s.w.slots (i + b)).persister := by
        intro he
        exact h (hl.handles i la hi (by omega) he.symm)
      rw [List.getElem?_set_ne hne, hl.dbs i hi]
      have : (i < la) ↔ (i < la + 1) := by omega
      simp only [this]
  · intro i j hi hj
    rw [hpers, hpers]
    exact hl.handles i j hi hj
  · intro e p he
    simp only [Sys.withOldestClosed, hA] at he
    rw [subU32_of_le hn (by omega)] at he
    have hkey : n - (n - la) = la := by omega
    rw [hkey] at he
    by_cases h : e = la
    · subst h
      rw [assocGet_assocPut_self] at he
      simp only [Option.some.injEq] at he
      exact ⟨by omega, he.symm⟩
    · rw [assocGet_assocPut_ne h] at he
      exact hl.byEpoch e p he

/-- The slots once a persister has been destroyed and its entry deleted. -/
theorem aligned_withOldestDestroyed {b n la : Nat} {s : Sys} (hl : Aligned b n la s)
    (e q : Nat) : Aligned b n la (s.withOldestDestroyed e q) := by
  constructor
  · exact hl.active
  · exact hl.nextSlot
  · exact hl.paths
  · exact hl.flags
  · exact hl.dbs
  · exact hl.handles
  · intro e1 p he
    simp only [Sys.withOldestDestroyed] at he
    by_cases h : e1 = subU32 e s.ps.numOfEpochsToKeep
    · subst h
      rw [assocGet_assocDel_self] at he
      simp at he
    · rw [assocGet_assocDel_ne h] at he
      exact hl.byEpoch e1 p he

/-- The storer built in any system: the slot of epoch 0 has the pointer the
system was about to allocate. -/
theorem aligned_init {args : PruningStorerArgs} {shard : String} {w : World}
    {ps : PruningStorer} {w1 : World}
    (h : initPruningStorer args shard w = (.ok ps, w1)) :
    Aligned w.nextSlot 0 (lowestActive ps 0) ⟨ps, w1⟩ ∧ ps.activePersisters = [w.nextSlot] := by
  obtain ⟨hA1, -, hpath, hk, ha, -, hact, hmap, hcache, -, hn, hsl, hdbs, hdisk, hfault, -⟩ :=
    init_success h
  have hla : lowestActive ps 0 = 0 := by simp only [lowestActive, ha]; omega
  rw [hla]
  refine ⟨?_, hact⟩
  constructor
  · simpa [descFrom] using hact
  · simp only [hn]; omega
  · intro i hi
    have : i = 0 := by omega
    subst this
    simp [hsl, epochPath, hpath]
  · intro i hi
    have : i = 0 := by omega
    subst this
    simp [hsl]
  · intro i hi
    have : i = 0 := by omega
    subst this
    simp [hsl, hdbs, epochPath, hpath]
  · intro i j hi hj _
    omega
  · intro e p he
    simp only [hmap, assocGet] at he
    split at he
    · next h0 =>
      simp only [Option.some.injEq] at he
      exact ⟨by omega, by omega⟩
    · simp at he

/-- The map by epoch of a storer that has been through the epochs `0, ..., n`
with `epochs_to_keep >= max_active`: the epochs from `lowestKept` on, each
bound to its own slot. -/
theorem keptMap_next {b n : Nat} {s : Sys}
    (hmap : s.ps.persistersMapByEpoch
      = idMapAt b (lowestKept s.ps n) (n + 1 - lowestKept s.ps n)) :
    (s.withNewPersister (n + 1)).ps.persistersMapByEpoch
      = assocPut (n + 1) s.w.nextSlot
          (idMapAt b (lowestKept s.ps n) (n + 1 - lowestKept s.ps n)) := by
  simp only [Sys.withNewPersister, hmap]

/-- The two blocks of a rotation to the next epoch that returns nil, in a
storer led through consecutive epochs: the state between the closing and the
destroying block, and the state after the rotation. -/
theorem aligned_rotation {b n : Nat} {s s1 : Sys} (hl : Aligned b n (lowestActive s.ps n) s)
    (hA1 : 1 ≤ s.ps.numOfActivePersisters) (hA : s.ps.numOfActivePersisters < 4294967296)
    (hn : n + 1 < 4294967296)
    (h : changeEpoch (n + 1) s = (none, s1)) :
    ∃ s2, closeOldest (n + 1) (s.withNewPersister (n + 1)) = (none, s2) ∧
      destroyOldest (n + 1) s2 = (none, s1) ∧
      s2.ps.config = s.ps.config ∧ s1.ps.config = s.ps.config ∧
      (∃ c2, s2.w.calls = c2 ++ s.w.calls ∧ ∀ x, Call.destroyClosed x ∉ c2) ∧
      Aligned b (n + 1) (lowestActive s.ps n) (s.withNewPersister (n + 1)) ∧
      ((¬ s.ps.numOfActivePersisters
            < u32 (s.withNewPersister (n + 1)).ps.activePersisters.length ∧
          s2 = s.withNewPersister (n + 1) ∧
          ((s.ps.numOfActivePersisters + 1 < 4294967296 ∨ n + 2 < 4294967296) →
            n + 1 < s.ps.numOfActivePersisters)) ∨
        (s.ps.numOfActivePersisters
            < u32 (s.withNewPersister (n + 1)).ps.activePersisters.length ∧
          s.ps.numOfActivePersisters ≤ n + 1 ∧ s.ps.numOfActivePersisters + 1 < 4294967296 ∧
          s2 = (s.withNewPersister (n + 1)).withOldestClosed (n + 1)
            (lowestActive s.ps n + b))) ∧
      ((s.ps.numOfActivePersisters + 1 < 4294967296 ∨ n + 2 < 4294967296) →
        Aligned b (n + 1) (lowestActive s.ps (n + 1)) s2 ∧
        Aligned b (n + 1) (lowestActive s.ps (n + 1)) s1) := by
  obtain ⟨-, -, hcd⟩ := changeEpoch_ok h
  obtain ⟨s2, hclose, hdestroy⟩ := closeAndDestroyPersisters_ok hcd
  have hla0 : lowestActive s.ps n ≤ n + 1 := by simp only [lowestActive]; omega
  have hm := aligned_withNewPersister hl hla0
  have hlen : (s.withNewPersister (n + 1)).ps.activePersisters.length
      = n + 1 + 1 - lowestActive s.ps n := by
    rw [hm.active, descFrom_length]
  have hc1 : s1.ps.config = s2.ps.config := by
    rcases destroyOldest_ok hdestroy with ⟨-, rfl⟩ | ⟨-, -, p, d, -, -, -, rfl⟩
    · rfl
    · rfl
  have hal1 : ∀ la, Aligned b (n + 1) la s2 → Aligned b (n + 1) la s1 := by
    intro la h2
    rcases destroyOldest_ok hdestroy with ⟨-, rfl⟩ | ⟨-, -, p, d, -, -, -, rfl⟩
    · exact h2
    · exact aligned_withOldestDestroyed h2 _ _
  rcases closeOldest_ok hclose with ⟨hlt, rfl⟩ | ⟨hlt, p, d, hpA, -, -, -, rfl⟩
  · have hlt0 := hlt
    rw [hlen] at hlt
    have hsmall : (s.ps.numOfActivePersisters + 1 < 4294967296 ∨ n + 2 < 4294967296) →
        n + 1 < s.ps.numOfActivePersisters := by
      intro hfit
      simp only [lowestActive, Sys.withNewPersister] at hlt
      rw [u32_of_lt (by omega)] at hlt
      omega
    refine ⟨_, hclose, hdestroy, rfl, hc1, ⟨[.init s.w.dbs.length,
        .create (getNewFilePath s.ps.dbPath (n + 1))], rfl, ?_⟩, hm, Or.inl ⟨hlt0, rfl, hsmall⟩, ?_⟩
    · intro x hx
      simp at hx
    · intro hfit
      have hsame : lowestActive s.ps (n + 1) = lowestActive s.ps n := by
        have := hsmall hfit
        simp only [lowestActive]
        omega
      rw [hsame]
      exact ⟨hm, hal1 _ hm⟩
  · have hlt0 := hlt
    rw [hlen] at hlt
    have hge : s.ps.numOfActivePersisters ≤ n + 1 ∧
        s.ps.numOfActivePersisters + 1 < 4294967296 := by
      simp only [lowestActive, Sys.withNewPersister] at hlt
      by_cases hw : n + 1 + 1 - (n + 1 - s.ps.numOfActivePersisters) < 4294967296
      · rw [u32_of_lt hw] at hlt
        omega
      · have h32 : n + 1 + 1 - (n + 1 - s.ps.numOfActivePersisters) = 4294967296 := by omega
        rw [h32] at hlt
        simp [u32] at hlt
    have hpe : p = lowestActive s.ps n + b := by
      rw [hm.active, descFrom_getElem?] at hpA
      simp only [Sys.withNewPersister, lowestActive] at hpA ⊢
      split at hpA
      · simp only [Option.some.injEq] at hpA
        omega
      · simp at hpA
    subst hpe
    have hnext : lowestActive s.ps (n + 1) = lowestActive s.ps n + 1 := by
      simp only [lowestActive]; omega
    have hl2 := aligned_withOldestClosed hm (by simp only [lowestActive]; omega)
      hn (by simp only [Sys.withNewPersister, lowestActive]; omega)
    refine ⟨_, hclose, hdestroy, rfl, hc1, ⟨[.close (((s.withNewPersister (n + 1)).w.slots
        (lowestActive s.ps n + b)).persister), .init s.w.dbs.length,
        .create (getNewFilePath s.ps.dbPath (n + 1))], rfl, ?_⟩, hm,
        Or.inr ⟨hlt0, hge.1, hge.2, rfl⟩, ?_⟩
    · intro x hx
      simp at hx
    · intro _
      rw [hnext]
      exact ⟨hl2, hal1 _ hl2⟩

/-- The map by epoch through a rotation that returns nil, with
`epochs_to_keep >= max_active`: exactly the epochs kept, each bound to its own
slot, before the destroying block and after it; the destroying block destroys
the slot of the lowest epoch kept, once `epochs_to_keep <= n + 1`. -/
theorem kept_rotation {b n : Nat} {s s1 s2 : Sys} (hl : Aligned b n (lowestActive s.ps n) s)
    (hmap : s.ps.persistersMapByEpoch
      = idMapAt b (lowestKept s.ps n) (n + 1 - lowestKept s.ps n))
    (hAK : s.ps.numOfActivePersisters ≤ s.ps.numOfEpochsToKeep)
    (hK : s.ps.numOfEpochsToKeep + 1 < 4294967296) (hn : n + 1 < 4294967296)
    (hclose : closeOldest (n + 1) (s.withNewPersister (n + 1)) = (none, s2))
    (hdestroy : destroyOldest (n + 1) s2 = (none, s1))
    (hc2 : s2.ps.config = s.ps.config)
    (hcase : (s2 = s.withNewPersister (n + 1)) ∨
        (s.ps.numOfActivePersisters ≤ n + 1 ∧
          s2 = (s.withNewPersister (n + 1)).withOldestClosed (n + 1)
            (lowestActive s.ps n + b))) :
    (s.withNewPersister (n + 1)).ps.persistersMapByEpoch
      = idMapAt b (lowestKept s.ps n) (n + 2 - lowestKept s.ps n) ∧
    s2.ps.persistersMapByEpoch
      = idMapAt b (lowestKept s.ps n) (n + 2 - lowestKept s.ps n) ∧
    s1.ps.persistersMapByEpoch
      = idMapAt b (lowestKept s.ps (n + 1)) (n + 2 - lowestKept s.ps (n + 1)) ∧
    ((s1 = s2 ∧ (s.ps.fullArchive = false → n + 1 < s.ps.numOfEpochsToKeep)) ∨
      (s.ps.fullArchive = false ∧ s.ps.numOfEpochsToKeep ≤ n + 1 ∧
        s1 = s2.withOldestDestroyed (n + 1) (lowestKept s.ps n + b))) := by
  have hlk0 : lowestKept s.ps n ≤ n + 1 := by
    simp only [lowestKept]; split <;> omega
  have hlkla : lowestKept s.ps n ≤ lowestActive s.ps n := by
    simp only [lowestKept, lowestActive]; split <;> omega
  have hnew : (s.withNewPersister (n + 1)).ps.persistersMapByEpoch
      = idMapAt b (lowestKept s.ps n) (n + 2 - lowestKept s.ps n) := by
    rw [keptMap_next hmap, hl.nextSlot]
    have h1 : lowestKept s.ps n + (n + 1 - lowestKept s.ps n) = n + 1 := by omega
    have h2 : n + 2 - lowestKept s.ps n = (n + 1 - lowestKept s.ps n) + 1 := by omega
    have h3 := assocPut_idMapAt_new b (lowestKept s.ps n) (n + 1 - lowestKept s.ps n)
    rw [h1] at h3
    rw [h2]
    exact h3
  have hmap2 : s2.ps.persistersMapByEpoch
      = idMapAt b (lowestKept s.ps n) (n + 2 - lowestKept s.ps n) := by
    rcases hcase with rfl | ⟨hge, rfl⟩
    · exact hnew
    · simp only [Sys.withOldestClosed]
      rw [hnew]
      have hkey : subU32 (n + 1) (s.withNewPersister (n + 1)).ps.numOfActivePersisters
          = lowestActive s.ps n := by
        simp only [Sys.withNewPersister, lowestActive]
        rw [subU32_of_le hn hge]
      rw [hkey]
      exact assocPut_idMapAt_old _ _ _ _ hlkla (by simp only [lowestActive]; omega)
  refine ⟨hnew, hmap2, ?_⟩
  have hK2 : s2.ps.numOfEpochsToKeep = s.ps.numOfEpochsToKeep := by
    simp only [PruningStorer.config, Prod.mk.injEq] at hc2
    exact hc2.2.2.1
  have hfa2 : s2.ps.fullArchive = s.ps.fullArchive := by
    simp only [PruningStorer.config, Prod.mk.injEq] at hc2
    exact hc2.1
  have hlen2 : s2.ps.persistersMapByEpoch.length = n + 2 - lowestKept s.ps n := by
    rw [hmap2, idMapAt_length]
  rcases destroyOldest_ok hdestroy with ⟨hno, rfl⟩ | ⟨hfa, hgt, p, d, hpK, -, -, rfl⟩
  · have hsame : lowestKept s.ps (n + 1) = lowestKept s.ps n := by
      rw [hlen2, hK2, hfa2] at hno
      simp only [lowestKept] at hno ⊢
      cases hfa : s.ps.fullArchive with
      | true => simp
      | false =>
        simp only [hfa, Bool.false_eq_true, if_false, true_and] at hno ⊢
        rw [u32_of_lt (by omega)] at hno
        omega
    refine ⟨by rw [hsame]; exact hmap2, Or.inl ⟨rfl, fun hfa => ?_⟩⟩
    rw [hlen2, hK2, hfa2] at hno
    simp only [lowestKept, hfa, Bool.false_eq_true, if_false, true_and] at hno
    rw [u32_of_lt (by omega)] at hno
    omega
  · rw [hlen2, hK2] at hgt
    rw [hfa2] at hfa
    have hge : s.ps.numOfEpochsToKeep ≤ n + 1 := by
      simp only [lowestKept, hfa, Bool.false_eq_true, if_false] at hgt
      rw [u32_of_lt (by omega)] at hgt
      omega
    have hlk : lowestKept s.ps n = n + 1 - s.ps.numOfEpochsToKeep := by
      simp [lowestKept, hfa]
    have hnext : lowestKept s.ps (n + 1) = lowestKept s.ps n + 1 := by
      simp only [lowestKept, hfa, Bool.false_eq_true, if_false]; omega
    have hpe : p = lowestKept s.ps n + b := by
      rw [hmap2, assocGet_idMapAt, hK2, subU32_of_le hn hge] at hpK
      split at hpK
      · simp only [Option.some.injEq] at hpK
        omega
      · simp at hpK
    subst hpe
    refine ⟨?_, Or.inr ⟨hfa, hge, rfl⟩⟩
    simp only [Sys.withOldestDestroyed]
    rw [hmap2, hK2, subU32_of_le hn hge, hnext]
    have h1 : n + 1 - s.ps.numOfEpochsToKeep = lowestKept s.ps n := hlk.symm
    have h2 : n + 2 - lowestKept s.ps n = (n + 2 - (lowestKept s.ps n + 1)) + 1 := by omega
    rw [h1, h2]
    exact assocDel_idMapAt_head _ _ _

/-- A storer led from epoch `m` to epoch `n` by client operations and by
rotations to the next epoch that return nil: its slots are those of the
consecutive epochs. -/
theorem run_aligned {ok : Nat → Op → Sys → Prop} {b m n N : Nat} {s t : Sys}
    (hl : Aligned b m (lowestActive s.ps m) s) (hA1 : 1 ≤ s.ps.numOfActivePersisters)
    (hA : s.ps.numOfActivePersisters < 4294967296) (hN : N < 4294967296)
    (hfit : s.ps.numOfActivePersisters + 1 < 4294967296 ∨ N + 1 < 4294967296)
    (hr : Run ok m s n t) (hn : n ≤ N) :
    Aligned b n (lowestActive s.ps n) t ∧ t.ps.config = s.ps.config := by
  induction hr with
  | start => exact ⟨hl, rfl⟩
  | @op n s t o ho hr ih =>
    obtain ⟨h1, h2⟩ := ih hl hA1 hA hfit hn
    have hf := op_frame o t
    exact ⟨aligned_frame h1 hf, hf.config.trans h2⟩
  | @rotate n s t t1 hr hrot ih =>
    obtain ⟨h1, h2⟩ := ih hl hA1 hA hfit (by omega)
    obtain ⟨hfa, hpath, hk, ha, -⟩ := config_fields h2
    have h1t : Aligned b n (lowestActive t.ps n) t := by
      simp only [lowestActive, ha]
      exact h1
    obtain ⟨s2, -, -, -, hc1, -, -, -, hal⟩ := aligned_rotation h1t (by rw [ha]; exact hA1)
      (by rw [ha]; exact hA) (by omega) hrot
    have h3 := (hal (by rw [ha]; omega)).2
    simp only [lowestActive, ha] at h3
    exact ⟨h3, hc1.trans h2⟩

/-- A storer with `epochs_to_keep >= max_active` led from epoch `m` to epoch
`n` by client operations and by rotations to the next epoch that return nil:
its map by epoch holds the epochs kept, each bound to its own slot. -/
theorem run_kept {ok : Nat → Op → Sys → Prop} {b m n N : Nat} {s t : Sys}
    (hl : Aligned b m (lowestActive s.ps m) s)
    (hmap : s.ps.persistersMapByEpoch
      = idMapAt b (lowestKept s.ps m) (m + 1 - lowestKept s.ps m))
    (hA1 : 1 ≤ s.ps.numOfActivePersisters)
    (hAK : s.ps.numOfActivePersisters ≤ s.ps.numOfEpochsToKeep)
    (hK : s.ps.numOfEpochsToKeep + 1 < 4294967296) (hN : N < 4294967296)
    (hr : Run ok m s n t) (hn : n ≤ N) :
    Aligned b n (lowestActive s.ps n) t ∧
    t.ps.persistersMapByEpoch = idMapAt b (lowestKept s.ps n) (n + 1 - lowestKept s.ps n) ∧
    t.ps.config = s.ps.config := by
  induction hr with
  | start => exact ⟨hl, hmap, rfl⟩
  | @op n s t o ho hr ih =>
    obtain ⟨h1, hm1, h2⟩ := ih hl hmap hA1 hAK hK hn
    have hf := op_frame o t
    exact ⟨aligned_frame h1 hf, by rw [hf.byEpoch]; exact hm1, hf.config.trans h2⟩
  | @rotate n s t t1 hr hrot ih =>
    obtain ⟨h1, hm1, h2⟩ := ih hl hmap hA1 hAK hK (by omega)
    obtain ⟨hfa, hpath, hk, ha, -⟩ := config_fields h2
    have hla : ∀ i, lowestActive t.ps i = lowestActive s.ps i := fun i => by
      simp only [lowestActive, ha]
    have hlk : ∀ i, lowestKept t.ps i = lowestKept s.ps i := fun i => by
      simp only [lowestKept, hfa, hk]
    have h1t : Aligned b n (lowestActive t.ps n) t := by rw [hla]; exact h1
    obtain ⟨s2, hclose, hdestroy, hc2, hc1, -, -, hcase, hal⟩ :=
      aligned_rotation h1t (by rw [ha]; exact hA1) (by rw [ha]; omega) (by omega) hrot
    have h3 := (hal (by rw [ha]; omega)).2
    obtain ⟨-, -, hm3, -⟩ := kept_rotation h1t (by rw [hlk]; exact hm1)
      (by rw [ha, hk]; exact hAK) (by rw [hk]; exact hK) (by omega) hclose hdestroy hc2
      (by
        rcases hcase with ⟨-, h, -⟩ | ⟨-, h, -, h'⟩
        · exact Or.inl h
        · exact Or.inr ⟨h, h'⟩)
    rw [hla] at h3
    rw [hlk] at hm3
    exact ⟨h3, hm3, hc1.trans h2⟩

/-- The states of a storer built in any system and led to epoch `n` by client
operations and rotations to the next epoch that return nil. -/
theorem built_aligned {args : PruningStorerArgs} {shard : String} {w : World}
    {n N : Nat} {ps0 : PruningStorer} {w0 : World} {t : Sys}
    (hA : args.NumOfActivePersisters < 4294967296) (hN : N < 4294967296)
    (hfit : args.NumOfActivePersisters + 1 < 4294967296 ∨ N + 1 < 4294967296)
    (hnew : initPruningStorer args shard w = (.ok ps0, w0))
    (hrun : Run anyOp 0 ⟨ps0, w0⟩ n t) (hn : n ≤ N) :
    Aligned w.nextSlot n (lowestActive t.ps n) t ∧ 1 ≤ args.NumOfActivePersisters ∧
    t.ps.fullArchive = args.FullArchive ∧ t.ps.dbPath = args.filePath shard ∧
    t.ps.numOfEpochsToKeep = args.NumOfEpochsToKeep ∧
    t.ps.numOfActivePersisters = args.NumOfActivePersisters ∧
    t.ps.identifier = args.Identifier := by
  obtain ⟨hA1, hfa0, hpath0, hk0, ha0, hid0, -⟩ := init_success hnew
  obtain ⟨hl0, -⟩ := aligned_init hnew
  obtain ⟨hl1, hc1⟩ := run_aligned hl0 (by simp only [ha0]; exact hA1)
    (by simp only [ha0]; exact hA) hN (by simp only [ha0]; exact hfit) hrun hn
  obtain ⟨hfa1, hpath1, hk1, ha1, hid1⟩ := config_fields hc1
  simp only at hfa1 hpath1 hk1 ha1 hid1
  refine ⟨?_, hA1, by rw [hfa1, hfa0], by rw [hpath1, hpath0], by rw [hk1, hk0],
    by rw [ha1, ha0], by rw [hid1, hid0]⟩
  simp only [lowestActive, ha1] at hl1 ⊢
  exact hl1

/-- The map by epoch of a storer with `epochs_to_keep >= max_active` built in
any system and led to epoch `n` by client operations and rotations to the next
epoch that return nil. -/
theorem built_kept {args : PruningStorerArgs} {shard : String} {w : World}
    {n N : Nat} {ps0 : PruningStorer} {w0 : World} {t : Sys}
    (hAK : args.NumOfActivePersisters ≤ args.NumOfEpochsToKeep)
    (hK : args.NumOfEpochsToKeep + 1 < 4294967296) (hN : N < 4294967296)
    (hnew : initPruningStorer args shard w = (.ok ps0, w0))
    (hrun : Run anyOp 0 ⟨ps0, w0⟩ n t) (hn : n ≤ N) :
    t.ps.persistersMapByEpoch
      = idMapAt w.nextSlot (lowestKept t.ps n) (n + 1 - lowestKept t.ps n) := by
  obtain ⟨hA1, hfa0, hpath0, hk0, ha0, hid0, -, hmap0, -⟩ := init_success hnew
  obtain ⟨hl0, -⟩ := aligned_init hnew
  have hlk0 : lowestKept ps0 0 = 0 := by
    simp only [lowestKept, hk0]
    split <;> omega
  obtain ⟨-, hm1, hc1⟩ := @run_kept anyOp w.nextSlot 0 n N ⟨ps0, w0⟩ t hl0
    (by simp only [hlk0, hmap0]; simp [idMapAt])
    (by simp only [ha0]; exact hA1)
    (by simp only [ha0, hk0]; exact hAK) (by simp only [hk0]; exact hK) hN hrun hn
  obtain ⟨hfa1, hpath1, hk1, ha1, hid1⟩ := config_fields hc1
  simp only at hfa1 hpath1 hk1 ha1 hid1
  simp only [lowestKept, hfa1, hk1] at hm1 ⊢
  exact hm1

/-! ## The active slice in reachable states -/

theorem isSome_assocPut {α β : Type} [DecidableEq α] (k k1 : α) (v : β) (l : List (α × β))
    (h : (assocGet k1 l).isSome) : (assocGet k1 (assocPut k v l)).isSome := by
  by_cases hk : k1 = k
  · subst hk
    simp
  · rwa [assocGet_assocPut_ne hk]

theorem activeOpen_of_shape {s s1 : Sys} (h : s1.shape = s.shape) (hs : ActiveOpen s) :
    ActiveOpen s1 := by
  simp only [Sys.shape, Prod.mk.injEq] at h
  obtain ⟨ha, -, hsl, hn⟩ := h
  simpa only [ActiveOpen, ha, hsl, hn] using hs

theorem activeOpen_of_heap {ps : PruningStorer} {s : Sys} {w1 : World}
    (ha : ps.activePersisters = s.ps.activePersisters) (h : w1.heap = s.w.heap)
    (hs : ActiveOpen s) : ActiveOpen ⟨ps, w1⟩ := by
  simpa only [ActiveOpen, ha, heap_slots h, heap_nextSlot h] using hs

theorem nodup_take_getElem? {l : List Nat} (hl : l.Nodup) {n p : Nat} (hp : l[n]? = some p) :
    p ∉ l.take n := by
  intro hmem
  obtain ⟨hn, hpn⟩ := List.getElem?_eq_some.mp hp
  obtain ⟨i, hi, hip⟩ := List.getElem_of_mem hmem
  rw [List.getElem_take] at hip
  rw [List.length_take] at hi
  have := (List.Nodup.getElem_inj_iff hl).mp (hip.trans hpn.symm)
  omega

theorem closeOldest_activeOpen (e : Nat) {s : Sys} (hA : 1 ≤ s.ps.numOfActivePersisters)
    (hs : ActiveOpen s) : ActiveOpen (closeOldest e s).2 := by
  simp only [closeOldest]
  split
  · split
    · exact hs
    next p hp =>
    have hcl := close_heap s.w (s.w.slots p).persister
    split
    · next e1 w1 h =>
      rw [h] at hcl
      exact activeOpen_of_heap rfl hcl hs
    · next w1 h =>
      rw [h] at hcl
      obtain ⟨hne, hnd, hall⟩ := hs
      refine ⟨?_, hnd.sublist (List.take_sublist _ _), ?_⟩
      · cases hact : s.ps.activePersisters with
        | nil => exact absurd hact hne
        | cons a l =>
          cases hnA : s.ps.numOfActivePersisters with
          | zero => omega
          | succ m => simp
      · intro q hq
        have hqp : q ≠ p := fun hqp => nodup_take_getElem? hnd hp (hqp ▸ hq)
        have := hall q (List.mem_of_mem_take hq)
        have hn : w1.nextSlot = s.w.nextSlot := heap_nextSlot hcl
        have hsl : w1.slots = s.w.slots := heap_slots hcl
        simp only [markClosed, hn, hsl, Function.update_noteq hqp]
        exact this
  · exact hs

theorem destroyOldest_activeOpen (e : Nat) {s : Sys} (hs : ActiveOpen s) :
    ActiveOpen (destroyOldest e s).2 := by
  simp only [destroyOldest]
  split
  · split
    · exact hs
    next p hp =>
    have hd := destroyClosed_heap s.w (s.w.slots p).persister
    split
    · next e1 w1 h =>
      rw [h] at hd
      exact activeOpen_of_heap rfl hd hs
    · next w1 h =>
      rw [h] at hd
      exact activeOpen_of_heap (s := s) rfl (by rw [← hd]; rfl) hs
  · exact hs

theorem closeAndDestroyPersisters_activeOpen (e : Nat) {s : Sys}
    (hA : 1 ≤ s.ps.numOfActivePersisters) (hs : ActiveOpen s) :
    ActiveOpen (closeAndDestroyPersisters e s).2 := by
  simp only [closeAndDestroyPersisters]
  have h1 := closeOldest_activeOpen e hA hs
  split
  · next e1 s1 h => rw [h] at h1; exact h1
  · next s1 h => rw [h] at h1; exact destroyOldest_activeOpen e h1

theorem changeEpoch_activeOpen (e : Nat) {s : Sys} (hA : 1 ≤ s.ps.numOfActivePersisters)
    (hs : ActiveOpen s) : ActiveOpen (changeEpoch e s).2 := by
  simp only [changeEpoch]
  split
  · next e1 w1 h =>
    have hc := create_heap s.w (getNewFilePath s.ps.dbPath e)
    rw [h] at hc
    exact activeOpen_of_heap rfl hc hs
  · next db w1 h =>
    have hc := create_heap s.w (getNewFilePath s.ps.dbPath e)
    rw [h] at hc
    have hn : w1.nextSlot = s.w.nextSlot := heap_nextSlot hc
    have hsl : w1.slots = s.w.slots := heap_slots hc
    have hmid : ∀ w3 : World,
        w3.heap = (w1.alloc ⟨db, getNewFilePath s.ps.dbPath e, false⟩).heap →
        ActiveOpen ⟨{ s.ps with
          activePersisters := w1.nextSlot :: s.ps.activePersisters
          persistersMapByEpoch := assocPut e w1.nextSlot s.ps.persistersMapByEpoch }, w3⟩ := by
      intro w3 h3
      obtain ⟨hne, hnd, hall⟩ := hs
      have hfresh : w1.nextSlot ∉ s.ps.activePersisters := by
        intro hm
        have := (hall _ hm).1
        omega
      refine ⟨by simp, List.nodup_cons.mpr ⟨hfresh, hnd⟩, ?_⟩
      intro q hq
      simp only [List.mem_cons] at hq
      simp only [heap_nextSlot h3, heap_slots h3, World.alloc]
      rcases hq with rfl | hq
      · simp
      · have hqn : q ≠ w1.nextSlot := fun hqn => hfresh (hqn ▸ hq)
        have := hall q hq
        rw [Function.update_noteq hqn, hsl]
        exact ⟨by omega, this.2⟩
    have hi := init_heap (w1.alloc ⟨db, getNewFilePath s.ps.dbPath e, false⟩)
      ((w1.alloc ⟨db, getNewFilePath s.ps.dbPath e, false⟩).slots w1.nextSlot).persister
    split
    · next e2 w3 h3 =>
      rw [h3] at hi
      exact hmid w3 hi
    · next w3 h3 =>
      rw [h3] at hi
      exact closeAndDestroyPersisters_activeOpen e hA (hmid w3 hi)

/-- The parts of the invariant of the active slice that hold in every
reachable state, failed rotations included: the active slice is not empty,
holds no pointer twice, and each of its slots is allocated with `isClosed`
false; hence a slot whose `isClosed` is true is not in the active slice. -/
theorem reachable_activeOpen {s : Sys} (h : Reachable s) :
    ActiveOpen s ∧ ∀ p, (s.w.slots p).isClosed = true → p ∉ s.ps.activePersisters := by
  have hmain : ActiveOpen s := by
    induction h with
    | @construct args shard w w1 ps hA hK hinit =>
      obtain ⟨-, -, -, -, -, -, hact, -, -, -, hn, hsl, -⟩ := init_success hinit
      refine ⟨by simp [hact], by simp [hact], ?_⟩
      intro p hp
      simp only [hact, List.mem_singleton] at hp
      subst hp
      simp [hn, hsl]
    | afterPut k v _ ih => exact activeOpen_of_shape (Put_shape k v _) ih
    | afterGet k _ ih => exact activeOpen_of_shape (Get_shape k _) ih
    | afterGetFromEpoch k e _ ih => exact activeOpen_of_shape (GetFromEpoch_shape k e _) ih
    | afterHas k _ ih => exact activeOpen_of_shape (Has_shape k _) ih
    | afterHasInEpoch k e _ ih => exact activeOpen_of_shape (HasInEpoch_shape k e _) ih
    | afterRemove k _ ih => exact activeOpen_of_shape (Remove_shape k _) ih
    | afterClearCache _ ih => exact ih
    | afterDestroyUnit _ ih => exact activeOpen_of_shape (DestroyUnit_shape _) ih
    | afterChangeEpoch e _ hr ih => exact changeEpoch_activeOpen e (reachable_basic hr).1 ih
    | afterEviction c _ _ ih => exact ih
  refine ⟨hmain, fun p hp hmem => ?_⟩
  have := (hmain.2.2 p hmem).2
  rw [hp] at this
  exact absurd this (by decide)

/-! ## The slots the storer holds keep their persister and their directory -/

theorem keepsPaths_refl (w : World) : World.keepsPaths w w := fun _ d h => ⟨d, h, rfl⟩

theorem keepsPaths_trans {w w1 w2 : World} (h1 : World.keepsPaths w w1)
    (h2 : World.keepsPaths w1 w2) : World.keepsPaths w w2 := by
  intro h d hd
  obtain ⟨d1, hd1, hp1⟩ := h1 h d hd
  obtain ⟨d2, hd2, hp2⟩ := h2 h d1 hd1
  exact ⟨d2, hd2, hp2.trans hp1⟩

theorem keepsPaths_of_dbs {w w1 : World} (h : w1.dbs = w.dbs) : World.keepsPaths w w1 := by
  intro i d hd
  exact ⟨d, by rw [h]; exact hd, rfl⟩

theorem keepsPaths_of_append {w w1 : World} (h : List.IsPrefix w.dbs w1.dbs) :
    World.keepsPaths w w1 := by
  intro i d hd
  obtain ⟨l, hl⟩ := h
  have hlt : i < w.dbs.length := by
    by_contra hge
    rw [List.getElem?_eq_none (by omega)] at hd
    simp at hd
  exact ⟨d, by rw [← hl, List.getElem?_append_left hlt]; exact hd, rfl⟩

theorem keepsPaths_set {w w1 : World} {i : Nat} {d0 : Db} (ph : Phase)
    (h0 : w.dbs[i]? = some d0) (hw : w1.dbs = w.dbs.set i { d0 with phase := ph }) :
    World.keepsPaths w w1 := by
  intro j d hd
  rw [hw]
  by_cases hij : i = j
  · subst hij
    have hlt : i < w.dbs.length := by
      by_contra hge
      rw [List.getElem?_eq_none (by omega)] at hd
      simp at hd
    rw [h0] at hd
    simp only [Option.some.injEq] at hd
    subst hd
    exact ⟨_, List.getElem?_set_self hlt, rfl⟩
  · exact ⟨d, by simp only [List.getElem?_set_ne hij]; exact hd, rfl⟩

theorem create_paths (w : World) (p : String) : World.keepsPaths w (w.create p).2 := by
  simp only [World.create, World.record]
  split
  · exact keepsPaths_of_dbs rfl
  · exact keepsPaths_of_append ⟨_, rfl⟩

theorem init_paths (w : World) (h : Nat) : World.keepsPaths w (w.init h).2 := by
  simp only [World.init, World.record, World.setDb]
  split
  · exact keepsPaths_of_dbs rfl
  · split
    · next d hd =>
      split
      · exact keepsPaths_set .opened hd rfl
      · exact keepsPaths_of_dbs rfl
    · exact keepsPaths_of_dbs rfl

theorem close_paths (w : World) (h : Nat) : World.keepsPaths w (w.close h).2 := by
  simp only [World.close, World.record, World.setDb]
  split
  · exact keepsPaths_of_dbs rfl
  · split
    · next d hd =>
      split
      · exact keepsPaths_set .closed hd rfl
      · exact keepsPaths_of_dbs rfl
    · exact keepsPaths_of_dbs rfl

theorem destroy_paths (w : World) (h : Nat) : World.keepsPaths w (w.destroy h).2 := by
  simp only [World.destroy, World.record, World.setDb]
  split
  · exact keepsPaths_of_dbs rfl
  · split
    · next d hd =>
      split
      · exact keepsPaths_set .destroyed hd rfl
      · exact keepsPaths_of_dbs rfl
    · exact keepsPaths_of_dbs rfl

theorem destroyClosed_paths (w : World) (h : Nat) :
    World.keepsPaths w (w.destroyClosed h).2 := by
  simp only [World.destroyClosed, World.record]
  repeat' split
  all_goals exact keepsPaths_of_dbs rfl

theorem destroyScan_paths (l : List (Nat × Nat)) (n : Nat) (w : World) :
    World.keepsPaths w (destroyScan l n w).2 := by
  induction l generalizing w n with
  | nil => exact keepsPaths_refl w
  | cons hd t ih =>
    obtain ⟨e, p⟩ := hd
    simp only [destroyScan]
    have hstep : World.keepsPaths w (if (w.slots p).isClosed then
        w.destroyClosed (w.slots p).persister else w.destroy (w.slots p).persister).2 := by
      split
      · exact destroyClosed_paths _ _
      · exact destroy_paths _ _
    split
    · next e1 w1 h =>
      rw [h] at hstep
      exact keepsPaths_trans hstep (ih _ _)
    · next w1 h =>
      rw [h] at hstep
      exact keepsPaths_trans hstep (ih _ _)

theorem DestroyUnit_paths (s : Sys) : World.keepsPaths s.w (DestroyUnit s).2.w := by
  simp only [DestroyUnit]
  have := destroyScan_paths s.ps.persistersMapByEpoch 0 s.w
  split <;> exact this

/-- A state with the same slots, whose persister objects are still there, is
in good standing when the state it comes from is. -/
theorem heldOk_of_shape {s s1 : Sys} (h : s1.shape = s.shape)
    (hk : World.keepsPaths s.w s1.w) (hs : HeldOk s) : HeldOk s1 := by
  simp only [Sys.shape, Prod.mk.injEq] at h
  obtain ⟨ha, hm, hsl, -⟩ := h
  intro q hq
  simp only [Sys.holds, ha, hm] at hq
  obtain ⟨d, hd, hp⟩ := hs q hq
  obtain ⟨d1, hd1, hp1⟩ := hk _ d hd
  exact ⟨d1, by rw [hsl]; exact hd1, by rw [hsl, hp1, hp]⟩

theorem heldOk_frame {s s1 : Sys} (hf : Frame s s1) (hs : HeldOk s) : HeldOk s1 := by
  have hheap := hf.world.heap
  simp only [World.heap, Prod.mk.injEq] at hheap
  refine heldOk_of_shape ?_ (keepsPaths_of_append hf.world.dbs) hs
  simp only [Sys.shape, hf.active, hf.byEpoch, hheap.1, hheap.2]

theorem assocGet_assocPut_cases {α β : Type} [DecidableEq α] {k e : α} {v q : β}
    {l : List (α × β)} (h : assocGet e (assocPut k v l) = some q) :
    (e = k ∧ q = v) ∨ assocGet e l = some q := by
  by_cases he : e = k
  · subst he
    rw [assocGet_assocPut_self] at h
    simp only [Option.some.injEq] at h
    exact Or.inl ⟨rfl, h.symm⟩
  · rw [assocGet_assocPut_ne he] at h
    exact Or.inr h

theorem assocGet_mem {α β : Type} [DecidableEq α] {e : α} {q : β} {l : List (α × β)}
    (h : assocGet e l = some q) : (e, q) ∈ l := by
  induction l with
  | nil => simp [assocGet] at h
  | cons hd t ih =>
    obtain ⟨k', v'⟩ := hd
    simp only [assocGet] at h
    split at h
    · next hk =>
      simp only [Option.some.injEq] at h
      subst hk h
      exact List.mem_cons_self _ _
    · exact List.mem_cons_of_mem _ (ih h)

theorem assocGet_assocDel_some {α β : Type} [DecidableEq α] {k e : α} {q : β}
    {l : List (α × β)} (h : assocGet e (assocDel k l) = some q) :
    e ≠ k ∧ assocGet e l = some q := by
  by_cases he : e = k
  · subst he
    rw [assocGet_assocDel_self] at h
    simp at h
  · rw [assocGet_assocDel_ne he] at h
    exact ⟨he, h⟩

theorem closeOldest_heldOk (e : Nat) {s : Sys} (hs : HeldOk s) :
    HeldOk (closeOldest e s).2 := by
  simp only [closeOldest]
  split
  · split
    · exact hs
    next p hp =>
    have hmem : p ∈ s.ps.activePersisters := List.getElem?_mem hp
    have hcl := close_heap s.w (s.w.slots p).persister
    have hpa := close_paths s.w (s.w.slots p).persister
    split
    · next e1 w1 h =>
      rw [h] at hcl hpa
      exact heldOk_of_shape (shape_of_heap rfl rfl hcl) hpa hs
    · next w1 h =>
      rw [h] at hcl hpa
      have hsl : w1.slots = s.w.slots := heap_slots hcl
      intro q hq
      have hq0 : s.holds q := by
        rcases hq with hq | ⟨e1, hq⟩
        · exact Or.inl (List.mem_of_mem_take hq)
        · rcases assocGet_assocPut_cases hq with ⟨-, rfl⟩ | hq
          · exact Or.inl hmem
          · exact Or.inr ⟨e1, hq⟩
      obtain ⟨d, hd, hpath⟩ := hs q hq0
      obtain ⟨d1, hd1, hp1⟩ := hpa _ d hd
      have hper : ((markClosed w1 p).slots q).persister = (s.w.slots q).persister := by
        simp only [markClosed, hsl]
        by_cases hqp : q = p
        · subst hqp; rw [Function.update_same]
        · rw [Function.update_noteq hqp]
      have hpth : ((markClosed w1 p).slots q).path = (s.w.slots q).path := by
        simp only [markClosed, hsl]
        by_cases hqp : q = p
        · subst hqp; rw [Function.update_same]
        · rw [Function.update_noteq hqp]
      exact ⟨d1, by rw [hper]; exact hd1, by rw [hpth, hp1, hpath]⟩
  · exact hs

theorem destroyOldest_heldOk (e : Nat) {s : Sys} (hs : HeldOk s) :
    HeldOk (destroyOldest e s).2 := by
  simp only [destroyOldest]
  split
  · split
    · exact hs
    next p hp =>
    have hd := destroyClosed_heap s.w (s.w.slots p).persister
    have hpa := destroyClosed_paths s.w (s.w.slots p).persister
    have hsub : ∀ (w1 : World) (m : List (Nat × Nat)), w1.heap = s.w.heap →
        World.keepsPaths s.w w1 →
        m = assocDel (subU32 e s.ps.numOfEpochsToKeep) s.ps.persistersMapByEpoch →
        HeldOk ⟨{ s.ps with persistersMapByEpoch := m }, w1⟩ := by
      intro w1 m hh hk hm q hq
      subst hm
      have hq0 : s.holds q := by
        rcases hq with hq | ⟨e1, hq⟩
        · exact Or.inl hq
        · exact Or.inr ⟨e1, (assocGet_assocDel_some hq).2⟩
      obtain ⟨d, hd, hpath⟩ := hs q hq0
      obtain ⟨d1, hd1, hp1⟩ := hk _ d hd
      have hsl : w1.slots = s.w.slots := heap_slots hh
      exact ⟨d1, by simp only [hsl]; exact hd1, by simp only [hsl, hp1, hpath]⟩
    split
    · next e1 w1 h =>
      rw [h] at hd hpa
      exact hsub w1 _ hd hpa rfl
    · next w1 h =>
      rw [h] at hd hpa
      exact hsub _ _ hd hpa rfl
  · exact hs

theorem closeAndDestroyPersisters_heldOk (e : Nat) {s : Sys} (hs : HeldOk s) :
    HeldOk (closeAndDestroyPersisters e s).2 := by
  simp only [closeAndDestroyPersisters]
  have h1 := closeOldest_heldOk e hs
  split
  · next e1 s1 h => rw [h] at h1; exact h1
  · next s1 h => rw [h] at h1; exact destroyOldest_heldOk e h1

theorem changeEpoch_heldOk (e : Nat) {s : Sys} (hh : HeapOk s) (hs : HeldOk s) :
    HeldOk (changeEpoch e s).2 := by
  simp only [changeEpoch]
  split
  · next e1 w1 h =>
    have hc := create_heap s.w (getNewFilePath s.ps.dbPath e)
    have hp := create_paths s.w (getNewFilePath s.ps.dbPath e)
    rw [h] at hc hp
    exact heldOk_of_shape (shape_of_heap rfl rfl hc) hp hs
  · next db w1 h =>
    obtain ⟨hf, hdb, hw1⟩ := create_ok h
    have hc := create_heap s.w (getNewFilePath s.ps.dbPath e)
    have hp := create_paths s.w (getNewFilePath s.ps.dbPath e)
    rw [h] at hc hp
    have hn : w1.nextSlot = s.w.nextSlot := heap_nextSlot hc
    have hsl : w1.slots = s.w.slots := heap_slots hc
    have hnew : w1.dbs[db]? = some ⟨getNewFilePath s.ps.dbPath e, .created⟩ := by
      subst hw1 hdb
      simp [World.record]
    have hmid : ∀ w3 : World, w3.heap = (w1.alloc ⟨db, getNewFilePath s.ps.dbPath e, false⟩).heap →
        World.keepsPaths w1 w3 →
        HeldOk ⟨{ s.ps with
          activePersisters := w1.nextSlot :: s.ps.activePersisters
          persistersMapByEpoch := assocPut e w1.nextSlot s.ps.persistersMapByEpoch }, w3⟩ := by
      intro w3 h3 hk3 q hq
      have hsl3 : w3.slots = Function.update s.w.slots s.w.nextSlot
          ⟨db, getNewFilePath s.ps.dbPath e, false⟩ := by
        rw [heap_slots h3]
        simp only [World.alloc, hsl, hn]
      have hcase : q = s.w.nextSlot ∨ s.holds q := by
        rcases hq with hq | ⟨e1, hq⟩
        · simp only [List.mem_cons, hn] at hq
          rcases hq with hq | hq
          · exact Or.inl hq
          · exact Or.inr (Or.inl hq)
        · rcases assocGet_assocPut_cases hq with ⟨-, hq⟩ | hq
          · exact Or.inl (by rw [hq, hn])
          · exact Or.inr (Or.inr ⟨e1, hq⟩)
      rcases hcase with rfl | hq0
      · obtain ⟨d1, hd1, hp1⟩ := hk3 _ _ hnew
        refine ⟨d1, ?_, ?_⟩
        · simp only [hsl3, Function.update_same]
          exact hd1
        · simp only [hsl3, Function.update_same]
          exact hp1
      · have hne : q ≠ s.w.nextSlot := by
          rcases hq0 with hq0 | ⟨e1, hq0⟩
          · exact Nat.ne_of_lt (hh.1 q hq0)
          · have := hh.2 (e1, q) (assocGet_mem hq0)
            exact Nat.ne_of_lt this
        obtain ⟨d, hd, hpath⟩ := hs q hq0
        obtain ⟨d1, hd1, hp1⟩ := hp _ d hd
        obtain ⟨d2, hd2, hp2⟩ := hk3 _ d1 hd1
        refine ⟨d2, ?_, ?_⟩
        · simp only [hsl3, Function.update_noteq hne]
          exact hd2
        · simp only [hsl3, Function.update_noteq hne]
          rw [hp2, hp1, hpath]
    have hi := init_heap (w1.alloc ⟨db, getNewFilePath s.ps.dbPath e, false⟩)
      ((w1.alloc ⟨db, getNewFilePath s.ps.dbPath e, false⟩).slots w1.nextSlot).persister
    have hip := init_paths (w1.alloc ⟨db, getNewFilePath s.ps.dbPath e, false⟩)
      ((w1.alloc ⟨db, getNewFilePath s.ps.dbPath e, false⟩).slots w1.nextSlot).persister
    split
    · next e2 w3 h3 =>
      rw [h3] at hi hip
      exact hmid w3 hi hip
    · next w3 h3 =>
      rw [h3] at hi hip
      exact closeAndDestroyPersisters_heldOk e (hmid w3 hi hip)

/-- In every reachable state the slots the storer holds are in good standing:
the persister of each exists and works on the directory the slot records. -/
theorem reachable_heldOk {s : Sys} (h : Reachable s) : HeldOk s := by
  induction h with
  | @construct args shard w w1 ps hA hK hinit =>
    obtain ⟨-, -, -, -, -, -, hact, hmap, -, -, hn, hsl, hdbs, -⟩ := init_success hinit
    intro q hq
    have hq0 : q = w.nextSlot := by
      rcases hq with hq | ⟨e, hq⟩
      · simpa [hact] using hq
      · simp only [hmap, assocGet] at hq
        split at hq
        · simp only [Option.some.injEq] at hq
          exact hq.symm
        · simp at hq
    subst hq0
    refine ⟨⟨args.filePath shard, .opened⟩, ?_, ?_⟩
    · simp [hsl, hdbs]
    · simp [hsl]
  | afterPut k v _ ih => exact heldOk_frame (op_frame (.put k v) _) ih
  | afterGet k _ ih => exact heldOk_frame (op_frame (.get k) _) ih
  | afterGetFromEpoch k e _ ih => exact heldOk_frame (op_frame (.getFromEpoch k e) _) ih
  | afterHas k _ ih => exact heldOk_frame (op_frame (.has k) _) ih
  | afterHasInEpoch k e _ ih => exact heldOk_frame (op_frame (.hasInEpoch k e) _) ih
  | afterRemove k _ ih => exact heldOk_frame (op_frame (.remove k) _) ih
  | afterClearCache _ ih => exact heldOk_frame (op_frame .clearCache _) ih
  | afterDestroyUnit _ ih => exact heldOk_of_shape (DestroyUnit_shape _) (DestroyUnit_paths _) ih
  | afterChangeEpoch e _ hr ih => exact changeEpoch_heldOk e (reachable_basic hr).2.2.2 ih
  | afterEviction c _ _ ih => exact heldOk_frame (frame_withCache _ c) ih

/-! ## The newest slot is recorded under one epoch -/

theorem headOnce_of_shape {s s1 : Sys} (h : s1.shape = s.shape) (hs : HeadOnce s) :
    HeadOnce s1 := by
  simp only [Sys.shape, Prod.mk.injEq] at h
  obtain ⟨ha, hm, -, -⟩ := h
  simpa only [HeadOnce, ha, hm] using hs

theorem closeOldest_headOnce (e : Nat) {s : Sys} (hA : 1 ≤ s.ps.numOfActivePersisters)
    (hnd : s.ps.activePersisters.Nodup) (hs : HeadOnce s) : HeadOnce (closeOldest e s).2 := by
  simp only [closeOldest]
  split
  · split
    · exact hs
    next q hq =>
    split
    · next e1 w1 h => exact hs
    · next w1 h =>
      intro p e1 e2 hp h1 h2
      simp only at hp h1 h2
      have hp0 : s.ps.activePersisters[0]? = some p := by
        rw [List.getElem?_take_of_lt (by omega)] at hp
        exact hp
      have hne : p ≠ q := by
        intro hpq
        subst hpq
        obtain ⟨h0, hp0'⟩ := List.getElem?_eq_some.mp hp0
        obtain ⟨hA', hq'⟩ := List.getElem?_eq_some.mp hq
        have := (List.Nodup.getElem_inj_iff hnd).mp (hp0'.trans hq'.symm)
        omega
      rcases assocGet_assocPut_cases h1 with ⟨-, hc⟩ | h1
      · exact absurd hc hne
      rcases assocGet_assocPut_cases h2 with ⟨-, hc⟩ | h2
      · exact absurd hc hne
      exact hs p e1 e2 hp0 h1 h2
  · exact hs

theorem destroyOldest_headOnce (e : Nat) {s : Sys} (hs : HeadOnce s) :
    HeadOnce (destroyOldest e s).2 := by
  have hsub : ∀ (w1 : World) (m : List (Nat × Nat)),
      m = assocDel (subU32 e s.ps.numOfEpochsToKeep) s.ps.persistersMapByEpoch →
      HeadOnce ⟨{ s.ps with persistersMapByEpoch := m }, w1⟩ := by
    intro w1 m hm p e1 e2 hp h1 h2
    subst hm
    exact hs p e1 e2 hp (assocGet_assocDel_some h1).2 (assocGet_assocDel_some h2).2
  simp only [destroyOldest]
  split
  · split
    · exact hs
    next q hq =>
    split
    · next e1 w1 h => exact hsub w1 _ rfl
    · next w1 h => exact hsub _ _ rfl
  · exact hs

theorem changeEpoch_headOnce (e : Nat) {s : Sys} (hA : 1 ≤ s.ps.numOfActivePersisters)
    (hheap : HeapOk s) (hnd : s.ps.activePersisters.Nodup) (hs : HeadOnce s) :
    HeadOnce (changeEpoch e s).2 := by
  simp only [changeEpoch]
  split
  · next e1 w1 h => exact hs
  · next db w1 h =>
    have hc := create_heap s.w (getNewFilePath s.ps.dbPath e)
    rw [h] at hc
    have hn : w1.nextSlot = s.w.nextSlot := heap_nextSlot hc
    have hmid : ∀ w3 : World,
        HeadOnce ⟨{ s.ps with
          activePersisters := w1.nextSlot :: s.ps.activePersisters
          persistersMapByEpoch := assocPut e w1.nextSlot s.ps.persistersMapByEpoch }, w3⟩ := by
      intro w3 p e1 e2 hp h1 h2
      simp only [List.getElem?_cons_zero, Option.some.injEq] at hp
      subst hp
      have hold : ∀ e', assocGet e' s.ps.persistersMapByEpoch ≠ some w1.nextSlot := by
        intro e' he'
        have := hheap.2 _ (assocGet_mem he')
        simp only at this
        omega
      rcases assocGet_assocPut_cases h1 with ⟨h1, -⟩ | h1
      · rcases assocGet_assocPut_cases h2 with ⟨h2, -⟩ | h2
        · rw [h1, h2]
        · exact absurd h2 (hold _)
      · exact absurd h1 (hold _)
    have hndmid : (w1.nextSlot :: s.ps.activePersisters).Nodup := by
      refine List.nodup_cons.mpr ⟨?_, hnd⟩
      intro hm
      have := hheap.1 _ hm
      omega
    split
    · next e2 w3 h3 => exact hmid w3
    · next w3 h3 =>
      simp only [closeAndDestroyPersisters]
      have h1 := @closeOldest_headOnce e ⟨{ s.ps with
          activePersisters := w1.nextSlot :: s.ps.activePersisters
          persistersMapByEpoch := assocPut e w1.nextSlot s.ps.persistersMapByEpoch }, w3⟩
        hA hndmid (hmid w3)
      split
      · next e4 s4 h4 => rw [h4] at h1; exact h1
      · next s4 h4 => rw [h4] at h1; exact destroyOldest_headOnce e h1

/-- In every reachable state the map by epoch holds the newest slot of the
active slice under one epoch at most. -/
theorem reachable_headOnce {s : Sys} (h : Reachable s) : HeadOnce s := by
  induction h with
  | @construct args shard w w1 ps hA hK hinit =>
    obtain ⟨-, -, -, -, -, -, -, hmap, -⟩ := init_success hinit
    intro p e1 e2 _ h1 h2
    simp only [hmap, assocGet] at h1 h2
    split at h1
    · split at h2
      · omega
      · simp at h2
    · simp at h1
  | afterPut k v _ ih => exact headOnce_of_shape (Put_shape k v _) ih
  | afterGet k _ ih => exact headOnce_of_shape (Get_shape k _) ih
  | afterGetFromEpoch k e _ ih => exact headOnce_of_shape (GetFromEpoch_shape k e _) ih
  | afterHas k _ ih => exact headOnce_of_shape (Has_shape k _) ih
  | afterHasInEpoch k e _ ih => exact headOnce_of_shape (HasInEpoch_shape k e _) ih
  | afterRemove k _ ih => exact headOnce_of_shape (Remove_shape k _) ih
  | afterClearCache _ ih => exact ih
  | afterDestroyUnit _ ih => exact headOnce_of_shape (DestroyUnit_shape _) ih
  | afterChangeEpoch e _ hr ih =>
    exact changeEpoch_headOnce e (reachable_basic hr).1 (reachable_basic hr).2.2.2
      (reachable_activeOpen hr).1.2.1 ih
  | afterEviction c _ _ ih => exact ih

/-! ## A slot on its way out of the storer -/

theorem subU32_cases {e a : Nat} (he : e < 4294967296) (ha : a < 4294967296) :
    (a ≤ e ∧ subU32 e a = e - a) ∨ (e < a ∧ subU32 e a = e + 4294967296 - a) := by
  simp only [subU32, u32_of_lt he, u32_of_lt ha]
  by_cases h : a ≤ e
  · left
    refine ⟨h, ?_⟩
    have : e + 4294967296 - a = (e - a) + 4294967296 := by omega
    rw [this, Nat.add_mod_right, Nat.mod_eq_of_lt (by omega)]
  · right
    exact ⟨by omega, Nat.mod_eq_of_lt (by omega)⟩

theorem length_assocPut_le {α β : Type} [DecidableEq α] (k : α) (v : β) (l : List (α × β)) :
    (assocPut k v l).length ≤ l.length + 1 := by
  induction l with
  | nil => simp [assocPut]
  | cons hd t ih =>
    obtain ⟨k', v'⟩ := hd
    simp only [assocPut]
    split
    · simp
    · simp only [List.length_cons]
      omega

theorem length_assocDel_le {α β : Type} [DecidableEq α] (k : α) (l : List (α × β)) :
    (assocDel k l).length ≤ l.length := by
  induction l with
  | nil => simp [assocDel]
  | cons hd t ih =>
    obtain ⟨k', v'⟩ := hd
    simp only [assocDel]
    split
    · simp only [List.length_cons]
      omega
    · simp only [List.length_cons]
      omega

theorem assocGet_key_mem {α β : Type} [DecidableEq α] {e : α} {l : List (α × β)}
    (h : (assocGet e l).isSome) : e ∈ l.map Prod.fst := by
  obtain ⟨q, hq⟩ := Option.isSome_iff_exists.mp h
  exact List.mem_map.mpr ⟨(e, q), assocGet_mem hq, rfl⟩

/-- A map that holds `m` consecutive keys has `m` entries at least. -/
theorem length_ge_of_keys (l : List (Nat × Nat)) (lo m : Nat)
    (h : ∀ e, lo ≤ e → e < lo + m → (assocGet e l).isSome) : m ≤ l.length := by
  have hsub : List.range' lo m ⊆ l.map Prod.fst := by
    intro e he
    rw [List.mem_range'_1] at he
    exact assocGet_key_mem (h e he.1 he.2)
  have := (List.subperm_of_subset (List.nodup_range' lo m) hsub).length_le
  simpa using this

theorem awaits_frame {E1 p h0 len1 n : Nat} {t t1 : Sys} (h : Awaits E1 p h0 len1 n t)
    (hf : Frame t t1) : Awaits E1 p h0 len1 n t1 := by
  obtain ⟨-, -, -, ha, -⟩ := config_fields hf.config
  have hheap := hf.world.heap
  simp only [World.heap, Prod.mk.injEq] at hheap
  constructor
  · rw [hf.byEpoch]; exact h.entry
  · rw [hf.byEpoch]; exact h.keys
  · rw [hf.active, ha]; exact h.pos
  · rw [hheap.2]; exact h.alloc
  · rw [hheap.1]; exact h.handle
  · rw [hf.byEpoch]; exact h.size

/-- The first block of a rotation to the next epoch: the slot of `E1` moves
one place in the active slice and is retired under the key `E1` when it
reaches the end of the window. -/
theorem awaits_closeOldest {E1 p h0 len1 n : Nat} {t s2 : Sys} (h : Awaits E1 p h0 len1 n t)
    (hn : E1 ≤ n) (hn1 : n + 1 < 4294967296)
    (hA : t.ps.numOfActivePersisters < 4294967296)
    (hclose : closeOldest (n + 1) (t.withNewPersister (n + 1)) = (none, s2)) :
    Awaits E1 p h0 len1 (n + 1) s2 ∧ s2.ps.config = t.ps.config ∧
    (∀ c, c ∈ t.w.calls → c ∈ s2.w.calls) := by
  have hidx : n + 1 - E1 = (n - E1) + 1 := by omega
  have hw : Awaits E1 p h0 len1 (n + 1) (t.withNewPersister (n + 1)) := by
    constructor
    · simp only [Sys.withNewPersister]
      rw [assocGet_assocPut_ne (by omega)]
      exact h.entry
    · intro e he1 he2
      simp only [Sys.withNewPersister]
      by_cases he : e = n + 1
      · subst he
        simp
      · exact isSome_assocPut _ _ _ _ (h.keys e he1 (by omega))
    · intro hlt
      simp only [Sys.withNewPersister] at hlt ⊢
      rw [hidx, List.getElem?_cons_succ]
      exact h.pos (by omega)
    · simp only [Sys.withNewPersister, World.withNewPersister]
      have := h.alloc
      omega
    · simp only [Sys.withNewPersister, World.withNewPersister]
      rw [Function.update_noteq (Nat.ne_of_lt h.alloc)]
      exact h.handle
    · simp only [Sys.withNewPersister]
      have := length_assocPut_le (n + 1) t.w.nextSlot t.ps.persistersMapByEpoch
      have := h.size
      omega
  have hc0 : ∀ c, c ∈ t.w.calls → c ∈ (t.withNewPersister (n + 1)).w.calls := by
    intro c hc
    simp only [Sys.withNewPersister, World.withNewPersister]
    exact List.mem_cons_of_mem _ (List.mem_cons_of_mem _ hc)
  rcases closeOldest_ok hclose with ⟨-, rfl⟩ | ⟨-, q, d, hq, -, -, -, rfl⟩
  · refine ⟨?_, rfl, hc0⟩
    obtain ⟨a, b, c, d, e, f⟩ := hw
    exact ⟨a, b, c, d, e, by omega⟩
  · have hA0 : (t.withNewPersister (n + 1)).ps.numOfActivePersisters
        = t.ps.numOfActivePersisters := rfl
    have hkey : subU32 (n + 1) t.ps.numOfActivePersisters = E1 → q = p := by
      intro hk
      rcases subU32_cases hn1 hA with ⟨hle, he⟩ | ⟨hlt, he⟩
      · rw [he] at hk
        have hpos := hw.pos
        rw [hA0] at hq
        have : n + 1 - E1 = t.ps.numOfActivePersisters := by omega
        simp only [Sys.withNewPersister] at hpos hq
        rw [hidx, List.getElem?_cons_succ] at hpos
        have hp := h.pos
        have hq' : (t.w.nextSlot :: t.ps.activePersisters)[(n - E1) + 1]? = some q := by
          rw [← hidx, this]
          exact hq
        rw [List.getElem?_cons_succ] at hq'
        by_cases hin : n - E1 < t.ps.numOfActivePersisters
        · rw [hp hin] at hq'
          simp only [Option.some.injEq] at hq'
          exact hq'.symm
        · omega
      · rw [he] at hk
        omega
    refine ⟨?_, rfl, ?_⟩
    · constructor
      · show assocGet E1 (assocPut (subU32 (n + 1)
          (t.withNewPersister (n + 1)).ps.numOfActivePersisters) q _) = some p
        rw [hA0]
        by_cases hk : subU32 (n + 1) t.ps.numOfActivePersisters = E1
        · rw [hk, assocGet_assocPut_self, hkey hk]
        · rw [assocGet_assocPut_ne (Ne.symm hk)]
          exact hw.entry
      · intro e he1 he2
        exact isSome_assocPut _ _ _ _ (hw.keys e he1 he2)
      · intro hlt
        have hlt0 : n + 1 - E1 < (t.withNewPersister (n + 1)).ps.numOfActivePersisters := hlt
        show (List.take (t.withNewPersister (n + 1)).ps.numOfActivePersisters
          (t.withNewPersister (n + 1)).ps.activePersisters)[n + 1 - E1]? = some p
        rw [List.getElem?_take_of_lt hlt0]
        exact hw.pos hlt0
      · exact hw.alloc
      · show ((Function.update (t.withNewPersister (n + 1)).w.slots q
          { (t.withNewPersister (n + 1)).w.slots q with isClosed := true }) p).persister = h0
        by_cases hqp : p = q
        · subst hqp
          rw [Function.update_same]
          exact hw.handle
        · rw [Function.update_noteq hqp]
          exact hw.handle
      · show (assocPut _ q _).length ≤ _
        have h1 := length_assocPut_le (subU32 (n + 1)
          (t.withNewPersister (n + 1)).ps.numOfActivePersisters) q
          (t.withNewPersister (n + 1)).ps.persistersMapByEpoch
        have h2 : (t.withNewPersister (n + 1)).ps.persistersMapByEpoch.length
            ≤ t.ps.persistersMapByEpoch.length + 1 :=
          length_assocPut_le (n + 1) t.w.nextSlot t.ps.persistersMapByEpoch
        have h3 := h.size
        omega
    · intro c hc
      exact List.mem_cons_of_mem _ (hc0 c hc)

/-- The second block of a rotation before the horizon of `E1` is reached: the
epoch it removes, if any, is none of the epochs from `E1` on. -/
theorem awaits_destroyOldest {E1 p h0 len1 n : Nat} {s2 t1 : Sys}
    (h : Awaits E1 p h0 len1 n s2) (hE : E1 ≤ n) (hn1 : n < 4294967296)
    (hK : s2.ps.numOfEpochsToKeep < 4294967296) (hd : n < E1 + s2.ps.numOfEpochsToKeep)
    (hdestroy : destroyOldest n s2 = (none, t1)) :
    Awaits E1 p h0 len1 n t1 ∧ t1.ps.config = s2.ps.config ∧
    (∀ c, c ∈ s2.w.calls → c ∈ t1.w.calls) := by
  rcases destroyOldest_ok hdestroy with ⟨-, rfl⟩ | ⟨-, -, q, d, -, -, -, rfl⟩
  · exact ⟨h, rfl, fun c hc => hc⟩
  · have hkey : ∀ e, E1 ≤ e → e ≤ n → e ≠ subU32 n s2.ps.numOfEpochsToKeep := by
      intro e he1 he2
      rcases subU32_cases hn1 hK with ⟨hle, he⟩ | ⟨hlt, he⟩
      · rw [he]; omega
      · rw [he]; omega
    refine ⟨?_, rfl, ?_⟩
    · constructor
      · show assocGet E1 (assocDel _ _) = some p
        rw [assocGet_assocDel_ne (hkey E1 (le_refl _) hE)]
        exact h.entry
      · intro e he1 he2
        show (assocGet e (assocDel _ _)).isSome
        rw [assocGet_assocDel_ne (hkey e he1 he2)]
        exact h.keys e he1 he2
      · exact h.pos
      · exact h.alloc
      · exact h.handle
      · show (assocDel _ _).length ≤ _
        have := length_assocDel_le (subU32 n s2.ps.numOfEpochsToKeep)
          s2.ps.persistersMapByEpoch
        have := h.size
        omega
    · intro c hc
      exact List.mem_cons_of_mem _ (List.mem_cons_of_mem _ hc)

/-- The second block of the rotation that reaches the horizon of `E1`: it
removes the entry of `E1` and calls `DestroyClosed` on the persister of its
slot. -/
theorem awaits_prune {E1 p h0 len1 n : Nat} {s2 t1 : Sys}
    (h : Awaits E1 p h0 len1 n s2) (hn1 : n < 4294967296)
    (hfa : s2.ps.fullArchive = false)
    (hd : n = E1 + s2.ps.numOfEpochsToKeep)
    (hfit : len1 + 2 * (n - E1) < 4294967296)
    (hdestroy : destroyOldest n s2 = (none, t1)) :
    assocGet E1 t1.ps.persistersMapByEpoch = none ∧ Call.destroyClosed h0 ∈ t1.w.calls ∧
    t1.ps.config = s2.ps.config ∧ (∀ c, c ∈ s2.w.calls → c ∈ t1.w.calls) := by
  have hlen : s2.ps.numOfEpochsToKeep + 1 ≤ s2.ps.persistersMapByEpoch.length :=
    length_ge_of_keys _ E1 _ (fun e he1 he2 => h.keys e he1 (by omega))
  have hsize := h.size
  have hkey : subU32 n s2.ps.numOfEpochsToKeep = E1 := by
    rw [subU32_of_le hn1 (by omega)]
    omega
  rcases destroyOldest_ok hdestroy with ⟨hno, rfl⟩ | ⟨-, -, q, d, hq, -, -, rfl⟩
  · exfalso
    apply hno
    refine ⟨hfa, ?_⟩
    rw [u32_of_lt (by omega)]
    omega
  · rw [hkey, h.entry] at hq
    simp only [Option.some.injEq] at hq
    subst hq
    refine ⟨?_, ?_, rfl, ?_⟩
    · show assocGet E1 (assocDel _ _) = none
      rw [hkey, assocGet_assocDel_self]
    · show _ ∈ Call.removeDirectoryIfEmpty _ :: Call.destroyClosed _ :: _
      rw [h.handle]
      exact List.mem_cons_of_mem _ (List.mem_cons_self _ _)
    · intro c hc
      exact List.mem_cons_of_mem _ (List.mem_cons_of_mem _ hc)

/-- A rotation to an epoch past the window of `E1` leaves the map by epoch
without an entry for `E1` when it had none. -/
theorem gone_rotation {E1 n : Nat} {t t1 : Sys}
    (h : assocGet E1 t.ps.persistersMapByEpoch = none) (hn1 : n < 4294967296)
    (hA : t.ps.numOfActivePersisters < 4294967296)
    (hd : E1 + t.ps.numOfActivePersisters < n)
    (hrot : changeEpoch n t = (none, t1)) :
    assocGet E1 t1.ps.persistersMapByEpoch = none ∧ t1.ps.config = t.ps.config ∧
    (∀ c, c ∈ t.w.calls → c ∈ t1.w.calls) := by
  obtain ⟨-, -, hcd⟩ := changeEpoch_ok hrot
  obtain ⟨s2, hclose, hdestroy⟩ := closeAndDestroyPersisters_ok hcd
  have hw : assocGet E1 (t.withNewPersister n).ps.persistersMapByEpoch = none := by
    simp only [Sys.withNewPersister]
    rw [assocGet_assocPut_ne (by omega)]
    exact h
  have hc0 : ∀ c, c ∈ t.w.calls → c ∈ (t.withNewPersister n).w.calls := by
    intro c hc
    simp only [Sys.withNewPersister, World.withNewPersister]
    exact List.mem_cons_of_mem _ (List.mem_cons_of_mem _ hc)
  have h2 : assocGet E1 s2.ps.persistersMapByEpoch = none ∧ s2.ps.config = t.ps.config ∧
      (∀ c, c ∈ t.w.calls → c ∈ s2.w.calls) := by
    rcases closeOldest_ok hclose with ⟨-, rfl⟩ | ⟨-, q, d, -, -, -, -, rfl⟩
    · exact ⟨hw, rfl, hc0⟩
    · refine ⟨?_, rfl, fun c hc => List.mem_cons_of_mem _ (hc0 c hc)⟩
      show assocGet E1 (assocPut (subU32 n (t.withNewPersister n).ps.numOfActivePersisters)
        q _) = none
      have hne : E1 ≠ subU32 n (t.withNewPersister n).ps.numOfActivePersisters := by
        show E1 ≠ subU32 n t.ps.numOfActivePersisters
        rw [subU32_of_le hn1 (by omega)]
        omega
      rw [assocGet_assocPut_ne hne]
      exact hw
  obtain ⟨hg2, hcfg2, hcalls2⟩ := h2
  rcases destroyOldest_ok hdestroy with ⟨-, rfl⟩ | ⟨-, -, q, d, -, -, -, rfl⟩
  · exact ⟨hg2, hcfg2, hcalls2⟩
  · refine ⟨?_, hcfg2, fun c hc =>
      List.mem_cons_of_mem _ (List.mem_cons_of_mem _ (hcalls2 c hc))⟩
    show assocGet E1 (assocDel (subU32 n s2.ps.numOfEpochsToKeep) _) = none
    by_cases hk : E1 = subU32 n s2.ps.numOfEpochsToKeep
    · rw [← hk, assocGet_assocDel_self]
    · rw [assocGet_assocDel_ne hk]
      exact hg2

/-- A storer without full archive and with `epochs_to_keep >= max_active`, led
from epoch `E1` on by client operations and by rotations to the next epoch that
return nil: the slot of `E1` stays in the map by epoch until the rotation to
epoch `E1 + epochs_to_keep`, which removes the entry and calls `DestroyClosed`
on its persister; the entry does not come back. -/
theorem run_awaits {ok : Nat → Op → Sys → Prop} {E1 p h0 len1 n N : Nat} {s t : Sys}
    (h : Awaits E1 p h0 len1 E1 s) (hfa : s.ps.fullArchive = false)
    (hA1 : 1 ≤ s.ps.numOfActivePersisters)
    (hA : s.ps.numOfActivePersisters < 4294967296)
    (hAK : s.ps.numOfActivePersisters ≤ s.ps.numOfEpochsToKeep)
    (hK : s.ps.numOfEpochsToKeep < 4294967296) (hN : N < 4294967296)
    (hfit : len1 + 2 * s.ps.numOfEpochsToKeep < 4294967296)
    (hr : Run ok E1 s n t) (hn : n ≤ N) :
    t.ps.config = s.ps.config ∧ (∀ c, c ∈ s.w.calls → c ∈ t.w.calls) ∧
    (n < E1 + s.ps.numOfEpochsToKeep → Awaits E1 p h0 len1 n t) ∧
    (E1 + s.ps.numOfEpochsToKeep ≤ n →
      assocGet E1 t.ps.persistersMapByEpoch = none ∧ Call.destroyClosed h0 ∈ t.w.calls) := by
  induction hr with
  | start =>
    exact ⟨rfl, fun c hc => hc, fun _ => h, fun hle => by omega⟩
  | @op n s t o ho hr ih =>
    obtain ⟨hc, hcalls, hbefore, hafter⟩ := ih h hfa hA1 hA hAK hK hfit hn
    have hf := op_frame o t
    refine ⟨hf.config.trans hc, fun c hx => hf.world.calls c (hcalls c hx),
      fun hlt => awaits_frame (hbefore hlt) hf, fun hle => ?_⟩
    obtain ⟨h1, h2⟩ := hafter hle
    exact ⟨by rw [hf.byEpoch]; exact h1, hf.world.calls _ h2⟩
  | @rotate n s t t1 hr hrot ih =>
    obtain ⟨hc, hcalls, hbefore, hafter⟩ := ih h hfa hA1 hA hAK hK hfit (by omega)
    have hE := run_le hr
    obtain ⟨hfa1, -, hk1, ha1, -⟩ := config_fields hc
    by_cases hlt : n < E1 + s.ps.numOfEpochsToKeep
    · obtain ⟨-, -, hcd⟩ := changeEpoch_ok hrot
      obtain ⟨s2, hclose, hdestroy⟩ := closeAndDestroyPersisters_ok hcd
      obtain ⟨hw2, hc2, hcalls2⟩ := awaits_closeOldest (hbefore hlt) hE (by omega)
        (by rw [ha1]; exact hA) hclose
      obtain ⟨hfa2, -, hk2, ha2, -⟩ := config_fields hc2
      by_cases hlt1 : n + 1 < E1 + s.ps.numOfEpochsToKeep
      · obtain ⟨hw3, hc3, hcalls3⟩ := awaits_destroyOldest hw2 (by omega) (by omega)
          (by rw [hk2, hk1]; exact hK) (by rw [hk2, hk1]; exact hlt1) hdestroy
        exact ⟨hc3.trans (hc2.trans hc), fun c hx => hcalls3 c (hcalls2 c (hcalls c hx)),
          fun _ => hw3, fun hle => by omega⟩
      · obtain ⟨hg, hd, hc3, hcalls3⟩ := awaits_prune hw2 (by omega)
          (by rw [hfa2, hfa1]; exact hfa) (by rw [hk2, hk1]; omega) (by omega) hdestroy
        exact ⟨hc3.trans (hc2.trans hc), fun c hx => hcalls3 c (hcalls2 c (hcalls c hx)),
          fun hlt2 => by omega, fun _ => ⟨hg, hd⟩⟩
    · obtain ⟨hg, hd⟩ := hafter (by omega)
      obtain ⟨hg1, hc1, hcalls1⟩ := gone_rotation hg (by omega) (by rw [ha1]; exact hA)
        (by rw [ha1]; omega) hrot
      exact ⟨hc1.trans hc, fun c hx => hcalls1 c (hcalls c hx), fun hlt2 => by omega,
        fun _ => ⟨hg1, hcalls1 _ hd⟩⟩

/-! ## A key written in an epoch, along the rotations that follow -/

theorem reachable_op (o : Op) {s : Sys} (h : Reachable s) : Reachable (o.run s) := by
  cases o with
  | put k v => exact Reachable.afterPut k v h
  | get k => exact Reachable.afterGet k h
  | getFromEpoch k e => exact Reachable.afterGetFromEpoch k e h
  | has k => exact Reachable.afterHas k h
  | hasInEpoch k e => exact Reachable.afterHasInEpoch k e h
  | remove k => exact Reachable.afterRemove k h
  | clearCache => exact Reachable.afterClearCache h
  | evict keep =>
    exact Reachable.afterEviction _ h (fun k v hk => assocGet_filter_some keep k _ hk)

/-- Client operations and rotations lead from a reachable state to reachable
states. -/
theorem run_reachable {ok : Nat → Op → Sys → Prop} {m n : Nat} {s t : Sys}
    (h : Reachable s) (hr : Run ok m s n t) (hn : n < 4294967296) : Reachable t := by
  induction hr with
  | start => exact h
  | @op n s t o ho hr ih => exact reachable_op o (ih h hn)
  | @rotate n s t t1 hr hrot ih =>
    have := Reachable.afterChangeEpoch (n + 1) hn (ih h (by omega))
    rw [hrot] at this
    exact this

theorem dirOf_keep {w w1 : World} {q : Nat} {r : String}
    (hs : (w1.slots q).persister = (w.slots q).persister) (hk : World.keepsPaths w w1)
    (h : w.dirOf q = some r) : w1.dirOf q = some r := by
  simp only [World.dirOf, Option.map_eq_some'] at h ⊢
  obtain ⟨d, hd, hp⟩ := h
  obtain ⟨d1, hd1, hp1⟩ := hk _ d hd
  exact ⟨d1, by rw [hs]; exact hd1, by rw [hp1, hp]⟩

theorem dirOf_some {w : World} {q : Nat} {r : String} (h : w.dirOf q = some r) :
    ∃ d, w.dbs[(w.slots q).persister]? = some d ∧ d.path = r := by
  simpa only [World.dirOf, Option.map_eq_some'] using h

theorem retains_frame {E1 p h0 len1 n : Nat} {P : String} {t t1 : Sys}
    (h : Retains E1 p h0 len1 P n t) (hf : Frame t t1) : Retains E1 p h0 len1 P n t1 := by
  obtain ⟨-, hpath, -, ha, -⟩ := config_fields hf.config
  have hheap := hf.world.heap
  simp only [World.heap, Prod.mk.injEq] at hheap
  have hk := keepsPaths_of_append hf.world.dbs
  have hdir : ∀ q r, t.w.dirOf q = some r → t1.w.dirOf q = some r :=
    fun q r hq => dirOf_keep (by rw [hheap.1]) hk hq
  constructor
  · rw [hf.byEpoch]; exact h.entry
  · rw [hf.active, ha]; exact h.pos
  · intro i q hi hq
    rw [hf.active] at hq
    obtain ⟨e, h1, h2, h3⟩ := h.newer i q hi hq
    exact ⟨e, h1, h2, by rw [hpath]; exact hdir _ _ h3⟩
  · intro i q hi hq
    rw [hf.active] at hq
    obtain ⟨r, h1, h2⟩ := h.older i q hi hq
    exact ⟨r, hdir _ _ h1, h2⟩
  · intro e q hq
    rw [hf.byEpoch] at hq
    rcases h.others e q hq with hw | ⟨r, h1, h2⟩
    · exact Or.inl hw
    · exact Or.inr ⟨r, hdir _ _ h1, h2⟩
  · rw [hheap.2]; exact h.alloc
  · rw [hheap.1]; exact h.handle
  · rw [hheap.1]; exact h.path
  · obtain ⟨ph, h1, h2⟩ := h.db
    obtain ⟨d1, hd1, hp1⟩ := hk _ _ h1
    obtain ⟨l, hl⟩ := hf.world.dbs
    have hlt : h0 < t.w.dbs.length := by
      by_contra hge
      rw [List.getElem?_eq_none (by omega)] at h1
      simp at h1
    refine ⟨ph, ?_, by rw [ha]; exact h2⟩
    rw [← hl, List.getElem?_append_left hlt]
    exact h1
  · rw [hf.active]; exact h.size

theorem getElem?_of_take {α : Type} {l : List α} {m i : Nat} {x : α}
    (h : (l.take m)[i]? = some x) : l[i]? = some x := by
  rw [List.getElem?_take] at h
  split at h
  · exact h
  · simp at h

/-- The state with the persister of the next epoch in place. -/
theorem retains_withNewPersister {E1 p h0 len1 n : Nat} {P : String} {t : Sys}
    (h : Retains E1 p h0 len1 P n t) (hheap : HeapOk t) (hE : E1 ≤ n) :
    Retains E1 p h0 len1 P (n + 1) (t.withNewPersister (n + 1)) := by
  have hidx : n + 1 - E1 = (n - E1) + 1 := by omega
  have hk0 : World.keepsPaths t.w (t.withNewPersister (n + 1)).w :=
    keepsPaths_of_append ⟨_, rfl⟩
  have hslot : ∀ q, q < t.w.nextSlot →
      (t.withNewPersister (n + 1)).w.slots q = t.w.slots q := by
    intro q hq
    simp only [Sys.withNewPersister, World.withNewPersister]
    rw [Function.update_noteq (Nat.ne_of_lt hq)]
  have hdir : ∀ q r, q < t.w.nextSlot → t.w.dirOf q = some r →
      (t.withNewPersister (n + 1)).w.dirOf q = some r :=
    fun q r hq hr => dirOf_keep (by rw [hslot q hq]) hk0 hr
  have hdirb : (t.withNewPersister (n + 1)).w.dirOf t.w.nextSlot
      = some (getNewFilePath t.ps.dbPath (n + 1)) := by
    simp [World.dirOf, Sys.withNewPersister, World.withNewPersister]
  have hact : ∀ i q, t.ps.activePersisters[i]? = some q → q < t.w.nextSlot :=
    fun i q hq => hheap.1 q (List.getElem?_mem hq)
  have hmap : ∀ e q, assocGet e t.ps.persistersMapByEpoch = some q → q < t.w.nextSlot :=
    fun e q hq => hheap.2 (e, q) (assocGet_mem hq)
  constructor
  · simp only [Sys.withNewPersister]
    rw [assocGet_assocPut_ne (by omega)]
    exact h.entry
  · intro hlt
    simp only [Sys.withNewPersister] at hlt ⊢
    rw [hidx, List.getElem?_cons_succ]
    exact h.pos (by omega)
  · intro i q hi hq
    simp only [Sys.withNewPersister] at hq
    cases i with
    | zero =>
      simp only [List.getElem?_cons_zero, Option.some.injEq] at hq
      subst hq
      exact ⟨n + 1, by omega, le_refl _, hdirb⟩
    | succ j =>
      rw [List.getElem?_cons_succ] at hq
      obtain ⟨e, h1, h2, h3⟩ := h.newer j q (by omega) hq
      exact ⟨e, h1, by omega, hdir q _ (hact j q hq) h3⟩
  · intro i q hi hq
    simp only [Sys.withNewPersister] at hq
    cases i with
    | zero => omega
    | succ j =>
      rw [List.getElem?_cons_succ] at hq
      obtain ⟨r, h1, h2⟩ := h.older j q (by omega) hq
      exact ⟨r, hdir q _ (hact j q hq) h1, h2⟩
  · intro e q hq
    simp only [Sys.withNewPersister] at hq
    rcases assocGet_assocPut_cases hq with ⟨he, -⟩ | hq
    · exact Or.inl ⟨by omega, by omega⟩
    · rcases h.others e q hq with hw | ⟨r, h1, h2⟩
      · exact Or.inl ⟨hw.1, by omega⟩
      · exact Or.inr ⟨r, hdir q _ (hmap e q hq) h1, h2⟩
  · simp only [Sys.withNewPersister, World.withNewPersister]
    have := h.alloc
    omega
  · rw [hslot p h.alloc]; exact h.handle
  · rw [hslot p h.alloc]; exact h.path
  · obtain ⟨ph, h1, h2⟩ := h.db
    have hlt : h0 < t.w.dbs.length := by
      by_contra hge
      rw [List.getElem?_eq_none (by omega)] at h1
      simp at h1
    refine ⟨ph, ?_, fun hlt1 => h2 ?_⟩
    · simp only [Sys.withNewPersister, World.withNewPersister]
      rw [List.getElem?_append_left hlt]
      exact h1
    · have : (t.withNewPersister (n + 1)).ps.numOfActivePersisters
          = t.ps.numOfActivePersisters := rfl
      omega
  · simp only [Sys.withNewPersister, List.length_cons]
    have := h.size
    omega

/-- The first block of a rotation to the next epoch, for the slot of `E1`: it
stays in the window with its persister opened, or it is the slot the block
retires, under the key `E1`. -/
theorem retains_closeOldest {E1 p h0 len1 n : Nat} {P : String} {t s2 : Sys}
    (h : Retains E1 p h0 len1 P n t) (hheap : HeapOk t) (hE : E1 ≤ n)
    (hn1 : n + 1 < 4294967296) (hA : t.ps.numOfActivePersisters < 4294967296)
    (hfit : len1 + (n + 1 - E1) < 4294967296)
    (hclose : closeOldest (n + 1) (t.withNewPersister (n + 1)) = (none, s2)) :
    Retains E1 p h0 len1 P (n + 1) s2 ∧ s2.ps.config = t.ps.config ∧
    s2.ps.cacher = t.ps.cacher ∧ s2.ps.bloomFilter = t.ps.bloomFilter ∧
    s2.w.disk = (t.withNewPersister (n + 1)).w.disk ∧
    ((t.w.slots p).isClosed = true → (s2.w.slots p).isClosed = true) ∧
    (n + 1 - E1 = t.ps.numOfActivePersisters → (s2.w.slots p).isClosed = true) := by
  have hidx : n + 1 - E1 = (n - E1) + 1 := by omega
  have hw := retains_withNewPersister h hheap hE
  have hA0 : (t.withNewPersister (n + 1)).ps.numOfActivePersisters
      = t.ps.numOfActivePersisters := rfl
  have hslot0 : (t.withNewPersister (n + 1)).w.slots p = t.w.slots p := by
    simp only [Sys.withNewPersister, World.withNewPersister]
    rw [Function.update_noteq (Nat.ne_of_lt h.alloc)]
  -- the slot at the end of the window when the window of `E1` ends
  have hlast : n + 1 - E1 = t.ps.numOfActivePersisters →
      (t.withNewPersister (n + 1)).ps.activePersisters[t.ps.numOfActivePersisters]?
        = some p := by
    intro he
    simp only [Sys.withNewPersister]
    rw [← he, hidx, List.getElem?_cons_succ]
    exact h.pos (by omega)
  rcases closeOldest_ok hclose with ⟨hno, rfl⟩ | ⟨-, q, d, hq, -, hd, -, rfl⟩
  · refine ⟨hw, rfl, rfl, rfl, rfl, fun hc => by rw [hslot0]; exact hc, fun he => ?_⟩
    exfalso
    apply hno
    have hsz := hw.size
    rw [hA0, u32_of_lt (by omega)]
    have := hlast he
    have hlt := (List.getElem?_eq_some.mp this).1
    exact hlt
  · rw [hA0] at hq
    have hslots : ∀ x, ((t.withNewPersister (n + 1)).withOldestClosed (n + 1) q).w.slots x
        = { (t.withNewPersister (n + 1)).w.slots x with
            isClosed := if x = q then true else ((t.withNewPersister (n + 1)).w.slots x).isClosed } := by
      intro x
      simp only [Sys.withOldestClosed]
      by_cases hx : x = q
      · subst hx
        rw [Function.update_same, if_pos rfl]
      · rw [Function.update_noteq hx, if_neg hx]
    have hdbs : ((t.withNewPersister (n + 1)).withOldestClosed (n + 1) q).w.dbs
        = (t.withNewPersister (n + 1)).w.dbs.set
            ((t.withNewPersister (n + 1)).w.slots q).persister { d with phase := .closed } := by
      simp only [Sys.withOldestClosed, hd]
    have hk2 : World.keepsPaths (t.withNewPersister (n + 1)).w
        ((t.withNewPersister (n + 1)).withOldestClosed (n + 1) q).w :=
      keepsPaths_set .closed hd hdbs
    have hdir : ∀ x r, (t.withNewPersister (n + 1)).w.dirOf x = some r →
        ((t.withNewPersister (n + 1)).withOldestClosed (n + 1) q).w.dirOf x = some r :=
      fun x r hx => dirOf_keep (by rw [hslots x]) hk2 hx
    have hkey : subU32 (n + 1) t.ps.numOfActivePersisters = E1 →
        n + 1 - E1 = t.ps.numOfActivePersisters := by
      intro hk
      rcases subU32_cases hn1 hA with ⟨hle, he⟩ | ⟨hlt, he⟩
      · rw [he] at hk; omega
      · rw [he] at hk; omega
    have hqp : n + 1 - E1 = t.ps.numOfActivePersisters → q = p := by
      intro he
      have := hlast he
      rw [hq] at this
      simpa using this
    have hold : ¬ (E1 ≤ subU32 (n + 1) t.ps.numOfActivePersisters ∧
        subU32 (n + 1) t.ps.numOfActivePersisters ≤ n + 1) →
        n + 1 - E1 < t.ps.numOfActivePersisters := by
      intro hk
      rcases subU32_cases hn1 hA with ⟨hle, he⟩ | ⟨hlt, he⟩
      · rw [he] at hk; omega
      · omega
    have hmap2 : ((t.withNewPersister (n + 1)).withOldestClosed (n + 1) q).ps.persistersMapByEpoch
        = assocPut (subU32 (n + 1) t.ps.numOfActivePersisters) q
            (t.withNewPersister (n + 1)).ps.persistersMapByEpoch := rfl
    have hact2 : ((t.withNewPersister (n + 1)).withOldestClosed (n + 1) q).ps.activePersisters
        = (t.withNewPersister (n + 1)).ps.activePersisters.take t.ps.numOfActivePersisters := rfl
    refine ⟨?_, rfl, rfl, rfl, rfl, ?_, ?_⟩
    · constructor
      · rw [hmap2]
        by_cases hk : subU32 (n + 1) t.ps.numOfActivePersisters = E1
        · rw [hk, assocGet_assocPut_self, hqp (hkey hk)]
        · rw [assocGet_assocPut_ne (Ne.symm hk)]
          exact hw.entry
      · intro hlt
        have hlt0 : n + 1 - E1 < t.ps.numOfActivePersisters := hlt
        rw [hact2, List.getElem?_take_of_lt hlt0]
        exact hw.pos hlt0
      · intro i x hi hx
        rw [hact2] at hx
        obtain ⟨e, h1, h2, h3⟩ := hw.newer i x hi (getElem?_of_take hx)
        exact ⟨e, h1, h2, hdir _ _ h3⟩
      · intro i x hi hx
        rw [hact2] at hx
        obtain ⟨r, h1, h2⟩ := hw.older i x hi (getElem?_of_take hx)
        exact ⟨r, hdir _ _ h1, h2⟩
      · intro e x hx
        rw [hmap2] at hx
        rcases assocGet_assocPut_cases hx with ⟨he, hxq⟩ | hx
        · by_cases hin : E1 ≤ subU32 (n + 1) t.ps.numOfActivePersisters ∧
              subU32 (n + 1) t.ps.numOfActivePersisters ≤ n + 1
          · exact Or.inl (by rw [he]; exact hin)
          · obtain ⟨r, h1, h2⟩ := hw.older _ q (hold hin) hq
            exact Or.inr ⟨r, by rw [hxq]; exact hdir _ _ h1, h2⟩
        · rcases hw.others e x hx with hin | ⟨r, h1, h2⟩
          · exact Or.inl hin
          · exact Or.inr ⟨r, hdir _ _ h1, h2⟩
      · exact hw.alloc
      · rw [hslots p]; exact hw.handle
      · rw [hslots p]; exact hw.path
      · obtain ⟨ph, h1, h2⟩ := hw.db
        by_cases hh : ((t.withNewPersister (n + 1)).w.slots q).persister = h0
        · have hdP : d = ⟨P, ph⟩ := by
            rw [hh, h1] at hd
            simpa using hd.symm
          have hlt : h0 < (t.withNewPersister (n + 1)).w.dbs.length := by
            by_contra hge
            rw [List.getElem?_eq_none (by omega)] at h1
            simp at h1
          refine ⟨.closed, ?_, fun hlt1 => ?_⟩
          · rw [hdbs, hh, List.getElem?_set_self hlt, hdP]
          · exfalso
            obtain ⟨r, hr1, hr2⟩ := hw.older _ q hlt1 hq
            obtain ⟨d', hd', hp'⟩ := dirOf_some hr1
            rw [hd] at hd'
            simp only [Option.some.injEq] at hd'
            rw [← hd', hdP] at hp'
            exact hr2 hp'.symm
        · refine ⟨ph, ?_, h2⟩
          rw [hdbs, List.getElem?_set_ne hh]
          exact h1
      · rw [hact2]
        have := hw.size
        simp only [List.length_take]
        omega
    · intro hc
      rw [hslots p]
      simp only
      split
      · rfl
      · rw [hslot0]; exact hc
    · intro he
      rw [hslots p]
      simp only
      rw [if_pos (hqp he).symm]

theorem keyAt_withNewDir (disk : List (String × List (Bytes × Bytes))) (path q : String)
    (k : Bytes) :
    keyAt (match assocGet path disk with
      | some _ => disk
      | none => disk ++ [(path, [])]) q k = keyAt disk q k := by
  split
  · rfl
  · simp only [keyAt, assocGet_append_single]
    cases hq : assocGet q disk with
    | some kv => rfl
    | none =>
      simp only
      split
      · next h =>
        split at h
        · simp only [Option.some.injEq] at h
          subst h
          rfl
        · simp at h
      · rfl

theorem keyAt_assocDel_ne {disk : List (String × List (Bytes × Bytes))} {r q : String}
    (h : q ≠ r) (k : Bytes) : keyAt (assocDel r disk) q k = keyAt disk q k := by
  simp only [keyAt, assocGet_assocDel_ne h]

theorem keyAt_assocDel_some {disk : List (String × List (Bytes × Bytes))} {r q : String}
    {k x : Bytes} (h : keyAt (assocDel r disk) q k = some x) : keyAt disk q k = some x := by
  by_cases hq : q = r
  · subst hq
    simp [keyAt] at h
  · rwa [keyAt_assocDel_ne hq] at h

/-- The second block of a rotation inside the horizon of `E1`: the slot it
destroys, if any, is recorded outside the epochs from `E1` on and is on another
directory than the slot of `E1`. -/
theorem retains_destroyOldest {E1 p h0 len1 n : Nat} {P : String} {s2 t1 : Sys}
    (h : Retains E1 p h0 len1 P n s2) (hE : E1 ≤ n) (hn1 : n < 4294967296)
    (hK : s2.ps.numOfEpochsToKeep < 4294967296) (hd : n < E1 + s2.ps.numOfEpochsToKeep)
    (hdestroy : destroyOldest n s2 = (none, t1)) :
    Retains E1 p h0 len1 P n t1 ∧ t1.ps.config = s2.ps.config ∧
    t1.ps.cacher = s2.ps.cacher ∧ t1.ps.bloomFilter = s2.ps.bloomFilter ∧
    t1.w.slots = s2.w.slots ∧
    (∀ k, keyAt t1.w.disk P k = keyAt s2.w.disk P k) ∧
    (∀ k q x, keyAt t1.w.disk q k = some x → keyAt s2.w.disk q k = some x) := by
  rcases destroyOldest_ok hdestroy with ⟨-, rfl⟩ | ⟨-, -, q, d, hq, -, hdb, rfl⟩
  · exact ⟨h, rfl, rfl, rfl, rfl, fun _ => rfl, fun _ _ _ hx => hx⟩
  · have hkey : ∀ e, E1 ≤ e → e ≤ n → e ≠ subU32 n s2.ps.numOfEpochsToKeep := by
      intro e he1 he2
      rcases subU32_cases hn1 hK with ⟨hle, he⟩ | ⟨hlt, he⟩
      · rw [he]; omega
      · rw [he]; omega
    have hdir : d.path ≠ P := by
      rcases h.others _ q hq with hin | ⟨r, h1, h2⟩
      · exact absurd rfl (hkey _ hin.1 hin.2)
      · obtain ⟨d', hd', hp'⟩ := dirOf_some h1
        rw [hdb] at hd'
        simp only [Option.some.injEq] at hd'
        rw [hd', hp']
        exact h2
    have hdisk : (s2.withOldestDestroyed n q).w.disk = assocDel d.path s2.w.disk := by
      simp only [Sys.withOldestDestroyed, hdb]
    refine ⟨?_, rfl, rfl, rfl, rfl, ?_, ?_⟩
    · constructor
      · show assocGet E1 (assocDel _ _) = some p
        rw [assocGet_assocDel_ne (hkey E1 (le_refl _) hE)]
        exact h.entry
      · exact h.pos
      · exact h.newer
      · exact h.older
      · intro e x hx
        exact h.others e x (assocGet_assocDel_some hx).2
      · exact h.alloc
      · exact h.handle
      · exact h.path
      · exact h.db
      · exact h.size
    · intro k
      rw [hdisk, keyAt_assocDel_ne (Ne.symm hdir)]
    · intro k r x hx
      rw [hdisk] at hx
      exact keyAt_assocDel_some hx

/-! ## The loop of Get over slots that hold nothing but one value -/

theorem get_found {w w1 : World} {h : Nat} {k x : Bytes} (hg : w.get h k = (.ok x, w1)) :
    ∃ d kv, w.dbs[h]? = some d ∧ d.phase = .opened ∧ assocGet d.path w.disk = some kv ∧
      assocGet k kv = some x := by
  simp only [World.get, World.openDir, World.record] at hg
  split at hg
  · simp at hg
  · split at hg
    · next pth kv hop =>
      split at hop
      · next d hd =>
        split at hop
        · next hph =>
          split at hop
          · next kv' hkv =>
            simp only [Option.some.injEq, Prod.mk.injEq] at hop
            obtain ⟨-, rfl⟩ := hop
            split at hg
            · next v hv =>
              simp only [Prod.mk.injEq, Except.ok.injEq] at hg
              obtain ⟨rfl, -⟩ := hg
              exact ⟨d, kv', hd, hph, hkv, hv⟩
            · simp at hg
          · simp at hop
        · simp at hop
      · simp at hop
    · simp at hg

theorem getScan_only (bf : Option BloomFilter) (k v : Bytes) (l : List Nat) :
    ∀ (w : World), (∀ q ∈ l, OnlyValue w q k v) →
      ∀ x, (getScan bf k l w).1 = some x → x = v := by
  induction l with
  | nil =>
    intro w _ x hx
    simp [getScan] at hx
  | cons q t ih =>
    intro w h x hx
    simp only [getScan] at hx
    split at hx
    · split at hx
      · next y w1 hg =>
        simp only [Option.some.injEq] at hx
        subst hx
        obtain ⟨d, kv, hd, hph, hkv, hv⟩ := get_found hg
        exact h q (List.mem_cons_self _ _) d kv _ hd hph hkv hv
      · next e w1 hg =>
        have hw1 : w1 = w.record (.get (w.slots q).persister k) := by
          have := get_world w (w.slots q).persister k
          rw [hg] at this
          exact this
        subst hw1
        exact ih (w.record (.get (w.slots q).persister k))
          (fun r hr => h r (List.mem_cons_of_mem _ hr)) x hx
    · exact ih w (fun r hr => h r (List.mem_cons_of_mem _ hr)) x hx

theorem getScan_found_only (bf : Option BloomFilter) (k v : Bytes) (l1 : List Nat) (e : Nat)
    (l2 : List Nat) (hbf : filterAllows bf k = true) :
    ∀ (w : World), (∀ q ∈ l1, OnlyValue w q k v) → HasValue w e k v →
      w.fault (w.calls.length + l1.length) = none →
      (getScan bf k (l1 ++ e :: l2) w).1 = some v := by
  induction l1 with
  | nil =>
    intro w _ ⟨d, kv, hd, hph, hkv, hv⟩ hf
    simp only [List.nil_append, getScan, hbf, if_true]
    rw [get_stored (by simpa [World.failure] using hf) hd hph hkv hv]
  | cons q t ih =>
    intro w h hv hf
    simp only [List.cons_append, getScan, hbf, if_true]
    split
    · next y w1 hg =>
      obtain ⟨d, kv, hd, hph, hkv, hy⟩ := get_found hg
      rw [h q (List.mem_cons_self _ _) d kv _ hd hph hkv hy]
    · next e1 w1 hg =>
      have hw1 : w1 = w.record (.get (w.slots q).persister k) := by
        have := get_world w (w.slots q).persister k
        rw [hg] at this
        exact this
      subst hw1
      apply ih
      · exact fun r hr => h r (List.mem_cons_of_mem _ hr)
      · exact hv
      · simp only [World.record, List.length_cons] at hf ⊢
        rw [← hf]
        congr 1
        omega

theorem take_split {l : List Nat} {j m p : Nat} (hp : l[j]? = some p) (hjm : j < m) :
    l.take m = l.take j ++ p :: (l.drop (j + 1)).take (m - (j + 1)) := by
  induction l generalizing j m with
  | nil => simp at hp
  | cons a t ih =>
    obtain ⟨m', rfl⟩ : ∃ m', m = m' + 1 := ⟨m - 1, by omega⟩
    cases j with
    | zero =>
      simp only [List.getElem?_cons_zero, Option.some.injEq] at hp
      subst hp
      simp
    | succ j =>
      rw [List.getElem?_cons_succ] at hp
      have := ih hp (show j < m' by omega)
      have hm : m' + 1 - (j + 1 + 1) = m' - (j + 1) := by omega
      simp only [List.take_succ_cons, List.drop_succ_cons, List.cons_append]
      rw [hm, this]

/-- The value of `Get(k)` when no slot of the scanned window can give another
value than `v`. -/
theorem Get_only {s : Sys} {k v : Bytes}
    (h : ∀ q ∈ s.ps.activePersisters.take
      (min s.ps.numOfActivePersisters (u32 s.ps.activePersisters.length)), OnlyValue s.w q k v) :
    ∀ x, s.ps.cacher.Get k = none → (Get k s).1 = .ok x → x = v := by
  intro x hmiss hx
  simp only [Get, hmiss] at hx
  split at hx
  · next y w1 hs =>
    simp only [Except.ok.injEq] at hx
    subst hx
    exact getScan_only _ k v _ s.w h _ (by rw [hs])
  · simp at hx

/-- Get finds nothing when the cache does not hold the key and no slot of the
scanned window can give a value. -/
theorem Get_none_window {s : Sys} {k : Bytes} (hmiss : s.ps.cacher.Get k = none)
    (h : ∀ q ∈ s.ps.activePersisters.take
      (min s.ps.numOfActivePersisters (u32 s.ps.activePersisters.length)), NoValue s.w q k) :
    (Get k s).1 = .error (.keyNotFoundIn k s.ps.identifier) := by
  simp only [Get, hmiss]
  have := getScan_none s.ps.bloomFilter k (s.ps.activePersisters.take
    (min s.ps.numOfActivePersisters (u32 s.ps.activePersisters.length))) s.w h
  split
  · next v w1 hs =>
    rw [hs] at this
    simp at this
  · rfl

/-! ## Get along the rotations that follow the write -/

theorem keyAt_of_dir {disk : List (String × List (Bytes × Bytes))} {r : String} {k x : Bytes}
    {kv : List (Bytes × Bytes)} (hkv : assocGet r disk = some kv) (hx : assocGet k kv = some x) :
    keyAt disk r k = some x := by
  simp only [keyAt, hkv, hx]

/-- An active slot of an epoch after `E1` gives no other value than `v` under
`k`, when the directories of these epochs held nothing else at the start. -/
theorem onlyValue_newer {E1 p h0 len1 n : Nat} {P : String} {k v : Bytes} {base : World}
    {t : Sys} (h : Retains E1 p h0 len1 P n t) (hc : Content k v P base t)
    (hnew : ∀ e, E1 < e → e ≤ n →
      ∀ x, keyAt base.disk (getNewFilePath t.ps.dbPath e) k = some x → x = v)
    {i q : Nat} (hi : i < n - E1) (hq : t.ps.activePersisters[i]? = some q) :
    OnlyValue t.w q k v := by
  intro d kv x hd hph hkv hx
  obtain ⟨e, h1, h2, h3⟩ := h.newer i q hi hq
  obtain ⟨d', hd', hp'⟩ := dirOf_some h3
  rw [hd] at hd'
  simp only [Option.some.injEq] at hd'
  subst hd'
  rw [hp'] at hkv
  exact hnew e h1 h2 x (hc.sub _ _ (keyAt_of_dir hkv hx))

/-- An active slot of an epoch after `E1` gives no value under `k`, when the
directories of these epochs did not hold `k` at the start. -/
theorem noValue_newer {E1 p h0 len1 n : Nat} {P : String} {k v : Bytes} {base : World}
    {t : Sys} (h : Retains E1 p h0 len1 P n t) (hc : Content k v P base t)
    (hnew : ∀ e, E1 < e → e ≤ n → keyAt base.disk (getNewFilePath t.ps.dbPath e) k = none)
    {i q : Nat} (hi : i < n - E1) (hq : t.ps.activePersisters[i]? = some q) :
    NoValue t.w q k := by
  intro d kv hd hph hkv
  obtain ⟨e, h1, h2, h3⟩ := h.newer i q hi hq
  obtain ⟨d', hd', hp'⟩ := dirOf_some h3
  rw [hd] at hd'
  simp only [Option.some.injEq] at hd'
  subst hd'
  rw [hp'] at hkv
  cases hx : assocGet k kv with
  | none => rfl
  | some x =>
    have := hc.sub _ _ (keyAt_of_dir hkv hx)
    rw [hnew e h1 h2] at this
    simp at this

theorem mem_take_getElem? {l : List Nat} {m q : Nat} (h : q ∈ l.take m) :
    ∃ i, i < m ∧ l[i]? = some q := by
  obtain ⟨i, hi⟩ := List.mem_iff_getElem?.mp h
  rw [List.getElem?_take] at hi
  split at hi
  · next hlt => exact ⟨i, hlt, hi⟩
  · simp at hi

/-- Inside the window of `E1`, `Get(k)` returns `v`: from the cache, from a
slot of a later epoch whose directory holds `v` under `k`, or from the slot of
`E1`, unless the `get` of its persister is made to fail. -/
theorem retains_Get {E1 p h0 len1 n : Nat} {P : String} {k v : Bytes} {base : World}
    {t : Sys} (h : Retains E1 p h0 len1 P n t) (hc : Content k v P base t)
    (hnew : ∀ e, E1 < e → e ≤ n →
      ∀ x, keyAt base.disk (getNewFilePath t.ps.dbPath e) k = some x → x = v)
    (hwin : n - E1 < t.ps.numOfActivePersisters) (hfit : len1 + (n - E1) < 4294967296)
    (hfault : t.w.fault (t.w.calls.length + (n - E1)) = none) :
    (Get k t).1 = .ok v := by
  have hp := h.pos hwin
  have hlen : n - E1 < t.ps.activePersisters.length := (List.getElem?_eq_some.mp hp).1
  have hsz := h.size
  simp only [Get]
  split
  · next v1 hv1 => rw [hc.cache v1 hv1]
  · next hmiss =>
    have hm : n - E1 < min t.ps.numOfActivePersisters (u32 t.ps.activePersisters.length) := by
      rw [u32_of_lt (by omega)]
      omega
    rw [take_split hp hm]
    have hscan := getScan_found_only t.ps.bloomFilter k v
      (t.ps.activePersisters.take (n - E1)) p
      ((t.ps.activePersisters.drop (n - E1 + 1)).take
        (min t.ps.numOfActivePersisters (u32 t.ps.activePersisters.length) - (n - E1 + 1)))
      (filterAllows_of_holds hc.filter) t.w
      (by
        intro q hq
        obtain ⟨i, hi, hqi⟩ := mem_take_getElem? hq
        exact onlyValue_newer h hc hnew hi hqi)
      (by
        obtain ⟨ph, hdb, hph⟩ := h.db
        obtain ⟨kv, hkv, hv⟩ := keyAt_some hc.stored
        exact ⟨⟨P, ph⟩, kv, by rw [h.handle]; exact hdb, hph hwin, hkv, hv⟩)
      (by
        rw [List.length_take, Nat.min_eq_left (by omega)]
        exact hfault)
    split
    · next y w1 hs =>
      rw [hs] at hscan
      simp only [Option.some.injEq] at hscan
      rw [hscan]
    · next w1 hs =>
      rw [hs] at hscan
      simp at hscan

/-- Past the window of `E1`, a `Get(k)` that answers from a persister returns
`v`. -/
theorem retains_Get_only {E1 p h0 len1 n : Nat} {P : String} {k v : Bytes} {base : World}
    {t : Sys} (h : Retains E1 p h0 len1 P n t) (hc : Content k v P base t)
    (hnew : ∀ e, E1 < e → e ≤ n →
      ∀ x, keyAt base.disk (getNewFilePath t.ps.dbPath e) k = some x → x = v)
    (hout : t.ps.numOfActivePersisters ≤ n - E1) :
    ∀ x, t.ps.cacher.Get k = none → (Get k t).1 = .ok x → x = v := by
  apply Get_only
  intro q hq
  obtain ⟨i, hi, hqi⟩ := mem_take_getElem? hq
  exact onlyValue_newer h hc hnew (by omega) hqi

/-- Past the window of `E1`, `Get(k)` finds nothing once the cache has lost
`k`, when the directories of the later epochs do not hold `k`. -/
theorem retains_Get_none {E1 p h0 len1 n : Nat} {P : String} {k v : Bytes} {base : World}
    {t : Sys} (h : Retains E1 p h0 len1 P n t) (hc : Content k v P base t)
    (hnew : ∀ e, E1 < e → e ≤ n → keyAt base.disk (getNewFilePath t.ps.dbPath e) k = none)
    (hout : t.ps.numOfActivePersisters ≤ n - E1) (hmiss : t.ps.cacher.Get k = none) :
    (Get k t).1 = .error (.keyNotFoundIn k t.ps.identifier) := by
  apply Get_none_window hmiss
  intro q hq
  obtain ⟨i, hi, hqi⟩ := mem_take_getElem? hq
  exact noValue_newer h hc hnew (by omega) hqi

/-- A storer with `epochs_to_keep >= max_active` led from the epoch `E1` of
the write of `k` through the epochs that follow, inside the horizon of `E1`,
by rotations that return nil and by operations that leave the value of `k`
alone: the slot of `E1` keeps its directory and its value, and is closed once
its window has passed. -/
theorem run_retains {E1 p h0 len1 n N : Nat} {P : String} {k v : Bytes} {s t : Sys}
    (hreach : Reachable s) (h : Retains E1 p h0 len1 P E1 s) (hc : Content k v P s.w s)
    (hN : N < 4294967296) (hNK : N < E1 + s.ps.numOfEpochsToKeep)
    (hfit : len1 + (N - E1) < 4294967296)
    (hnew : ∀ e, E1 < e → e ≤ N →
      ∀ x, keyAt s.w.disk (getNewFilePath s.ps.dbPath e) k = some x → x = v)
    (hr : Run (keepsFrom k E1) E1 s n t) (hn : n ≤ N) :
    Retains E1 p h0 len1 P n t ∧ Content k v P s.w t ∧ t.ps.config = s.ps.config ∧
    (s.ps.numOfActivePersisters ≤ n - E1 → (t.w.slots p).isClosed = true) := by
  induction hr with
  | start =>
    refine ⟨h, hc, rfl, fun hle => ?_⟩
    have := (reachable_basic hreach).1
    omega
  | @op n s t o ho hr ih =>
    obtain ⟨hret, hcon, hcfg, hclosed⟩ := ih hreach h hc hNK hnew hn
    obtain ⟨-, hpath, -, ha, -⟩ := config_fields hcfg
    have hf := op_frame o t
    have hheap := hf.world.heap
    simp only [World.heap, Prod.mk.injEq] at hheap
    have hnew' : ∀ e, E1 < e → e ≤ n →
        ∀ x, keyAt s.w.disk (getNewFilePath t.ps.dbPath e) k = some x → x = v := by
      intro e h1 h2
      rw [hpath]
      exact hnew e h1 (by omega)
    refine ⟨retains_frame hret hf, ?_, hf.config.trans hcfg,
      fun hle => by rw [hheap.1]; exact hclosed hle⟩
    by_cases hg : o = .get k
    · subst hg
      have hd := Get_wkeeps k k t
      refine ⟨(hd P).trans hcon.stored, fun q x hx => hcon.sub q x ((hd q).symm.trans hx),
        ?_, ?_⟩
      · apply Get_keeps_value hcon.cache
        intro x hmiss hx
        by_cases hwin : n - E1 < t.ps.numOfActivePersisters
        · have hfault : t.w.fault (t.w.calls.length + (n - E1)) = none := ho rfl hwin
          rw [retains_Get hret hcon hnew' hwin (by omega) hfault] at hx
          simp only [Except.ok.injEq] at hx
          exact hx.symm
        · exact retains_Get_only hret hcon hnew' (by omega) x hmiss hx
      · show filterHolds (Get k t).2.ps.bloomFilter k
        rw [Get_filter]
        exact hcon.filter
    · have hkp := op_keeps (spares_of_keeps ho hg) t
      exact ⟨(hkp.disk P).trans hcon.stored,
        fun q x hx => hcon.sub q x ((hkp.disk q).symm.trans hx),
        fun x hx => hcon.cache x (hkp.cache x hx), hkp.filter hcon.filter⟩
  | @rotate n s t t1 hr hrot ih =>
    obtain ⟨hret, hcon, hcfg, hclosed⟩ := ih hreach h hc hNK hnew (by omega)
    obtain ⟨-, hpath, hk, ha, -⟩ := config_fields hcfg
    have hE := run_le hr
    have hreach_t := run_reachable hreach hr (by omega)
    obtain ⟨-, hA, hK, hheap⟩ := reachable_basic hreach_t
    obtain ⟨-, -, hcd⟩ := changeEpoch_ok hrot
    obtain ⟨s2, hclose, hdestroy⟩ := closeAndDestroyPersisters_ok hcd
    obtain ⟨hret2, hcfg2, hca2, hbf2, hdisk2, hcl2, hcl2'⟩ :=
      retains_closeOldest hret hheap hE (by omega) hA (by omega) hclose
    obtain ⟨-, -, hk2, -, -⟩ := config_fields hcfg2
    obtain ⟨hret3, hcfg3, hca3, hbf3, hsl3, hP3, hsub3⟩ :=
      retains_destroyOldest hret2 (by omega) (by omega) (by rw [hk2]; exact hK)
        (by rw [hk2, hk]; omega) hdestroy
    have hdisk0 : ∀ q x, keyAt (t.withNewPersister (n + 1)).w.disk q x = keyAt t.w.disk q x :=
      fun q x => keyAt_withNewDir t.w.disk _ q x
    refine ⟨hret3, ⟨?_, ?_, ?_, ?_⟩, hcfg3.trans (hcfg2.trans hcfg), fun hle => ?_⟩
    · rw [hP3, hdisk2, hdisk0]
      exact hcon.stored
    · intro q x hx
      have := hsub3 k q x hx
      rw [hdisk2, hdisk0] at this
      exact hcon.sub q x this
    · rw [hca3, hca2]
      exact hcon.cache
    · rw [hbf3, hbf2]
      exact hcon.filter
    · rw [hsl3]
      by_cases he : n + 1 - E1 = t.ps.numOfActivePersisters
      · exact hcl2' he
      · exact hcl2 (hclosed (by rw [ha] at he; omega))

/-- A successful `Put(k, v)` in a reachable state whose newest slot `p` is the
one of epoch `E1` and shares its directory with no other slot of the storer. -/
theorem retains_Put {E1 p : Nat} {k v : Bytes} {s1 s2 : Sys} (hreach : Reachable s1)
    (hhead : s1.ps.activePersisters[0]? = some p)
    (hentry : assocGet E1 s1.ps.persistersMapByEpoch = some p)
    (hdir : ∀ q, s1.holds q → q ≠ p → (s1.w.slots q).path ≠ (s1.w.slots p).path)
    (hput : Put k v s1 = (none, s2)) :
    Retains E1 p (s1.w.slots p).persister s1.ps.activePersisters.length (s1.w.slots p).path
      E1 s2 ∧
    Content k v (s1.w.slots p).path s2.w s2 ∧ s2.ps.config = s1.ps.config := by
  obtain ⟨-, -, -, hheap⟩ := reachable_basic hreach
  have hheld := reachable_heldOk hreach
  obtain ⟨p', d, kv, hp', -, hd, hph, hkv, hc, hbf, hact, hmap, hcfg, hdisk, hdbs, hslots, hnext,
    -, -⟩ := Put_ok hput
  rw [hhead] at hp'
  simp only [Option.some.injEq] at hp'
  subst hp'
  have hpheld : s1.holds p := Or.inl (List.getElem?_mem hhead)
  obtain ⟨d0, hd0, hp0⟩ := hheld p hpheld
  rw [hd] at hd0
  simp only [Option.some.injEq] at hd0
  subst hd0
  have hnd := (reachable_activeOpen hreach).1.2.1
  have honce := reachable_headOnce hreach
  have hother : ∀ q, s1.holds q → q ≠ p →
      ∃ r, s2.w.dirOf q = some r ∧ r ≠ (s1.w.slots p).path := by
    intro q hq hne
    obtain ⟨d', hd', hp'⟩ := hheld q hq
    refine ⟨(s1.w.slots q).path, ?_, hdir q hq hne⟩
    simp only [World.dirOf, hdbs, hslots, hd', Option.map_some', hp']
  refine ⟨?_, ?_, hcfg⟩
  · constructor
    · rw [hmap]; exact hentry
    · intro _
      rw [hact, Nat.sub_self]
      exact hhead
    · intro i q hi
      omega
    · intro i q hi hq
      rw [hact] at hq
      refine hother q (Or.inl (List.getElem?_mem hq)) ?_
      intro hqp
      subst hqp
      obtain ⟨h0, hp0'⟩ := List.getElem?_eq_some.mp hhead
      obtain ⟨hi', hq'⟩ := List.getElem?_eq_some.mp hq
      have := (List.Nodup.getElem_inj_iff hnd).mp (hp0'.trans hq'.symm)
      omega
    · intro e q hq
      rw [hmap] at hq
      by_cases he : e = E1
      · exact Or.inl ⟨by omega, by omega⟩
      · refine Or.inr (hother q (Or.inr ⟨e, hq⟩) ?_)
        intro hqp
        subst hqp
        exact he (honce q e E1 hhead hq hentry)
    · rw [hnext]
      exact hheap.1 p (List.getElem?_mem hhead)
    · rw [hslots]
    · rw [hslots]
    · refine ⟨d.phase, ?_, fun _ => hph⟩
      rw [hdbs, hd, ← hp0]
    · rw [hact]
      omega
  · refine ⟨?_, fun _ _ hx => hx, ?_, ?_⟩
    · rw [hdisk, ← hp0]
      simp [keyAt]
    · intro x hx
      rw [hc] at hx
      simpa [Cacher.Get, Cacher.Put] using hx.symm
    · rw [hbf]
      exact filterHolds_after_add _ _

/-- The state of the retention claims: the write of `k` in epoch `E1` followed
by the rotations to the epochs up to `E2`, inside the horizon of `E1`. -/
theorem retained_state {E1 E2 p : Nat} {k v : Bytes} {s1 s2 s3 : Sys} (hreach : Reachable s1)
    (hE : E2 < 4294967296) (hK : E2 < E1 + s1.ps.numOfEpochsToKeep)
    (hfit : s1.ps.activePersisters.length + (E2 - E1) < 4294967296)
    (hhead : s1.ps.activePersisters[0]? = some p)
    (hentry : assocGet E1 s1.ps.persistersMapByEpoch = some p)
    (hdir : ∀ q, s1.holds q → q ≠ p → (s1.w.slots q).path ≠ (s1.w.slots p).path)
    (hput : Put k v s1 = (none, s2))
    (hnew : ∀ e, E1 < e → e ≤ E2 →
      ∀ x, keyAt s2.w.disk (getNewFilePath s1.ps.dbPath e) k = some x → x = v)
    (hrun : Run (keepsFrom k E1) E1 s2 E2 s3) :
    Retains E1 p (s1.w.slots p).persister s1.ps.activePersisters.length (s1.w.slots p).path
      E2 s3 ∧
    Content k v (s1.w.slots p).path s2.w s3 ∧ s3.ps.config = s1.ps.config ∧
    (s1.ps.numOfActivePersisters ≤ E2 - E1 → (s3.w.slots p).isClosed = true) ∧
    Reachable s3 := by
  obtain ⟨hret, hcon, hcfg⟩ := retains_Put hreach hhead hentry hdir hput
  obtain ⟨-, hpath, hk, ha, -⟩ := config_fields hcfg
  have hreach2 : Reachable s2 := by
    have := Reachable.afterPut k v hreach
    rw [hput] at this
    exact this
  obtain ⟨h1, h2, h3, h4⟩ := run_retains hreach2 hret hcon hE (by rw [hk]; exact hK) hfit
    (by rw [hpath]; exact hnew) hrun (le_refl _)
  exact ⟨h1, h2, h3.trans hcfg, by rw [← ha]; exact h4, run_reachable hreach2 hrun hE⟩

/-! ## The scenario in epoch 1 -/

/-- The scenario in epoch 1 is a reachable state. -/
theorem scenarioEpoch1_reachable : Reachable (scenarioEpoch 1) := by
  have h := Reachable.afterChangeEpoch 1 (by decide)
    (Reachable.afterPut "alpha" "1" scenarioStart_reachable)
  rw [show changeEpoch 1 (Put "alpha" "1" scenarioStart).2 = (none, scenarioEpoch 1) from
    scenario_rotation1] at h
  exact h

/-- In the scenario in epoch 1 the two slots held have different directories. -/
theorem scenarioEpoch1_others (q : Nat) (hq : (scenarioEpoch 1).holds q) (hne : q ≠ 1) :
    ((scenarioEpoch 1).w.slots q).path ≠ ((scenarioEpoch 1).w.slots 1).path := by
  have hq0 : q = 0 := by
    rcases hq with hq | ⟨e, hq⟩
    · have h1 : (scenarioEpoch 1).ps.activePersisters = [1, 0] := by decide
      rw [h1] at hq
      simp only [List.mem_cons, List.mem_singleton, List.not_mem_nil, or_false] at hq
      omega
    · have h1 : (scenarioEpoch 1).ps.persistersMapByEpoch = [(0, 0), (1, 1)] := by decide
      rw [h1] at hq
      simp only [assocGet] at hq
      split at hq
      · simp only [Option.some.injEq] at hq; omega
      · split at hq
        · simp only [Option.some.injEq] at hq; omega
        · simp at hq
  subst hq0
  decide

/-! ## The claims -/

/-- C1: Put/Get round trip.  In every reachable state (whose active slice has
a length that fits `uint32`), if `Put(k, v)` returns nil then `Get(k)` returns
`v` after any sequence of client operations without rotation in which `k` is
neither written nor removed (`Put`, `Get` and `Remove` of other keys,
`GetFromEpoch`, `Has`, `HasInEpoch`, `ClearCache`, cache evictions of any
keys, each returning whatever it returns, and `Get(k)` itself when it is not
made to fail at the newest persister): from the cache when it still holds `k`,
and from the persister `activePersisters[0]` when the cache has lost `k`,
provided the `get` of that persister is not made to fail. -/
theorem C1_put_get_round_trip (s s1 : Sys) (k v : Bytes) (ops : List Op)
    (hreach : Reachable s) (hlen : s.ps.activePersisters.length < 4294967296)
    (hput : Put k v s = (none, s1))
    (hops : keptThrough k ops s1)
    (hget : (runOps ops s1).w.failure = none) :
    (Get k (runOps ops s1)).1 = .ok v :=
  holds_Get (holds_ops ops (holds_Put (reachable_basic hreach).1 hlen hput) hops) hget

/-- Witness of C1: in the scenario, after `Put("alpha", "1")`, a `Put` of
another key, a `Get("alpha")`, the loss of the whole cache and a `Get` of the
other key, `Get("alpha")` returns `"1"`. -/
theorem C1_put_get_round_trip_witness :
    (Get "alpha" (runOps [.put "beta" "2", .get "alpha", .clearCache, .get "beta"]
      (Put "alpha" "1" scenarioStart).2)).1 = .ok "1" :=
  C1_put_get_round_trip scenarioStart (Put "alpha" "1" scenarioStart).2 "alpha" "1"
    [.put "beta" "2", .get "alpha", .clearCache, .get "beta"] scenarioStart_reachable
    (by decide) rfl
    ⟨(by decide : "beta" ≠ "alpha"), fun _ _ => rfl, trivial,
      fun h => absurd h (by decide : "beta" ≠ "alpha"), trivial⟩ rfl

/-- C2 (counterexample): two histories with two active persisters and three
epochs to keep, in which every rotation and the `Put` return nil and `k` is
neither re-written nor removed.  In the first the storer is built with the
path `db/Epoch_2/Shard_0`, which `getNewFilePath` also gives to epoch 2:
`Put("alpha", "1")` is made in epoch 2 and the rotation to epoch 3 destroys the
persister of epoch 0 and with it the directory the two epochs share, so that
`Get("alpha")` in epoch 3 (`3 - 2 < 2`) returns the not-found error although
the slot of epoch 2 is still active.  In the second the storer is built with
the path of the scenarios on a disk where the directory of epoch 1 is already
there and holds `"old"` under `"alpha"`: `Put("alpha", "1")` is made in epoch 0
and after the rotation to epoch 1 (`1 - 0 < 2`) `Get("alpha")` returns
`"old"`. -/
theorem C2_counterexample :
    initPruningStorer { scenarioArgs with DbPath := "db/Epoch_2/Shard_0" } ""
        (World.fresh (fun _ => none))
      = (.ok (scenarioOn "db/Epoch_2/Shard_0" []).ps, (scenarioOn "db/Epoch_2/Shard_0" []).w) ∧
    (changeEpoch 1 (scenarioOn "db/Epoch_2/Shard_0" [])).1 = none ∧
    (changeEpoch 2 sharedDirEpoch1).1 = none ∧
    (Put "alpha" "1" sharedDirEpoch2).1 = none ∧
    (changeEpoch 3 sharedDirPut).1 = none ∧
    sharedDirEpoch3.ps.numOfActivePersisters = 2 ∧
    sharedDirEpoch3.ps.numOfEpochsToKeep = 3 ∧
    assocGet 2 sharedDirEpoch3.ps.persistersMapByEpoch = some 2 ∧
    sharedDirEpoch3.ps.activePersisters = [3, 2] ∧
    (sharedDirEpoch3.w.slots 2).path = "db/Epoch_2/Shard_0" ∧
    (sharedDirEpoch3.w.slots 0).path = "db/Epoch_2/Shard_0" ∧
    Call.destroyClosed (sharedDirEpoch3.w.slots 0).persister ∈ sharedDirEpoch3.w.calls ∧
    assocGet "db/Epoch_2/Shard_0" sharedDirEpoch3.w.disk = none ∧
    (Get "alpha" sharedDirEpoch3).1 = .error (.keyNotFoundIn "alpha" "scenario") ∧
    initPruningStorer scenarioArgs "" { World.fresh (fun _ => none) with disk := staleDisk1 }
      = (.ok (scenarioOn "db/Epoch_0/Shard_0" staleDisk1).ps,
          (scenarioOn "db/Epoch_0/Shard_0" staleDisk1).w) ∧
    (Put "alpha" "1" (scenarioOn "db/Epoch_0/Shard_0" staleDisk1)).1 = none ∧
    (changeEpoch 1 staleDirPut).1 = none ∧
    staleDirEpoch1.ps.activePersisters = [1, 0] ∧
    (staleDirEpoch1.w.slots 1).path = "db/Epoch_1/Shard_0" ∧
    (Get "alpha" staleDirEpoch1).1 = .ok "old" :=
  ⟨rfl, by decide, by decide, by decide, by decide, by decide, by decide, by decide, by decide,
    by decide, by decide, by decide, by decide, by decide, rfl, by decide, by decide, by decide,
    by decide, by decide⟩

/-- C2 (amended): retention inside the active window.  In any reachable state
`s1` of a storer with `epochs_to_keep >= max_active` that is in epoch `E1`
(the newest slot `p` of the active slice is the one the map by epoch holds
under `E1`), whatever the history before: no other slot of the active slice
or of the map by epoch has the directory of `p`; `Put(k, v)` succeeds; after
it the directories of the epochs `E1 + 1, ..., E2` hold nothing but `v` under
`k` (they need not exist, and may be the directory of `p`); the storer is then
led to epoch `E2` with `E2 - E1 < max_active` by rotations to the next epoch
that return nil and by client operations in which `k` is neither written nor
removed (cache evictions included; a `Get(k)` made inside the window is not
made to fail at the persister of epoch `E1`).  Then `Get(k)` returns `v`, also
when the cache has lost `k` (the `get` of the persister of epoch `E1` not
being made to fail), and the slot of epoch `E1` is still in the map by epoch
and in the active slice, at the index `E2 - E1`, not closed.  (`E2` and the
length of the active slice fit `uint32`.) -/
theorem C2_retention_inside_window (s1 s2 s3 : Sys) (E1 E2 p : Nat) (k v : Bytes)
    (hreach : Reachable s1)
    (hAK : s1.ps.numOfActivePersisters ≤ s1.ps.numOfEpochsToKeep)
    (hE : E2 < 4294967296) (hd : E2 < E1 + s1.ps.numOfActivePersisters)
    (hfit : s1.ps.activePersisters.length + (E2 - E1) < 4294967296)
    (hhead : s1.ps.activePersisters[0]? = some p)
    (hentry : assocGet E1 s1.ps.persistersMapByEpoch = some p)
    (hdir : ∀ q, s1.holds q → q ≠ p → (s1.w.slots q).path ≠ (s1.w.slots p).path)
    (hput : Put k v s1 = (none, s2))
    (hnew : ∀ e, E1 < e → e ≤ E2 →
      ∀ x, keyAt s2.w.disk (getNewFilePath s1.ps.dbPath e) k = some x → x = v)
    (hrun : Run (keepsFrom k E1) E1 s2 E2 s3)
    (hget : s3.w.fault (s3.w.calls.length + (E2 - E1)) = none) :
    (Get k s3).1 = .ok v ∧
    assocGet E1 s3.ps.persistersMapByEpoch = some p ∧
    s3.ps.activePersisters[E2 - E1]? = some p ∧ (s3.w.slots p).isClosed = false := by
  obtain ⟨hret, hcon, hcfg, -, hreach3⟩ := retained_state hreach hE (by omega) hfit hhead
    hentry hdir hput hnew hrun
  obtain ⟨-, hpath, -, ha, -⟩ := config_fields hcfg
  have hwin : E2 - E1 < s3.ps.numOfActivePersisters := by
    have := run_le hrun
    rw [ha]
    omega
  have hpos := hret.pos hwin
  refine ⟨retains_Get hret hcon (by rw [hpath]; exact hnew) hwin hfit hget, hret.entry, hpos, ?_⟩
  exact ((reachable_activeOpen hreach3).1.2.2 p (List.getElem?_mem hpos)).2

/-- Witness of C2: the scenario (two active persisters) in epoch 1, after a
`Put` in epoch 0 and a rotation: `Put("beta", "2")` in epoch 1, one rotation,
the cache cleared. -/
theorem C2_retention_inside_window_witness :
    (Get "beta" (ClearCache secondEpoch2)).1 = .ok "2" ∧
    assocGet 1 (ClearCache secondEpoch2).ps.persistersMapByEpoch = some 1 ∧
    (ClearCache secondEpoch2).ps.activePersisters[2 - 1]? = some 1 ∧
    ((ClearCache secondEpoch2).w.slots 1).isClosed = false :=
  C2_retention_inside_window (scenarioEpoch 1) secondPut (ClearCache secondEpoch2) 1 2 1
    "beta" "2" scenarioEpoch1_reachable (by decide) (by decide) (by decide) (by decide)
    (by decide) (by decide) scenarioEpoch1_others rfl
    (fun e h1 h2 x hx => by
      have he : e = 2 := by omega
      subst he
      have hn : keyAt secondPut.w.disk (getNewFilePath (scenarioEpoch 1).ps.dbPath 2) "beta"
          = none := by decide
      rw [hn] at hx
      simp at hx)
    (Run.op .clearCache trivial (Run.rotate (Run.start 1 secondPut) (changeEpoch_eq (by decide))))
    rfl

/-- C3 (counterexample): two histories with two active persisters and three
epochs to keep, `Put("alpha", "1")` in epoch 0 and the rotations to the epochs
1 and 2 (`2 <= 2 - 0 < 3`), all returning nil, the cache cleared.  In the
first the storer is built with the path `db/Epoch_1/Shard_0`, which
`getNewFilePath` also gives to epoch 1: the active persister of epoch 1 works
on the directory that received the key, and `Get("alpha")` returns `"1"`
instead of the not-found error.  In the second the storer is built with the
path of the scenarios on a disk where the directory of epoch 2 is already
there and holds `"old"` under `"alpha"`: `Get("alpha")` returns `"old"`. -/
theorem C3_counterexample :
    initPruningStorer { scenarioArgs with DbPath := "db/Epoch_1/Shard_0" } ""
        (World.fresh (fun _ => none))
      = (.ok (scenarioOn "db/Epoch_1/Shard_0" []).ps, (scenarioOn "db/Epoch_1/Shard_0" []).w) ∧
    (Put "alpha" "1" (scenarioOn "db/Epoch_1/Shard_0" [])).1 = none ∧
    (changeEpoch 1 reusedDirPut).1 = none ∧
    (changeEpoch 2 reusedDirEpoch1).1 = none ∧
    reusedDirEpoch2.ps.numOfActivePersisters = 2 ∧
    reusedDirEpoch2.ps.numOfEpochsToKeep = 3 ∧
    reusedDirEpoch2.ps.cacher.Get "alpha" = none ∧
    reusedDirEpoch2.ps.activePersisters = [2, 1] ∧
    (reusedDirEpoch2.w.slots 0).path = "db/Epoch_1/Shard_0" ∧
    (reusedDirEpoch2.w.slots 1).path = "db/Epoch_1/Shard_0" ∧
    (Get "alpha" reusedDirEpoch2).1 = .ok "1" ∧
    initPruningStorer scenarioArgs "" { World.fresh (fun _ => none) with disk := staleDisk2 }
      = (.ok (scenarioOn "db/Epoch_0/Shard_0" staleDisk2).ps,
          (scenarioOn "db/Epoch_0/Shard_0" staleDisk2).w) ∧
    (Put "alpha" "1" (scenarioOn "db/Epoch_0/Shard_0" staleDisk2)).1 = none ∧
    (changeEpoch 1 lateDirPut).1 = none ∧
    (changeEpoch 2 lateDirEpoch1).1 = none ∧
    lateDirEpoch2.ps.cacher.Get "alpha" = none ∧
    lateDirEpoch2.ps.activePersisters = [2, 1] ∧
    (lateDirEpoch2.w.slots 2).path = "db/Epoch_2/Shard_0" ∧
    (Get "alpha" lateDirEpoch2).1 = .ok "old" ∧
    (GetFromEpoch "alpha" 0 lateDirEpoch2).1 = .ok "1" :=
  ⟨rfl, by decide, by decide, by decide, by decide, by decide, by decide, by decide, by decide,
    by decide, by decide, rfl, by decide, by decide, by decide, by decide, by decide, by decide,
    by decide, by decide⟩

/-- C3 (amended): between window and horizon.  In any reachable state `s1` of
a storer that is in epoch `E1` (the newest slot `p` of the active slice is the
one the map by epoch holds under `E1`), whatever the history before: no other
slot of the active slice or of the map by epoch has the directory of `p`;
`Put(k, v)` succeeds; after it the directories of the epochs
`E1 + 1, ..., E2` do not hold `k` (they need not exist); the storer is then
led to epoch `E2` with `max_active <= E2 - E1 < epochs_to_keep` by rotations
to the next epoch that return nil and by client operations in which `k` is
neither written nor removed (cache evictions included; a `Get(k)` made inside
the window is not made to fail at the persister of epoch `E1`).  Once the
cache no longer holds `k`, `Get(k)` returns the not-found error; the slot of
epoch `E1` is still in the map by epoch, closed and out of the active slice,
and `GetFromEpoch(k, E1)` returns `v` by reopening it transiently (factory
`create`, `init`, `get`, `close`, none of the first three being made to fail),
the storer itself being left as it was.  (`E2` and the length of the active
slice fit `uint32`.) -/
theorem C3_between_window_and_horizon (s1 s2 s3 : Sys) (E1 E2 p : Nat) (k v : Bytes)
    (hreach : Reachable s1)
    (hE : E2 < 4294967296)
    (hdA : E1 + s1.ps.numOfActivePersisters ≤ E2)
    (hdK : E2 < E1 + s1.ps.numOfEpochsToKeep)
    (hfit : s1.ps.activePersisters.length + (E2 - E1) < 4294967296)
    (hhead : s1.ps.activePersisters[0]? = some p)
    (hentry : assocGet E1 s1.ps.persistersMapByEpoch = some p)
    (hdir : ∀ q, s1.holds q → q ≠ p → (s1.w.slots q).path ≠ (s1.w.slots p).path)
    (hput : Put k v s1 = (none, s2))
    (hnew : ∀ e, E1 < e → e ≤ E2 →
      keyAt s2.w.disk (getNewFilePath s1.ps.dbPath e) k = none)
    (hrun : Run (keepsFrom k E1) E1 s2 E2 s3)
    (hmiss : s3.ps.cacher.Get k = none)
    (hf0 : s3.w.fault s3.w.calls.length = none)
    (hf1 : s3.w.fault (s3.w.calls.length + 1) = none)
    (hf2 : s3.w.fault (s3.w.calls.length + 2) = none) :
    (Get k s3).1 = .error (.keyNotFoundIn k s1.ps.identifier) ∧
    assocGet E1 s3.ps.persistersMapByEpoch = some p ∧ p ∉ s3.ps.activePersisters ∧
    (s3.w.slots p).isClosed = true ∧
    (GetFromEpoch k E1 s3).1 = .ok v ∧
    (GetFromEpoch k E1 s3).2.ps = s3.ps ∧
    (GetFromEpoch k E1 s3).2.w.calls =
      .close s3.w.dbs.length :: .get s3.w.dbs.length k :: .init s3.w.dbs.length ::
        .create (s3.w.slots p).path :: s3.w.calls := by
  obtain ⟨hret, hcon, hcfg, hclosed, hreach3⟩ := retained_state hreach hE hdK hfit hhead
    hentry hdir hput
    (fun e h1 h2 x hx => by rw [hnew e h1 h2] at hx; simp at hx) hrun
  obtain ⟨-, hpath, -, ha, hid⟩ := config_fields hcfg
  have hcl := hclosed (by omega)
  have hnone := retains_Get_none hret hcon (by rw [hpath]; exact hnew)
    (by rw [ha]; omega) hmiss
  rw [hid] at hnone
  obtain ⟨kv, hkv, hv⟩ := keyAt_some hcon.stored
  rw [← hret.path] at hkv
  obtain ⟨g1, g2, g3⟩ := GetFromEpoch_closed hmiss hret.entry hcl hkv hv hf0 hf1 hf2
  exact ⟨hnone, hret.entry, (reachable_activeOpen hreach3).2 p hcl, hcl, g1, g2, g3⟩

/-- Witness of C3: the scenario (window 2, horizon 3) in epoch 1, after a `Put`
in epoch 0 and a rotation: `Put("beta", "2")` in epoch 1, two rotations, the
cache cleared. -/
theorem C3_between_window_and_horizon_witness :
    (Get "beta" (ClearCache secondEpoch3)).1
      = .error (.keyNotFoundIn "beta" (scenarioEpoch 1).ps.identifier) ∧
    assocGet 1 (ClearCache secondEpoch3).ps.persistersMapByEpoch = some 1 ∧
    1 ∉ (ClearCache secondEpoch3).ps.activePersisters ∧
    ((ClearCache secondEpoch3).w.slots 1).isClosed = true ∧
    (GetFromEpoch "beta" 1 (ClearCache secondEpoch3)).1 = .ok "2" ∧
    (GetFromEpoch "beta" 1 (ClearCache secondEpoch3)).2.ps
      = (ClearCache secondEpoch3).ps ∧
    (GetFromEpoch "beta" 1 (ClearCache secondEpoch3)).2.w.calls =
      .close (ClearCache secondEpoch3).w.dbs.length ::
        .get (ClearCache secondEpoch3).w.dbs.length "beta" ::
        .init (ClearCache secondEpoch3).w.dbs.length ::
        .create ((ClearCache secondEpoch3).w.slots 1).path ::
        (ClearCache secondEpoch3).w.calls :=
  C3_between_window_and_horizon (scenarioEpoch 1) secondPut (ClearCache secondEpoch3) 1 3 1
    "beta" "2" scenarioEpoch1_reachable (by decide) (by decide) (by decide) (by decide)
    (by decide) (by decide) scenarioEpoch1_others rfl
    (fun e h1 h2 => by
      have he : e = 2 ∨ e = 3 := by omega
      rcases he with rfl | rfl
      · decide
      · decide)
    (Run.op .clearCache trivial
      (Run.rotate (Run.rotate (Run.start 1 secondPut) (changeEpoch_eq (by decide)))
        (changeEpoch_eq (by decide))))
    rfl rfl rfl rfl

/-- C4: pruning beyond the horizon.  In any reachable state `s1` of a
non-archive storer with `epochs_to_keep >= max_active` that is in epoch `E1`
(the newest slot `p` of the active slice is the one the map by epoch holds
under `E1`: so it is after the construction, for `E1 = 0`, and after a
rotation to `E1` that returned nil), whatever the history before, the paths
and the system: the storer is led to epoch `E2` with
`E2 - E1 >= epochs_to_keep` by rotations to the next epoch that return nil,
with client operations of any kind in between.  Then the map by epoch has no
entry for `E1`, the persister of the slot that was recorded for `E1` has
received `DestroyClosed`, and `GetFromEpoch(k, E1)` returns the not-found
error for every key the cache does not hold.  (`E2` fits `uint32`, and so does
the length of the map by epoch, which grows by two entries per rotation at
most.) -/
theorem C4_pruning_beyond_horizon (s1 s3 : Sys) (E1 E2 p : Nat)
    (hreach : Reachable s1) (hfa : s1.ps.fullArchive = false)
    (hAK : s1.ps.numOfActivePersisters ≤ s1.ps.numOfEpochsToKeep)
    (hE : E2 < 4294967296)
    (hlen : s1.ps.persistersMapByEpoch.length + 2 * s1.ps.numOfEpochsToKeep < 4294967296)
    (hd : E1 + s1.ps.numOfEpochsToKeep ≤ E2)
    (hhead : s1.ps.activePersisters[0]? = some p)
    (hentry : assocGet E1 s1.ps.persistersMapByEpoch = some p)
    (hrun : Run anyOp E1 s1 E2 s3) :
    assocGet E1 s3.ps.persistersMapByEpoch = none ∧
    Call.destroyClosed (s1.w.slots p).persister ∈ s3.w.calls ∧
    ∀ (k : Bytes), s3.ps.cacher.Get k = none →
      (GetFromEpoch k E1 s3).1 = .error (.keyNotFoundIn k s1.ps.identifier) := by
  obtain ⟨hA1, hA, hK, hheap⟩ := reachable_basic hreach
  have hstart : Awaits E1 p (s1.w.slots p).persister s1.ps.persistersMapByEpoch.length E1 s1 := by
    constructor
    · exact hentry
    · intro e he1 he2
      have : e = E1 := by omega
      rw [this, hentry]
      rfl
    · intro _
      rw [Nat.sub_self]
      exact hhead
    · exact hheap.1 p (List.getElem?_mem hhead)
    · rfl
    · omega
  obtain ⟨hc, -, -, hafter⟩ := run_awaits hstart hfa hA1 hA hAK hK hE hlen hrun (le_refl _)
  obtain ⟨hgone, hcall⟩ := hafter hd
  obtain ⟨-, -, -, -, hid⟩ := config_fields hc
  refine ⟨hgone, hcall, fun k hmiss => ?_⟩
  rw [GetFromEpoch_unknown hmiss hgone, hid]

/-- Witness of C4: the scenario (horizon 3) in epoch 1, after a `Put` in epoch
0 and a rotation: `Put("beta", "2")` in epoch 1, rotated through the epochs 2,
3 and 4, the cache cleared: the persister of epoch 1 is gone. -/
theorem C4_pruning_beyond_horizon_witness :
    assocGet 1 (ClearCache secondEpoch4).ps.persistersMapByEpoch = none ∧
    Call.destroyClosed ((scenarioEpoch 1).w.slots 1).persister
      ∈ (ClearCache secondEpoch4).w.calls ∧
    ∀ (k : Bytes), (ClearCache secondEpoch4).ps.cacher.Get k = none →
      (GetFromEpoch k 1 (ClearCache secondEpoch4)).1
        = .error (.keyNotFoundIn k (scenarioEpoch 1).ps.identifier) :=
  C4_pruning_beyond_horizon (scenarioEpoch 1) (ClearCache secondEpoch4) 1 4 1
    scenarioEpoch1_reachable rfl (by decide) (by decide)
    (by decide) (by decide) (by decide) (by decide)
    (Run.op .clearCache trivial
      (Run.rotate (Run.rotate (Run.rotate
        (Run.op (.put "beta" "2") trivial (Run.start 1 (scenarioEpoch 1)))
        (changeEpoch_eq (by decide))) (changeEpoch_eq (by decide))) (changeEpoch_eq (by decide))))

/-- Counterexample to C5: in the scenario, once the storer has been rotated
to epoch 1 and then to epoch 2 (both rotations returning nil), the slot of
epoch 0 has been closed and is no longer in the active slice, and `Get("alpha")`
returns the not-found error when the cache does not hold the key. -/
theorem C5_counterexample :
    NewPruningStorer scenarioArgs (World.fresh fun _ => none)
      = (.ok scenarioStart.ps, scenarioStart.w) ∧
    (Put "alpha" "1" scenarioStart).1 = none ∧
    (changeEpoch 1 scenarioPut).1 = none ∧
    (changeEpoch 2 (changeEpoch 1 scenarioPut).2).1 = none ∧
    scenarioEpoch 2 = (changeEpoch 2 (changeEpoch 1 scenarioPut).2).2 ∧
    assocGet 0 (scenarioEpoch 2).ps.persistersMapByEpoch = some 0 ∧
    0 ∉ (scenarioEpoch 2).ps.activePersisters ∧
    ((scenarioEpoch 2).w.slots 0).isClosed = true ∧
    (scenarioEpoch 2).w.dbs[((scenarioEpoch 2).w.slots 0).persister]?
      = some { path := "db/Epoch_0/Shard_0", phase := .closed } ∧
    (Get "alpha" ((scenarioEpoch 2).withCache [])).1
      = .error (.keyNotFoundIn "alpha" "scenario") ∧
    (Get "alpha" ((scenarioEpoch 2).withCache [])).1 ≠ .ok "1" :=
  ⟨rfl, by decide, by decide, by decide, rfl, by decide, by decide, by decide, by decide,
    by decide, by decide⟩

/-- C5 (amended): scenario 2 with `max_active = 2`, `epochs_to_keep = 3`.
After `Put(k, v)` in epoch 0 and the successful rotation to epoch 1, the slot
of epoch 0 is still in the active slice, not closed, and `Get(k)` returns `v`
when the cache does not hold `k` (served by that persister, whose `get` is not
made to fail).  The successful rotation to epoch 2 closes the slot and takes it
out of the active slice (it stays in the map by epoch); `Get(k)` then returns
the not-found error when the cache does not hold `k`. -/
theorem C5_scenario_two_rotations (args : PruningStorerArgs) (shard : String)
    (fault : Nat → Option Error) (k v : Bytes) (ps0 : PruningStorer) (w0 : World)
    (s0 s1 s2 : Sys) (c : Cacher)
    (hA : args.NumOfActivePersisters = 2) (hK : args.NumOfEpochsToKeep = 3)
    (hpaths : DistinctPaths (args.filePath shard) 2)
    (hnew : initPruningStorer args shard (World.fresh fault) = (.ok ps0, w0))
    (hput : Put k v ⟨ps0, w0⟩ = (none, s0))
    (hrot1 : changeEpoch 1 s0 = (none, s1))
    (hrot2 : changeEpoch 2 s1 = (none, s2))
    (hmiss : c.Get k = none)
    (hget : s1.w.fault (s1.w.calls.length + 1) = none) :
    ((Get k (s1.withCache c)).1 = .ok v ∧
      ∃ p, assocGet 0 s1.ps.persistersMapByEpoch = some p ∧
        s1.ps.activePersisters[1]? = some p ∧ (s1.w.slots p).isClosed = false) ∧
    ((Get k (s2.withCache c)).1 = .error (.keyNotFoundIn k args.Identifier) ∧
      ∃ p, assocGet 0 s2.ps.persistersMapByEpoch = some p ∧
        p ∉ s2.ps.activePersisters ∧ (s2.w.slots p).isClosed = true) := by
  have hr1 : Run (keepsFrom k 0) 0 s0 (0 + 1) s1 := Run.rotate (Run.start 0 s0) hrot1
  have hr2 : Run (keepsFrom k 0) 0 s0 (0 + 1 + 1) s2 := Run.rotate hr1 hrot2
  obtain ⟨hl1, -, ha1, hk1, -, -, -, -, hbf1, hst1, hab1, -⟩ :=
    history_state (by omega) (by omega) (by omega) (distinctPaths_mono hpaths (by omega))
      hnew (Run.start 0 _) hput hr1
  obtain ⟨hl2, -, ha2, hk2, -, hid2, -, -, hbf2, hst2, hab2, -⟩ :=
    history_state (by omega) (by omega) (by omega) hpaths hnew (Run.start 0 _) hput hr2
  obtain ⟨hw1, -, -, -⟩ := history_lost_cache c hl1 (Nat.zero_le _) (by omega)
    (by rw [ha1]; omega) (by rw [ha1]; omega) (by rw [ha1, hk1]; omega) hst1 hab1 hbf1 hmiss
  obtain ⟨-, hw2, hm2, -⟩ := history_lost_cache c hl2 (Nat.zero_le _) (by omega)
    (by rw [ha2]; omega) (by rw [ha2]; omega) (by rw [ha2, hk2]; omega) hst2 hab2 hbf2 hmiss
  obtain ⟨hg1, hp1, hp2, hp3⟩ := hw1 (by rw [ha1]; omega) hget
  obtain ⟨hg2, hq1, hq2⟩ := hw2 (by rw [ha2]; omega)
  obtain ⟨hq3, -⟩ := hm2 (by rw [ha2]; omega) (by rw [hk2]; omega)
  rw [hid2] at hg2
  exact ⟨⟨hg1, 0, hp3, hp1, hp2⟩, hg2, 0, hq3, hq1, hq2⟩

/-- Witness of C5 (amended): the scenario of the specification. -/
theorem C5_scenario_two_rotations_witness :
    ((Get "alpha" ((scenarioEpoch 1).withCache [])).1 = .ok "1" ∧
      ∃ p, assocGet 0 (scenarioEpoch 1).ps.persistersMapByEpoch = some p ∧
        (scenarioEpoch 1).ps.activePersisters[1]? = some p ∧
        ((scenarioEpoch 1).w.slots p).isClosed = false) ∧
    ((Get "alpha" ((scenarioEpoch 2).withCache [])).1
        = .error (.keyNotFoundIn "alpha" "scenario") ∧
      ∃ p, assocGet 0 (scenarioEpoch 2).ps.persistersMapByEpoch = some p ∧
        p ∉ (scenarioEpoch 2).ps.activePersisters ∧
        ((scenarioEpoch 2).w.slots p).isClosed = true) :=
  C5_scenario_two_rotations scenarioArgs "" (fun _ => none) "alpha" "1"
    scenarioStart.ps scenarioStart.w scenarioPut (scenarioEpoch 1) (scenarioEpoch 2) []
    rfl rfl (by decide) rfl rfl scenario_rotation1 scenario_rotation2 rfl rfl

/-- Counterexample to C6: in the scenario, right after the rotation to epoch 3
(the rotations to epochs 1, 2 and 3 returning nil) the map by epoch has no
entry for epoch 0, the persister of epoch 0 has received `DestroyClosed` and
`GetFromEpoch("alpha", 0)` returns the not-found error, not `"1"`: the epoch-0
persister is destroyed by the rotation to epoch 3, not by the one to epoch 4. -/
theorem C6_counterexample :
    NewPruningStorer scenarioArgs (World.fresh fun _ => none)
      = (.ok scenarioStart.ps, scenarioStart.w) ∧
    (Put "alpha" "1" scenarioStart).1 = none ∧
    changeEpoch 1 scenarioPut = (none, scenarioEpoch 1) ∧
    changeEpoch 2 (scenarioEpoch 1) = (none, scenarioEpoch 2) ∧
    changeEpoch 3 (scenarioEpoch 2) = (none, scenarioEpoch 3) ∧
    assocGet 0 (scenarioEpoch 3).ps.persistersMapByEpoch = none ∧
    Call.destroyClosed 0 ∈ (scenarioEpoch 3).w.calls ∧
    Call.destroyClosed 0 ∉ (scenarioEpoch 2).w.calls ∧
    (GetFromEpoch "alpha" 0 ((scenarioEpoch 3).withCache [])).1
      = .error (.keyNotFoundIn "alpha" "scenario") ∧
    (GetFromEpoch "alpha" 0 ((scenarioEpoch 3).withCache [])).1 ≠ .ok "1" :=
  ⟨rfl, by decide, scenario_rotation1, scenario_rotation2, scenario_rotation3, by decide,
    by decide, by decide, by decide, by decide⟩

/-- C6 (amended): scenarios 3 and 4 with `max_active = 2`, `epochs_to_keep = 3`,
no full archive.  After `Put(k, v)` in epoch 0 and the successful rotations to
epochs 1 and 2, `Get(k)` returns the not-found error when the cache does not
hold `k`, the slot of epoch 0 is retained in the map by epoch as a closed slot
and `GetFromEpoch(k, 0)` returns `v` through a transient reopen (`create`,
`init`, `get` not being made to fail, then `close`).  The successful rotation to
epoch 3 removes the entry of epoch 0 from the map, calls `DestroyClosed` on its
persister and makes `GetFromEpoch(k, 0)` return the not-found error. -/
theorem C6_scenario_three_rotations (args : PruningStorerArgs) (shard : String)
    (fault : Nat → Option Error) (k v : Bytes) (ps0 : PruningStorer) (w0 : World)
    (s0 s1 s2 s3 : Sys) (c : Cacher)
    (hA : args.NumOfActivePersisters = 2) (hK : args.NumOfEpochsToKeep = 3)
    (hfa : args.FullArchive = false)
    (hpaths : DistinctPaths (args.filePath shard) 3)
    (hnew : initPruningStorer args shard (World.fresh fault) = (.ok ps0, w0))
    (hput : Put k v ⟨ps0, w0⟩ = (none, s0))
    (hrot1 : changeEpoch 1 s0 = (none, s1))
    (hrot2 : changeEpoch 2 s1 = (none, s2))
    (hrot3 : changeEpoch 3 s2 = (none, s3))
    (hmiss : c.Get k = none)
    (hf0 : s2.w.fault s2.w.calls.length = none)
    (hf1 : s2.w.fault (s2.w.calls.length + 1) = none)
    (hf2 : s2.w.fault (s2.w.calls.length + 2) = none) :
    ((Get k (s2.withCache c)).1 = .error (.keyNotFoundIn k args.Identifier) ∧
      ∃ p, assocGet 0 s2.ps.persistersMapByEpoch = some p ∧ p ∉ s2.ps.activePersisters ∧
        (s2.w.slots p).isClosed = true ∧
        (GetFromEpoch k 0 (s2.withCache c)).1 = .ok v ∧
        (GetFromEpoch k 0 (s2.withCache c)).2.w.calls =
          .close s2.w.dbs.length :: .get s2.w.dbs.length k :: .init s2.w.dbs.length ::
            .create (s2.w.slots p).path :: s2.w.calls ∧
        Call.destroyClosed (s2.w.slots p).persister ∈ s3.w.calls) ∧
    (assocGet 0 s3.ps.persistersMapByEpoch = none ∧
      (GetFromEpoch k 0 (s3.withCache c)).1 = .error (.keyNotFoundIn k args.Identifier)) := by
  have hr2 : Run (keepsFrom k 0) 0 s0 (0 + 1 + 1) s2 :=
    Run.rotate (Run.rotate (Run.start 0 s0) hrot1) hrot2
  have hr3 : Run (keepsFrom k 0) 0 s0 (0 + 1 + 1 + 1) s3 := Run.rotate hr2 hrot3
  obtain ⟨hl2, -, ha2, hk2, -, hid2, -, -, hbf2, hst2, hab2, -⟩ :=
    history_state (by omega) (by omega) (by omega) (distinctPaths_mono hpaths (by omega))
      hnew (Run.start 0 _) hput hr2
  obtain ⟨hl3, -, ha3, hk3, hfa3, hid3, -, -, hbf3, hst3, hab3, -⟩ :=
    history_state (by omega) (by omega) (by omega) hpaths hnew (Run.start 0 _) hput hr3
  obtain ⟨-, hw2, hm2, -⟩ := history_lost_cache c hl2 (Nat.zero_le _) (by omega)
    (by rw [ha2]; omega) (by rw [ha2]; omega) (by rw [ha2, hk2]; omega) hst2 hab2 hbf2 hmiss
  obtain ⟨-, -, -, hx3⟩ := history_lost_cache c hl3 (Nat.zero_le _) (by omega)
    (by rw [ha3]; omega) (by rw [ha3]; omega) (by rw [ha3, hk3]; omega) hst3 hab3 hbf3 hmiss
  obtain ⟨hg2, hq1, hq2⟩ := hw2 (by rw [ha2]; omega)
  obtain ⟨hq3, hre⟩ := hm2 (by rw [ha2]; omega) (by rw [hk2]; omega)
  obtain ⟨hr1, hr3⟩ := hre hf0 hf1 hf2
  obtain ⟨hmap3, hcall3, hget3⟩ := hx3 (by rw [hfa3, hfa]) (by rw [hk3]; omega)
  rw [hid2] at hg2
  rw [hid3] at hget3
  refine ⟨⟨hg2, 0, hq3, hq1, hq2, hr1, hr3, ?_⟩, hmap3, hget3⟩
  rw [← changeEpoch_handles hrot3 (by rw [hl2.nextSlot]; omega)]
  exact hcall3

/-- Witness of C6 (amended): the scenario of the specification. -/
theorem C6_scenario_three_rotations_witness :
    ((Get "alpha" ((scenarioEpoch 2).withCache [])).1
        = .error (.keyNotFoundIn "alpha" "scenario") ∧
      ∃ p, assocGet 0 (scenarioEpoch 2).ps.persistersMapByEpoch = some p ∧
        p ∉ (scenarioEpoch 2).ps.activePersisters ∧
        ((scenarioEpoch 2).w.slots p).isClosed = true ∧
        (GetFromEpoch "alpha" 0 ((scenarioEpoch 2).withCache [])).1 = .ok "1" ∧
        (GetFromEpoch "alpha" 0 ((scenarioEpoch 2).withCache [])).2.w.calls =
          .close (scenarioEpoch 2).w.dbs.length ::
            .get (scenarioEpoch 2).w.dbs.length "alpha" ::
            .init (scenarioEpoch 2).w.dbs.length ::
            .create ((scenarioEpoch 2).w.slots p).path :: (scenarioEpoch 2).w.calls ∧
        Call.destroyClosed ((scenarioEpoch 2).w.slots p).persister
          ∈ (scenarioEpoch 3).w.calls) ∧
    (assocGet 0 (scenarioEpoch 3).ps.persistersMapByEpoch = none ∧
      (GetFromEpoch "alpha" 0 ((scenarioEpoch 3).withCache [])).1
        = .error (.keyNotFoundIn "alpha" "scenario")) :=
  C6_scenario_three_rotations scenarioArgs "" (fun _ => none) "alpha" "1"
    scenarioStart.ps scenarioStart.w scenarioPut (scenarioEpoch 1) (scenarioEpoch 2)
    (scenarioEpoch 3) [] rfl rfl rfl (by decide) rfl rfl scenario_rotation1 scenario_rotation2
    scenario_rotation3 rfl rfl rfl rfl

/-- Counterexample to C7: in the scenario, right after `Put("k", "v1")` in
epoch 0, the rotation to epoch 1 and `Put("k", "v2")`, `GetFromEpoch("k", 0)`
returns `"v2"`, the value most recently written (found in the cache), not
`"v1"`. -/
theorem C7_counterexample :
    NewPruningStorer scenarioArgs (World.fresh fun _ => none)
      = (.ok scenarioStart.ps, scenarioStart.w) ∧
    (Put "k" "v1" scenarioStart).1 = none ∧
    (changeEpoch 1 (Put "k" "v1" scenarioStart).2).1 = none ∧
    (Put "k" "v2" (changeEpoch 1 (Put "k" "v1" scenarioStart).2).2).1 = none ∧
    (GetFromEpoch "k" 0 (Put "k" "v2" (changeEpoch 1 (Put "k" "v1" scenarioStart).2).2).2).1
      = .ok "v2" ∧
    (GetFromEpoch "k" 0 (Put "k" "v2" (changeEpoch 1 (Put "k" "v1" scenarioStart).2).2).2).1
      ≠ .ok "v1" :=
  ⟨rfl, by decide, by decide, by decide, by decide, by decide⟩

/-- C7 (amended): scenario 5 with `max_active = 2`, `epochs_to_keep = 3`, for
every key `k` and values `v1`, `v2`.  After `Put(k, v1)` in epoch 0, a
successful rotation to epoch 1 and `Put(k, v2)`, `Get(k)` returns `v2`.
`GetFromEpoch(k, 0)` consults the cache first: it returns `v2` as long as the
cache holds `k`, and returns `v1`, the value stored in the persister of epoch
0, once the cache no longer holds `k` (the persister's `get` not being made to
fail). -/
theorem C7_scenario_overwrite (args : PruningStorerArgs) (shard : String)
    (fault : Nat → Option Error) (k v1 v2 : Bytes) (ps0 : PruningStorer) (w0 : World)
    (s1 s2 s3 : Sys) (c : Cacher)
    (hA : args.NumOfActivePersisters = 2) (hK : args.NumOfEpochsToKeep = 3)
    (hpaths : DistinctPaths (args.filePath shard) 1)
    (hnew : initPruningStorer args shard (World.fresh fault) = (.ok ps0, w0))
    (hput1 : Put k v1 ⟨ps0, w0⟩ = (none, s1))
    (hrot : changeEpoch 1 s1 = (none, s2))
    (hput2 : Put k v2 s2 = (none, s3))
    (hmiss : c.Get k = none)
    (hget : s3.w.failure = none) :
    (Get k s3).1 = .ok v2 ∧ (GetFromEpoch k 0 s3).1 = .ok v2 ∧
    (Get k (s3.withCache c)).1 = .ok v2 ∧ (GetFromEpoch k 0 (s3.withCache c)).1 = .ok v1 := by
  obtain ⟨hA1, hfa0, hpath0, hk0, ha0, hid0, -⟩ := init_success hnew
  obtain ⟨hl0, -, -⟩ := inEpoch_init hnew (by omega)
  obtain ⟨hl1, hc1, hst1, -, -⟩ := inEpoch_Put hl0 hput1
  obtain ⟨hfa1, hpath1, hk1, ha1, hid1⟩ := config_fields hc1
  simp only at hfa1 hpath1 hk1 ha1 hid1
  have hp1 : DistinctPaths s1.ps.dbPath (0 + 1) := by rw [hpath1, hpath0]; exact hpaths
  have hA1' : 1 ≤ s1.ps.numOfActivePersisters := by rw [ha1, ha0]; omega
  have hAK' : s1.ps.numOfActivePersisters ≤ s1.ps.numOfEpochsToKeep := by
    rw [ha1, ha0, hk1, hk0]; omega
  have hK' : s1.ps.numOfEpochsToKeep + 1 < 4294967296 := by rw [hk1, hk0]; omega
  obtain ⟨hl2, hc2, -, -, -, -⟩ := inEpoch_changeEpoch hl1 hA1' hAK' hK' (by omega) hp1 hrot
  obtain ⟨hkeep, -, -⟩ := content_changeEpoch hl1 hA1' hAK' hK' (by omega) hp1 hrot
  obtain ⟨hfa2, hpath2, hk2, ha2, hid2⟩ := config_fields hc2
  have hst2 : Stored s2 0 k v1 := hkeep 0 k v1 (le_refl _)
    (by simp only [lowestKept, hk1, hk0]; split <;> omega) hst1
  obtain ⟨hl3, hc3, hst3, hca3, hbf3⟩ := inEpoch_Put hl2 hput2
  obtain ⟨hfa3, hpath3, hk3, ha3, hid3⟩ := config_fields hc3
  have hst3' : Stored s3 0 k v1 :=
    stored_Put_other hl2 (by rw [hpath2]; exact hp1) hput2 (by omega) hst2
  have hla3 : lowestActive s3.ps (0 + 1) = 0 := by
    simp only [lowestActive, ha3, ha2, ha1, ha0]; omega
  have hcache : s3.ps.cacher.Get k = some v2 := by
    rw [hca3]
    simp [Cacher.Get, Cacher.Put]
  have hscan : ∀ cc : Cacher, cc.Get k = none → (Get k (s3.withCache cc)).1 = .ok v2 := by
    intro cc hcc
    simp only [Get, Sys.withCache, hcc]
    have hact : s3.ps.activePersisters = [] ++ 1 :: [0] := by
      rw [hl3.active, hla3]
      rfl
    have hmin : min s3.ps.numOfActivePersisters (u32 s3.ps.activePersisters.length) = 2 := by
      rw [hact, ha3, ha2, ha1, ha0, hA]
      rfl
    have hfound := getScan_found s3.ps.bloomFilter k v2 [] 1 [0]
      (by rw [hbf3]; exact filterAllows_after_add _ _) s3.w (by simp)
      (hasValue_of_stored hl3 (le_refl _) (by omega) hst3) (by simpa [World.failure] using hget)
    rw [hmin, hact]
    simp only [List.nil_append] at hfound ⊢
    split
    · next v w1 hs =>
      simp only [List.take_succ_cons, List.take_zero] at hs
      rw [hs] at hfound
      simp only [Option.some.injEq] at hfound
      rw [hfound]
    · next w1 hs =>
      simp only [List.take_succ_cons, List.take_zero] at hs
      rw [hs] at hfound
      simp at hfound
  have hmap : assocGet 0 s3.ps.persistersMapByEpoch = some 0 := by
    have hlk : lowestKept s3.ps (0 + 1) = 0 := by
      simp only [lowestKept, hk3, hk2, hk1, hk0, hK]
      split <;> rfl
    rw [hl3.byEpoch, assocGet_idMap, hlk, if_pos (by omega)]
  refine ⟨?_, ?_, hscan c hmiss, ?_⟩
  · simp [Get, hcache]
  · rw [GetFromEpoch_cached hcache]
  · rw [GetFromEpoch_open (s := s3.withCache c) (p := 0) hmiss hmap
      (by simp only [Sys.withCache]; rw [hl3.flags 0 (by omega), hla3]; rfl)]
    obtain ⟨d, kv, hd, hph, hkv, hv⟩ := hasValue_of_stored hl3 (by omega) (by omega) hst3'
    simp only [Sys.withCache]
    rw [get_stored hget hd hph hkv hv]

/-- Witness of C7 (amended): the scenario of the specification with the key
`"k"` and the values `"v1"`, `"v2"`. -/
theorem C7_scenario_overwrite_witness :
    (Get "k" overwritePut2).1 = .ok "v2" ∧ (GetFromEpoch "k" 0 overwritePut2).1 = .ok "v2" ∧
    (Get "k" (overwritePut2.withCache [])).1 = .ok "v2" ∧
    (GetFromEpoch "k" 0 (overwritePut2.withCache [])).1 = .ok "v1" :=
  C7_scenario_overwrite scenarioArgs "" (fun _ => none) "k" "v1" "v2"
    scenarioStart.ps scenarioStart.w overwritePut1 overwriteEpoch1 overwritePut2 []
    rfl rfl (by decide) rfl rfl (changeEpoch_eq (by decide)) rfl rfl rfl

/-- Counterexample to C8: in the scenario, `"k"` is written in epoch 0 and the
storer rotated to epoch 1 (a reachable state); then `Put("k", "v2")` returns
nil, `Remove("k")` returns nil, and the next `Get("k")` returns `"v1"`, found in
the older active persister, instead of the not-found error. -/
theorem C8_counterexample :
    Reachable overwriteEpoch1 ∧
    (Put "k" "v2" overwriteEpoch1).1 = none ∧
    (Remove "k" overwritePut2).1 = none ∧
    (Get "k" overwriteRemoved).1 = .ok "v1" ∧
    (Get "k" overwriteRemoved).1 ≠ .error (.keyNotFoundIn "k" "scenario") :=
  ⟨Reachable.afterChangeEpoch 1 (by decide) (Reachable.afterPut "k" "v1" scenarioStart_reachable),
    by decide, by decide, by decide, by decide⟩

/-- C8 (amended): Remove undoes Put when no other active persister holds the
key.  In every state, if `Put(k, v)` returns nil, `Remove(k)` then returns nil
through the `remove` of `activePersisters[0]` (which is not made to fail), and
none of the other active persisters holds `k`, the next `Get(k)` returns the
not-found error, whatever the cache has evicted in between. -/
theorem C8_remove_undoes_put (s s1 s2 : Sys) (k v : Bytes) (c : Cacher)
    (hput : Put k v s = (none, s1))
    (hfirst : s1.w.failure = none)
    (hrem : Remove k s1 = (none, s2))
    (hothers : ∀ p ∈ s.ps.activePersisters.tail, NoValue s.w p k)
    (hevict : c.EvictedFrom s2.ps.cacher) :
    (Get k (s2.withCache c)).1 = .error (.keyNotFoundIn k s.ps.identifier) := by
  obtain ⟨p, d, kv, hp, -, hd, hph, hkv, hc, hbf, hact, -, hcfg, hdisk, hdbs, hslots, -⟩ :=
    Put_ok hput
  obtain ⟨-, -, -, -, hid⟩ := config_fields hcfg
  obtain ⟨rest, hrest⟩ : ∃ rest, s.ps.activePersisters = p :: rest := by
    cases hl : s.ps.activePersisters with
    | nil => simp [hl] at hp
    | cons q rest =>
      simp only [hl, List.getElem?_cons_zero, Option.some.injEq] at hp
      exact ⟨rest, by rw [hp]⟩
  have hrm : s1.w.remove (s1.w.slots p).persister k = (none,
      { s1.w with calls := .remove (s1.w.slots p).persister k :: s1.w.calls
                  disk := assocPut d.path (assocDel k (assocPut k v kv)) s1.w.disk }) := by
    apply remove_stored hfirst
    · rw [hdbs, hslots]; exact hd
    · exact hph
    · rw [hdisk]; simp
  have h2 : (Remove k s1).2 = s2 := congrArg Prod.snd hrem
  have hps2 : s2.ps = { s1.ps with cacher := s1.ps.cacher.Remove k } := by
    rw [← h2]
    simp only [Remove]
  have hw2 : s2.w = { s1.w with calls := .remove (s1.w.slots p).persister k :: s1.w.calls
                                disk := assocPut d.path (assocDel k (assocPut k v kv)) s1.w.disk } := by
    rw [← h2]
    simp only [Remove, hact, hrest, removeScan, hrm]
  have hmiss : c.Get k = none := by
    cases hg : c.Get k with
    | none => rfl
    | some v1 =>
      have := hevict k v1 hg
      rw [hps2] at this
      simp [Cacher.Get, Cacher.Remove] at this
  have hnone := Get_none (s := s2.withCache c) hmiss
    (by
      intro q hq d1 kv1 hd1 hph1 hkv1
      simp only [Sys.withCache, hps2, hw2, hact, hrest, hdbs, hslots, hdisk] at hq hd1 hkv1
      by_cases hpath : d1.path = d.path
      · rw [hpath, assocGet_assocPut_self] at hkv1
        simp only [Option.some.injEq] at hkv1
        subst hkv1
        simp
      · rw [assocGet_assocPut_ne hpath, assocGet_assocPut_ne hpath] at hkv1
        simp only [List.mem_cons] at hq
        rcases hq with rfl | hq
        · rw [hd] at hd1
          simp only [Option.some.injEq] at hd1
          exact absurd (by rw [hd1]) hpath
        · exact hothers q (by rw [hrest]; exact hq) d1 kv1 hd1 hph1 hkv1)
  rw [hnone]
  simp only [Sys.withCache, hps2, hid]

/-- Witness of C8 (amended): the scenario with its single active persister. -/
theorem C8_remove_undoes_put_witness :
    (Get "alpha" ((Remove "alpha" scenarioPut).2.withCache [])).1
      = .error (.keyNotFoundIn "alpha" scenarioStart.ps.identifier) :=
  C8_remove_undoes_put scenarioStart scenarioPut (Remove "alpha" scenarioPut).2 "alpha" "1" []
    rfl rfl rfl (by intro p hp; simp [scenarioStart] at hp) (cleared_evicted _)

/-- C9: rotation postcondition.  In every reachable state with
`epochs_to_keep >= 1` (`max_active >= 1` holds in every reachable state), for
every epoch `E`, if `changeEpoch(E)` returns nil then the active slice has at
most `max_active` slots and its first slot is the one this call has created:
it is the slot recorded under `E` in the map by epoch, its path is
`getNewFilePath(E)`, it holds the persister the factory has just created and
its closed flag is false.  (The epoch and the length of the active slice fit
`uint32`.) -/
theorem C9_rotation_postcondition (s s1 : Sys) (E : Nat) (hreach : Reachable s)
    (hK1 : 1 ≤ s.ps.numOfEpochsToKeep) (hE : E < 4294967296)
    (hlen : s.ps.activePersisters.length + 1 < 4294967296)
    (h : changeEpoch E s = (none, s1)) :
    s1.ps.activePersisters.length ≤ s1.ps.numOfActivePersisters ∧
    ∃ p, p = s.w.nextSlot ∧ s1.ps.activePersisters[0]? = some p ∧
      assocGet E s1.ps.persistersMapByEpoch = some p ∧
      (s1.w.slots p).path = getNewFilePath s.ps.dbPath E ∧
      (s1.w.slots p).persister = s.w.dbs.length ∧
      (s1.w.slots p).isClosed = false := by
  obtain ⟨hA1, hA, hK, hheap⟩ := reachable_basic hreach
  obtain ⟨h1, h2, h3, h4⟩ := changeEpoch_post hA1 hA hK1 hK hheap hE hlen h
  exact ⟨h1, _, rfl, h2, h3, by rw [h4], by rw [h4], by rw [h4]⟩

/-- Witness of C9: the rotation of the scenario to epoch 1. -/
theorem C9_rotation_postcondition_witness :
    (scenarioEpoch 1).ps.activePersisters.length ≤ (scenarioEpoch 1).ps.numOfActivePersisters ∧
    ∃ p, p = scenarioPut.w.nextSlot ∧ (scenarioEpoch 1).ps.activePersisters[0]? = some p ∧
      assocGet 1 (scenarioEpoch 1).ps.persistersMapByEpoch = some p ∧
      ((scenarioEpoch 1).w.slots p).path = getNewFilePath scenarioPut.ps.dbPath 1 ∧
      ((scenarioEpoch 1).w.slots p).persister = scenarioPut.w.dbs.length ∧
      ((scenarioEpoch 1).w.slots p).isClosed = false :=
  C9_rotation_postcondition scenarioPut (scenarioEpoch 1) 1
    (Reachable.afterPut "alpha" "1" scenarioStart_reachable) (by decide) (by decide) (by decide)
    scenario_rotation1

/-- C10: construction validates in a fixed order and the first failure decides
the error.  With `NumOfActivePersisters < 1` the constructor returns
`ErrInvalidNumberOfPersisters`, whatever the notifier and the factory are;
otherwise, with a nil notifier, it returns `ErrNilEpochStartNotifier`, whatever
the factory is; otherwise, with a nil persister factory, it returns
`ErrNilPersisterFactory`.  In each case no storer is returned and the world is
left as it was: no persister has been created, no handler registered. -/
theorem C10_construction_validation_order (args : PruningStorerArgs) (shardIdStr : String)
    (w : World) :
    (args.NumOfActivePersisters < 1 →
      initPruningStorer args shardIdStr w = (.error .ErrInvalidNumberOfPersisters, w)) ∧
    (1 ≤ args.NumOfActivePersisters → args.Notifier = none →
      initPruningStorer args shardIdStr w = (.error .ErrNilEpochStartNotifier, w)) ∧
    (1 ≤ args.NumOfActivePersisters → args.Notifier ≠ none → args.PersisterFactory = none →
      initPruningStorer args shardIdStr w = (.error .ErrNilPersisterFactory, w)) := by
  refine ⟨?_, ?_, ?_⟩
  · intro h
    simp [initPruningStorer, h]
  · intro h1 h2
    have : ¬ args.NumOfActivePersisters < 1 := by omega
    simp [initPruningStorer, this, h2]
  · intro h1 h2 h3
    have : ¬ args.NumOfActivePersisters < 1 := by omega
    have h2' : args.Notifier.isNone = false := by
      cases hn : args.Notifier with
      | none => exact absurd hn h2
      | some _ => rfl
    simp [initPruningStorer, this, h2', h3]

/-- Witness of C10: the three refusals on variants of the scenario arguments,
in a fresh system. -/
theorem C10_construction_validation_order_witness :
    initPruningStorer argsNoWindow "" (World.fresh fun _ => none)
      = (.error .ErrInvalidNumberOfPersisters, World.fresh fun _ => none) ∧
    initPruningStorer argsNoNotifier "" (World.fresh fun _ => none)
      = (.error .ErrNilEpochStartNotifier, World.fresh fun _ => none) ∧
    initPruningStorer argsNoFactory "" (World.fresh fun _ => none)
      = (.error .ErrNilPersisterFactory, World.fresh fun _ => none) :=
  ⟨(C10_construction_validation_order argsNoWindow "" _).1 (by decide),
    (C10_construction_validation_order argsNoNotifier "" _).2.1 (by decide) rfl,
    (C10_construction_validation_order argsNoFactory "" _).2.2 (by decide) (by decide) rfl⟩

/-! ## Failures of the collaborators and teardown -/

/-- A persister's `put` is one external call; when it fails nothing but the
call log changes. -/
theorem put_failed {w w1 : World} {h : Nat} {k v : Bytes} {e : Error}
    (hp : w.put h k v = (some e, w1)) : w1 = w.record (.put h k v) := by
  simp only [World.put] at hp
  split at hp
  · simp only [Prod.mk.injEq] at hp
    exact hp.2.symm
  · split at hp
    · simp at hp
    · simp only [Prod.mk.injEq] at hp
      exact hp.2.symm

theorem put_calls (w : World) (h : Nat) (k v : Bytes) :
    (w.put h k v).2.calls = .put h k v :: w.calls := by
  simp only [World.put, World.record]
  repeat' split
  all_goals rfl

/-- C11: Put failure handling.  In every state whose active slice has a first
slot `p`: when the `put` of that slot's persister fails with `e`, `Put(k, v)`
returns `e`, the cache holds no entry for `k` afterwards (the other entries are
as before), the filter is as before, no slot changes, and the only external
call made is that `put`, which leaves the directories and the persister objects
untouched; when the `put` succeeds, `Put(k, v)` returns nil, the cache holds
`v` under `k`, `k` is added to the filter if there is one, and again the only
external call is that `put`. -/
theorem C11_put_failure_handling (s : Sys) (k v : Bytes) (p : Nat)
    (hp : s.ps.activePersisters[0]? = some p) :
    (∀ e w1, s.w.put (s.w.slots p).persister k v = (some e, w1) →
      (Put k v s).1 = some e ∧
      (Put k v s).2.ps.cacher.Get k = none ∧
      (∀ k1, k1 ≠ k → (Put k v s).2.ps.cacher.Get k1 = s.ps.cacher.Get k1) ∧
      (Put k v s).2.ps.bloomFilter = s.ps.bloomFilter ∧
      (Put k v s).2.ps.activePersisters = s.ps.activePersisters ∧
      (Put k v s).2.ps.persistersMapByEpoch = s.ps.persistersMapByEpoch ∧
      (Put k v s).2.w = w1 ∧
      w1.calls = .put (s.w.slots p).persister k v :: s.w.calls ∧
      w1.disk = s.w.disk ∧ w1.dbs = s.w.dbs) ∧
    (∀ w1, s.w.put (s.w.slots p).persister k v = (none, w1) →
      (Put k v s).1 = none ∧
      (Put k v s).2.ps.cacher.Get k = some v ∧
      (Put k v s).2.ps.bloomFilter = s.ps.bloomFilter.map (fun f => f.Add k) ∧
      (∀ f, s.ps.bloomFilter = some f →
        ∃ f1, (Put k v s).2.ps.bloomFilter = some f1 ∧ f1.added = k :: f.added ∧
          f1.MayContain k = true) ∧
      (Put k v s).2.w = w1 ∧
      w1.calls = .put (s.w.slots p).persister k v :: s.w.calls) := by
  constructor
  · intro e w1 hput
    have hw := put_failed hput
    have hP : Put k v s = (some e,
        { ps := { s.ps with cacher := (s.ps.cacher.Put k v).Remove k }, w := w1 }) := by
      simp only [Put, hp, hput]
    rw [hP]
    refine ⟨rfl, ?_, ?_, rfl, rfl, rfl, rfl, ?_, ?_, ?_⟩
    · simp [Cacher.Get, Cacher.Remove, assocGet_assocDel_self]
    · intro k1 hk
      simp only [Cacher.Get, Cacher.Remove, Cacher.Put, assocGet_assocDel_ne hk,
        assocGet_assocPut_ne hk]
    · rw [hw]; rfl
    · rw [hw]; rfl
    · rw [hw]; rfl
  · intro w1 hput
    have hc := put_calls s.w (s.w.slots p).persister k v
    rw [hput] at hc
    have hP : Put k v s = (none,
        { ps := { s.ps with cacher := s.ps.cacher.Put k v
                            bloomFilter := s.ps.bloomFilter.map (fun f => f.Add k) },
          w := w1 }) := by
      simp only [Put, hp, hput]
    rw [hP]
    refine ⟨rfl, ?_, rfl, ?_, rfl, hc⟩
    · simp [Cacher.Get, Cacher.Put, assocGet_assocPut_self]
    · intro f hf
      rw [hf]
      exact ⟨f.Add k, rfl, rfl, by simp [BloomFilter.MayContain, BloomFilter.Add]⟩

/-- Witness of C11: in the scenario the `put` of the persister of epoch 0 is
made to fail (the cache and the filter are left without `"alpha"`), and is
not made to fail. -/
theorem C11_put_failure_handling_witness :
    (scenarioWith (failAt 5)).ps.activePersisters[0]? = some 0 ∧
    (Put "alpha" "1" (scenarioWith (failAt 5))).1 = some (.injected 1) ∧
    (Put "alpha" "1" (scenarioWith (failAt 5))).2.ps.cacher.Get "alpha" = none ∧
    (Put "alpha" "1" (scenarioWith (failAt 5))).2.ps.bloomFilter
      = (scenarioWith (failAt 5)).ps.bloomFilter ∧
    (Put "alpha" "1" scenarioStart).1 = none ∧
    (Put "alpha" "1" scenarioStart).2.ps.cacher.Get "alpha" = some "1" :=
  have h := (C11_put_failure_handling (scenarioWith (failAt 5)) "alpha" "1" 0 rfl).1
    (.injected 1) _ rfl
  have h1 := (C11_put_failure_handling scenarioStart "alpha" "1" 0 rfl).2 _ rfl
  ⟨rfl, h.1, h.2.1, h.2.2.2.1, h1.1, h1.2.1⟩

theorem loggedOnly_refl (w : World) : LoggedOnly w 0 w := ⟨rfl, rfl, rfl, rfl, rfl⟩

theorem loggedOnly_record {w w1 : World} {n : Nat} (h : LoggedOnly w n w1) (c : Call) :
    LoggedOnly w (n + 1) (w1.record c) :=
  ⟨h.disk, h.dbs, h.heap, h.fault, by simp only [World.record, List.length_cons, h.calls]; omega⟩

theorem openDir_logged {w w1 : World} {n : Nat} (h : LoggedOnly w n w1) (hd : Nat) :
    w1.openDir hd = w.openDir hd := by
  simp only [World.openDir, h.dbs, h.disk]

theorem remove_calls (w : World) (h : Nat) (k : Bytes) :
    (w.remove h k).2.calls = .remove h k :: w.calls := by
  simp only [World.remove, World.record]
  repeat' split
  all_goals rfl

/-- The answer of a persister asked after failed calls. -/
theorem remove_answer {w w1 : World} {i : Nat} (h : LoggedOnly w i w1) (p : Nat) (k : Bytes) :
    (w1.remove (w1.slots p).persister k).1 = removeAnswer w i p ∧
    (∀ e, removeAnswer w i p = some e →
      (w1.remove (w1.slots p).persister k).2 = w1.record (.remove (w1.slots p).persister k)) := by
  have hs : w1.slots = w.slots := heap_slots h.heap
  have hop := openDir_logged (loggedOnly_record h (.remove (w1.slots p).persister k))
    (w.slots p).persister
  have hop1 : (w1.record (.remove (w1.slots p).persister k)).openDir (w1.slots p).persister
      = w.openDir (w.slots p).persister := by rw [hs] at hop ⊢; exact hop
  simp only [World.remove, removeAnswer, World.failure, h.fault, h.calls, hop1]
  cases hf : w.fault (w.calls.length + i) with
  | some e => exact ⟨rfl, fun _ _ => rfl⟩
  | none =>
    simp only
    cases ho : w.openDir (w.slots p).persister with
    | none => simp
    | some x => simp

theorem getLast?_cons_getD {α : Type} (a err : α) (l : List α) :
    (a :: l).getLast?.getD err = l.getLast?.getD a := by
  cases l with
  | nil => rfl
  | cons b t =>
    rw [List.getLast?_cons_cons, List.getLast?_eq_getLast _ (List.cons_ne_nil b t)]
    rfl

/-- The loop of `Remove` in terms of the answers of the persisters: it asks
the slots in order, stops at the first nil and returns it; when every answer is
an error it returns the last one (`err` when there is no slot). -/
theorem removeScan_spec (k : Bytes) (w : World) : ∀ (l : List Nat) (i : Nat) (w1 : World)
    (err : Option Error), LoggedOnly w i w1 →
    (removeScan k l err w1).1 =
      (if ((removeAnswers w i l).takeWhile Option.isSome).length < l.length then none
       else (removeAnswers w i l).getLast?.getD err) ∧
    (removeScan k l err w1).2.calls =
      ((l.take (((removeAnswers w i l).takeWhile Option.isSome).length + 1)).map
        (fun p => Call.remove (w.slots p).persister k)).reverse ++ w1.calls := by
  intro l
  induction l with
  | nil =>
    intro i w1 err _
    simp [removeScan, removeAnswers]
  | cons p rest ih =>
    intro i w1 err h
    obtain ⟨h1, h2⟩ := remove_answer h p k
    have hs : w1.slots = w.slots := heap_slots h.heap
    have hc := remove_calls w1 (w1.slots p).persister k
    simp only [removeScan, removeAnswers]
    cases ha : removeAnswer w i p with
    | none =>
      rw [ha] at h1
      cases hr : w1.remove (w1.slots p).persister k with
      | mk r w2 =>
        rw [hr] at h1 hc
        simp only at h1 hc
        subst h1
        simp only [List.takeWhile_cons, Option.isSome_none, Bool.false_eq_true, if_false,
          List.length_nil, List.length_cons, Nat.zero_lt_succ, if_true, Nat.zero_add,
          List.take_succ_cons, List.take_zero, List.map_cons, List.map_nil,
          List.reverse_cons, List.reverse_nil, List.nil_append, List.singleton_append]
        exact ⟨trivial, by rw [hc, hs]⟩
    | some e =>
      rw [ha] at h1
      have hw2 := h2 e ha
      cases hr : w1.remove (w1.slots p).persister k with
      | mk r w2 =>
        rw [hr] at h1 hc hw2
        simp only at h1 hc hw2
        subst h1
        have hl2 : LoggedOnly w (i + 1) w2 := by
          rw [hw2]
          exact loggedOnly_record h _
        obtain ⟨ih1, ih2⟩ := ih (i + 1) w2 (some e) hl2
        simp only [List.takeWhile_cons, Option.isSome_some, if_true, List.length_cons,
          Nat.add_lt_add_iff_right, getLast?_cons_getD, List.take_succ_cons, List.map_cons,
          List.reverse_cons, List.append_assoc, List.singleton_append]
        refine ⟨ih1, ?_⟩
        rw [ih2, hc, hs]

theorem removeAnswers_length (w : World) : ∀ (l : List Nat) (i : Nat),
    (removeAnswers w i l).length = l.length := by
  intro l
  induction l with
  | nil => intro i; rfl
  | cons p rest ih => intro i; simp [removeAnswers, ih]

theorem takeWhile_isSome_lt (as : List (Option Error)) :
    (as.takeWhile Option.isSome).length < as.length ↔ none ∈ as := by
  induction as with
  | nil => simp
  | cons a t ih =>
    cases a with
    | none => simp
    | some e => simp [List.takeWhile_cons, ih]

theorem getLast?_getD_ne_none (as : List (Option Error)) (hne : as ≠ [])
    (h : none ∉ as) : as.getLast?.getD none ≠ none := by
  rw [List.getLast?_eq_getLast _ hne]
  intro hc
  exact h (by
    have := List.getLast_mem hne
    simp only [Option.getD_some] at hc
    rwa [hc] at this)

/-- C12: Remove result.  In every state, `Remove(k)` removes `k` from the cache
(the other entries stay), leaves the filter, the active slice and the map by
epoch as they are, and asks the persisters of the active slice to remove `k`
in order from index 0: with `n` the number of failures before the first nil
answer, it makes the calls on the first `n + 1` slots and no other call, and
returns nil when some persister answered nil (`n < len`), else the error of
the last active persister.  When the active slice is not empty (as in every
state of a constructed storer), it returns nil iff some active persister's
`remove` succeeded. -/
theorem C12_remove_result (s : Sys) (k : Bytes) :
    (Remove k s).2.ps.cacher = s.ps.cacher.Remove k ∧
    (Remove k s).2.ps.cacher.Get k = none ∧
    (Remove k s).2.ps.bloomFilter = s.ps.bloomFilter ∧
    (Remove k s).2.ps.activePersisters = s.ps.activePersisters ∧
    (Remove k s).2.ps.persistersMapByEpoch = s.ps.persistersMapByEpoch ∧
    (Remove k s).1 =
      (if ((removeAnswers s.w 0 s.ps.activePersisters).takeWhile Option.isSome).length
          < s.ps.activePersisters.length then none
       else (removeAnswers s.w 0 s.ps.activePersisters).getLast?.getD none) ∧
    (Remove k s).2.w.calls =
      ((s.ps.activePersisters.take
          (((removeAnswers s.w 0 s.ps.activePersisters).takeWhile Option.isSome).length + 1)).map
        (fun p => Call.remove (s.w.slots p).persister k)).reverse ++ s.w.calls ∧
    (s.ps.activePersisters ≠ [] →
      ((Remove k s).1 = none ↔ none ∈ removeAnswers s.w 0 s.ps.activePersisters)) := by
  obtain ⟨h1, h2⟩ := removeScan_spec k s.w s.ps.activePersisters 0 s.w none (loggedOnly_refl _)
  have hR : Remove k s = ((removeScan k s.ps.activePersisters none s.w).1,
      { ps := { s.ps with cacher := s.ps.cacher.Remove k },
        w := (removeScan k s.ps.activePersisters none s.w).2 }) := rfl
  rw [hR]
  refine ⟨rfl, ?_, rfl, rfl, rfl, h1, h2, ?_⟩
  · simp [Cacher.Get, Cacher.Remove]
  · intro hne
    have hlen := removeAnswers_length s.w s.ps.activePersisters 0
    simp only
    rw [h1, ← hlen]
    constructor
    · intro h
      by_contra hno
      rw [if_neg (by rw [takeWhile_isSome_lt]; exact hno)] at h
      exact getLast?_getD_ne_none _
        (by intro he; rw [he] at hlen; exact hne (List.length_eq_zero.mp hlen.symm)) hno h
    · intro h
      rw [if_pos ((takeWhile_isSome_lt _).mpr h)]

/-- Witness of C12: the scenario after `Put("alpha", "1")`, whose active slice
holds the slot of epoch 0. -/
theorem C12_remove_result_witness :
    scenarioPut.ps.activePersisters ≠ [] ∧
    ((Remove "alpha" scenarioPut).1 = none ↔
      none ∈ removeAnswers scenarioPut.w 0 scenarioPut.ps.activePersisters) :=
  ⟨by decide, (C12_remove_result scenarioPut "alpha").2.2.2.2.2.2.2 (by decide)⟩

/-- Counterexample to C13: a storer is built in a fresh system, `Put("alpha",
"1")` succeeds and the cache is cleared; the next external call, the `has` of
the persister of epoch 0, is made to fail; `HasInEpoch("alpha", 0)` returns the
error of the persister, which is neither nil nor `ErrKeyNotFound`. -/
theorem C13_counterexample :
    initPruningStorer scenarioArgs "" (World.fresh (failAt 6))
      = (.ok (scenarioWith (failAt 6)).ps, (scenarioWith (failAt 6)).w) ∧
    (Put "alpha" "1" (scenarioWith (failAt 6))).1 = none ∧
    Reachable (ClearCache (Put "alpha" "1" (scenarioWith (failAt 6))).2) ∧
    (HasInEpoch "alpha" 0 (ClearCache (Put "alpha" "1" (scenarioWith (failAt 6))).2)).1
      = some (.injected 1) ∧
    (HasInEpoch "alpha" 0 (ClearCache (Put "alpha" "1" (scenarioWith (failAt 6))).2)).1
      ≠ none ∧
    (HasInEpoch "alpha" 0 (ClearCache (Put "alpha" "1" (scenarioWith (failAt 6))).2)).1
      ≠ some .ErrKeyNotFound :=
  ⟨rfl, by decide,
    Reachable.afterClearCache (Reachable.afterPut "alpha" "1"
      (@Reachable.construct scenarioArgs "" (World.fresh (failAt 6)) _ _
        (by decide) (by decide) rfl)),
    by decide, by decide, by decide⟩

/-- C13 (amended): existence checks.  In every state, `Has(k)` returns nil or
`ErrKeyNotFound`, whatever the persisters report.  `HasInEpoch(k, e)` returns
nil, `ErrKeyNotFound`, or, when the cache does not hold `k`, the filter lets
`k` through and the map by epoch has a slot for `e`, what the collaborator it
delegates to returns: the `has` of the slot's persister for a slot that is not
closed; for a closed slot the error of the factory's `create`, else the error
of the transient persister's `init`, else the answer of its `has`. -/
theorem C13_existence_checks (s : Sys) (k : Bytes) (e : Nat) :
    ((Has k s).1 = none ∨ (Has k s).1 = some .ErrKeyNotFound) ∧
    ((HasInEpoch k e s).1 = none ∨ (HasInEpoch k e s).1 = some .ErrKeyNotFound ∨
      ∃ p, s.ps.cacher.Has k = false ∧ filterAllows s.ps.bloomFilter k = true ∧
        assocGet e s.ps.persistersMapByEpoch = some p ∧
        (((s.w.slots p).isClosed = false ∧
            (HasInEpoch k e s).1 = (s.w.has (s.w.slots p).persister k).1) ∨
          ((s.w.slots p).isClosed = true ∧
            ((∃ err, (s.w.create (s.w.slots p).path).1 = .error err ∧
                (HasInEpoch k e s).1 = some err) ∨
              ∃ h w1, s.w.create (s.w.slots p).path = (.ok h, w1) ∧
                ((∃ err, (w1.init h).1 = some err ∧ (HasInEpoch k e s).1 = some err) ∨
                  ((w1.init h).1 = none ∧
                    (HasInEpoch k e s).1 = ((w1.init h).2.has h k).1)))))) := by
  constructor
  · simp only [Has]
    split
    · exact Or.inl rfl
    · split
      · split
        · exact Or.inl rfl
        · exact Or.inr rfl
      · exact Or.inr rfl
  · simp only [HasInEpoch]
    split
    · exact Or.inl rfl
    · next hc =>
      split
      · next hbf =>
        split
        · exact Or.inr (Or.inl rfl)
        · next p hp =>
          refine Or.inr (Or.inr ⟨p, by simpa using hc, hbf, hp, ?_⟩)
          split
          · next ho =>
            left
            exact ⟨by simpa using ho, rfl⟩
          · next hcl =>
            right
            refine ⟨by simpa using hcl, ?_⟩
            split
            · next err w1 hcr =>
              left
              exact ⟨err, by rw [hcr], rfl⟩
            · next h w1 hcr =>
              right
              refine ⟨h, w1, hcr, ?_⟩
              split
              · next err w2 hi =>
                left
                exact ⟨err, by rw [hi], rfl⟩
              · next w2 hi =>
                right
                exact ⟨by rw [hi], by rw [hi]⟩
      · exact Or.inr (Or.inl rfl)

/-- From worlds that differ by the content of the call log only, the `get` and
the `has` of a persister succeed together. -/
theorem get_has_agree {w wg wh : World} {i : Nat} (hg : LoggedOnly w i wg)
    (hh : LoggedOnly w i wh) (hd : Nat) (k : Bytes) :
    ((∃ v, (wg.get hd k).1 = .ok v) ↔ (wh.has hd k).1 = none) := by
  have hog := openDir_logged (loggedOnly_record hg (.get hd k)) hd
  have hoh := openDir_logged (loggedOnly_record hh (.has hd k)) hd
  simp only [World.get, World.has, World.failure, hg.fault, hg.calls, hh.fault, hh.calls,
    hog, hoh]
  cases w.fault (w.calls.length + i) with
  | some e => simp
  | none =>
    simp only
    cases w.openDir hd with
    | none => simp
    | some x =>
      obtain ⟨q, kv⟩ := x
      simp only
      cases assocGet k kv with
      | none => simp
      | some v => simp

theorem getScan_filtered {bf : Option BloomFilter} {k : Bytes}
    (hbf : filterAllows bf k = false) : ∀ (l : List Nat) (w : World),
    (getScan bf k l w).1 = none := by
  intro l
  induction l with
  | nil => intro w; rfl
  | cons p t ih =>
    intro w
    simp only [getScan, hbf, Bool.false_eq_true, if_false]
    exact ih w

/-- The loops of `Has` and of `Get` over the same slots find the key
together. -/
theorem scans_agree {bf : Option BloomFilter} {k : Bytes} (hbf : filterAllows bf k = true)
    (w : World) : ∀ (l : List Nat) (i : Nat) (wg wh : World), LoggedOnly w i wg →
    LoggedOnly w i wh →
    ((hasScan k l wh).1 = true ↔ ∃ v, (getScan bf k l wg).1 = some v) := by
  intro l
  induction l with
  | nil =>
    intro i wg wh _ _
    simp [hasScan, getScan]
  | cons p t ih =>
    intro i wg wh hg hh
    have hsg : wg.slots = w.slots := heap_slots hg.heap
    have hsh : wh.slots = w.slots := heap_slots hh.heap
    have hag := get_has_agree hg hh (w.slots p).persister k
    have hwg := get_world wg (w.slots p).persister k
    have hwh := has_world wh (w.slots p).persister k
    simp only [hasScan, getScan, hbf, if_true, hsg, hsh]
    cases hrg : wg.get (w.slots p).persister k with
    | mk rg wg1 =>
      cases hrh : wh.has (w.slots p).persister k with
      | mk rh wh1 =>
        rw [hrg] at hag hwg
        rw [hrh] at hag hwh
        simp only at hag hwg hwh
        cases rg with
        | ok v =>
          have : rh = none := hag.mp ⟨v, rfl⟩
          subst this
          simp
        | error e =>
          cases rh with
          | none =>
            obtain ⟨v, hv⟩ := hag.mpr rfl
            simp at hv
          | some e1 =>
            simp only
            apply ih (i + 1)
            · rw [hwg]; exact loggedOnly_record hg _
            · rw [hwh]; exact loggedOnly_record hh _

theorem Has_result (k : Bytes) (s : Sys) : (Has k s).1 = none ↔
    (s.ps.cacher.Has k = true ∨ (filterAllows s.ps.bloomFilter k = true ∧
      (hasScan k s.ps.activePersisters s.w).1 = true)) := by
  simp only [Has]
  cases hc : s.ps.cacher.Has k with
  | true => simp
  | false =>
    cases hbf : filterAllows s.ps.bloomFilter k with
    | false => simp
    | true =>
      simp only [Bool.false_eq_true, if_false, if_true, false_or, true_and]
      cases hr : hasScan k s.ps.activePersisters s.w with
      | mk b w1 => cases b <;> simp

theorem Get_result (k : Bytes) (s : Sys) : (∃ v, (Get k s).1 = .ok v) ↔
    (s.ps.cacher.Has k = true ∨ ∃ v, (getScan s.ps.bloomFilter k
        (s.ps.activePersisters.take
          (min s.ps.numOfActivePersisters (u32 s.ps.activePersisters.length))) s.w).1
      = some v) := by
  simp only [Get, Cacher.Has, Cacher.Get]
  cases hc : assocGet k s.ps.cacher with
  | some v => simp
  | none =>
    simp only [Option.isSome_none, Bool.false_eq_true, false_or]
    cases hr : getScan s.ps.bloomFilter k
        (s.ps.activePersisters.take
          (min s.ps.numOfActivePersisters (u32 s.ps.activePersisters.length))) s.w with
    | mk r w1 => cases r <;> simp

/-- Counterexample to C14: a storer with two active persisters is built in a
fresh system; `Put("alpha", "1")` in epoch 0, the rotation to epoch 1,
`Remove("alpha")` (which empties the cache and succeeds at the persister of
epoch 1) and the rotation to epoch 2, whose `close` of the oldest persister is
made to fail: the active slice keeps three slots.  `Has("alpha")` asks the
three of them and returns nil; `Get("alpha")` asks the first two only and
returns the not-found error. -/
theorem C14_counterexample :
    initPruningStorer scenarioArgs "" (World.fresh (failAt 11))
      = (.ok (scenarioWith (failAt 11)).ps, (scenarioWith (failAt 11)).w) ∧
    (Put "alpha" "1" (scenarioWith (failAt 11))).1 = none ∧
    (changeEpoch 1 disagreePut).1 = none ∧
    (Remove "alpha" disagreeEpoch1).1 = none ∧
    (changeEpoch 2 disagreeRemoved).1 = some (.injected 1) ∧
    disagreeEpoch2.ps.activePersisters = [2, 1, 0] ∧
    disagreeEpoch2.ps.numOfActivePersisters = 2 ∧
    (Has "alpha" disagreeEpoch2).1 = none ∧
    (Get "alpha" disagreeEpoch2).1 = .error (.keyNotFoundIn "alpha" "scenario") ∧
    ¬ ((Has "alpha" disagreeEpoch2).1 = none ↔ ∃ v, (Get "alpha" disagreeEpoch2).1 = .ok v) :=
  ⟨rfl, by decide, by decide, by decide, by decide, by decide, by decide, by decide, by decide,
    fun h => by
      obtain ⟨v, hv⟩ := h.mp (by decide)
      have hg : (Get "alpha" disagreeEpoch2).1 = .error (.keyNotFoundIn "alpha" "scenario") := by
        decide
      rw [hg] at hv
      exact absurd hv (by simp)⟩

/-- C14 (amended): Has agrees with Get.  In every state whose active slice
has at most `max_active` slots (`max_active` being a `uint32`), as after the
construction and after every rotation that returns nil, `Has(k)` returns nil
exactly when `Get(k)` returns a value, the `has` and the `get` of a persister
succeeding together; and `Has` leaves the storer (cache, filter, active slice,
map by epoch, configuration) as it is. -/
theorem C14_has_agrees_with_get (s : Sys) (k : Bytes)
    (hA : s.ps.numOfActivePersisters < 4294967296)
    (hlen : s.ps.activePersisters.length ≤ s.ps.numOfActivePersisters) :
    ((Has k s).1 = none ↔ ∃ v, (Get k s).1 = .ok v) ∧ (Has k s).2.ps = s.ps := by
  refine ⟨?_, Has_ps k s⟩
  rw [Has_result, Get_result]
  have htake : s.ps.activePersisters.take
      (min s.ps.numOfActivePersisters (u32 s.ps.activePersisters.length))
      = s.ps.activePersisters := by
    rw [u32_of_lt (by omega), Nat.min_eq_right hlen, List.take_length]
  rw [htake]
  cases hbf : filterAllows s.ps.bloomFilter k with
  | false =>
    simp only [Bool.false_eq_true, false_and, or_false, getScan_filtered hbf]
    simp
  | true =>
    simp only [true_and]
    rw [scans_agree hbf s.w s.ps.activePersisters 0 s.w s.w (loggedOnly_refl _)
      (loggedOnly_refl _)]

/-- Witness of C14 (amended): the scenario two rotations after the `Put`, the
cache cleared: neither `Has` nor `Get` finds the key in the two active
persisters. -/
theorem C14_has_agrees_with_get_witness :
    (ClearCache (scenarioEpoch 2)).ps.numOfActivePersisters < 4294967296 ∧
    (ClearCache (scenarioEpoch 2)).ps.activePersisters.length
      ≤ (ClearCache (scenarioEpoch 2)).ps.numOfActivePersisters ∧
    ((Has "alpha" (ClearCache (scenarioEpoch 2))).1 = none ↔
      ∃ v, (Get "alpha" (ClearCache (scenarioEpoch 2))).1 = .ok v) :=
  ⟨by decide, by decide,
    (C14_has_agrees_with_get (ClearCache (scenarioEpoch 2)) "alpha" (by decide) (by decide)).1⟩

theorem create_calls (w : World) (p : String) :
    (w.create p).2.calls = .create p :: w.calls := by
  simp only [World.create, World.record]
  repeat' split
  all_goals rfl

theorem init_calls (w : World) (h : Nat) : (w.init h).2.calls = .init h :: w.calls := by
  simp only [World.init, World.record, World.setDb]
  repeat' split
  all_goals rfl

theorem close_calls (w : World) (h : Nat) : (w.close h).2.calls = .close h :: w.calls := by
  simp only [World.close, World.record, World.setDb]
  repeat' split
  all_goals rfl

/-- The first block of `closeAndDestroyPersisters` makes at most one external
call, a `close`, and takes no epoch out of the map by epoch. -/
theorem closeOldest_calls (e : Nat) (s : Sys) :
    (∃ added, (closeOldest e s).2.w.calls = added ++ s.w.calls ∧
      ∀ c ∈ added, c.destroys = false) ∧
    (∀ e0, (assocGet e0 s.ps.persistersMapByEpoch).isSome →
      (assocGet e0 (closeOldest e s).2.ps.persistersMapByEpoch).isSome) := by
  simp only [closeOldest]
  split
  · split
    · exact ⟨⟨[], rfl, by simp⟩, fun _ h => h⟩
    · next p hp =>
      have hc := close_calls s.w (s.w.slots p).persister
      split
      · next err w1 hcl =>
        rw [hcl] at hc
        exact ⟨⟨[.close (s.w.slots p).persister], hc, by simp [Call.destroys]⟩, fun _ h => h⟩
      · next w1 hcl =>
        rw [hcl] at hc
        refine ⟨⟨[.close (s.w.slots p).persister], ?_, by simp [Call.destroys]⟩, ?_⟩
        · simp only [markClosed]
          exact hc
        · intro e0 h
          exact isSome_assocPut _ _ _ _ h
  · exact ⟨⟨[], rfl, by simp⟩, fun _ h => h⟩

theorem destroyOldest_archive (e : Nat) {s : Sys} (hfa : s.ps.fullArchive = true) :
    destroyOldest e s = (none, s) := by
  simp [destroyOldest, hfa]

/-- A rotation of a full-archive storer makes no `destroy` and no
`destroy_closed` call and takes no epoch out of the map by epoch. -/
theorem changeEpoch_archive (e : Nat) {s : Sys} (hfa : s.ps.fullArchive = true) :
    (changeEpoch e s).2.ps.fullArchive = true ∧
    (∃ added, (changeEpoch e s).2.w.calls = added ++ s.w.calls ∧
      ∀ c ∈ added, c.destroys = false) ∧
    (∀ e0, (assocGet e0 s.ps.persistersMapByEpoch).isSome →
      (assocGet e0 (changeEpoch e s).2.ps.persistersMapByEpoch).isSome) := by
  have hcfg := changeEpoch_config e s
  refine ⟨by
    simp only [PruningStorer.config, Prod.mk.injEq] at hcfg
    rw [hcfg.1]; exact hfa, ?_⟩
  have hcr := create_calls s.w (getNewFilePath s.ps.dbPath e)
  simp only [changeEpoch]
  split
  · next err w1 hc =>
    rw [hc] at hcr
    exact ⟨⟨[.create (getNewFilePath s.ps.dbPath e)], hcr, by simp [Call.destroys]⟩,
      fun _ h => h⟩
  · next db w1 hc =>
    rw [hc] at hcr
    simp only at hcr
    split
    · next err w3 hi =>
      have hin := congrArg (fun x => x.2.calls) hi
      simp only [init_calls, World.alloc] at hin
      have hcalls : ∃ h, w3.calls = [.init h, .create (getNewFilePath s.ps.dbPath e)]
          ++ s.w.calls := ⟨_, by rw [← hin, hcr]; rfl⟩
      obtain ⟨h0, hcalls⟩ := hcalls
      exact ⟨⟨[.init h0, .create (getNewFilePath s.ps.dbPath e)], hcalls,
        by simp [Call.destroys]⟩, fun e0 h => isSome_assocPut _ _ _ _ h⟩
    · next w3 hi =>
      have hin := congrArg (fun x => x.2.calls) hi
      simp only [init_calls, World.alloc] at hin
      have hcalls : ∃ h, w3.calls = [.init h, .create (getNewFilePath s.ps.dbPath e)]
          ++ s.w.calls := ⟨_, by rw [← hin, hcr]; rfl⟩
      obtain ⟨h0, hs1w⟩ := hcalls
      simp only [closeAndDestroyPersisters]
      generalize hs1 : (Sys.mk { s.ps with
          activePersisters := w1.nextSlot :: s.ps.activePersisters,
          persistersMapByEpoch := assocPut e w1.nextSlot s.ps.persistersMapByEpoch } w3) = s1
      have hs1c : s1.w.calls = w3.calls := by rw [← hs1]
      have hs1m : ∀ e0, (assocGet e0 s.ps.persistersMapByEpoch).isSome →
          (assocGet e0 s1.ps.persistersMapByEpoch).isSome := by
        intro e0 h
        rw [← hs1]
        exact isSome_assocPut _ _ _ _ h
      have hs1fa : s1.ps.fullArchive = true := by rw [← hs1]; exact hfa
      obtain ⟨⟨added, hadd, hno⟩, hkeep⟩ := closeOldest_calls e s1
      have hfa2 : (closeOldest e s1).2.ps.fullArchive = true := by
        have := closeOldest_config e s1
        simp only [PruningStorer.config, Prod.mk.injEq] at this
        rw [this.1]; exact hs1fa
      have hmem : ∀ c ∈ added ++ [Call.init h0, .create (getNewFilePath s.ps.dbPath e)],
          c.destroys = false := by
        intro c hc
        rcases List.mem_append.mp hc with h | h
        · exact hno c h
        · simp only [List.mem_cons, List.mem_singleton, List.not_mem_nil, or_false] at h
          rcases h with rfl | rfl <;> rfl
      cases hcl : closeOldest e s1 with
      | mk r s2 =>
        rw [hcl] at hadd hkeep hfa2
        simp only at hadd hkeep hfa2
        cases r with
        | some err =>
          simp only
          exact ⟨⟨_, by rw [hadd, hs1c, hs1w, List.append_assoc], hmem⟩,
            fun e0 h => hkeep e0 (hs1m e0 h)⟩
        | none =>
          simp only
          rw [destroyOldest_archive e hfa2]
          exact ⟨⟨_, by rw [hadd, hs1c, hs1w, List.append_assoc], hmem⟩,
            fun e0 h => hkeep e0 (hs1m e0 h)⟩

/-- Rotations of a full-archive storer, whatever their epochs and whatever
they return. -/
theorem rotations_archive : ∀ (epochs : List Nat) (s : Sys), s.ps.fullArchive = true →
    (rotations epochs s).ps.fullArchive = true ∧
    (∃ added, (rotations epochs s).w.calls = added ++ s.w.calls ∧
      ∀ c ∈ added, c.destroys = false) ∧
    (∀ e0, (assocGet e0 s.ps.persistersMapByEpoch).isSome →
      (assocGet e0 (rotations epochs s).ps.persistersMapByEpoch).isSome) := by
  intro epochs
  induction epochs with
  | nil => intro s hfa; exact ⟨hfa, ⟨[], rfl, by simp⟩, fun _ h => h⟩
  | cons e es ih =>
    intro s hfa
    obtain ⟨h1, ⟨a1, hc1, hn1⟩, hk1⟩ := changeEpoch_archive e hfa
    obtain ⟨h2, ⟨a2, hc2, hn2⟩, hk2⟩ := ih (changeEpoch e s).2 h1
    refine ⟨h2, ⟨a2 ++ a1, ?_, ?_⟩, fun e0 h => hk2 e0 (hk1 e0 h)⟩
    · show (rotations es (changeEpoch e s).2).w.calls = _
      rw [hc2, hc1, List.append_assoc]
    · intro c hc
      rcases List.mem_append.mp hc with h | h
      · exact hn2 c h
      · exact hn1 c h

theorem rotations_append (es1 es2 : List Nat) (s : Sys) :
    rotations (es1 ++ es2) s = rotations es2 (rotations es1 s) := by
  simp only [rotations, List.foldl_append]

/-- C15: full archive never prunes.  For a storer with `full_archive = true`
and every sequence of rotations (whatever the epochs, whatever each rotation
returns): the rotations make no `destroy` and no `destroy_closed` call on any
persister, and every epoch recorded in the map by epoch at some point of the
sequence (after the rotations `before`) is still recorded there at the end
(after the rotations `later` that follow). -/
theorem C15_full_archive_never_prunes (s : Sys) (before later : List Nat)
    (hfa : s.ps.fullArchive = true) :
    (∀ e, (assocGet e (rotations before s).ps.persistersMapByEpoch).isSome →
      (assocGet e (rotations (before ++ later) s).ps.persistersMapByEpoch).isSome) ∧
    ∃ added, (rotations (before ++ later) s).w.calls = added ++ s.w.calls ∧
      ∀ c ∈ added, ∀ h, c ≠ .destroy h ∧ c ≠ .destroyClosed h := by
  obtain ⟨h1, -, -⟩ := rotations_archive before s hfa
  obtain ⟨-, -, hk⟩ := rotations_archive later (rotations before s) h1
  obtain ⟨-, ⟨added, hc, hn⟩, -⟩ := rotations_archive (before ++ later) s hfa
  refine ⟨?_, added, hc, ?_⟩
  · intro e he
    rw [rotations_append]
    exact hk e he
  · intro c hc h
    have := hn c hc
    constructor
    · intro he
      rw [he] at this
      simp [Call.destroys] at this
    · intro he
      rw [he] at this
      simp [Call.destroys] at this

/-- Witness of C15: the scenario as a full archive, rotated through the epochs
1 to 4: the map by epoch still records epoch 0. -/
theorem C15_full_archive_never_prunes_witness :
    archiveStart.ps.fullArchive = true ∧
    (assocGet 0 (rotations ([] ++ [1, 2, 3, 4]) archiveStart).ps.persistersMapByEpoch).isSome :=
  ⟨rfl, (C15_full_archive_never_prunes archiveStart [] [1, 2, 3, 4] rfl).1 0 rfl⟩

theorem destroy_calls (w : World) (h : Nat) : (w.destroy h).2.calls = .destroy h :: w.calls := by
  simp only [World.destroy, World.record, World.setDb]
  repeat' split
  all_goals rfl

theorem destroyClosed_calls (w : World) (h : Nat) :
    (w.destroyClosed h).2.calls = .destroyClosed h :: w.calls := by
  simp only [World.destroyClosed, World.record]
  repeat' split
  all_goals rfl

theorem perform_destroyCall (w w0 : World) (p : Nat) :
    ((w.perform (destroyCall w0 p)).2.heap = w.heap) ∧
    (w.perform (destroyCall w0 p)).2.calls = destroyCall w0 p :: w.calls := by
  simp only [destroyCall]
  split
  · exact ⟨destroyClosed_heap _ _, destroyClosed_calls _ _⟩
  · exact ⟨destroy_heap _ _, destroy_calls _ _⟩

/-- The loop of `DestroyUnit` makes one destroy call per entry of the map by
epoch, in order, and counts the nil answers. -/
theorem destroyScan_spec (w0 : World) : ∀ (l : List (Nat × Nat)) (n : Nat) (w : World),
    w.slots = w0.slots →
    destroyScan l n w =
      (n + ((w.answers (l.map fun x => destroyCall w0 x.2)).1.count none),
        (w.answers (l.map fun x => destroyCall w0 x.2)).2) ∧
    (w.answers (l.map fun x => destroyCall w0 x.2)).2.calls =
      (l.map fun x => destroyCall w0 x.2).reverse ++ w.calls ∧
    (w.answers (l.map fun x => destroyCall w0 x.2)).1.length = l.length := by
  intro l
  induction l with
  | nil => intro n w _; simp [destroyScan, World.answers]
  | cons x t ih =>
    intro n w hs
    obtain ⟨e, p⟩ := x
    obtain ⟨hheap, hcalls⟩ := perform_destroyCall w w0 p
    have hs1 : (w.perform (destroyCall w0 p)).2.slots = w0.slots := by
      rw [heap_slots hheap]; exact hs
    have hperf : (if (w.slots p).isClosed then w.destroyClosed (w.slots p).persister
        else w.destroy (w.slots p).persister) = w.perform (destroyCall w0 p) := by
      simp only [destroyCall, hs]
      split <;> rfl
    simp only [destroyScan, List.map_cons, World.answers, hperf, List.length_cons,
      List.reverse_cons, List.append_assoc, List.singleton_append]
    cases hr : w.perform (destroyCall w0 p) with
    | mk r w1 =>
      rw [hr] at hs1 hcalls
      simp only at hs1 hcalls
      cases r with
      | some err =>
        obtain ⟨i1, i2, i3⟩ := ih n w1 hs1
        simp only
        rw [i1, i2, i3, hcalls]
        simp
      | none =>
        obtain ⟨i1, i2, i3⟩ := ih (n + 1) w1 hs1
        simp only
        rw [i1, i2, i3, hcalls]
        simp only [List.count_cons_self, and_true, Prod.mk.injEq]
        omega

/-- C16: DestroyUnit result.  In every state, `DestroyUnit` clears the filter
and the cache and makes one destroy call per entry of the map by epoch, in
the order of the map and no other call: `destroy_closed` on the persister of a
slot whose closed flag is set, `destroy` on the persister of the others.  It
returns nil iff the number of nil answers to these calls equals the length of
the active slice at entry (not the length of the map by epoch), and returns
`ErrDestroyingUnit` otherwise. -/
theorem C16_destroy_unit_result (s : Sys) :
    (DestroyUnit s).2.ps.cacher = [] ∧
    (DestroyUnit s).2.ps.bloomFilter = s.ps.bloomFilter.map (fun f => f.Clear) ∧
    (DestroyUnit s).2.w.calls =
      (s.ps.persistersMapByEpoch.map fun x => destroyCall s.w x.2).reverse ++ s.w.calls ∧
    (DestroyUnit s).2.w =
      (s.w.answers (s.ps.persistersMapByEpoch.map fun x => destroyCall s.w x.2)).2 ∧
    (s.w.answers (s.ps.persistersMapByEpoch.map fun x => destroyCall s.w x.2)).1.length
      = s.ps.persistersMapByEpoch.length ∧
    ((DestroyUnit s).1 = none ↔
      (s.w.answers (s.ps.persistersMapByEpoch.map fun x => destroyCall s.w x.2)).1.count none
        = s.ps.activePersisters.length) ∧
    ((DestroyUnit s).1 = none ∨ (DestroyUnit s).1 = some .ErrDestroyingUnit) := by
  obtain ⟨h1, h2, h3⟩ := destroyScan_spec s.w s.ps.persistersMapByEpoch 0 s.w rfl
  simp only [Nat.zero_add] at h1
  simp only [DestroyUnit, h1]
  refine ⟨?_, ?_, ?_, ?_, h3, ?_, ?_⟩
  · split <;> rfl
  · split <;> rfl
  · split <;> exact h2
  · split <;> rfl
  · split
    · next hne => simp [hne]
    · next heq =>
      simp only [ne_eq, Decidable.not_not] at heq
      simp [heq]
  · split
    · exact Or.inr rfl
    · exact Or.inl rfl

/-- Witness of C16: the scenario two rotations after its construction holds
three slots in the map by epoch and two in the active slice; the three destroy
calls are answered nil and `DestroyUnit` returns `ErrDestroyingUnit`. -/
theorem C16_destroy_unit_result_witness :
    (scenarioEpoch 2).ps.persistersMapByEpoch.length = 3 ∧
    (scenarioEpoch 2).ps.activePersisters.length = 2 ∧
    ((scenarioEpoch 2).w.answers ((scenarioEpoch 2).ps.persistersMapByEpoch.map
      fun x => destroyCall (scenarioEpoch 2).w x.2)).1 = [none, none, none] ∧
    (DestroyUnit (scenarioEpoch 2)).1 = some .ErrDestroyingUnit :=
  ⟨by decide, by decide, by decide,
    ((C16_destroy_unit_result (scenarioEpoch 2)).2.2.2.2.2.2).resolve_left (by decide)⟩

/-! ## Rotations: what is destroyed, what is left active, what is kept -/

/-- C18 (counterexample): two histories of the scenario (two active persisters,
three epochs to keep, no full archive).  In the first the epochs increase
without being consecutive: after the rotations to epoch 3 and to epoch 6, both
returning nil, the second has called `destroy_closed` on the persister of the
slot of epoch 3, which is in the active slice, has `closed_flag` false and was
never closed.  In the second the epochs are consecutive and the `Close` of the
rotation to epoch 2 fails: the rotation to epoch 3 returns nil and calls
`destroy_closed` on the persister of epoch 0, whose slot has `closed_flag`
false and which is still open. -/
theorem C18_counterexample :
    initPruningStorer scenarioArgs "" (World.fresh (fun _ => none))
      = (.ok scenarioStart.ps, scenarioStart.w) ∧
    (changeEpoch 3 scenarioStart).1 = none ∧
    (changeEpoch 6 gapEpoch3).1 = none ∧
    gapEpoch6.w.calls = [.removeDirectoryIfEmpty "db/Epoch_3/Shard_0", .destroyClosed 1,
      .close 0, .init 2, .create "db/Epoch_6/Shard_0"] ++ gapEpoch3.w.calls ∧
    gapEpoch6.ps.activePersisters = [2, 1] ∧
    (gapEpoch6.w.slots 1).persister = 1 ∧
    (gapEpoch6.w.slots 1).isClosed = false ∧
    Call.close 1 ∉ gapEpoch6.w.calls ∧
    initPruningStorer scenarioArgs "" (World.fresh (failAt 9))
      = (.ok (scenarioWith (failAt 9)).ps, (scenarioWith (failAt 9)).w) ∧
    (changeEpoch 1 (scenarioWith (failAt 9))).1 = none ∧
    (changeEpoch 2 unclosedEpoch1).1 = some (.injected 1) ∧
    (changeEpoch 3 unclosedEpoch2).1 = none ∧
    unclosedEpoch3.w.calls = [.removeDirectoryIfEmpty "db/Epoch_0/Shard_0", .destroyClosed 0,
      .close 1, .init 3, .create "db/Epoch_3/Shard_0"] ++ unclosedEpoch2.w.calls ∧
    (unclosedEpoch3.w.slots 0).persister = 0 ∧
    (unclosedEpoch3.w.slots 0).isClosed = false ∧
    unclosedEpoch2.w.dbs[0]? = some { path := "db/Epoch_0/Shard_0", phase := .opened } :=
  ⟨rfl, by decide, by decide, by decide, by decide, by decide, by decide, by decide,
    rfl, by decide, by decide, by decide, by decide, by decide, by decide, by decide⟩

/-- C18 (amended): no open handle is destroyed by a rotation.  A storer is
built, in any system and with any path, with `epochs_to_keep >= max_active`
and led to epoch `n` by rotations to the consecutive epochs `1, ..., n` that
all return nil (client operations in between); the rotation to epoch `n + 1`
returns nil.  Then in the state `s2` in which the destroying block of that
rotation runs, every persister `h` on which the rotation calls
`destroy_closed` is the persister of a slot whose `closed_flag` is true, has
been closed (its phase is closed), its slot is not in the active slice and no
active slot holds `h`; the destroying block leaves the active slice and the
slots as they are.  Without full archive the rotation does make such a call
once `epochs_to_keep <= n + 1`. -/
theorem C18_no_open_handle_destroyed (args : PruningStorerArgs) (shard : String)
    (w : World) (n : Nat) (ps0 : PruningStorer) (w0 : World) (t t1 : Sys)
    (hAK : args.NumOfActivePersisters ≤ args.NumOfEpochsToKeep)
    (hK : args.NumOfEpochsToKeep + 1 < 4294967296) (hn : n + 1 < 4294967296)
    (hnew : initPruningStorer args shard w = (.ok ps0, w0))
    (hrun : Run anyOp 0 ⟨ps0, w0⟩ n t)
    (hrot : changeEpoch (n + 1) t = (none, t1)) :
    ∃ s2 added, closeOldest (n + 1) (t.withNewPersister (n + 1)) = (none, s2) ∧
      destroyOldest (n + 1) s2 = (none, t1) ∧
      t1.w.calls = added ++ t.w.calls ∧
      (args.FullArchive = false → args.NumOfEpochsToKeep ≤ n + 1 →
        ∃ h, Call.destroyClosed h ∈ added) ∧
      ∀ h, Call.destroyClosed h ∈ added →
        ∃ p, (s2.w.slots p).persister = h ∧ (s2.w.slots p).isClosed = true ∧
          (∃ path, s2.w.dbs[h]? = some { path := path, phase := .closed }) ∧
          p ∉ s2.ps.activePersisters ∧
          (∀ q ∈ s2.ps.activePersisters, (s2.w.slots q).persister ≠ h) ∧
          t1.ps.activePersisters = s2.ps.activePersisters ∧ t1.w.slots = s2.w.slots := by
  obtain ⟨hl, hA1, hfa, hpath, hk, ha, -⟩ :=
    built_aligned (by omega) hn (Or.inl (by omega)) hnew hrun (Nat.le_succ n)
  have hmap := built_kept hAK hK hn hnew hrun (Nat.le_succ n)
  obtain ⟨s2, hclose, hdestroy, hc2, -, ⟨c2, hcalls, hnone⟩, -, hcl, hal⟩ :=
    aligned_rotation hl (by rw [ha]; exact hA1) (by rw [ha]; omega) hn hrot
  obtain ⟨hl2, -⟩ := hal (by rw [ha]; omega)
  obtain ⟨-, -, -, hcase⟩ := kept_rotation hl hmap (by rw [ha, hk]; exact hAK)
    (by rw [hk]; exact hK) hn hclose hdestroy hc2
    (by
      rcases hcl with ⟨-, h, -⟩ | ⟨-, h, -, h'⟩
      · exact Or.inl h
      · exact Or.inr ⟨h, h'⟩)
  rcases hcase with ⟨rfl, hsmall⟩ | ⟨hfa1, hge, rfl⟩
  · refine ⟨t1, c2, hclose, hdestroy, hcalls, ?_, ?_⟩
    · intro hf hle
      have := hsmall (by rw [hfa]; exact hf)
      omega
    · intro h hh
      exact absurd hh (hnone h)
  · refine ⟨s2, .removeDirectoryIfEmpty (s2.w.slots (lowestKept t.ps n + w.nextSlot)).path ::
      .destroyClosed (s2.w.slots (lowestKept t.ps n + w.nextSlot)).persister :: c2,
      hclose, hdestroy, ?_,
      fun _ _ => ⟨(s2.w.slots (lowestKept t.ps n + w.nextSlot)).persister, by simp⟩, ?_⟩
    · simp only [Sys.withOldestDestroyed, hcalls, List.cons_append]
    · intro h hh
      simp only [List.mem_cons, Call.destroyClosed.injEq, reduceCtorEq, false_or] at hh
      rcases hh with rfl | hh
      swap
      · exact absurd hh (hnone h)
      have hlk : lowestKept t.ps n = n + 1 - t.ps.numOfEpochsToKeep := by
        simp [lowestKept, hfa1]
      have hlt : lowestKept t.ps n < lowestActive t.ps (n + 1) := by
        rw [hlk]
        simp only [lowestActive]
        omega
      have hle : lowestKept t.ps n ≤ n + 1 := by omega
      have hmem : ∀ q ∈ s2.ps.activePersisters,
          ∃ i, q = i + w.nextSlot ∧ lowestActive t.ps (n + 1) ≤ i ∧ i ≤ n + 1 := by
        intro q hq
        rw [hl2.active] at hq
        have := mem_descFrom hq (by omega)
        exact ⟨q - w.nextSlot, by omega, by omega, by omega⟩
      refine ⟨lowestKept t.ps n + w.nextSlot, rfl, ?_,
        ⟨epochPath s2.ps.dbPath (lowestKept t.ps n), ?_⟩, ?_, ?_, rfl, rfl⟩
      · rw [hl2.flags _ hle]
        exact decide_eq_true hlt
      · rw [hl2.dbs _ hle, if_pos hlt]
      · intro hq
        obtain ⟨i, hi, h1, h2⟩ := hmem _ hq
        omega
      · intro q hq hh
        obtain ⟨i, rfl, h1, h2⟩ := hmem q hq
        have := hl2.handles i _ h2 hle hh
        omega

/-- Witness of C18: in the scenario (two active persisters, three epochs to
keep) the rotation to epoch 3 destroys the persister of epoch 0. -/
theorem C18_no_open_handle_destroyed_witness :
    ∃ s2 added, closeOldest (2 + 1) ((scenarioEpoch 2).withNewPersister (2 + 1)) = (none, s2) ∧
      destroyOldest (2 + 1) s2 = (none, scenarioEpoch 3) ∧
      (scenarioEpoch 3).w.calls = added ++ (scenarioEpoch 2).w.calls ∧
      (scenarioArgs.FullArchive = false → scenarioArgs.NumOfEpochsToKeep ≤ 2 + 1 →
        ∃ h, Call.destroyClosed h ∈ added) ∧
      ∀ h, Call.destroyClosed h ∈ added →
        ∃ p, (s2.w.slots p).persister = h ∧ (s2.w.slots p).isClosed = true ∧
          (∃ path, s2.w.dbs[h]? = some { path := path, phase := .closed }) ∧
          p ∉ s2.ps.activePersisters ∧
          (∀ q ∈ s2.ps.activePersisters, (s2.w.slots q).persister ≠ h) ∧
          (scenarioEpoch 3).ps.activePersisters = s2.ps.activePersisters ∧
          (scenarioEpoch 3).w.slots = s2.w.slots :=
  C18_no_open_handle_destroyed scenarioArgs "" (World.fresh (fun _ => none)) 2
    scenarioStart.ps scenarioStart.w
    (scenarioEpoch 2) (scenarioEpoch 3) (by decide) (by decide) (by decide) rfl
    (Run.rotate (Run.rotate (Run.op (.put "alpha" "1") trivial (Run.start 0 scenarioStart))
      scenario_rotation1) scenario_rotation2)
    scenario_rotation3

/-- C19 (failing inputs): two histories whose last state is reachable and has
a first active slot that is not open.  In the scenario the `Init` of the
rotation to epoch 1 fails: the rotation returns the error after it has
prepended the new slot to the active slice, the first active slot holds a
persister that was created and never initialised, and the `Put` that follows
fails on it.  With no epoch to keep (a configuration the constructor accepts)
and no failure at all, the rotation to epoch 1 returns nil after it has called
`destroy_closed` on the persister it has just created and made the first
active slot; the `Put` that follows fails as well. -/
theorem C19_active_head_not_open :
    initPruningStorer scenarioArgs "" (World.fresh (failAt 6))
      = (.ok (scenarioWith (failAt 6)).ps, (scenarioWith (failAt 6)).w) ∧
    Reachable uninitEpoch1 ∧
    (changeEpoch 1 (scenarioWith (failAt 6))).1 = some (.injected 1) ∧
    uninitEpoch1.ps.activePersisters = [1, 0] ∧
    (uninitEpoch1.w.slots 1).persister = 1 ∧
    uninitEpoch1.w.dbs[1]? = some { path := "db/Epoch_1/Shard_0", phase := .created } ∧
    Call.init 1 ∈ uninitEpoch1.w.calls ∧
    (Put "alpha" "1" uninitEpoch1).1 = some .dbUnavailable ∧
    initPruningStorer keepNoneArgs "" (World.fresh (fun _ => none))
      = (.ok keepNoneStart.ps, keepNoneStart.w) ∧
    Reachable keepNoneEpoch1 ∧
    (changeEpoch 1 keepNoneStart).1 = none ∧
    keepNoneEpoch1.ps.activePersisters = [1] ∧
    (keepNoneEpoch1.w.slots 1).persister = 1 ∧
    keepNoneEpoch1.w.calls = [.removeDirectoryIfEmpty "db/Epoch_1/Shard_0", .destroyClosed 1,
      .close 0, .init 1, .create "db/Epoch_1/Shard_0"] ++ keepNoneStart.w.calls ∧
    (Put "alpha" "1" keepNoneEpoch1).1 = some .dbUnavailable :=
  ⟨rfl, Reachable.afterChangeEpoch 1 (by decide)
      (@Reachable.construct scenarioArgs "" (World.fresh (failAt 6)) _ _
        (by decide) (by decide) rfl),
    by decide, by decide, by decide, by decide, by decide, by decide,
    rfl, Reachable.afterChangeEpoch 1 (by decide)
      (@Reachable.construct keepNoneArgs "" (World.fresh (fun _ => none)) _ _
        (by decide) (by decide) rfl),
    by decide, by decide, by decide, by decide, by decide⟩

/-- C20 (counterexample): the scenario (three epochs to keep, no full archive)
rotated through the consecutive epochs 1, 2, 3, 4 in a system in which the
`Create` of the rotation to epoch 2 fails.  The rotations to epoch 3 and to
epoch 4 return nil, and after the latter the map by epoch holds four entries. -/
theorem C20_counterexample :
    initPruningStorer scenarioArgs "" (World.fresh (failAt 7))
      = (.ok (scenarioWith (failAt 7)).ps, (scenarioWith (failAt 7)).w) ∧
    (changeEpoch 1 (scenarioWith (failAt 7))).1 = none ∧
    (changeEpoch 2 skippedEpoch1).1 = some (.injected 1) ∧
    (changeEpoch 3 skippedEpoch2).1 = none ∧
    (changeEpoch 4 skippedEpoch3).1 = none ∧
    skippedEpoch4.ps.fullArchive = false ∧
    skippedEpoch4.ps.numOfEpochsToKeep = 3 ∧
    skippedEpoch4.ps.numOfActivePersisters = 2 ∧
    skippedEpoch4.ps.persistersMapByEpoch = [(0, 0), (3, 2), (4, 3), (2, 1)] ∧
    ¬ skippedEpoch4.ps.persistersMapByEpoch.length ≤ skippedEpoch4.ps.numOfEpochsToKeep :=
  ⟨rfl, by decide, by decide, by decide, by decide, by decide, by decide, by decide, by decide,
    by decide⟩

/-- C20 (amended): bounded directory of epochs.  A storer without full archive
is built, in any system and with any path, with `epochs_to_keep >= max_active`
and led to epoch `n` by rotations to the consecutive epochs `1, ..., n` that
all return nil (client operations in between).  Then the map by epoch holds
`min(epochs_to_keep, n + 1)` entries, hence at most `epochs_to_keep`; its keys
are the epochs `n + 1 - epochs_to_keep, ..., n` in this order (the last
`epochs_to_keep` epochs once that many have passed), and the slot of each
holds the directory of its epoch. -/
theorem C20_bounded_directory (args : PruningStorerArgs) (shard : String)
    (w : World) (n : Nat) (ps0 : PruningStorer) (w0 : World) (t : Sys)
    (hfa : args.FullArchive = false)
    (hAK : args.NumOfActivePersisters ≤ args.NumOfEpochsToKeep)
    (hK : args.NumOfEpochsToKeep + 1 < 4294967296) (hn : n < 4294967296)
    (hnew : initPruningStorer args shard w = (.ok ps0, w0))
    (hrun : Run anyOp 0 ⟨ps0, w0⟩ n t) :
    t.ps.persistersMapByEpoch.length = min args.NumOfEpochsToKeep (n + 1) ∧
    t.ps.persistersMapByEpoch.length ≤ args.NumOfEpochsToKeep ∧
    t.ps.persistersMapByEpoch.map Prod.fst
      = List.range' (n + 1 - args.NumOfEpochsToKeep) (min args.NumOfEpochsToKeep (n + 1)) ∧
    (∀ e, (assocGet e t.ps.persistersMapByEpoch).isSome
      ↔ (n + 1 ≤ e + args.NumOfEpochsToKeep ∧ e ≤ n)) ∧
    (∀ e p, assocGet e t.ps.persistersMapByEpoch = some p →
      (t.w.slots p).path = epochPath (args.filePath shard) e) := by
  obtain ⟨hl, hA1, hfa1, hpath, hk, -, -⟩ :=
    built_aligned (by omega) hn (Or.inl (by omega)) hnew hrun (le_refl n)
  have hmap := built_kept hAK hK hn hnew hrun (le_refl n)
  have hlk : lowestKept t.ps n = n + 1 - args.NumOfEpochsToKeep := by
    simp [lowestKept, hfa1, hfa, hk]
  rw [hlk] at hmap
  have hlen : n + 1 - (n + 1 - args.NumOfEpochsToKeep) = min args.NumOfEpochsToKeep (n + 1) := by
    omega
  rw [hlen] at hmap
  refine ⟨?_, ?_, ?_, ?_, ?_⟩
  · rw [hmap, idMapAt_length]
  · rw [hmap, idMapAt_length]
    omega
  · rw [hmap, idMapAt_keys]
  · intro e
    rw [hmap, assocGet_idMapAt]
    split
    · simp only [Option.isSome_some, true_iff]
      omega
    · simp only [Option.isSome_none, Bool.false_eq_true, false_iff]
      omega
  · intro e p hp
    rw [hmap, assocGet_idMapAt] at hp
    split at hp
    · simp only [Option.some.injEq] at hp
      subst hp
      rw [hl.paths e (by omega), hpath]
    · simp at hp

/-- Witness of C20: the scenario (three epochs to keep) in epoch 3 holds the
epochs 1, 2 and 3. -/
theorem C20_bounded_directory_witness :
    (scenarioEpoch 3).ps.persistersMapByEpoch.length = min scenarioArgs.NumOfEpochsToKeep (3 + 1) ∧
    (scenarioEpoch 3).ps.persistersMapByEpoch.length ≤ scenarioArgs.NumOfEpochsToKeep ∧
    (scenarioEpoch 3).ps.persistersMapByEpoch.map Prod.fst
      = List.range' (3 + 1 - scenarioArgs.NumOfEpochsToKeep)
          (min scenarioArgs.NumOfEpochsToKeep (3 + 1)) ∧
    (∀ e, (assocGet e (scenarioEpoch 3).ps.persistersMapByEpoch).isSome
      ↔ (3 + 1 ≤ e + scenarioArgs.NumOfEpochsToKeep ∧ e ≤ 3)) ∧
    (∀ e p, assocGet e (scenarioEpoch 3).ps.persistersMapByEpoch = some p →
      ((scenarioEpoch 3).w.slots p).path = epochPath (scenarioArgs.filePath "") e) :=
  C20_bounded_directory scenarioArgs "" (World.fresh (fun _ => none)) 3
    scenarioStart.ps scenarioStart.w
    (scenarioEpoch 3) rfl (by decide) (by decide) (by decide) rfl
    (Run.rotate (Run.rotate (Run.rotate
      (Run.op (.put "alpha" "1") trivial (Run.start 0 scenarioStart))
      scenario_rotation1) scenario_rotation2) scenario_rotation3)

/-! ## The key of a retired slot -/

/-- C21 (counterexample): two histories of the scenario (two active
persisters, three epochs to keep).  After the rotations to epoch 3 and to epoch
6, both returning nil, the slot created for epoch 0 has been retired under the
key `6 - 2 = 4`: the map by epoch holds it under epoch 0 and under epoch 4.
With consecutive epochs and the `Create` of the rotation to epoch 2 failing,
the rotation to epoch 3 returns nil and retires the slot created for epoch 0
under the key `3 - 2 = 1`, overwriting the entry of epoch 1, which held the
slot created for epoch 1. -/
theorem C21_counterexample :
    initPruningStorer scenarioArgs "" (World.fresh (fun _ => none))
      = (.ok scenarioStart.ps, scenarioStart.w) ∧
    (changeEpoch 3 scenarioStart).1 = none ∧
    (changeEpoch 6 gapEpoch3).1 = none ∧
    gapEpoch3.ps.activePersisters = [1, 0] ∧
    gapEpoch3.ps.persistersMapByEpoch = [(0, 0), (3, 1)] ∧
    gapEpoch6.ps.activePersisters = [2, 1] ∧
    (gapEpoch6.w.slots 0).isClosed = true ∧
    (gapEpoch6.w.slots 0).path = "db/Epoch_0/Shard_0" ∧
    subU32 6 gapEpoch3.ps.numOfActivePersisters = 4 ∧
    gapEpoch6.ps.persistersMapByEpoch = [(0, 0), (6, 2), (4, 0)] ∧
    initPruningStorer scenarioArgs "" (World.fresh (failAt 7))
      = (.ok (scenarioWith (failAt 7)).ps, (scenarioWith (failAt 7)).w) ∧
    (changeEpoch 1 (scenarioWith (failAt 7))).1 = none ∧
    (changeEpoch 2 skippedEpoch1).1 = some (.injected 1) ∧
    (changeEpoch 3 skippedEpoch2).1 = none ∧
    skippedEpoch2.ps.activePersisters = [1, 0] ∧
    skippedEpoch2.ps.persistersMapByEpoch = [(0, 0), (1, 1)] ∧
    skippedEpoch3.ps.activePersisters = [2, 1] ∧
    (skippedEpoch3.w.slots 0).isClosed = true ∧
    (skippedEpoch3.w.slots 0).path = "db/Epoch_0/Shard_0" ∧
    (skippedEpoch3.w.slots 1).path = "db/Epoch_1/Shard_0" ∧
    subU32 3 skippedEpoch2.ps.numOfActivePersisters = 1 ∧
    skippedEpoch3.ps.persistersMapByEpoch = [(0, 0), (1, 0), (3, 2)] :=
  ⟨rfl, by decide, by decide, by decide, by decide, by decide, by decide, by decide, by decide,
    by decide, rfl, by decide, by decide, by decide, by decide, by decide, by decide, by decide,
    by decide, by decide, by decide, by decide⟩

/-- C21 (amended): a retired slot keeps its own epoch key.  A storer is built,
in any system, with any path and with any `epochs_to_keep`, and led to epoch
`n` by rotations to the consecutive epochs `1, ..., n` that all return nil
(client operations in between); the rotation to epoch `n + 1` returns nil.
The slot created by the constructor has the pointer `b` the system was about
to allocate, and the slot this rotation creates for epoch `n + 1` has the
pointer `b + (n + 1)`: the slot created for epoch `e` is the one of pointer
`b + e`.  The closing block, run in the state `s0` with the new persister in
place, retires a slot exactly when `max_active <= n + 1` (and
`max_active + 1` fits `uint32`); then the slot `p` at index `max_active` is
the one created for epoch `n + 1 - max_active`, it leaves the active slice
with `closed_flag` true, the key `n + 1 - max_active` computed in `uint32`
does not wrap, the directory of `p` is the one of that epoch, the map by epoch
holds `p` under that key, its entries of the other epochs are as they were,
and it holds `p` under no other key, neither after the closing block nor after
the rotation.  With `epochs_to_keep >= max_active` the map already held `p`
under that key and is left exactly as it was. -/
theorem C21_retired_slot_key (args : PruningStorerArgs) (shard : String)
    (w : World) (n : Nat) (ps0 : PruningStorer) (w0 : World) (t t1 : Sys)
    (hA : args.NumOfActivePersisters < 4294967296) (hn : n + 1 < 4294967296)
    (hnew : initPruningStorer args shard w = (.ok ps0, w0))
    (hrun : Run anyOp 0 ⟨ps0, w0⟩ n t)
    (hrot : changeEpoch (n + 1) t = (none, t1)) :
    ∃ s2, closeOldest (n + 1) (t.withNewPersister (n + 1)) = (none, s2) ∧
      destroyOldest (n + 1) s2 = (none, t1) ∧
      ps0.activePersisters = [w.nextSlot] ∧
      (t.withNewPersister (n + 1)).ps.activePersisters[0]? = some (w.nextSlot + (n + 1)) ∧
      (args.NumOfActivePersisters
          < u32 (t.withNewPersister (n + 1)).ps.activePersisters.length
        ↔ (args.NumOfActivePersisters ≤ n + 1 ∧
            args.NumOfActivePersisters + 1 < 4294967296)) ∧
      (¬ args.NumOfActivePersisters
          < u32 (t.withNewPersister (n + 1)).ps.activePersisters.length →
        s2 = t.withNewPersister (n + 1)) ∧
      (args.NumOfActivePersisters
          < u32 (t.withNewPersister (n + 1)).ps.activePersisters.length →
        ∃ p, (t.withNewPersister (n + 1)).ps.activePersisters[args.NumOfActivePersisters]?
            = some p ∧
          p = w.nextSlot + (n + 1 - args.NumOfActivePersisters) ∧
          s2.ps.activePersisters
            = (t.withNewPersister (n + 1)).ps.activePersisters.take args.NumOfActivePersisters ∧
          (s2.w.slots p).isClosed = true ∧
          subU32 (n + 1) args.NumOfActivePersisters = n + 1 - args.NumOfActivePersisters ∧
          (s2.w.slots p).path
            = epochPath (args.filePath shard) (n + 1 - args.NumOfActivePersisters) ∧
          assocGet (n + 1 - args.NumOfActivePersisters) s2.ps.persistersMapByEpoch = some p ∧
          (∀ e, e ≠ n + 1 - args.NumOfActivePersisters →
            assocGet e s2.ps.persistersMapByEpoch
              = assocGet e (t.withNewPersister (n + 1)).ps.persistersMapByEpoch) ∧
          (∀ e, assocGet e s2.ps.persistersMapByEpoch = some p →
            e = n + 1 - args.NumOfActivePersisters) ∧
          (∀ e, assocGet e t1.ps.persistersMapByEpoch = some p →
            e = n + 1 - args.NumOfActivePersisters) ∧
          (args.NumOfActivePersisters ≤ args.NumOfEpochsToKeep →
            args.NumOfEpochsToKeep + 1 < 4294967296 →
            assocGet (n + 1 - args.NumOfActivePersisters)
              (t.withNewPersister (n + 1)).ps.persistersMapByEpoch = some p ∧
            s2.ps.persistersMapByEpoch
              = (t.withNewPersister (n + 1)).ps.persistersMapByEpoch)) := by
  obtain ⟨hl, hA1, hfa, hpath, hk, ha, -⟩ :=
    built_aligned hA (Nat.lt_of_succ_lt hn) (Or.inr hn) hnew hrun (le_refl n)
  obtain ⟨-, hact0⟩ := aligned_init hnew
  obtain ⟨s2, hclose, hdestroy, hc2, -, -, hm, hcl, hal⟩ :=
    aligned_rotation hl (by rw [ha]; exact hA1) (by rw [ha]; exact hA) hn hrot
  have hA0 : (t.withNewPersister (n + 1)).ps.numOfActivePersisters
      = args.NumOfActivePersisters := ha
  have hhead : (t.withNewPersister (n + 1)).ps.activePersisters[0]?
      = some (w.nextSlot + (n + 1)) := by
    simp only [Sys.withNewPersister, hl.nextSlot, List.getElem?_cons_zero, Option.some.injEq]
    omega
  have hla : lowestActive t.ps n = n + 1 - args.NumOfActivePersisters := by
    simp only [lowestActive, ha]
  rw [ha, hla] at hcl
  rw [hla] at hm
  refine ⟨s2, hclose, hdestroy, hact0, hhead, ?_, ?_, ?_⟩
  · constructor
    · intro hlt
      rcases hcl with ⟨hno, -⟩ | ⟨-, h1, h2, -⟩
      · exact absurd hlt hno
      · exact ⟨h1, h2⟩
    · intro hge
      rcases hcl with ⟨-, -, hsmall⟩ | ⟨hlt, -⟩
      · have := hsmall (Or.inl hge.2)
        omega
      · exact hlt
  · intro hno
    rcases hcl with ⟨-, h2, -⟩ | ⟨hlt, -⟩
    · exact h2
    · exact absurd hlt hno
  · intro hlt
    rcases hcl with ⟨hno, -⟩ | ⟨-, hge, hfit, rfl⟩
    · exact absurd hlt hno
    obtain ⟨hl2, hl1⟩ := hal (Or.inl (by rw [ha]; exact hfit))
    have hla1 : lowestActive t.ps (n + 1) = n + 1 - args.NumOfActivePersisters + 1 := by
      simp only [lowestActive, ha]
      omega
    have hkey : subU32 (n + 1) args.NumOfActivePersisters
        = n + 1 - args.NumOfActivePersisters := subU32_of_le hn hge
    rw [hla1] at hl2 hl1
    have hput : (Sys.withOldestClosed (t.withNewPersister (n + 1)) (n + 1)
          (n + 1 - args.NumOfActivePersisters + w.nextSlot)).ps.persistersMapByEpoch
        = assocPut (n + 1 - args.NumOfActivePersisters)
            (n + 1 - args.NumOfActivePersisters + w.nextSlot)
            (t.withNewPersister (n + 1)).ps.persistersMapByEpoch := by
      show assocPut (subU32 (n + 1) (t.withNewPersister (n + 1)).ps.numOfActivePersisters) _ _ = _
      rw [hA0, hkey]
    refine ⟨n + 1 - args.NumOfActivePersisters + w.nextSlot, ?_, by omega, ?_, ?_, hkey, ?_, ?_,
      ?_, ?_, ?_, ?_⟩
    · rw [hm.active, descFrom_getElem?]
      rw [if_pos (by omega)]
      congr 1
      omega
    · show List.take (t.withNewPersister (n + 1)).ps.numOfActivePersisters _ = _
      rw [hA0]
    · simp [Sys.withOldestClosed]
    · have hp1 := hl2.paths (n + 1 - args.NumOfActivePersisters) (by omega)
      rw [hp1]
      congr 1
    · rw [hput, assocGet_assocPut_self]
    · intro e he
      rw [hput, assocGet_assocPut_ne he]
    · intro e he
      have := (hl2.byEpoch e _ he).2
      omega
    · intro e he
      have := (hl1.byEpoch e _ he).2
      omega
    · intro hAK hK
      have hmap := built_kept hAK hK (Nat.lt_of_succ_lt hn) hnew hrun (le_refl n)
      have hlkla : lowestKept t.ps n ≤ lowestActive t.ps n := by
        simp only [lowestKept, lowestActive, hk, ha]; split <;> omega
      have hlk0 : lowestKept t.ps n ≤ n + 1 := by
        simp only [lowestKept]; split <;> omega
      obtain ⟨hnew0, -⟩ := @kept_rotation w.nextSlot n t t1 _
        hl hmap (by rw [ha, hk]; exact hAK)
        (by rw [hk]; exact hK) hn hclose hdestroy hc2 (Or.inr ⟨by rw [ha]; exact hge, by rw [hla]⟩)
      rw [hla] at hlkla
      constructor
      · rw [hnew0, assocGet_idMapAt, if_pos (by omega)]
      · rw [hput, hnew0]
        exact assocPut_idMapAt_old _ _ _ _ hlkla (by omega)

/-- Witness of C21: a storer with three active persisters and one epoch to
keep, rotated through the epochs 1, 2 and 3; the rotation to epoch 3 retires
the slot created for epoch 0 under the key 0. -/
theorem C21_retired_slot_key_witness :
    ∃ s2, closeOldest (2 + 1) (narrowEpoch2.withNewPersister (2 + 1)) = (none, s2) ∧
      destroyOldest (2 + 1) s2 = (none, narrowEpoch3) ∧
      narrowStart.ps.activePersisters = [(World.fresh (fun _ => none)).nextSlot] ∧
      (narrowEpoch2.withNewPersister (2 + 1)).ps.activePersisters[0]?
        = some ((World.fresh (fun _ => none)).nextSlot + (2 + 1)) ∧
      (unboundArgs.NumOfActivePersisters
          < u32 (narrowEpoch2.withNewPersister (2 + 1)).ps.activePersisters.length
        ↔ (unboundArgs.NumOfActivePersisters ≤ 2 + 1 ∧
            unboundArgs.NumOfActivePersisters + 1 < 4294967296)) ∧
      (¬ unboundArgs.NumOfActivePersisters
          < u32 (narrowEpoch2.withNewPersister (2 + 1)).ps.activePersisters.length →
        s2 = narrowEpoch2.withNewPersister (2 + 1)) ∧
      (unboundArgs.NumOfActivePersisters
          < u32 (narrowEpoch2.withNewPersister (2 + 1)).ps.activePersisters.length →
        ∃ p, (narrowEpoch2.withNewPersister (2 + 1)).ps.activePersisters[
              unboundArgs.NumOfActivePersisters]? = some p ∧
          p = (World.fresh (fun _ => none)).nextSlot + (2 + 1 - unboundArgs.NumOfActivePersisters) ∧
          s2.ps.activePersisters
            = (narrowEpoch2.withNewPersister (2 + 1)).ps.activePersisters.take
                unboundArgs.NumOfActivePersisters ∧
          (s2.w.slots p).isClosed = true ∧
          subU32 (2 + 1) unboundArgs.NumOfActivePersisters
            = 2 + 1 - unboundArgs.NumOfActivePersisters ∧
          (s2.w.slots p).path
            = epochPath (unboundArgs.filePath "") (2 + 1 - unboundArgs.NumOfActivePersisters) ∧
          assocGet (2 + 1 - unboundArgs.NumOfActivePersisters) s2.ps.persistersMapByEpoch
            = some p ∧
          (∀ e, e ≠ 2 + 1 - unboundArgs.NumOfActivePersisters →
            assocGet e s2.ps.persistersMapByEpoch
              = assocGet e (narrowEpoch2.withNewPersister (2 + 1)).ps.persistersMapByEpoch) ∧
          (∀ e, assocGet e s2.ps.persistersMapByEpoch = some p →
            e = 2 + 1 - unboundArgs.NumOfActivePersisters) ∧
          (∀ e, assocGet e narrowEpoch3.ps.persistersMapByEpoch = some p →
            e = 2 + 1 - unboundArgs.NumOfActivePersisters) ∧
          (unboundArgs.NumOfActivePersisters ≤ unboundArgs.NumOfEpochsToKeep →
            unboundArgs.NumOfEpochsToKeep + 1 < 4294967296 →
            assocGet (2 + 1 - unboundArgs.NumOfActivePersisters)
              (narrowEpoch2.withNewPersister (2 + 1)).ps.persistersMapByEpoch = some p ∧
            s2.ps.persistersMapByEpoch
              = (narrowEpoch2.withNewPersister (2 + 1)).ps.persistersMapByEpoch)) :=
  C21_retired_slot_key unboundArgs "" (World.fresh (fun _ => none)) 2
    narrowStart.ps narrowStart.w narrowEpoch2 narrowEpoch3 (by decide) (by decide) rfl
    (Run.rotate (Run.rotate (Run.start 0 narrowStart) (changeEpoch_eq (by decide)))
      (changeEpoch_eq (by decide)))
    (changeEpoch_eq (by decide))

/-! ## The transient reopening and the failed creation -/

theorem get_calls (w : World) (h : Nat) (k : Bytes) :
    (w.get h k).2.calls = .get h k :: w.calls := by
  simp only [World.get, World.record]
  repeat' split
  all_goals rfl

/-- C22: the transient reopen always closes.  In every state, for a key `k`
the cache does not hold and an epoch `e` whose slot `p` in the map by epoch has
`closed_flag` true, `GetFromEpoch(k, e)` asks the factory once for a persister
at the slot's path.  When the creation fails the error is returned and nothing
else is called.  When it succeeds with the fresh persister `h`, the calls that
follow are `init` and `close` on `h` when `init` fails (its error is
returned), and `init`, `get` and `close` on `h` otherwise (the value is
returned when `get` succeeds, the not-found error when it fails): `close` is
called on `h` exactly once, as the last call.  The storer (active slice, map by
epoch, cache, filter) and the `persisterData` objects are unchanged, so the
slot keeps `closed_flag` true. -/
theorem C22_transient_reopen_closes (s : Sys) (k : Bytes) (e p : Nat)
    (hmiss : s.ps.cacher.Get k = none)
    (hmap : assocGet e s.ps.persistersMapByEpoch = some p)
    (hclosed : (s.w.slots p).isClosed = true) :
    (GetFromEpoch k e s).2.ps = s.ps ∧ (GetFromEpoch k e s).2.w.slots = s.w.slots ∧
    ((GetFromEpoch k e s).2.w.slots p).isClosed = true ∧
    ∃ added, (GetFromEpoch k e s).2.w.calls
        = added ++ .create (s.w.slots p).path :: s.w.calls ∧
      (∀ c ∈ added, ∀ path, c ≠ .create path) ∧
      (∀ err, (s.w.create (s.w.slots p).path).1 = .error err →
        added = [] ∧ (GetFromEpoch k e s).1 = .error err) ∧
      (∀ h, (s.w.create (s.w.slots p).path).1 = .ok h →
        h = s.w.dbs.length ∧ added.count (.close h) = 1 ∧ added.head? = some (.close h) ∧
        (∀ err, (((s.w.create (s.w.slots p).path).2).init h).1 = some err →
          added = [.close h, .init h] ∧ (GetFromEpoch k e s).1 = .error err) ∧
        ((((s.w.create (s.w.slots p).path).2).init h).1 = none →
          added = [.close h, .get h k, .init h] ∧
          (∀ v, (((((s.w.create (s.w.slots p).path).2).init h).2).get h k).1 = .ok v →
            (GetFromEpoch k e s).1 = .ok v) ∧
          (∀ err, (((((s.w.create (s.w.slots p).path).2).init h).2).get h k).1 = .error err →
            (GetFromEpoch k e s).1 = .error (.keyNotFoundIn k s.ps.identifier)))) := by
  have hshape := GetFromEpoch_shape k e s
  simp only [Sys.shape, Prod.mk.injEq] at hshape
  refine ⟨GetFromEpoch_ps k e s, hshape.2.2.1, by rw [hshape.2.2.1]; exact hclosed, ?_⟩
  cases hc : s.w.create (s.w.slots p).path with
  | mk r w1 =>
    have hcc := create_calls s.w (s.w.slots p).path
    rw [hc] at hcc
    simp only at hcc
    cases r with
    | error err =>
      have hP : GetFromEpoch k e s = (.error err, { s with w := w1 }) := by
        simp only [GetFromEpoch, hmiss, hmap, hclosed, hc]
        rfl
      rw [hP]
      refine ⟨[], by simpa using hcc, by simp, ?_, ?_⟩
      · intro err1 h1
        simp only [Except.error.injEq] at h1
        subst h1
        exact ⟨rfl, rfl⟩
      · intro h h1
        simp at h1
    | ok h =>
      obtain ⟨-, hh, -⟩ := create_ok hc
      cases hi : w1.init h with
      | mk ri w2 =>
        have hic := init_calls w1 h
        rw [hi] at hic
        simp only at hic
        cases ri with
        | some err =>
          have hP : GetFromEpoch k e s = (.error err, { s with w := (w2.close h).2 }) := by
            simp only [GetFromEpoch, hmiss, hmap, hclosed, hc, hi]
            rfl
          rw [hP]
          refine ⟨[.close h, .init h], ?_, ?_, ?_, ?_⟩
          · simp only [close_calls, hic, hcc, List.cons_append, List.nil_append]
          · intro c hcm path
            simp only [List.mem_cons, List.mem_singleton, List.not_mem_nil, or_false] at hcm
            rcases hcm with rfl | rfl <;> simp
          · intro err1 h1
            simp at h1
          · intro h1 hh1
            simp only [Except.ok.injEq] at hh1
            subst hh1
            refine ⟨hh, by simp, rfl, ?_, ?_⟩
            · intro err1 h2
              rw [hi] at h2
              simp only [Option.some.injEq] at h2
              subst h2
              exact ⟨rfl, rfl⟩
            · intro h2
              rw [hi] at h2
              simp at h2
        | none =>
          cases hg : w2.get h k with
          | mk rg w3 =>
            have hgc := get_calls w2 h k
            rw [hg] at hgc
            simp only at hgc
            have hP : GetFromEpoch k e s
                = ((match rg with
                    | .ok v => .ok v
                    | .error _ => .error (.keyNotFoundIn k s.ps.identifier)),
                  { s with w := (w3.close h).2 }) := by
              simp only [GetFromEpoch, hmiss, hmap, hclosed, hc, hi, hg]
              cases rg <;> rfl
            rw [hP]
            refine ⟨[.close h, .get h k, .init h], ?_, ?_, ?_, ?_⟩
            · simp only [close_calls, hgc, hic, hcc, List.cons_append, List.nil_append]
            · intro c hcm path
              simp only [List.mem_cons, List.mem_singleton, List.not_mem_nil, or_false] at hcm
              rcases hcm with rfl | rfl | rfl <;> simp
            · intro err1 h1
              simp at h1
            · intro h1 hh1
              simp only [Except.ok.injEq] at hh1
              subst hh1
              refine ⟨hh, by simp, rfl, ?_, ?_⟩
              · intro err1 h2
                rw [hi] at h2
                simp at h2
              · intro _
                refine ⟨rfl, ?_, ?_⟩
                · intro v hv
                  rw [hi] at hv
                  simp only [hg] at hv
                  subst hv
                  rfl
                · intro err1 hv
                  rw [hi] at hv
                  simp only [hg] at hv
                  subst hv
                  rfl

/-- Witness of C22: the scenario in epoch 2 with the cache cleared; the slot of
epoch 0 is closed and `GetFromEpoch("alpha", 0)` reopens it for the time of the
call. -/
theorem C22_transient_reopen_closes_witness :
    (ClearCache (scenarioEpoch 2)).ps.cacher.Get "alpha" = none ∧
    assocGet 0 (ClearCache (scenarioEpoch 2)).ps.persistersMapByEpoch = some 0 ∧
    ((ClearCache (scenarioEpoch 2)).w.slots 0).isClosed = true ∧
    (GetFromEpoch "alpha" 0 (ClearCache (scenarioEpoch 2))).1 = .ok "1" ∧
    (GetFromEpoch "alpha" 0 (ClearCache (scenarioEpoch 2))).2.w.calls
      = [.close 3, .get 3 "alpha", .init 3, .create "db/Epoch_0/Shard_0"]
        ++ (ClearCache (scenarioEpoch 2)).w.calls ∧
    (GetFromEpoch "alpha" 0 (ClearCache (scenarioEpoch 2))).2.ps
      = (ClearCache (scenarioEpoch 2)).ps ∧
    ((GetFromEpoch "alpha" 0 (ClearCache (scenarioEpoch 2))).2.w.slots 0).isClosed = true :=
  ⟨by decide, by decide, by decide, by decide, by decide,
    (C22_transient_reopen_closes (ClearCache (scenarioEpoch 2)) "alpha" 0 0
      (by decide) (by decide) (by decide)).1,
    (C22_transient_reopen_closes (ClearCache (scenarioEpoch 2)) "alpha" 0 0
      (by decide) (by decide) (by decide)).2.2.1⟩

/-- C23: rotation is atomic on creation failure.  In every state and for every
epoch `E`, when the factory fails with `e` to create the persister of the new
epoch, `changeEpoch(E)` returns `e`; the storer (active slice, map by epoch,
cache, filter, configuration) is exactly as before the call; the call log has
gained the factory's `create` and nothing else, so no persister is closed or
destroyed; the persister objects, the directories and the `persisterData`
objects are as before. -/
theorem C23_rotation_atomic_on_creation_failure (s : Sys) (E : Nat) (e : Error)
    (hfail : (s.w.create (getNewFilePath s.ps.dbPath E)).1 = .error e) :
    (changeEpoch E s).1 = some e ∧ (changeEpoch E s).2.ps = s.ps ∧
    (changeEpoch E s).2.w.calls = .create (getNewFilePath s.ps.dbPath E) :: s.w.calls ∧
    (changeEpoch E s).2.w.dbs = s.w.dbs ∧ (changeEpoch E s).2.w.disk = s.w.disk ∧
    (changeEpoch E s).2.w.slots = s.w.slots ∧ (changeEpoch E s).2.w.nextSlot = s.w.nextSlot := by
  cases hc : s.w.create (getNewFilePath s.ps.dbPath E) with
  | mk r w1 =>
    rw [hc] at hfail
    simp only at hfail
    subst hfail
    have hw := create_error hc
    subst hw
    have hP : changeEpoch E s
        = (some e, { s with w := s.w.record (.create (getNewFilePath s.ps.dbPath E)) }) := by
      simp only [changeEpoch, hc]
    rw [hP]
    exact ⟨rfl, rfl, rfl, rfl, rfl, rfl, rfl⟩

/-- Witness of C23: the scenario in a system whose sixth collaborator call, the
`Create` of the rotation to epoch 1, fails. -/
theorem C23_rotation_atomic_on_creation_failure_witness :
    (changeEpoch 1 (scenarioWith (failAt 5))).1 = some (.injected 1) ∧
    (changeEpoch 1 (scenarioWith (failAt 5))).2.ps = (scenarioWith (failAt 5)).ps ∧
    (changeEpoch 1 (scenarioWith (failAt 5))).2.w.calls
      = .create (getNewFilePath (scenarioWith (failAt 5)).ps.dbPath 1)
        :: (scenarioWith (failAt 5)).w.calls ∧
    (changeEpoch 1 (scenarioWith (failAt 5))).2.w.dbs = (scenarioWith (failAt 5)).w.dbs ∧
    (changeEpoch 1 (scenarioWith (failAt 5))).2.w.disk = (scenarioWith (failAt 5)).w.disk ∧
    (changeEpoch 1 (scenarioWith (failAt 5))).2.w.slots = (scenarioWith (failAt 5)).w.slots ∧
    (changeEpoch 1 (scenarioWith (failAt 5))).2.w.nextSlot
      = (scenarioWith (failAt 5)).w.nextSlot :=
  C23_rotation_atomic_on_creation_failure (scenarioWith (failAt 5)) 1 (.injected 1) (by decide)

/-! ## Path naming -/

theorem matchEpoch_tag (rest : List Char) :
    matchEpoch (epochTag ++ rest) = if (rest.takeWhile Char.isDigit).length = 0 then 0
      else 6 + (rest.takeWhile Char.isDigit).length := by
  have h : matchEpoch (epochTag ++ rest) = match (rest.takeWhile Char.isDigit).length with
      | 0 => 0
      | n + 1 => 6 + (n + 1) := rfl
  rw [h]
  cases (rest.takeWhile Char.isDigit).length with
  | zero => rfl
  | succ n => rfl

theorem matchEpoch_pos {t : List Char} (h : matchEpoch t ≠ 0) : ∃ rest, t = epochTag ++ rest := by
  unfold matchEpoch at h
  split at h
  · next rest => exact ⟨rest, rfl⟩
  · exact absurd rfl h

theorem takeWhile_digits_append {ds rest : List Char} (hds : ∀ c ∈ ds, c.isDigit = true)
    (hrest : ∀ c r, rest = c :: r → c.isDigit = false) :
    (ds ++ rest).takeWhile Char.isDigit = ds := by
  induction ds with
  | nil =>
    cases rest with
    | nil => rfl
    | cons c r => simp [List.takeWhile, hrest c r rfl]
  | cons d ds ih =>
    have hd := hds d (List.mem_cons_self _ _)
    simp only [List.cons_append, List.takeWhile_cons, hd, if_true]
    rw [ih (fun c hc => hds c (List.mem_cons_of_mem _ hc))]

theorem takeWhile_digits_le {ds rest : List Char} (hds : ∀ c ∈ ds, c.isDigit = true) :
    ds.length ≤ ((ds ++ rest).takeWhile Char.isDigit).length := by
  induction ds with
  | nil => simp
  | cons d ds ih =>
    have hd := hds d (List.mem_cons_self _ _)
    simp only [List.cons_append, List.takeWhile_cons, hd, if_true, List.length_cons]
    have := ih (fun c hc => hds c (List.mem_cons_of_mem _ hc))
    omega

theorem dropWhile_head {rest : List Char} :
    ∀ c r, rest.dropWhile Char.isDigit = c :: r → c.isDigit = false := by
  intro c r h
  have := List.head?_dropWhile_not Char.isDigit rest
  rw [h] at this
  simpa using this

/-- A token at the head of the text is matched, and by at least its length. -/
theorem matchEpoch_of_token {tok rest : List Char} (h : IsEpochToken tok) :
    tok.length ≤ matchEpoch (tok ++ rest) ∧ 0 < tok.length := by
  obtain ⟨ds, hne, hds, rfl⟩ := h
  have hle := @takeWhile_digits_le ds rest hds
  have hpos : 0 < ds.length := List.length_pos.mpr hne
  rw [List.append_assoc, matchEpoch_tag]
  have htag : epochTag.length = 6 := rfl
  rw [List.length_append, htag]
  split
  · next h0 => omega
  · omega

/-- What is matched at the head of the text is the longest token there. -/
theorem matchEpoch_succ {t : List Char} {m : Nat} (h : matchEpoch t = m + 1) :
    ∃ ds rest, t = epochTag ++ ds ++ rest ∧ ds ≠ [] ∧ (∀ c ∈ ds, c.isDigit = true) ∧
      (∀ c r, rest = c :: r → c.isDigit = false) ∧ m + 1 = 6 + ds.length := by
  obtain ⟨rest, rfl⟩ := matchEpoch_pos (by rw [h]; omega)
  rw [matchEpoch_tag] at h
  refine ⟨rest.takeWhile Char.isDigit, rest.dropWhile Char.isDigit, ?_, ?_, ?_, dropWhile_head, ?_⟩
  · rw [List.append_assoc, List.takeWhile_append_dropWhile]
  · intro h0
    rw [h0] at h
    simp at h
  · intro c hc
    exact (List.mem_takeWhile_imp hc)
  · split at h
    · omega
    · omega

theorem replaceAllEpoch_skip (repl x y : List Char) :
    replaceAllEpoch repl x.length (x ++ y) = replaceAllEpoch repl 0 y := by
  induction x with
  | nil => rfl
  | cons c x ih => simpa [replaceAllEpoch] using ih

theorem replaceAllEpoch_keep {repl : List Char} {c : Char} {t : List Char}
    (h : matchEpoch (c :: t) = 0) :
    replaceAllEpoch repl 0 (c :: t) = c :: replaceAllEpoch repl 0 t := by
  rw [replaceAllEpoch]
  split
  · rfl
  · next m hm => rw [h] at hm; omega

theorem replaceAllEpoch_token {repl ds rest : List Char} (hne : ds ≠ [])
    (hds : ∀ c ∈ ds, c.isDigit = true) (hrest : ∀ c r, rest = c :: r → c.isDigit = false) :
    replaceAllEpoch repl 0 (epochTag ++ ds ++ rest) = repl ++ replaceAllEpoch repl 0 rest := by
  have hm : matchEpoch (epochTag ++ ds ++ rest) = (5 + ds.length) + 1 := by
    have hpos : 0 < ds.length := List.length_pos.mpr hne
    rw [List.append_assoc, matchEpoch_tag, takeWhile_digits_append hds hrest]
    split
    · omega
    · omega
  have hshape : epochTag ++ ds ++ rest = 'E' :: ((['p', 'o', 'c', 'h', '_'] ++ ds) ++ rest) := rfl
  rw [hshape] at hm ⊢
  rw [replaceAllEpoch]
  split
  · next h0 => rw [hm] at h0; omega
  · next m hm1 =>
    rw [hm] at hm1
    have : m = (['p', 'o', 'c', 'h', '_'] ++ ds).length := by
      simp only [List.length_append, List.length_cons, List.length_nil]
      omega
    rw [this, replaceAllEpoch_skip]

theorem isEpochToken_ne_nil {tok : List Char} (h : IsEpochToken tok) : tok ≠ [] := by
  obtain ⟨ds, -, -, rfl⟩ := h
  simp [epochTag]

theorem epochOccurs_cons {c : Char} {t : List Char} {i l : Nat} :
    EpochOccurs (c :: t) (i + 1) l ↔ EpochOccurs t i l := by
  constructor
  · rintro ⟨pre, tok, rest, ht, hi, hl, htok⟩
    cases pre with
    | nil => simp at hi
    | cons a pre =>
      simp only [List.cons_append, List.cons.injEq] at ht
      exact ⟨pre, tok, rest, ht.2, by simpa using hi, hl, htok⟩
  · rintro ⟨pre, tok, rest, ht, hi, hl, htok⟩
    exact ⟨c :: pre, tok, rest, by simp [ht], by simp [hi], hl, htok⟩

theorem not_epochOccurs_nil (i l : Nat) : ¬ EpochOccurs [] i l := by
  rintro ⟨pre, tok, rest, ht, -, -, htok⟩
  have := isEpochToken_ne_nil htok
  simp only [List.nil_eq, List.append_eq_nil] at ht
  exact this ht.1.2

/-- Nothing is matched at the head of the text exactly when no occurrence of
the pattern starts there. -/
theorem matchEpoch_eq_zero {t : List Char} : matchEpoch t = 0 ↔ ∀ l, ¬ EpochOccurs t 0 l := by
  constructor
  · rintro h l ⟨pre, tok, rest, ht, hi, -, htok⟩
    have hpre : pre = [] := List.length_eq_zero.mp hi
    subst hpre
    have := @matchEpoch_of_token tok rest htok
    rw [ht, List.nil_append] at h
    omega
  · intro h
    cases hm : matchEpoch t with
    | zero => rfl
    | succ m =>
      obtain ⟨ds, rest, ht, hne, hds, -, -⟩ := matchEpoch_succ hm
      exact absurd ⟨[], epochTag ++ ds, rest, by simp [ht], rfl, rfl, ds, hne, hds, rfl⟩ (h _)

/-- A text in which the pattern does not occur is left as it is. -/
theorem replaceAllEpoch_none (repl : List Char) :
    ∀ t : List Char, (∀ i l, ¬ EpochOccurs t i l) → replaceAllEpoch repl 0 t = t := by
  intro t
  induction t with
  | nil => intro _; rfl
  | cons c t ih =>
    intro h
    rw [replaceAllEpoch_keep (matchEpoch_eq_zero.mpr (h 0)),
      ih (fun i l hil => h (i + 1) l (epochOccurs_cons.mpr hil))]

/-- The scan up to and past the leftmost-longest occurrence. -/
theorem replaceAllEpoch_lead (repl tok rest : List Char) (htok : IsEpochToken tok) :
    ∀ pre : List Char, (∀ i l, EpochOccurs (pre ++ tok ++ rest) i l → pre.length ≤ i) →
      (∀ l, EpochOccurs (pre ++ tok ++ rest) pre.length l → l ≤ tok.length) →
      replaceAllEpoch repl 0 (pre ++ tok ++ rest)
        = pre ++ repl ++ replaceAllEpoch repl 0 rest := by
  intro pre
  induction pre with
  | nil =>
    intro _ hlong
    obtain ⟨ds, hne, hds, rfl⟩ := htok
    have hrest : ∀ c r, rest = c :: r → c.isDigit = false := by
      intro c r hr
      cases hc : c.isDigit with
      | false => rfl
      | true =>
        have := hlong ((epochTag ++ ds).length + 1)
          ⟨[], epochTag ++ (ds ++ [c]), r, by simp [hr], rfl, by simp [Nat.add_assoc],
            ds ++ [c], by simp, by
            intro x hx
            simp only [List.mem_append, List.mem_singleton] at hx
            rcases hx with hx | rfl
            · exact hds x hx
            · exact hc, rfl⟩
        omega
    simp only [List.nil_append]
    exact replaceAllEpoch_token hne hds hrest
  | cons c pre ih =>
    intro hleft hlong
    have h0 : matchEpoch (c :: (pre ++ tok ++ rest)) = 0 := by
      apply matchEpoch_eq_zero.mpr
      intro l hl
      have := hleft 0 l hl
      simp at this
    have hstep : c :: pre ++ tok ++ rest = c :: (pre ++ tok ++ rest) := by simp
    rw [hstep, replaceAllEpoch_keep h0, ih]
    · simp
    · intro i l hil
      have := hleft (i + 1) l (by rw [hstep]; exact epochOccurs_cons.mpr hil)
      simpa using this
    · intro l hl
      exact hlong l (by rw [hstep]; exact epochOccurs_cons.mpr hl)

/-- What the scan returns is described by the specification, and nothing else is. -/
theorem epochReplaced_iff (repl : List Char) (t out : List Char) :
    EpochReplaced repl t out ↔ out = replaceAllEpoch repl 0 t := by
  constructor
  · intro h
    induction h with
    | unchanged t hnone => exact (replaceAllEpoch_none repl t hnone).symm
    | replaced pre tok rest out htok hleft hlong _ ih =>
      rw [replaceAllEpoch_lead repl tok rest htok pre hleft hlong, ih]
  · rintro rfl
    generalize hn : t.length = n
    induction n using Nat.strong_induction_on generalizing t with
    | _ n ih =>
      by_cases hocc : ∀ i l, ¬ EpochOccurs t i l
      · rw [replaceAllEpoch_none repl t hocc]
        exact EpochReplaced.unchanged t hocc
      · -- the leftmost position at which the pattern occurs
        have hex : ∃ i, ∃ l, EpochOccurs t i l := by
          by_contra hno
          exact hocc (fun i l hil => hno ⟨i, l, hil⟩)
        classical
        obtain ⟨l0, pre, tok0, rest0, ht, hi, -, htok0⟩ := Nat.find_spec hex
        have hmin : ∀ i l, EpochOccurs t i l → pre.length ≤ i := by
          intro i l hil
          rw [hi]
          exact Nat.find_min' hex ⟨l, hil⟩
        -- the longest occurrence at that position
        have hm : matchEpoch (tok0 ++ rest0) ≠ 0 := by
          have := @matchEpoch_of_token tok0 rest0 htok0
          omega
        obtain ⟨m, hm⟩ := Nat.exists_eq_succ_of_ne_zero hm
        obtain ⟨ds, rest, hsplit, hne, hds, hrest, -⟩ := matchEpoch_succ hm
        have ht2 : t = pre ++ (epochTag ++ ds) ++ rest := by
          rw [ht, List.append_assoc, hsplit]
          simp only [List.append_assoc]
        have htok : IsEpochToken (epochTag ++ ds) := ⟨ds, hne, hds, rfl⟩
        have hlong : ∀ l, EpochOccurs t pre.length l → l ≤ (epochTag ++ ds).length := by
          rintro l ⟨pre1, tok1, rest1, ht1, hi1, hl1, htok1⟩
          have hsame : pre1 = pre ∧ tok1 ++ rest1 = epochTag ++ ds ++ rest := by
            have h1 : pre1 ++ (tok1 ++ rest1) = pre ++ (epochTag ++ ds ++ rest) := by
              rw [← List.append_assoc, ← ht1, ht2, List.append_assoc]
            exact List.append_inj h1 hi1
          have hle := (@matchEpoch_of_token tok1 rest1 htok1).1
          rw [hsame.2] at hle
          have hmt : matchEpoch (epochTag ++ ds ++ rest) = 6 + ds.length := by
            rw [List.append_assoc, matchEpoch_tag, takeWhile_digits_append hds hrest]
            have hpos : 0 < ds.length := List.length_pos.mpr hne
            rw [if_neg (by omega)]
          rw [hmt] at hle
          have htag : epochTag.length = 6 := rfl
          rw [List.length_append, htag, ← hl1]
          exact hle
        have hlen : rest.length < n := by
          rw [← hn, ht2]
          have htag : epochTag.length = 6 := rfl
          simp only [List.length_append, htag]
          omega
        have hrec := ih rest.length hlen rest rfl
        have hres := @EpochReplaced.replaced repl pre (epochTag ++ ds) rest _ htok
          (by rw [← ht2]; exact hmin) (by rw [← ht2]; exact hlong) hrec
        rw [← ht2, ← replaceAllEpoch_lead repl _ rest htok pre
          (by rw [← ht2]; exact hmin) (by rw [← ht2]; exact hlong), ← ht2] at hres
        exact hres




theorem digitChar_isDigit {d : Nat} (h : d < 10) : (Nat.digitChar d).isDigit = true := by
  interval_cases d <;> rfl

theorem digitChar_value {d : Nat} (h : d < 10) : (Nat.digitChar d).toNat - 48 = d := by
  interval_cases d <;> rfl

theorem digitsValue_append (l : List Char) (c : Char) :
    digitsValue (l ++ [c]) = 10 * digitsValue l + (c.toNat - 48) := by
  simp [digitsValue, List.foldl_append]

theorem toDigitsCore_spec : ∀ (f n : Nat) (ds : List Char), n < f →
    ∃ pre, Nat.toDigitsCore 10 f n ds = pre ++ ds ∧ pre ≠ [] ∧
      (∀ c ∈ pre, c.isDigit = true) ∧ digitsValue pre = n := by
  intro f
  induction f with
  | zero => intro n ds h; omega
  | succ f ih =>
    intro n ds h
    simp only [Nat.toDigitsCore]
    split
    · next h0 =>
      refine ⟨[Nat.digitChar (n % 10)], rfl, by simp, ?_, ?_⟩
      · intro c hc
        simp only [List.mem_singleton] at hc
        subst hc
        exact digitChar_isDigit (Nat.mod_lt _ (by decide))
      · have := digitsValue_append [] (Nat.digitChar (n % 10))
        simp only [List.nil_append] at this
        rw [this, digitChar_value (Nat.mod_lt _ (by decide))]
        simp only [digitsValue, List.foldl_nil]
        omega
    · next h0 =>
      obtain ⟨pre, hpre, -, hdig, hval⟩ := ih (n / 10) (Nat.digitChar (n % 10) :: ds) (by omega)
      refine ⟨pre ++ [Nat.digitChar (n % 10)], by simp [hpre], by simp, ?_, ?_⟩
      · intro c hc
        simp only [List.mem_append, List.mem_singleton] at hc
        rcases hc with hc | rfl
        · exact hdig c hc
        · exact digitChar_isDigit (Nat.mod_lt _ (by decide))
      · rw [digitsValue_append, hval, digitChar_value (Nat.mod_lt _ (by decide))]
        omega

/-- The decimal rendering of a number: a non-empty list of decimal digits whose
value is the number. -/
theorem toString_digits (n : Nat) :
    (toString n).toList ≠ [] ∧ (∀ c ∈ (toString n).toList, c.isDigit = true) ∧
    digitsValue (toString n).toList = n := by
  obtain ⟨pre, hpre, hne, hdig, hval⟩ := toDigitsCore_spec (n + 1) n [] (by omega)
  have : (toString n).toList = pre := by
    show (Nat.repr n).toList = pre
    simp only [Nat.repr, Nat.toDigits, hpre, List.append_nil, List.asString, String.toList]
  rw [this]
  exact ⟨hne, hdig, hval⟩

theorem epochName_toList (E : Nat) :
    (DefaultEpochDirectoryName ++ "_" ++ toString E).toList = epochTag ++ (toString E).toList := by
  simp only [String.toList, String.data_append]
  rfl


/-- The scan does not bring a digit to the head of a text that has none there. -/
theorem replaceAllEpoch_head {d t : List Char} (ht : ∀ c r, t = c :: r → c.isDigit = false) :
    ∀ c r, replaceAllEpoch (epochTag ++ d) 0 t = c :: r → c.isDigit = false := by
  intro c r h
  cases t with
  | nil => simp [replaceAllEpoch] at h
  | cons a t =>
    rw [replaceAllEpoch] at h
    split at h
    · simp only [List.cons.injEq] at h
      rw [← h.1]
      exact ht a t rfl
    · simp only [epochTag, List.cons_append, List.cons.injEq] at h
      rw [← h.1]
      rfl

/-- In a text in which the pattern occurs, the digits of the replacement can be
read back from the result. -/
theorem replaceAllEpoch_inj {d1 d2 : List Char} (h1 : ∀ c ∈ d1, c.isDigit = true)
    (h2 : ∀ c ∈ d2, c.isDigit = true) :
    ∀ t : List Char, (∃ i l, EpochOccurs t i l) →
      replaceAllEpoch (epochTag ++ d1) 0 t = replaceAllEpoch (epochTag ++ d2) 0 t → d1 = d2 := by
  intro t
  induction t with
  | nil =>
    rintro ⟨i, l, h⟩
    exact absurd h (not_epochOccurs_nil i l)
  | cons c t ih =>
    rintro ⟨i, l, hocc⟩ heq
    cases hm : matchEpoch (c :: t) with
    | zero =>
      rw [replaceAllEpoch_keep hm, replaceAllEpoch_keep hm, List.cons.injEq] at heq
      cases i with
      | zero => exact absurd hocc (matchEpoch_eq_zero.mp hm l)
      | succ i => exact ih ⟨i, l, epochOccurs_cons.mp hocc⟩ heq.2
    | succ m =>
      obtain ⟨ds, rest, hsplit, hne, hds, hrest, -⟩ := matchEpoch_succ hm
      rw [hsplit, replaceAllEpoch_token hne hds hrest, replaceAllEpoch_token hne hds hrest,
        List.append_assoc, List.append_assoc] at heq
      have heq2 := List.append_cancel_left heq
      have e1 := takeWhile_digits_append h1 (replaceAllEpoch_head (d := d1) hrest)
      have e2 := takeWhile_digits_append h2 (replaceAllEpoch_head (d := d2) hrest)
      rw [← e1, ← e2, heq2]

/-- C24: path naming.  For every base path `p` and epoch `E`, the characters of
`getNewFilePath(E)` are the characters of `p` with every non-overlapping
leftmost-longest occurrence of `Epoch_` followed by one or more decimal digits
replaced by `Epoch_` followed by the decimal rendering of `E` (a non-empty
list of decimal digits of value `E`), every other character unchanged; no
other text fits that description.  When the pattern does not occur in `p` the
result is `p`; when it occurs, two epochs that give the same path are equal. -/
theorem C24_path_naming (p : String) (E : Nat) :
    EpochReplaced (epochTag ++ (toString E).toList) p.toList (getNewFilePath p E).toList ∧
    (∀ out, EpochReplaced (epochTag ++ (toString E).toList) p.toList out →
      out = (getNewFilePath p E).toList) ∧
    ((toString E).toList ≠ [] ∧ (∀ c ∈ (toString E).toList, c.isDigit = true) ∧
      digitsValue (toString E).toList = E) ∧
    ((∀ i l, ¬ EpochOccurs p.toList i l) → getNewFilePath p E = p) ∧
    ((∃ i l, EpochOccurs p.toList i l) →
      ∀ E1, getNewFilePath p E1 = getNewFilePath p E → E1 = E) := by
  have hpath : ∀ e, (getNewFilePath p e).toList
      = replaceAllEpoch (epochTag ++ (toString e).toList) 0 p.toList := by
    intro e
    show replaceAllEpoch (DefaultEpochDirectoryName ++ "_" ++ toString e).toList 0 p.toList = _
    rw [epochName_toList]
  refine ⟨?_, ?_, toString_digits E, ?_, ?_⟩
  · rw [hpath]
    exact (epochReplaced_iff _ _ _).mpr rfl
  · intro out h
    rw [hpath]
    exact (epochReplaced_iff _ _ _).mp h
  · intro hnone
    have := hpath E
    rw [replaceAllEpoch_none _ _ hnone] at this
    exact String.ext this
  · intro hocc E1 heq
    have hl := congrArg String.toList heq
    rw [hpath, hpath] at hl
    have hd := replaceAllEpoch_inj (toString_digits E1).2.1 (toString_digits E).2.1 _ hocc hl
    rw [← (toString_digits E1).2.2, ← (toString_digits E).2.2, hd]

/-- Witness of C24: the path of the scenario, in which the pattern occurs at
position 3 with length 7, and epoch 7. -/
theorem C24_path_naming_witness :
    getNewFilePath "db/Epoch_0/Shard_0" 7 = "db/Epoch_7/Shard_0" ∧
    EpochOccurs "db/Epoch_0/Shard_0".toList 3 7 ∧
    (∀ E1, getNewFilePath "db/Epoch_0/Shard_0" E1 = getNewFilePath "db/Epoch_0/Shard_0" 7 →
      E1 = 7) :=
  have hocc : EpochOccurs "db/Epoch_0/Shard_0".toList 3 7 :=
    ⟨['d', 'b', '/'], epochTag ++ ['0'], "/Shard_0".toList, rfl, rfl, rfl, ['0'], by simp,
      by simp, rfl⟩
  ⟨by decide, hocc, (C24_path_naming "db/Epoch_0/Shard_0" 7).2.2.2.2 ⟨3, 7, hocc⟩⟩

/-! ## The two window sizes -/

/-- C25: the retention bound between the two window sizes is not enforced.
The argument bundle `unboundArgs` (three active persisters, one epoch to keep,
no full archive) is accepted by the constructor.  After `Put("alpha", "1")`
the first rotation, to epoch 1, returns nil; the calls it makes are `create` and `init` of the new
persister, then `destroy_closed` on the persister of epoch 0 and
`removeDirectoryIfEmpty`: no `close`.  After it the slot of epoch 0 is still
in the active slice with `closed_flag` false and an open persister, and `Get`,
`Has` and `Remove` (here after the newer persister has failed) call that
persister; the value put in epoch 0 is no longer found. -/
theorem C25_retention_bound_not_enforced :
    unboundArgs.NumOfEpochsToKeep < unboundArgs.NumOfActivePersisters ∧
    unboundArgs.FullArchive = false ∧
    initPruningStorer unboundArgs "" (World.fresh (failAt 10))
      = (.ok unboundStart.ps, unboundStart.w) ∧
    unboundStart.ps.persistersMapByEpoch = [(0, 0)] ∧
    (unboundStart.w.slots 0).persister = 0 ∧
    (Put "alpha" "1" unboundStart).1 = none ∧
    (changeEpoch 1 unboundPut).1 = none ∧
    unboundEpoch1.w.calls = [.removeDirectoryIfEmpty "db/Epoch_0/Shard_0", .destroyClosed 0,
      .init 1, .create "db/Epoch_1/Shard_0"] ++ unboundPut.w.calls ∧
    Call.close 0 ∉ unboundEpoch1.w.calls ∧
    unboundEpoch1.ps.activePersisters = [1, 0] ∧
    (unboundEpoch1.w.slots 0).persister = 0 ∧
    (unboundEpoch1.w.slots 0).isClosed = false ∧
    unboundEpoch1.w.dbs[0]? = some { path := "db/Epoch_0/Shard_0", phase := .opened } ∧
    (Get "alpha" unboundEpoch1).2.w.calls
      = [.get 0 "alpha", .get 1 "alpha"] ++ unboundEpoch1.w.calls ∧
    (Has "alpha" unboundEpoch1).2.w.calls
      = [.has 0 "alpha", .has 1 "alpha"] ++ unboundEpoch1.w.calls ∧
    (Remove "alpha" unboundEpoch1).2.w.calls
      = [.remove 0 "alpha", .remove 1 "alpha"] ++ unboundEpoch1.w.calls ∧
    (Get "alpha" unboundEpoch1).1 = .error (.keyNotFoundIn "alpha" "scenario") :=
  ⟨by decide, rfl, rfl, rfl, rfl, by decide, by decide, by decide, by decide, by decide,
    by decide, by decide, by decide, by decide, by decide, by decide, by decide⟩

end Pruning
